import Mathlib

/-! # The FBX importer (`src/asset/fbx.cpp`)

A shallow embedding of the FBX importer: the mesh reader and the helpers it calls, the decoder
of the binary container, the typed reads of a property and the reader of connections.

Conventions of the embedding.

* `std::vector<T>` is `List T`.  A vector read or write outside its bounds is undefined behaviour
  in the source; here it is the error `fbx_error.out_of_range`.
* `int32` values are `Int`, `uint32` values and sizes are `Nat`.  Every vector of the importer is
  filled from a property whose element count is a `uint32`, so the `(uint32)` casts of sizes are
  exact.  The `(int32)` casts of sizes are modelled by `toInt32`, and the `uint32` sum that
  addresses `originalToNewVertex` is reduced modulo `2^32`.
* `float` and `double` are type parameters `F` and `D`; the conversion `(float)` is the parameter
  `toFloat : D → F`.
* `std::unordered_map` is an association list with unique keys, in order of first insertion.  The
  iteration order of the source is unspecified; the properties proved below do not depend on
  the order.
* The file buffer is a list of bytes (natural numbers below 256).  A pointer into the buffer is
  an offset; a read outside the buffer is `fbx_error.out_of_range`.  Unsigned fields are decoded
  little-endian by `leNat`; `uint32` and `uint64` arithmetic is reduced modulo `2^32` and
  `2^64`.
* A pointer to an element of an object array is the position of the element in the array.
-/

namespace fbx

/-! ## Errors and vectors -/

/-- The ways in which the embedded code can stop without a value. -/
inductive fbx_error where
  /-- An `ASSERT` whose condition is false. -/
  | assertion_failed
  /-- A vector element outside the bounds of the vector is read or written. -/
  | out_of_range
  /-- A loop of the embedding used up its fuel (never happens with the fuel the callers pass). -/
  | out_of_fuel
  deriving DecidableEq, Repr

/-- Modelled from the spec: the macro `ASSERT` is defined in `pch.h`, outside the sources at hand.
Following section 7 of the specification, a failed assertion aborts the decode with an error. -/
def ASSERT (cond : Bool) : Except fbx_error Unit :=
  if cond then Except.ok () else Except.error fbx_error.assertion_failed

/-- The read `v[i]` of a vector with an unsigned index. -/
def vecGet {α : Type} (v : List α) (i : Nat) : Except fbx_error α :=
  match v[i]? with
  | some x => Except.ok x
  | none => Except.error fbx_error.out_of_range

/-- The read `v[i]` of a vector with an `int32` index: a negative index converts to a huge
`size_t` and is out of range. -/
def vecGetI {α : Type} (v : List α) (i : Int) : Except fbx_error α :=
  if i < 0 then Except.error fbx_error.out_of_range else vecGet v i.toNat

/-- The write `v[i] = x` of a vector. -/
def vecSet {α : Type} (v : List α) (i : Nat) (x : α) : Except fbx_error (List α) :=
  if i < v.length then Except.ok (v.set i x) else Except.error fbx_error.out_of_range

/-- The cast `(int32)n` of a size. -/
def toInt32 (n : Nat) : Int :=
  if n % 4294967296 < 2147483648 then ((n % 4294967296 : Nat) : Int)
  else ((n % 4294967296 : Nat) : Int) - 4294967296

/-! ## Vectors of the math library -/

/-- Modelled from the spec: `vec2` is declared in `core/math.h`, outside the sources at hand; it
is a pair of floats. -/
structure vec2 (F : Type) where
  x : F
  y : F
  deriving DecidableEq, Repr

/-- Modelled from the spec: `vec3` is declared in `core/math.h`, outside the sources at hand; it
is a triple of floats. -/
structure vec3 (F : Type) where
  x : F
  y : F
  z : F
  deriving DecidableEq, Repr

/-- The value `vec2(0.f)`; a value-initialised vector element is taken to be the same value. -/
instance vec2.instZero {F : Type} [Zero F] : Zero (vec2 F) := ⟨⟨0, 0⟩⟩

/-- The value `vec3(0.f)`; a value-initialised vector element is taken to be the same value. -/
instance vec3.instZero {F : Type} [Zero F] : Zero (vec3 F) := ⟨⟨0, 0, 0⟩⟩

/-! ## Mapping of attribute arrays -/

/-- The enum `mapping_info`. -/
inductive mapping_info where
  | by_polygon_vertex
  | by_polygon
  | by_vertex
  | all_same
  deriving DecidableEq, Repr

/-- The enum `reference_info`. -/
inductive reference_info where
  | index_to_direct
  | direct
  deriving DecidableEq, Repr

/-- The struct `offset_count`. -/
structure offset_count where
  offset : Nat
  count : Nat
  deriving DecidableEq, Repr

/-- The value `(dataIndex == -1) ? data_t(0.f) : data[dataIndex]`. -/
def selectData {data_t : Type} [Zero data_t] (data : List data_t) (dataIndex : Int) :
    Except fbx_error data_t :=
  if dataIndex = -1 then Except.ok 0 else vecGetI data dataIndex

/-- The loop of the by-polygon-vertex, index-to-direct branch of `mapDataToVertices`:
`result[i] = out` for the entries of `dataIndices` from position `i` on. -/
def gatherLoop {data_t : Type} [Zero data_t] (data : List data_t) :
    List Int → Nat → List data_t → Except fbx_error (List data_t)
  | [], _, result => Except.ok result
  | dataIndex :: rest, i, result =>
    match selectData data dataIndex with
    | Except.error e => Except.error e
    | Except.ok out =>
      match vecSet result i out with
      | Except.error e => Except.error e
      | Except.ok result1 => gatherLoop data rest (i + 1) result1

/-- The inner loop of the by-vertex branches of `mapDataToVertices`: for `j` up to `count`,
`result[originalToNewVertex[j + offset]] = out`.  The first argument counts the iterations
left. -/
def scatterLoop {data_t : Type} (out : data_t) (originalToNewVertex : List Nat) (offset : Nat) :
    Nat → Nat → List data_t → Except fbx_error (List data_t)
  | 0, _, result => Except.ok result
  | left + 1, j, result =>
    match vecGet originalToNewVertex ((j + offset) % 4294967296) with
    | Except.error e => Except.error e
    | Except.ok vertexIndex =>
      match vecSet result vertexIndex out with
      | Except.error e => Except.error e
      | Except.ok result1 => scatterLoop out originalToNewVertex offset left (j + 1) result1

/-- The outer loop of the by-vertex, direct branch of `mapDataToVertices`, over the entries of
`data` from position `i` on. -/
def byVertexDirectLoop {data_t : Type} (vertexOffsetCounts : List offset_count)
    (originalToNewVertex : List Nat) :
    List data_t → Nat → List data_t → Except fbx_error (List data_t)
  | [], _, result => Except.ok result
  | out :: rest, i, result =>
    match vecGet vertexOffsetCounts i with
    | Except.error e => Except.error e
    | Except.ok oc =>
      match scatterLoop out originalToNewVertex oc.offset oc.count 0 result with
      | Except.error e => Except.error e
      | Except.ok result1 =>
        byVertexDirectLoop vertexOffsetCounts originalToNewVertex rest (i + 1) result1

/-- The outer loop of the by-vertex, index-to-direct branch of `mapDataToVertices`, over the
entries of `dataIndices` from position `i` on. -/
def byVertexIndexLoop {data_t : Type} [Zero data_t] (data : List data_t)
    (vertexOffsetCounts : List offset_count) (originalToNewVertex : List Nat) :
    List Int → Nat → List data_t → Except fbx_error (List data_t)
  | [], _, result => Except.ok result
  | dataIndex :: rest, i, result =>
    match selectData data dataIndex with
    | Except.error e => Except.error e
    | Except.ok out =>
      match vecGet vertexOffsetCounts i with
      | Except.error e => Except.error e
      | Except.ok oc =>
        match scatterLoop out originalToNewVertex oc.offset oc.count 0 result with
        | Except.error e => Except.error e
        | Except.ok result1 =>
          byVertexIndexLoop data vertexOffsetCounts originalToNewVertex rest (i + 1) result1

/-- The function `mapDataToVertices` (fbx.cpp, lines 623-701). -/
def mapDataToVertices {data_t : Type} [Zero data_t] (data : List data_t) (dataIndices : List Int)
    (mapping : mapping_info) (reference : reference_info)
    (vertexOffsetCounts : List offset_count) (originalToNewVertex : List Nat)
    (numVertices : Nat) : Except fbx_error (List data_t) :=
  match mapping with
  | mapping_info.by_polygon_vertex =>
    match reference with
    | reference_info.direct =>
      match ASSERT (data.length == numVertices) with
      | Except.error e => Except.error e
      | Except.ok _ => Except.ok data
    | reference_info.index_to_direct =>
      match ASSERT (dataIndices.length == numVertices) with
      | Except.error e => Except.error e
      | Except.ok _ => gatherLoop data dataIndices 0 (List.replicate numVertices 0)
  | mapping_info.by_vertex =>
    match reference with
    | reference_info.direct =>
      match ASSERT (data.length == vertexOffsetCounts.length) with
      | Except.error e => Except.error e
      | Except.ok _ =>
        byVertexDirectLoop vertexOffsetCounts originalToNewVertex data 0
          (List.replicate numVertices 0)
    | reference_info.index_to_direct =>
      match ASSERT (dataIndices.length == vertexOffsetCounts.length) with
      | Except.error e => Except.error e
      | Except.ok _ =>
        byVertexIndexLoop data vertexOffsetCounts originalToNewVertex dataIndices 0
          (List.replicate numVertices 0)
  | mapping_info.by_polygon => Except.ok []
  | mapping_info.all_same =>
    match ASSERT (dataIndices.length == 0) with
    | Except.error e => Except.error e
    | Except.ok _ =>
      match ASSERT (data.length == 1) with
      | Except.error e => Except.error e
      | Except.ok _ =>
        match vecGet data 0 with
        | Except.error e => Except.error e
        | Except.ok d => Except.ok (List.replicate numVertices d)

/-! ## Objects -/

/-- The struct `sized_string`, as the `length` bytes found at `str`. -/
structure sized_string where
  str : List Nat
  deriving DecidableEq, Repr

/-- The enum `mesh_flags`: the enumerators carry the values 0, 1 and 2. -/
inductive mesh_flags where
  | mesh_flag_load_uvs
  | mesh_flag_load_normals
  | mesh_flag_load_materials
  deriving DecidableEq, Repr

/-- The integer value of an enumerator of `mesh_flags`. -/
def mesh_flags.val : mesh_flags → Nat
  | mesh_flags.mesh_flag_load_uvs => 0
  | mesh_flags.mesh_flag_load_normals => 1
  | mesh_flags.mesh_flag_load_materials => 2

/-- The flag word that `loadFBX` passes to `readMesh` (fbx.cpp, line 1301):
`mesh_flag_load_uvs | mesh_flag_load_normals | mesh_flag_load_materials`. -/
def loadFBX_flags : Nat :=
  mesh_flags.mesh_flag_load_uvs.val ||| mesh_flags.mesh_flag_load_normals.val |||
    mesh_flags.mesh_flag_load_materials.val

/-- The test `flags & flag` of `readMesh`. -/
def flagSet (flags : Nat) (flag : mesh_flags) : Bool :=
  flags &&& flag.val != 0

/-- Modelled from the spec: `mesh_geometry` is declared in `geometry/mesh.h`, outside the sources
at hand; these are the four buffers that `readMesh` fills. -/
structure mesh_geometry (F : Type) where
  positions : List (vec3 F)
  uvs : List (vec2 F)
  normals : List (vec3 F)
  indices : List Int
  deriving DecidableEq, Repr

/-- Modelled from the spec: `full_vertex` is declared in `mesh_postprocessing.h`, outside the
sources at hand; it is the tuple (position, uv, normal), and its hash-map key equality is the
structural equality of the tuples (specification, section 4.4). -/
structure full_vertex (F : Type) where
  position : vec3 F
  uv : vec2 F
  normal : vec3 F
  deriving DecidableEq, Repr

/-- The struct `fbx_mesh` (with the two fields of its base `fbx_object`). -/
structure fbx_mesh (F : Type) where
  id : Int
  name : sized_string
  geometry : mesh_geometry F
  materialIndex : Int
  deriving DecidableEq, Repr

/-- The tuple that `readGeometryData` returns for one layer element. -/
structure geometry_data (T : Type) where
  data : List T
  indices : List Int
  mapping : mapping_info
  reference : reference_info
  deriving DecidableEq, Repr

/-- The result of `readGeometryData` on a geometry without the layer element (null node): the
loop over the children does not run and the initial values are returned. -/
def geometry_data.absent {T : Type} : geometry_data T :=
  { data := [], indices := [], mapping := mapping_info.by_polygon_vertex,
    reference := reference_info.index_to_direct }

/-! ## Hash maps -/

/-- The lookup `map.find(key)` of a `std::unordered_map`. -/
def mapFind {κ ν : Type} [DecidableEq κ] (key : κ) : List (κ × ν) → Option ν
  | [] => none
  | (k, v) :: rest => if k = key then some v else mapFind key rest

/-- The assignment through the reference `map[key]`: the value of an existing key is replaced
in place, a new key is added. -/
def mapSet {κ ν : Type} [DecidableEq κ] (key : κ) (value : ν) : List (κ × ν) → List (κ × ν)
  | [] => [(key, value)]
  | (k, v) :: rest => if k = key then (k, value) :: rest else (k, v) :: mapSet key value rest

/-! ## The mesh reader -/

/-- The function `decodeIndex`: `(idx < 0) ? ~idx : idx`. -/
def decodeIndex (idx : Int) : Int :=
  if idx < 0 then -idx - 1 else idx

/-- The read `originalPositionsPtr[i]`, where `originalPositionsPtr` views the raw doubles as
`vec3d` triples. -/
def readVec3d {D : Type} (originalPositionsRaw : List D) (i : Int) : Except fbx_error (vec3 D) :=
  match vecGetI originalPositionsRaw (3 * i) with
  | Except.error e => Except.error e
  | Except.ok x =>
    match vecGetI originalPositionsRaw (3 * i + 1) with
    | Except.error e => Except.error e
    | Except.ok y =>
      match vecGetI originalPositionsRaw (3 * i + 2) with
      | Except.error e => Except.error e
      | Except.ok z => Except.ok ⟨x, y, z⟩

/-- The first loop of `readMesh` (lines 846-857): one position per corner, the corner count of
every control point, and the number of faces. -/
def expandLoop {D F : Type} (toFloat : D → F) (originalPositionsRaw : List D) :
    List Int → List (vec3 F) → List offset_count → Nat →
      Except fbx_error (List (vec3 F) × List offset_count × Nat)
  | [], positions, vertexOffsetCounts, numFaces =>
    Except.ok (positions, vertexOffsetCounts, numFaces)
  | index :: rest, positions, vertexOffsetCounts, numFaces =>
    match readVec3d originalPositionsRaw (decodeIndex index) with
    | Except.error e => Except.error e
    | Except.ok position =>
      match vecGetI vertexOffsetCounts (decodeIndex index) with
      | Except.error e => Except.error e
      | Except.ok oc =>
        expandLoop toFloat originalPositionsRaw rest
          (positions ++ [⟨toFloat position.x, toFloat position.y, toFloat position.z⟩])
          (vertexOffsetCounts.set (decodeIndex index).toNat ⟨oc.offset, oc.count + 1⟩)
          (if index < 0 then numFaces + 1 else numFaces)

/-- The second loop of `readMesh` (lines 859-865): running offsets, counts reset to 0. -/
def offsetLoop : List offset_count → Nat → List offset_count
  | [], _ => []
  | oc :: rest, offset => ⟨offset, 0⟩ :: offsetLoop rest (offset + oc.count)

/-- The third loop of `readMesh` (lines 867-874), over the entries of the stream from corner
`i` on: `originalToNewVertex[offset + count++] = i`. -/
def slotLoop : List Int → Nat → List offset_count → List Nat →
    Except fbx_error (List offset_count × List Nat)
  | [], _, vertexOffsetCounts, originalToNewVertex =>
    Except.ok (vertexOffsetCounts, originalToNewVertex)
  | index :: rest, i, vertexOffsetCounts, originalToNewVertex =>
    match vecGetI vertexOffsetCounts (decodeIndex index) with
    | Except.error e => Except.error e
    | Except.ok oc =>
      match vecSet originalToNewVertex ((oc.offset + oc.count) % 4294967296) i with
      | Except.error e => Except.error e
      | Except.ok originalToNewVertex1 =>
        slotLoop rest (i + 1)
          (vertexOffsetCounts.set (decodeIndex index).toNat ⟨oc.offset, oc.count + 1⟩)
          originalToNewVertex1

/-- The conversion loop of the UV block (lines 888-893): the raw doubles, viewed as `vec2d`
pairs, converted to `vec2`. -/
def toVec2 {D F : Type} (toFloat : D → F) : List D → List (vec2 F)
  | x :: y :: rest => ⟨toFloat x, toFloat y⟩ :: toVec2 toFloat rest
  | _ => []

/-- The conversion loop of the normal block (lines 910-915): the raw doubles, viewed as `vec3d`
triples, converted to `vec3`. -/
def toVec3 {D F : Type} (toFloat : D → F) : List D → List (vec3 F)
  | x :: y :: z :: rest => ⟨toFloat x, toFloat y, toFloat z⟩ :: toVec3 toFloat rest
  | _ => []

/-- The UV block of `readMesh` (lines 879-898). -/
def readUVs {D F : Type} [Zero F] (toFloat : D → F) (flags : Nat) (uvLayer : geometry_data D)
    (vertexOffsetCounts : List offset_count) (originalToNewVertex : List Nat)
    (numVertices : Nat) : Except fbx_error (List (vec2 F)) :=
  if flagSet flags mesh_flags.mesh_flag_load_uvs then
    match ASSERT (uvLayer.data.length % 2 == 0) with
    | Except.error e => Except.error e
    | Except.ok _ =>
      if uvLayer.data.length != 0 then
        mapDataToVertices (toVec2 toFloat uvLayer.data) uvLayer.indices uvLayer.mapping
          uvLayer.reference vertexOffsetCounts originalToNewVertex numVertices
      else Except.ok []
  else Except.ok []

/-- The normal block of `readMesh` (lines 901-920). -/
def readNormals {D F : Type} [Zero F] (toFloat : D → F) (flags : Nat)
    (normalLayer : geometry_data D) (vertexOffsetCounts : List offset_count)
    (originalToNewVertex : List Nat) (numVertices : Nat) : Except fbx_error (List (vec3 F)) :=
  if flagSet flags mesh_flags.mesh_flag_load_normals then
    match ASSERT (normalLayer.data.length % 3 == 0) with
    | Except.error e => Except.error e
    | Except.ok _ =>
      if normalLayer.data.length != 0 then
        mapDataToVertices (toVec3 toFloat normalLayer.data) normalLayer.indices
          normalLayer.mapping normalLayer.reference vertexOffsetCounts originalToNewVertex
          numVertices
      else Except.ok []
  else Except.ok []

/-- The material block of `readMesh` (lines 923-954), with the assertion that follows it. -/
def readMaterialIndices (flags : Nat) (materialLayer : geometry_data Int) (numFaces : Nat) :
    Except fbx_error (List Int) :=
  let materialIndices : Except fbx_error (List Int) :=
    if flagSet flags mesh_flags.mesh_flag_load_materials then
      match materialLayer.mapping with
      | mapping_info.all_same =>
        Except.ok (List.replicate numFaces (materialLayer.data.headD 0))
      | mapping_info.by_polygon => Except.ok materialLayer.data
      | _ => Except.error fbx_error.assertion_failed
    else Except.ok (List.replicate numFaces 0)
  match materialIndices with
  | Except.error e => Except.error e
  | Except.ok materialIndices =>
    match ASSERT (materialIndices.length == numFaces) with
    | Except.error e => Except.error e
    | Except.ok _ => Except.ok materialIndices

/-- The local struct `per_material` of `readMesh`. -/
structure per_material (F : Type) where
  vertexToIndex : List (full_vertex F × Int)
  geometry : mesh_geometry F
  deriving DecidableEq, Repr

/-- A default-constructed `per_material`. -/
def per_material.empty {F : Type} : per_material F :=
  { vertexToIndex := [], geometry := { positions := [], uvs := [], normals := [], indices := [] } }

/-- The vertex tuple that `addVertex` builds for corner `index` (lines 964-968). -/
def cornerVertex {F : Type} [Zero F] (positions : List (vec3 F)) (uvs : List (vec2 F))
    (normals : List (vec3 F)) (index : Nat) : Except fbx_error (full_vertex F) :=
  match vecGet positions index with
  | Except.error e => Except.error e
  | Except.ok position =>
    match (if !uvs.isEmpty then vecGet uvs index else Except.ok 0) with
    | Except.error e => Except.error e
    | Except.ok uv =>
      match (if !normals.isEmpty then vecGet normals index else Except.ok 0) with
      | Except.error e => Except.error e
      | Except.ok normal => Except.ok ⟨position, uv, normal⟩

/-- The member function `per_material::addVertex` (lines 961-985): the returned index and the
bucket after the call. -/
def per_material.addVertex {F : Type} [DecidableEq F] [Zero F] (self : per_material F)
    (positions : List (vec3 F)) (uvs : List (vec2 F)) (normals : List (vec3 F)) (index : Nat) :
    Except fbx_error (Int × per_material F) :=
  match cornerVertex positions uvs normals index with
  | Except.error e => Except.error e
  | Except.ok vertex =>
    match mapFind vertex self.vertexToIndex with
    | none =>
      let vertexIndex := toInt32 self.geometry.positions.length
      Except.ok (vertexIndex,
        { vertexToIndex := self.vertexToIndex ++ [(vertex, vertexIndex)],
          geometry :=
            { positions := self.geometry.positions ++ [vertex.position],
              uvs := if !uvs.isEmpty then self.geometry.uvs ++ [vertex.uv]
                else self.geometry.uvs,
              normals := if !normals.isEmpty then self.geometry.normals ++ [vertex.normal]
                else self.geometry.normals,
              indices := self.geometry.indices } })
    | some vertexIndex => Except.ok (vertexIndex, self)

/-- The inner `while` of the polygon walk (lines 994-1002), started with `faceSize = 0`: the
number of corners of the face that starts at `firstIndex`.  The first argument is fuel. -/
def faceSizeLoop (originalIndices : List Int) (firstIndex end_ : Nat) :
    Nat → Nat → Except fbx_error Nat
  | 0, _ => Except.error fbx_error.out_of_fuel
  | fuel + 1, faceSize =>
    if firstIndex + faceSize < end_ then
      match vecGet originalIndices (firstIndex + faceSize) with
      | Except.error e => Except.error e
      | Except.ok x =>
        if x < 0 then Except.ok (faceSize + 1)
        else faceSizeLoop originalIndices firstIndex end_ fuel (faceSize + 1)
    else Except.ok faceSize

/-- The fan loop of the polygon walk (lines 1017-1026): one triangle `(a, b, c)` per further
corner.  The first argument counts the iterations left. -/
def fanLoop {F : Type} [DecidableEq F] [Zero F] (positions : List (vec3 F))
    (uvs : List (vec2 F)) (normals : List (vec3 F)) (a : Int) :
    Nat → Int → Nat → per_material F → Except fbx_error (per_material F)
  | 0, _, _, perMat => Except.ok perMat
  | left + 1, b, firstIndex, perMat =>
    match perMat.addVertex positions uvs normals firstIndex with
    | Except.error e => Except.error e
    | Except.ok (c, perMat1) =>
      fanLoop positions uvs normals a left c (firstIndex + 1)
        { perMat1 with
          geometry := { perMat1.geometry with indices := perMat1.geometry.indices ++ [a, b, c] } }

/-- The body of the polygon walk for a face of at least three corners (lines 1013-1026), on the
bucket `perMat` of the face. -/
def triangulateFace {F : Type} [DecidableEq F] [Zero F] (positions : List (vec3 F))
    (uvs : List (vec2 F)) (normals : List (vec3 F)) (perMat : per_material F)
    (firstIndex faceSize : Nat) : Except fbx_error (per_material F) :=
  match perMat.addVertex positions uvs normals firstIndex with
  | Except.error e => Except.error e
  | Except.ok (a, perMat1) =>
    match perMat1.addVertex positions uvs normals (firstIndex + 1) with
    | Except.error e => Except.error e
    | Except.ok (b, perMat2) =>
      fanLoop positions uvs normals a (faceSize - 2) b (firstIndex + 2) perMat2

/-- The polygon walk of `readMesh` (lines 991-1027) from the state `firstIndex`,
`materialIndex`, `materialToMesh`.  The first argument is fuel: every iteration moves
`firstIndex` forward, so `end_` iterations are never exceeded. -/
def polygonWalk {F : Type} [DecidableEq F] [Zero F] (positions : List (vec3 F))
    (uvs : List (vec2 F)) (normals : List (vec3 F)) (originalIndices : List Int)
    (materialIndices : List Int) (end_ : Nat) :
    Nat → Nat → Nat → List (Int × per_material F) →
      Except fbx_error (List (Int × per_material F))
  | 0, firstIndex, _, materialToMesh =>
    if firstIndex < end_ then Except.error fbx_error.out_of_fuel else Except.ok materialToMesh
  | fuel + 1, firstIndex, materialIndex, materialToMesh =>
    if firstIndex < end_ then
      match faceSizeLoop originalIndices firstIndex end_ (end_ + 1) 0 with
      | Except.error e => Except.error e
      | Except.ok faceSize =>
        match vecGet materialIndices materialIndex with
        | Except.error e => Except.error e
        | Except.ok material =>
          if faceSize < 3 then
            polygonWalk positions uvs normals originalIndices materialIndices end_ fuel
              (firstIndex + faceSize) (materialIndex + 1) materialToMesh
          else
            match triangulateFace positions uvs normals
                ((mapFind material materialToMesh).getD per_material.empty)
                firstIndex faceSize with
            | Except.error e => Except.error e
            | Except.ok perMat =>
              polygonWalk positions uvs normals originalIndices materialIndices end_ fuel
                (firstIndex + faceSize) (materialIndex + 1)
                (mapSet material perMat materialToMesh)
    else Except.ok materialToMesh

/-- The output loop of `readMesh` (lines 1029-1037): one mesh per bucket. -/
def outputMeshes {F : Type} (id : Int) (name : sized_string)
    (materialToMesh : List (Int × per_material F)) : List (fbx_mesh F) :=
  materialToMesh.map fun entry =>
    { id := id, name := name, geometry := entry.2.geometry, materialIndex := entry.1 }

/-- The function `readMesh` (lines 811-1040) on a geometry node whose object id and name are
`id` and `name`, whose `Vertices` and `PolygonVertexIndex` arrays are `originalPositionsRaw` and
`originalIndices`, and for which `readGeometryData` returns `uvLayer`, `normalLayer` and
`materialLayer`.  The value is `outMeshes` after the call (the function itself returns `true`). -/
def readMesh {D F : Type} [DecidableEq F] [Zero F] (toFloat : D → F) (id : Int)
    (name : sized_string) (originalPositionsRaw : List D) (originalIndices : List Int)
    (uvLayer normalLayer : geometry_data D) (materialLayer : geometry_data Int) (flags : Nat)
    (outMeshes : List (fbx_mesh F)) : Except fbx_error (List (fbx_mesh F)) :=
  let numOriginalPositions := originalPositionsRaw.length / 3
  match expandLoop toFloat originalPositionsRaw originalIndices []
      (List.replicate numOriginalPositions ⟨0, 0⟩) 0 with
  | Except.error e => Except.error e
  | Except.ok (positions, counted, numFaces) =>
    match slotLoop originalIndices 0 (offsetLoop counted 0)
        (List.replicate originalIndices.length 0) with
    | Except.error e => Except.error e
    | Except.ok (vertexOffsetCounts, originalToNewVertex) =>
      match readUVs toFloat flags uvLayer vertexOffsetCounts originalToNewVertex
          positions.length with
      | Except.error e => Except.error e
      | Except.ok uvs =>
        match readNormals toFloat flags normalLayer vertexOffsetCounts originalToNewVertex
            positions.length with
        | Except.error e => Except.error e
        | Except.ok normals =>
          match readMaterialIndices flags materialLayer numFaces with
          | Except.error e => Except.error e
          | Except.ok materialIndices =>
            let end_ := (toInt32 originalIndices.length).toNat
            match polygonWalk positions uvs normals originalIndices materialIndices end_
                end_ 0 0 [] with
            | Except.error e => Except.error e
            | Except.ok materialToMesh =>
              Except.ok (outMeshes ++ outputMeshes id name materialToMesh)

/-! ## The byte cursor -/

/-- The struct `entire_file`: the bytes at `content` (natural numbers below 256) and the read
offset.  The member `size` is the number of bytes at `content`. -/
structure entire_file where
  content : List Nat
  readOffset : Nat
  deriving DecidableEq, Repr

/-- The member `size` of `entire_file`. -/
def entire_file.size (file : entire_file) : Nat :=
  file.content.length

/-- The value that `loadFile` returns for a file with the bytes `bytes`; the empty list stands
for a file that is empty or cannot be opened (`return {}`). -/
def entire_file.ofBytes (bytes : List Nat) : entire_file :=
  { content := bytes, readOffset := 0 }

/-- The member `entire_file::consume<T>(count)` for a type `T` of `sizeofT` bytes: the position
of the returned pointer, and the file with the read offset moved on.  Nothing is read.  The
`uint64` sum does not wrap: a read needs the offset inside the buffer, and between two reads
the offset moves by less than `2^33`. -/
def entire_file.consume (file : entire_file) (sizeofT count : Nat) : Nat × entire_file :=
  (file.readOffset, { file with readOffset := file.readOffset + sizeofT * count })

/-- A read of the `n` bytes at position `offset` of the buffer. -/
def readBytes (content : List Nat) (offset n : Nat) : Except fbx_error (List Nat) :=
  if offset + n ≤ content.length then Except.ok ((content.drop offset).take n)
  else Except.error fbx_error.out_of_range

/-- The unsigned little-endian value of a byte sequence. -/
def leNat : List Nat → Nat
  | [] => 0
  | b :: bs => b + 256 * leNat bs

/-- The cast of a 64-bit pattern to `int64`. -/
def toInt64 (n : Nat) : Int :=
  if n % 18446744073709551616 < 9223372036854775808 then ((n % 18446744073709551616 : Nat) : Int)
  else ((n % 18446744073709551616 : Nat) : Int) - 18446744073709551616

/-- The `uint64` difference `a - b`. -/
def sub64 (a b : Nat) : Nat :=
  (a % 18446744073709551616 + 18446744073709551616 - b % 18446744073709551616)
    % 18446744073709551616

/-- The view of `length` bytes at position `str` of the buffer, as a `sized_string`. -/
def viewString (content : List Nat) (str length : Nat) : sized_string :=
  ⟨(content.drop str).take length⟩

/-- The `sized_string` of a string literal. -/
def sized_string.ofLiteral (s : String) : sized_string :=
  ⟨s.toList.map Char.toNat⟩

/-- The library function `strncmp(a, b, n) == 0` on two views of `n` bytes each: the bytes are
compared up to the first difference or the first NUL byte. -/
def strncmpEq : List Nat → List Nat → Bool
  | x :: xs, y :: ys => if x != y then false else if x == 0 then true else strncmpEq xs ys
  | _, _ => true

/-- The `operator==` of `sized_string` (lines 110-113). -/
def sized_string.eq (a b : sized_string) : Bool :=
  a.str.length == b.str.length && strncmpEq a.str b.str

/-- The library function `strcmp(a, b) == 0`, where `b` is NUL-terminated: the bytes are compared
up to the first difference or the first NUL byte. -/
def strcmpEq : List Nat → List Nat → Bool
  | x :: xs, y :: ys => if x != y then false else if x == 0 then true else strcmpEq xs ys
  | _, _ => false

/-! ## Properties of a node -/

/-- The enum `fbx_property_type`. -/
inductive fbx_property_type where
  | bool
  | float
  | double
  | int16
  | int32
  | int64
  | string
  | raw
  deriving DecidableEq, Repr

/-- The struct `fbx_property`; `data` is the position in the file buffer that the pointer
refers to. -/
structure fbx_property where
  type : fbx_property_type
  encoding : Nat
  encodedLength : Nat
  numElements : Nat
  data : Nat
  deriving DecidableEq, Repr

/-- A scalar case of the `switch` of `parseProperties`: `consume<T>()` and one entry of element
count 1 and encoding 0. -/
def parseScalar (file : entire_file) (outProperties : List fbx_property)
    (type : fbx_property_type) (sizeofT : Nat) : entire_file × List fbx_property :=
  ((file.consume sizeofT 1).2,
    outProperties ++ [⟨type, 0, sizeofT, 1, (file.consume sizeofT 1).1⟩])

/-- An array case of the `switch` of `parseProperties`: the header `fbx_data_array_header` of
three `uint32` fields is read, the payload of `compressedLength` bytes is skipped. -/
def parseArray (file : entire_file) (outProperties : List fbx_property)
    (type : fbx_property_type) : Except fbx_error (entire_file × List fbx_property) :=
  match readBytes file.content (file.consume 12 1).1 12 with
  | Except.error e => Except.error e
  | Except.ok header =>
    let arrayLength := leNat (header.take 4)
    let encoding := leNat ((header.drop 4).take 4)
    let compressedLength := leNat ((header.drop 8).take 4)
    Except.ok (((file.consume 12 1).2.consume 1 compressedLength).2,
      outProperties ++ [⟨type, encoding, compressedLength, arrayLength,
        ((file.consume 12 1).2.consume 1 compressedLength).1⟩])

/-- The `String` and `Raw` cases of the `switch` of `parseProperties`: the `uint32` length is
read, the bytes are skipped, and an entry is appended only for a length other than 0. -/
def parseBlob (file : entire_file) (outProperties : List fbx_property)
    (type : fbx_property_type) : Except fbx_error (entire_file × List fbx_property) :=
  match readBytes file.content (file.consume 4 1).1 4 with
  | Except.error e => Except.error e
  | Except.ok bytes =>
    let length := leNat bytes
    Except.ok (((file.consume 4 1).2.consume 1 length).2,
      if length != 0 then
        outProperties ++ [⟨type, 0, length, length, ((file.consume 4 1).2.consume 1 length).1⟩]
      else outProperties)

/-- The body of the loop of `parseProperties` (lines 182-271): one property. -/
def parseProperty (file : entire_file) (outProperties : List fbx_property) :
    Except fbx_error (entire_file × List fbx_property) :=
  match readBytes file.content (file.consume 1 1).1 1 with
  | Except.error e => Except.error e
  | Except.ok tag =>
    let propType := leNat tag
    let file1 := (file.consume 1 1).2
    if propType = 67 then -- C, bool
      Except.ok (parseScalar file1 outProperties fbx_property_type.bool 1)
    else if propType = 70 then -- F, float
      Except.ok (parseScalar file1 outProperties fbx_property_type.float 4)
    else if propType = 68 then -- D, double
      Except.ok (parseScalar file1 outProperties fbx_property_type.double 8)
    else if propType = 89 then -- Y, int16
      Except.ok (parseScalar file1 outProperties fbx_property_type.int16 2)
    else if propType = 73 then -- I, int32
      Except.ok (parseScalar file1 outProperties fbx_property_type.int32 4)
    else if propType = 76 then -- L, int64
      Except.ok (parseScalar file1 outProperties fbx_property_type.int64 8)
    else if propType = 98 then -- b, bool[]
      parseArray file1 outProperties fbx_property_type.bool
    else if propType = 102 then -- f, float[]
      parseArray file1 outProperties fbx_property_type.float
    else if propType = 100 then -- d, double[]
      parseArray file1 outProperties fbx_property_type.double
    else if propType = 105 then -- i, int32[]
      parseArray file1 outProperties fbx_property_type.int32
    else if propType = 108 then -- l, int64[]
      parseArray file1 outProperties fbx_property_type.int64
    else if propType = 83 then -- S, String
      parseBlob file1 outProperties fbx_property_type.string
    else if propType = 82 then -- R, Raw
      parseBlob file1 outProperties fbx_property_type.raw
    else Except.error fbx_error.assertion_failed

/-- The loop of `parseProperties` (lines 180-272), with `numProperties` iterations left. -/
def parsePropertiesLoop : Nat → entire_file → List fbx_property →
    Except fbx_error (entire_file × List fbx_property)
  | 0, file, outProperties => Except.ok (file, outProperties)
  | numProperties + 1, file, outProperties =>
    match parseProperty file outProperties with
    | Except.error e => Except.error e
    | Except.ok (file1, outProperties1) => parsePropertiesLoop numProperties file1 outProperties1

/-- The function `parseProperties` (lines 176-275): the file, the property array, and the
returned `uint32` count `(uint32)outProperties.size() - before`. -/
def parseProperties (file : entire_file) (outProperties : List fbx_property)
    (numProperties : Nat) : Except fbx_error (entire_file × List fbx_property × Nat) :=
  let before := outProperties.length % 4294967296
  match parsePropertiesLoop numProperties file outProperties with
  | Except.error e => Except.error e
  | Except.ok (file1, outProperties1) =>
    Except.ok (file1, outProperties1,
      (outProperties1.length % 4294967296 + 4294967296 - before) % 4294967296)

/-! ## Node records -/

/-- The struct `fbx_node_record_header_64`. -/
structure fbx_node_record_header_64 where
  endOffset : Nat
  numProperties : Nat
  propertyListLength : Nat
  nameLength : Nat
  deriving DecidableEq, Repr

/-- The function `readNodeRecordHeader` (lines 277-293): the packed struct of 25 bytes for a
version from 7500 on, the packed struct of 13 bytes otherwise. -/
def readNodeRecordHeader (version : Nat) (file : entire_file) :
    Except fbx_error (fbx_node_record_header_64 × entire_file) :=
  if version ≥ 7500 then
    match readBytes file.content (file.consume 25 1).1 25 with
    | Except.error e => Except.error e
    | Except.ok node =>
      Except.ok (⟨leNat (node.take 8), leNat ((node.drop 8).take 8),
        leNat ((node.drop 16).take 8), leNat ((node.drop 24).take 1)⟩, (file.consume 25 1).2)
  else
    match readBytes file.content (file.consume 13 1).1 13 with
    | Except.error e => Except.error e
    | Except.ok node32 =>
      Except.ok (⟨leNat (node32.take 4), leNat ((node32.drop 4).take 4),
        leNat ((node32.drop 8).take 4), leNat ((node32.drop 12).take 1)⟩,
        (file.consume 13 1).2)

/-- The `uint32` value `-1` that marks a missing node. -/
def noNode : Nat := 4294967295

/-- The struct `fbx_node`. -/
structure fbx_node where
  name : sized_string
  parent : Nat
  next : Nat
  firstChild : Nat
  lastChild : Nat
  level : Nat
  firstProperty : Nat
  numProperties : Nat
  deriving DecidableEq, Repr

/-- The state that `parseNodes` works on: the file and the two output arrays. -/
structure parse_state where
  file : entire_file
  outNodes : List fbx_node
  outProperties : List fbx_property
  deriving DecidableEq, Repr

/-- The block `if (parent != -1) { ... }` of `parseNodes` (lines 314-325): the new node
`nodeIndex` is linked as the last child of `parent`. -/
def linkChild (outNodes : List fbx_node) (parent nodeIndex : Nat) :
    Except fbx_error (List fbx_node) :=
  if parent != noNode then
    match vecGet outNodes parent with
    | Except.error e => Except.error e
    | Except.ok parentNode =>
      match (if parentNode.firstChild == noNode then
          vecSet outNodes parent { parentNode with firstChild := nodeIndex }
        else
          match vecGet outNodes parentNode.lastChild with
          | Except.error e => Except.error e
          | Except.ok lastNode =>
            vecSet outNodes parentNode.lastChild { lastNode with next := nodeIndex }) with
      | Except.error e => Except.error e
      | Except.ok outNodes1 =>
        match vecGet outNodes1 parent with
        | Except.error e => Except.error e
        | Except.ok parentNode1 =>
          vecSet outNodes1 parent { parentNode1 with lastChild := nodeIndex }
  else Except.ok outNodes

/-- The part of the loop body of `parseNodes` that creates the node of the record `currentNode`
(lines 300-329): the name is skipped, the node is linked to its parent, its properties are
parsed and the node is appended. -/
def parseNodeHead (currentNode : fbx_node_record_header_64) (parent : Nat) (st : parse_state) :
    Except fbx_error parse_state :=
  match vecGet st.outNodes parent with
  | Except.error e => Except.error e
  | Except.ok parentNode =>
    let nodeIndex := st.outNodes.length % 4294967296
    match linkChild st.outNodes parent nodeIndex with
    | Except.error e => Except.error e
    | Except.ok outNodes1 =>
      match parseProperties (st.file.consume 1 currentNode.nameLength).2 st.outProperties
          (currentNode.numProperties % 4294967296) with
      | Except.error e => Except.error e
      | Except.ok (file2, outProperties2, numProperties) =>
        Except.ok
          { file := file2,
            outNodes := outNodes1 ++
              [{ name := viewString st.file.content (st.file.consume 1 currentNode.nameLength).1
                   currentNode.nameLength,
                 parent := parent,
                 level := (parentNode.level + 1) % 4294967296,
                 next := noNode,
                 firstChild := noNode,
                 lastChild := noNode,
                 firstProperty := st.outProperties.length % 4294967296,
                 numProperties := numProperties }],
            outProperties := outProperties2 }

/-- The `while` loop of `parseNodes` (lines 298-341), entered with the record header
`currentNode` read.  The recursive call for the children is the read of a record header followed
by the loop with the new node as parent.  The first argument is fuel: every iteration follows
the read of a record header. -/
def parseLoop (version : Nat) :
    Nat → fbx_node_record_header_64 → Nat → parse_state → Except fbx_error parse_state
  | 0, _, _, _ => Except.error fbx_error.out_of_fuel
  | fuel + 1, currentNode, parent, st =>
    if currentNode.endOffset != 0 then
      match parseNodeHead currentNode parent st with
      | Except.error e => Except.error e
      | Except.ok st1 =>
        match (if sub64 currentNode.endOffset st1.file.readOffset > 0 then
            match readNodeRecordHeader version st1.file with
            | Except.error e => Except.error e
            | Except.ok (child, file2) =>
              parseLoop version fuel child (st.outNodes.length % 4294967296)
                { st1 with file := file2 }
          else Except.ok st1) with
        | Except.error e => Except.error e
        | Except.ok st2 =>
          match ASSERT (sub64 currentNode.endOffset st2.file.readOffset == 0) with
          | Except.error e => Except.error e
          | Except.ok _ =>
            match readNodeRecordHeader version st2.file with
            | Except.error e => Except.error e
            | Except.ok (next, file3) =>
              parseLoop version fuel next parent { st2 with file := file3 }
    else Except.ok st

/-- The function `parseNodes` (lines 295-342).  The parameter `level` is not used by the
source. -/
def parseNodes (fuel : Nat) (version : Nat) (st : parse_state) (_level parent : Nat) :
    Except fbx_error parse_state :=
  match readNodeRecordHeader version st.file with
  | Except.error e => Except.error e
  | Except.ok (currentNode, file1) =>
    parseLoop version fuel currentNode parent { st with file := file1 }

/-! ## The header of the file -/

/-- The bytes of the string literal `"Kaydara FBX Binary  "`, with its terminating NUL. -/
def fbxMagic : List Nat :=
  [75, 97, 121, 100, 97, 114, 97, 32, 70, 66, 88, 32, 66, 105, 110, 97, 114, 121, 32, 32, 0]

/-- The synthetic root node that `loadFBX` puts at index 0 (lines 1326-1332). -/
def rootNode : fbx_node :=
  { name := ⟨[]⟩, parent := noNode, next := noNode, firstChild := noNode, lastChild := noNode,
    level := noNode, firstProperty := 0, numProperties := 0 }

/-- What the first part of `loadFBX` does with a file. -/
inductive load_result where
  /-- The message that the file is smaller than the header was printed; the function
  returned. -/
  | smaller_than_header
  /-- The message that the header does not match was printed; the function returned. -/
  | header_mismatch
  /-- The header was accepted and `parseNodes` ran, with this outcome. -/
  | parsed (version : Nat) (outcome : Except fbx_error parse_state)
  deriving Repr

/-- The part of `loadFBX` from the size test to the call of `parseNodes` (lines 1306-1336), on
the file that `loadFile` returned.  The size test keeps the reads of the header inside the
buffer. -/
def loadFBX_nodes (file : entire_file) : load_result :=
  if file.size < 27 then load_result.smaller_than_header
  else
    let header := (file.content.drop (file.consume 27 1).1).take 27
    if !(strcmpEq (header.take 21) fbxMagic) || leNat ((header.drop 21).take 1) != 26
        || leNat ((header.drop 22).take 1) != 0 then
      load_result.header_mismatch
    else
      load_result.parsed (leNat ((header.drop 23).take 4))
        (parseNodes (file.content.length + 1) (leNat ((header.drop 23).take 4))
          { file := (file.consume 27 1).2, outNodes := [rootNode], outProperties := [] } 0 0)

/-! ## Typed reads of a property -/

/-- The function `readArray` (lines 346-358) into a buffer of `capacity` bytes that holds zeros:
the buffer after the call and the returned byte count.  Writing past the buffer is out of
range.  Modelled from the spec: the function `decompress` is declared outside the sources at
hand; following section 6 of the specification it is consumed as a function from the source
bytes to the bytes written, here the parameter `decompress`. -/
def readArray (decompress : List Nat → List Nat) (content : List Nat) (prop : fbx_property)
    (capacity : Nat) : Except fbx_error (List Nat × Nat) :=
  match readBytes content prop.data prop.encodedLength with
  | Except.error e => Except.error e
  | Except.ok source =>
    let written := if prop.encoding == 0 then source else decompress source
    if written.length ≤ capacity then
      Except.ok (written ++ List.replicate (capacity - written.length) 0, written.length)
    else Except.error fbx_error.out_of_range

/-- The elements of `sizeofT` bytes each that a byte buffer holds. -/
def chunks (sizeofT : Nat) : Nat → List Nat → List (List Nat)
  | 0, _ => []
  | n + 1, bytes => bytes.take sizeofT :: chunks sizeofT n (bytes.drop sizeofT)

/-- The function `readInt32Array` (lines 360-371). -/
def readInt32Array (decompress : List Nat → List Nat) (content : List Nat)
    (prop : fbx_property) : Except fbx_error (List Int) :=
  match ASSERT (prop.type == fbx_property_type.int32) with
  | Except.error e => Except.error e
  | Except.ok _ =>
    match readArray decompress content prop (prop.numElements * 4) with
    | Except.error e => Except.error e
    | Except.ok (result, readBytes) =>
      match ASSERT (readBytes == prop.numElements * 4) with
      | Except.error e => Except.error e
      | Except.ok _ =>
        Except.ok ((chunks 4 prop.numElements result).map fun b => toInt32 (leNat b))

/-- The function `readDoubleArray` (lines 373-384); a double is given by its 64-bit pattern. -/
def readDoubleArray (decompress : List Nat → List Nat) (content : List Nat)
    (prop : fbx_property) : Except fbx_error (List Nat) :=
  match ASSERT (prop.type == fbx_property_type.double) with
  | Except.error e => Except.error e
  | Except.ok _ =>
    match readArray decompress content prop (prop.numElements * 8) with
    | Except.error e => Except.error e
    | Except.ok (result, readBytes) =>
      match ASSERT (readBytes == prop.numElements * 8) with
      | Except.error e => Except.error e
      | Except.ok _ => Except.ok ((chunks 8 prop.numElements result).map leNat)

/-- The function `readString` (lines 386-390): the view of `numElements` bytes at `data`, which
has to lie in the buffer. -/
def readString (content : List Nat) (prop : fbx_property) : Except fbx_error sized_string :=
  match ASSERT (prop.type == fbx_property_type.string) with
  | Except.error e => Except.error e
  | Except.ok _ =>
    match readBytes content prop.data prop.numElements with
    | Except.error e => Except.error e
    | Except.ok bytes => Except.ok ⟨bytes⟩

/-- The function `readInt32` (lines 392-396). -/
def readInt32 (content : List Nat) (prop : fbx_property) : Except fbx_error Int :=
  match ASSERT (prop.type == fbx_property_type.int32) with
  | Except.error e => Except.error e
  | Except.ok _ =>
    match readBytes content prop.data 4 with
    | Except.error e => Except.error e
    | Except.ok bytes => Except.ok (toInt32 (leNat bytes))

/-- The function `readInt64` (lines 398-402). -/
def readInt64 (content : List Nat) (prop : fbx_property) : Except fbx_error Int :=
  match ASSERT (prop.type == fbx_property_type.int64) with
  | Except.error e => Except.error e
  | Except.ok _ =>
    match readBytes content prop.data 8 with
    | Except.error e => Except.error e
    | Except.ok bytes => Except.ok (toInt64 (leNat bytes))

/-! ## Scene objects and connections -/

/-- Modelled from the spec: `quat` is declared in `core/math.h`, outside the sources at hand; it
is a quadruple of floats. -/
structure quat (F : Type) where
  x : F
  y : F
  z : F
  w : F
  deriving DecidableEq, Repr

/-- The struct `fbx_texture` (with the two fields of its base `fbx_object`). -/
structure fbx_texture where
  id : Int
  name : sized_string
  filename : sized_string
  relativeFilename : sized_string
  deriving DecidableEq, Repr

/-- The struct `fbx_material` (with the two fields of its base `fbx_object`).  A pointer to a
texture is the position of the texture in the texture array, a null pointer is `none`. -/
structure fbx_material (F : Type) where
  id : Int
  name : sized_string
  shadingModel : sized_string
  multiLayer : Int
  diffuseColor : vec3 F
  ambientColor : vec3 F
  ambientFactor : F
  specularColor : vec3 F
  specularFactor : F
  shininess : F
  shininessExponent : F
  reflectionColor : vec3 F
  albedoTexture : Option Nat
  normalTexture : Option Nat
  roughnessTexture : Option Nat
  metallicTexture : Option Nat
  deriving DecidableEq, Repr

/-- The struct `fbx_model` (with the two fields of its base `fbx_object`).  A pointer to a mesh
or a material is the position of the object in its array. -/
structure fbx_model (F : Type) where
  id : Int
  name : sized_string
  localRotation : quat F
  localTranslation : vec3 F
  meshes : List Nat
  materials : List Nat
  deriving DecidableEq, Repr

/-- The four object arrays that `readConnection` works on. -/
structure fbx_scene (F : Type) where
  models : List (fbx_model F)
  meshes : List (fbx_mesh F)
  materials : List (fbx_material F)
  textures : List fbx_texture
  deriving DecidableEq, Repr

/-- The local enum `connection_type` of `readConnection`. -/
inductive connection_type where
  | connection_type_unknown
  | connection_type_model
  | connection_type_mesh
  | connection_type_material
  | connection_type_texture
  deriving DecidableEq, Repr

/-- The integer value of an enumerator of `connection_type`. -/
def connection_type.val : connection_type → Nat
  | connection_type.connection_type_unknown => 0
  | connection_type.connection_type_model => 1
  | connection_type.connection_type_mesh => 2
  | connection_type.connection_type_material => 3
  | connection_type.connection_type_texture => 4

/-- The local struct `connection_index` of `readConnection`. -/
structure connection_index where
  type : connection_type
  first : Nat
  count : Nat
  deriving DecidableEq, Repr

/-- The inner loop of the mesh scan (lines 1190-1193 and 1199-1202), which starts at `j = 0`: the
number of leading entries of the id list that are equal to `id`. -/
def countRun (id : Int) : List Int → Nat
  | [] => 0
  | x :: rest => if x = id then 1 + countRun id rest else 0

/-- One of the four scans of `readConnection` (lines 1180-1215) over the ids of an object array,
from position `i` on: the scan stops at the first object whose id is `a` or `b` and sets the
index of that endpoint, with the count that `count` gives for the id of that object. -/
def scanLoop (type : connection_type) (count : Int → Nat) (a b : Int) :
    List Int → Nat → connection_index × connection_index → connection_index × connection_index
  | [], _, types => types
  | id :: rest, i, types =>
    if id = a then (⟨type, i, count id⟩, types.2)
    else if id = b then (types.1, ⟨type, i, count id⟩)
    else scanLoop type count a b rest (i + 1) types

/-- The four scans of `readConnection` (lines 1177-1215), over the models, the meshes, the
materials and the textures, in this order: the indices `aType` and `bType` after the last
scan. -/
def scanEndpoints {F : Type} (scene : fbx_scene F) (a b : Int) :
    connection_index × connection_index :=
  let meshIds := scene.meshes.map fun mesh => mesh.id
  let types0 : connection_index × connection_index :=
    (⟨connection_type.connection_type_unknown, 0, 0⟩,
      ⟨connection_type.connection_type_unknown, 0, 0⟩)
  let types1 := scanLoop connection_type.connection_type_model (fun _ => 1) a b
    (scene.models.map fun model => model.id) 0 types0
  let types2 := scanLoop connection_type.connection_type_mesh
    (fun id => countRun id meshIds) a b meshIds 0 types1
  let types3 := scanLoop connection_type.connection_type_material (fun _ => 1) a b
    (scene.materials.map fun material => material.id) 0 types2
  scanLoop connection_type.connection_type_texture (fun _ => 1) a b
    (scene.textures.map fun texture => texture.id) 0 types3

/-- The resolution of the two endpoints of a connection (lines 1177-1219): the four scans and
the swap that puts the endpoint of the smaller type first. -/
def resolveEndpoints {F : Type} (scene : fbx_scene F) (a b : Int) :
    connection_index × connection_index :=
  let types := scanEndpoints scene a b
  if types.1.type.val > types.2.type.val then (types.2, types.1) else types

/-- The loop of the object-object branch (lines 1229-1232): the pointers to the meshes
`first + i`, for `i` up to `count`, are appended.  The first argument counts the iterations
left. -/
def appendMeshes (numMeshes first : Nat) : Nat → Nat → List Nat → Except fbx_error (List Nat)
  | 0, _, refs => Except.ok refs
  | left + 1, i, refs =>
    if first + i < numMeshes then appendMeshes numMeshes first left (i + 1) (refs ++ [first + i])
    else Except.error fbx_error.out_of_range

/-- The object-object branch of `readConnection` (lines 1221-1239). -/
def connectObjects {F : Type} (scene : fbx_scene F) (aType bType : connection_index) :
    Except fbx_error (fbx_scene F) :=
  if aType.type = connection_type.connection_type_model then
    if bType.type = connection_type.connection_type_mesh then
      match vecGet scene.models aType.first with
      | Except.error e => Except.error e
      | Except.ok model =>
        match appendMeshes scene.meshes.length bType.first bType.count 0 model.meshes with
        | Except.error e => Except.error e
        | Except.ok meshes =>
          match vecSet scene.models aType.first { model with meshes := meshes } with
          | Except.error e => Except.error e
          | Except.ok models => Except.ok { scene with models := models }
    else if bType.type = connection_type.connection_type_material then
      match vecGet scene.models aType.first with
      | Except.error e => Except.error e
      | Except.ok model =>
        if bType.first < scene.materials.length then
          match vecSet scene.models aType.first
              { model with materials := model.materials ++ [bType.first] } with
          | Except.error e => Except.error e
          | Except.ok models => Except.ok { scene with models := models }
        else Except.error fbx_error.out_of_range
    else Except.ok scene
  else Except.ok scene

/-- The assignment of a texture slot in the object-property branch (lines 1246-1267). -/
def connectTexture {F : Type} (scene : fbx_scene F) (aType bType : connection_index)
    (textureSlot : sized_string) : Except fbx_error (fbx_scene F) :=
  match vecGet scene.materials aType.first with
  | Except.error e => Except.error e
  | Except.ok material =>
    if bType.first < scene.textures.length then
      match (if textureSlot.eq (sized_string.ofLiteral "DiffuseColor") then
          Except.ok { material with albedoTexture := some bType.first }
        else if textureSlot.eq (sized_string.ofLiteral "NormalMap") then
          Except.ok { material with normalTexture := some bType.first }
        else if textureSlot.eq (sized_string.ofLiteral "ShininessExponent") then
          Except.ok { material with roughnessTexture := some bType.first }
        else if textureSlot.eq (sized_string.ofLiteral "ReflectionFactor") then
          Except.ok { material with metallicTexture := some bType.first }
        else Except.error fbx_error.assertion_failed) with
      | Except.error e => Except.error e
      | Except.ok material1 =>
        match vecSet scene.materials aType.first material1 with
        | Except.error e => Except.error e
        | Except.ok materials => Except.ok { scene with materials := materials }
    else Except.error fbx_error.out_of_range

/-- The read `*propIterator++` of the property `k` places after the first property of a node;
the iterator is a pointer into the property array and is not held to the properties of the
node. -/
def propertyAt (node : fbx_node) (properties : List fbx_property) (k : Nat) :
    Except fbx_error fbx_property :=
  vecGet properties (node.firstProperty + k)

/-- The function `readConnection` (lines 1151-1270), on the file buffer that the properties
point into.  The parameter `nodes` is not used by the source. -/
def readConnection {F : Type} (content : List Nat) (node : fbx_node)
    (properties : List fbx_property) (scene : fbx_scene F) : Except fbx_error (fbx_scene F) :=
  match ASSERT (node.name.eq (sized_string.ofLiteral "C")) with
  | Except.error e => Except.error e
  | Except.ok _ =>
    match propertyAt node properties 0 with
    | Except.error e => Except.error e
    | Except.ok typeProp =>
      match readString content typeProp with
      | Except.error e => Except.error e
      | Except.ok type =>
        match propertyAt node properties 1 with
        | Except.error e => Except.error e
        | Except.ok aProp =>
          match readInt64 content aProp with
          | Except.error e => Except.error e
          | Except.ok a =>
            match propertyAt node properties 2 with
            | Except.error e => Except.error e
            | Except.ok bProp =>
              match readInt64 content bProp with
              | Except.error e => Except.error e
              | Except.ok b =>
                let types := resolveEndpoints scene a b
                if type.eq (sized_string.ofLiteral "OO") then
                  connectObjects scene types.1 types.2
                else if type.eq (sized_string.ofLiteral "OP") then
                  if types.1.type = connection_type.connection_type_material
                      ∧ types.2.type = connection_type.connection_type_texture then
                    match propertyAt node properties 3 with
                    | Except.error e => Except.error e
                    | Except.ok slotProp =>
                      match readString content slotProp with
                      | Except.error e => Except.error e
                      | Except.ok textureSlot =>
                        connectTexture scene types.1 types.2 textureSlot
                  else Except.ok scene
                else Except.ok scene

/-! ## Object readers -/

/-- The loop of the member `fbx_node::findChild` (lines 131-143), from the node `currentNode` on:
the first node of the sibling chain with the name `name`; a null pointer is `none`.  The first
argument is fuel. -/
def findChildLoop (nodes : List fbx_node) (name : sized_string) :
    Nat → Nat → Except fbx_error (Option fbx_node)
  | 0, _ => Except.error fbx_error.out_of_fuel
  | fuel + 1, currentNode =>
    if currentNode != noNode then
      match vecGet nodes currentNode with
      | Except.error e => Except.error e
      | Except.ok child =>
        if child.name.eq name then Except.ok (some child)
        else findChildLoop nodes name fuel child.next
    else Except.ok none

/-- The member `fbx_node::findChild` (lines 131-143).  The nodes are not changed after the parse,
so the pointer to a node is given by the node.  A walk of more than `nodes.length` steps has come
back to a node it has left, so the loop of the source does not end: the fuel `nodes.length + 1`
runs out only then. -/
def fbx_node.findChild (self : fbx_node) (nodes : List fbx_node) (name : sized_string) :
    Except fbx_error (Option fbx_node) :=
  findChildLoop nodes name (nodes.length + 1) self.firstChild

/-- The member `fbx_node::getFirstProperty` (lines 145-148): the position of the first property
in the property array, `none` for the null pointer. -/
def fbx_node.getFirstProperty (self : fbx_node) : Option Nat :=
  if self.numProperties != 0 then some self.firstProperty else none

/-- The expression `*child.getFirstProperty(properties)`: the read through a null pointer is
out of range. -/
def firstPropertyOf (properties : List fbx_property) (child : fbx_node) :
    Except fbx_error fbx_property :=
  match child.getFirstProperty with
  | none => Except.error fbx_error.out_of_range
  | some p => vecGet properties p

/-- The expression `*node->getFirstProperty(properties)` for a pointer `node` to a node: the
member access through a null pointer is out of range. -/
def firstPropertyOfPtr (properties : List fbx_property) (node : Option fbx_node) :
    Except fbx_error fbx_property :=
  match node with
  | none => Except.error fbx_error.out_of_range
  | some child => firstPropertyOf properties child

/-- The function `readDouble` (lines 404-408); a double is given by its 64-bit pattern. -/
def readDouble (content : List Nat) (prop : fbx_property) : Except fbx_error Nat :=
  match ASSERT (prop.type == fbx_property_type.double) with
  | Except.error e => Except.error e
  | Except.ok _ =>
    match readBytes content prop.data 8 with
    | Except.error e => Except.error e
    | Except.ok bytes => Except.ok (leNat bytes)

/-- A range-based `for` over `fbx_property_iterator` (lines 436-460), from the pointer `prop`
to the pointer `end_` (positions in the property array), with the loop body `body` on the state
`s`.  The first argument is fuel. -/
def forProperties {σ : Type} (properties : List fbx_property)
    (body : σ → fbx_property → Except fbx_error σ) : Nat → Nat → Nat → σ → Except fbx_error σ
  | 0, _, _, _ => Except.error fbx_error.out_of_fuel
  | fuel + 1, prop, end_, s =>
    if prop != end_ then
      match vecGet properties prop with
      | Except.error e => Except.error e
      | Except.ok p =>
        match body s p with
        | Except.error e => Except.error e
        | Except.ok s1 => forProperties properties body fuel (prop + 1) end_ s1
    else Except.ok s

/-- The child at which `fbx_node_iterator::begin` starts (lines 478-481):
`node ? node->firstChild : -1`. -/
def iteratorBegin (node : Option fbx_node) : Nat :=
  match node with
  | some n => n.firstChild
  | none => noNode

/-- A range-based `for` over `fbx_node_iterator` (lines 462-486), from the child `child` on,
with the loop body `body` on the state `s`.  The first argument is fuel. -/
def forChildren {σ : Type} (nodes : List fbx_node)
    (body : σ → fbx_node → Except fbx_error σ) : Nat → Nat → σ → Except fbx_error σ
  | 0, _, _ => Except.error fbx_error.out_of_fuel
  | fuel + 1, child, s =>
    if child != noNode then
      match vecGet nodes child with
      | Except.error e => Except.error e
      | Except.ok node =>
        match body s node with
        | Except.error e => Except.error e
        | Except.ok s1 => forChildren nodes body fuel node.next s1
    else Except.ok s

/-- The body of the loop of `readObjectIDAndName` (lines 759-767) on the pair of `id` and
`name`. -/
def readObjectIDAndName_body (content : List Nat) (s : Int × sized_string)
    (prop : fbx_property) : Except fbx_error (Int × sized_string) :=
  match (if prop.type == fbx_property_type.int64 then readInt64 content prop
    else Except.ok s.1) with
  | Except.error e => Except.error e
  | Except.ok id =>
    match (if prop.type == fbx_property_type.string && s.2.str.length == 0 then
        readString content prop
      else Except.ok s.2) with
    | Except.error e => Except.error e
    | Except.ok name => Except.ok (id, name)

/-- The function `readObjectIDAndName` (lines 752-770).  The loop runs from the pointer
`properties.data() + firstProperty` to the pointer
`properties.data() + (firstProperty + numProperties)`, the sum being a `uint32`; every iteration
reads one entry of the property array, so `properties.length + 1` iterations are never
exceeded. -/
def readObjectIDAndName (content : List Nat) (node : fbx_node)
    (properties : List fbx_property) : Except fbx_error (Int × sized_string) :=
  forProperties properties (readObjectIDAndName_body content) (properties.length + 1)
    node.firstProperty ((node.firstProperty + node.numProperties) % 4294967296) (0, ⟨[]⟩)

/-- The expression `readString(*propIterator++)` for the iterator at the property `k` of the
node `P`. -/
def readStringAt (content : List Nat) (P : fbx_node) (properties : List fbx_property)
    (k : Nat) : Except fbx_error sized_string :=
  match propertyAt P properties k with
  | Except.error e => Except.error e
  | Except.ok prop => readString content prop

/-- The expression `readDouble(*propIterator++)` for the iterator at the property `k` of the
node `P`. -/
def readDoubleAt (content : List Nat) (P : fbx_node) (properties : List fbx_property)
    (k : Nat) : Except fbx_error Nat :=
  match propertyAt P properties k with
  | Except.error e => Except.error e
  | Except.ok prop => readDouble content prop

/-- The three reads `(float)readDouble(*propIterator++)` for the iterator at the property `k` of
the node `P`. -/
def readVec3At {F : Type} (toFloat : Nat → F) (content : List Nat) (P : fbx_node)
    (properties : List fbx_property) (k : Nat) : Except fbx_error (vec3 F) :=
  match readDoubleAt content P properties k with
  | Except.error e => Except.error e
  | Except.ok x =>
    match readDoubleAt content P properties (k + 1) with
    | Except.error e => Except.error e
    | Except.ok y =>
      match readDoubleAt content P properties (k + 2) with
      | Except.error e => Except.error e
      | Except.ok z => Except.ok ⟨toFloat x, toFloat y, toFloat z⟩

/-- The body of the loop of `readGeometryData` (lines 587-618) on the tuple that the function
returns; `readData` is the reader that the template selects for `T`. -/
def readGeometryData_body {T : Type} (readData : fbx_property → Except fbx_error (List T))
    (decompress : List Nat → List Nat) (content : List Nat) (properties : List fbx_property)
    (dataNodeName indexNodeName : sized_string) (s : geometry_data T) (child : fbx_node) :
    Except fbx_error (geometry_data T) :=
  if child.name.eq (sized_string.ofLiteral "MappingInformationType") then
    match firstPropertyOf properties child with
    | Except.error e => Except.error e
    | Except.ok prop =>
      match readString content prop with
      | Except.error e => Except.error e
      | Except.ok mappingInfoStr =>
        if mappingInfoStr.eq (sized_string.ofLiteral "ByPolygonVertex") then
          Except.ok { s with mapping := mapping_info.by_polygon_vertex }
        else if mappingInfoStr.eq (sized_string.ofLiteral "ByPolygon") then
          Except.ok { s with mapping := mapping_info.by_polygon }
        else if mappingInfoStr.eq (sized_string.ofLiteral "ByVertice")
            || mappingInfoStr.eq (sized_string.ofLiteral "ByVertex") then
          Except.ok { s with mapping := mapping_info.by_vertex }
        else if mappingInfoStr.eq (sized_string.ofLiteral "AllSame") then
          Except.ok { s with mapping := mapping_info.all_same }
        else Except.ok s
  else if child.name.eq (sized_string.ofLiteral "ReferenceInformationType") then
    match firstPropertyOf properties child with
    | Except.error e => Except.error e
    | Except.ok prop =>
      match readString content prop with
      | Except.error e => Except.error e
      | Except.ok referenceInfoStr =>
        if referenceInfoStr.eq (sized_string.ofLiteral "IndexToDirect")
            || referenceInfoStr.eq (sized_string.ofLiteral "Index") then
          Except.ok { s with reference := reference_info.index_to_direct }
        else if referenceInfoStr.eq (sized_string.ofLiteral "Direct") then
          Except.ok { s with reference := reference_info.direct }
        else Except.ok s
  else if child.name.eq dataNodeName then
    match firstPropertyOf properties child with
    | Except.error e => Except.error e
    | Except.ok prop =>
      match readData prop with
      | Except.error e => Except.error e
      | Except.ok result => Except.ok { s with data := result }
  else if child.name.eq indexNodeName then
    match firstPropertyOf properties child with
    | Except.error e => Except.error e
    | Except.ok prop =>
      match readInt32Array decompress content prop with
      | Except.error e => Except.error e
      | Except.ok indices => Except.ok { s with indices := indices }
  else Except.ok s

/-- The function template `readGeometryData` (lines 577-621); `readData` is `readDoubleArray`
for `T = double` and `readInt32Array` for `T = int32`.  A walk over the children that takes more
than `nodes.length` steps has come back to a node it has left, so the loop of the source does
not end: the fuel runs out only then. -/
def readGeometryData {T : Type} (readData : fbx_property → Except fbx_error (List T))
    (decompress : List Nat → List Nat) (content : List Nat) (node : Option fbx_node)
    (nodes : List fbx_node) (properties : List fbx_property)
    (dataNodeName indexNodeName : sized_string) : Except fbx_error (geometry_data T) :=
  forChildren nodes
    (readGeometryData_body readData decompress content properties dataNodeName indexNodeName)
    (nodes.length + 1) (iteratorBegin node) geometry_data.absent

/-- The body of the loop of `readModel` (lines 781-805) for the record `P`. -/
def readModel_body {F : Type} (toFloat : Nat → F) (content : List Nat)
    (properties : List fbx_property) (result : fbx_model F) (P : fbx_node) :
    Except fbx_error (fbx_model F) :=
  match ASSERT (P.name.eq (sized_string.ofLiteral "P")) with
  | Except.error e => Except.error e
  | Except.ok _ =>
    match readStringAt content P properties 0 with
    | Except.error e => Except.error e
    | Except.ok type =>
      if type.eq (sized_string.ofLiteral "Lcl Translation") then
        match readVec3At toFloat content P properties 3 with
        | Except.error e => Except.error e
        | Except.ok translation => Except.ok { result with localTranslation := translation }
      else if type.eq (sized_string.ofLiteral "Lcl Rotation") then
        match readVec3At toFloat content P properties 3 with
        | Except.error e => Except.error e
        | Except.ok _ => Except.ok result
      else Except.ok result

/-- The function `readModel` (lines 772-809): the array `outModels` after the call.  Modelled
from the spec: `quat::identity` is declared in `core/math.h`, outside the sources at hand;
following section 3 of the specification the default rotation is the identity, taken to be
`(0, 0, 0, 1)`. -/
def readModel {F : Type} [Zero F] [One F] (toFloat : Nat → F) (content : List Nat)
    (node : fbx_node) (nodes : List fbx_node) (properties : List fbx_property)
    (outModels : List (fbx_model F)) : Except fbx_error (List (fbx_model F)) :=
  match readObjectIDAndName content node properties with
  | Except.error e => Except.error e
  | Except.ok (id, name) =>
    match node.findChild nodes (sized_string.ofLiteral "Properties70") with
    | Except.error e => Except.error e
    | Except.ok propertiesNode =>
      match forChildren nodes (readModel_body toFloat content properties) (nodes.length + 1)
          (iteratorBegin propertiesNode) ⟨id, name, ⟨0, 0, 0, 1⟩, 0, [], []⟩ with
      | Except.error e => Except.error e
      | Except.ok result => Except.ok (outModels ++ [result])

/-- A value-initialised `fbx_material` with the id and the name set (lines 1046-1048):
`fbx_material result = {}; result.id = id; result.name = name;`. -/
def fbx_material.init {F : Type} [Zero F] (id : Int) (name : sized_string) : fbx_material F :=
  ⟨id, name, ⟨[]⟩, 0, 0, 0, 0, 0, 0, 0, 0, 0, none, none, none, none⟩

/-- The body of the inner loop of `readMaterial` (lines 1063-1114) for the record `P`. -/
def readMaterial_property {F : Type} [Zero F] (toFloat : Nat → F) (content : List Nat)
    (properties : List fbx_property) (result : fbx_material F) (P : fbx_node) :
    Except fbx_error (fbx_material F) :=
  match ASSERT (P.name.eq (sized_string.ofLiteral "P")) with
  | Except.error e => Except.error e
  | Except.ok _ =>
    match readStringAt content P properties 0 with
    | Except.error e => Except.error e
    | Except.ok name =>
      match readStringAt content P properties 1 with
      | Except.error e => Except.error e
      | Except.ok type =>
        match readStringAt content P properties 2 with
        | Except.error e => Except.error e
        | Except.ok _ =>
          match (if type.eq (sized_string.ofLiteral "Color") then
              match readVec3At toFloat content P properties 3 with
              | Except.error e => Except.error e
              | Except.ok color => Except.ok (color, (0 : F))
            else if type.eq (sized_string.ofLiteral "Number") then
              match readDoubleAt content P properties 3 with
              | Except.error e => Except.error e
              | Except.ok v => Except.ok ((0 : vec3 F), toFloat v)
            else Except.ok ((0 : vec3 F), (0 : F))) with
          | Except.error e => Except.error e
          | Except.ok (color, value) =>
            if name.eq (sized_string.ofLiteral "DiffuseColor") then
              Except.ok { result with diffuseColor := color }
            else if name.eq (sized_string.ofLiteral "AmbientColor") then
              Except.ok { result with ambientColor := color }
            else if name.eq (sized_string.ofLiteral "AmbientFactor") then
              Except.ok { result with ambientFactor := value }
            else if name.eq (sized_string.ofLiteral "SpecularColor") then
              Except.ok { result with specularColor := color }
            else if name.eq (sized_string.ofLiteral "SpecularFactor") then
              Except.ok { result with specularFactor := value }
            else if name.eq (sized_string.ofLiteral "Shininess") then
              Except.ok { result with shininess := value }
            else if name.eq (sized_string.ofLiteral "ShininessExponent") then
              Except.ok { result with shininessExponent := value }
            else if name.eq (sized_string.ofLiteral "ReflectionColor") then
              Except.ok { result with reflectionColor := color }
            else Except.ok result

/-- The body of the outer loop of `readMaterial` (lines 1052-1116) for the child `child`. -/
def readMaterial_body {F : Type} [Zero F] (toFloat : Nat → F) (content : List Nat)
    (nodes : List fbx_node) (properties : List fbx_property) (result : fbx_material F)
    (child : fbx_node) : Except fbx_error (fbx_material F) :=
  if child.name.eq (sized_string.ofLiteral "ShadingModel") then
    match firstPropertyOf properties child with
    | Except.error e => Except.error e
    | Except.ok prop =>
      match readString content prop with
      | Except.error e => Except.error e
      | Except.ok shadingModel => Except.ok { result with shadingModel := shadingModel }
  else if child.name.eq (sized_string.ofLiteral "MultiLayer") then
    match firstPropertyOf properties child with
    | Except.error e => Except.error e
    | Except.ok prop =>
      match readInt32 content prop with
      | Except.error e => Except.error e
      | Except.ok multiLayer => Except.ok { result with multiLayer := multiLayer }
  else if child.name.eq (sized_string.ofLiteral "Properties70") then
    forChildren nodes (readMaterial_property toFloat content properties) (nodes.length + 1)
      (iteratorBegin (some child)) result
  else Except.ok result

/-- The function `readMaterial` (lines 1042-1125): the array `outMaterials` after the call. -/
def readMaterial {F : Type} [Zero F] (toFloat : Nat → F) (content : List Nat)
    (node : fbx_node) (nodes : List fbx_node) (properties : List fbx_property)
    (outMaterials : List (fbx_material F)) : Except fbx_error (List (fbx_material F)) :=
  match readObjectIDAndName content node properties with
  | Except.error e => Except.error e
  | Except.ok (id, name) =>
    match forChildren nodes (readMaterial_body toFloat content nodes properties)
        (nodes.length + 1) (iteratorBegin (some node)) (fbx_material.init id name) with
    | Except.error e => Except.error e
    | Except.ok result =>
      match ASSERT (result.shadingModel.eq (sized_string.ofLiteral "Phong")) with
      | Except.error e => Except.error e
      | Except.ok _ => Except.ok (outMaterials ++ [result])

/-- The body of the loop of `readTexture` (lines 1135-1145) for the child `child`. -/
def readTexture_body (content : List Nat) (properties : List fbx_property)
    (result : fbx_texture) (child : fbx_node) : Except fbx_error fbx_texture :=
  if child.name.eq (sized_string.ofLiteral "FileName") then
    match firstPropertyOf properties child with
    | Except.error e => Except.error e
    | Except.ok prop =>
      match readString content prop with
      | Except.error e => Except.error e
      | Except.ok filename => Except.ok { result with filename := filename }
  else if child.name.eq (sized_string.ofLiteral "RelativeFilename") then
    match firstPropertyOf properties child with
    | Except.error e => Except.error e
    | Except.ok prop =>
      match readString content prop with
      | Except.error e => Except.error e
      | Except.ok relativeFilename =>
        Except.ok { result with relativeFilename := relativeFilename }
  else Except.ok result

/-- The function `readTexture` (lines 1127-1149): the array `outTextures` after the call. -/
def readTexture (content : List Nat) (node : fbx_node) (nodes : List fbx_node)
    (properties : List fbx_property) (outTextures : List fbx_texture) :
    Except fbx_error (List fbx_texture) :=
  match readObjectIDAndName content node properties with
  | Except.error e => Except.error e
  | Except.ok (id, name) =>
    match forChildren nodes (readTexture_body content properties) (nodes.length + 1)
        (iteratorBegin (some node)) ⟨id, name, ⟨[]⟩, ⟨[]⟩⟩ with
    | Except.error e => Except.error e
    | Except.ok result => Except.ok (outTextures ++ [result])

/-- The function `readMesh` (lines 811-1040) on the node of a geometry: the array `outMeshes`
after the call.  The arrays and the layer elements are read from the children of the node, in
the order of the source, and worked on by the blocks of `readMesh`; a double is given by its
64-bit pattern, which `toFloat` converts. -/
def readMeshOfNode {F : Type} [DecidableEq F] [Zero F] (toFloat : Nat → F)
    (decompress : List Nat → List Nat) (content : List Nat) (node : fbx_node)
    (nodes : List fbx_node) (properties : List fbx_property) (flags : Nat)
    (outMeshes : List (fbx_mesh F)) : Except fbx_error (List (fbx_mesh F)) :=
  match readObjectIDAndName content node properties with
  | Except.error e => Except.error e
  | Except.ok (id, name) =>
    match node.findChild nodes (sized_string.ofLiteral "Vertices") with
    | Except.error e => Except.error e
    | Except.ok positionsNode =>
      match firstPropertyOfPtr properties positionsNode with
      | Except.error e => Except.error e
      | Except.ok positionsProp =>
        match readDoubleArray decompress content positionsProp with
        | Except.error e => Except.error e
        | Except.ok originalPositionsRaw =>
          match node.findChild nodes (sized_string.ofLiteral "PolygonVertexIndex") with
          | Except.error e => Except.error e
          | Except.ok indicesNode =>
            match firstPropertyOfPtr properties indicesNode with
            | Except.error e => Except.error e
            | Except.ok indicesProp =>
              match readInt32Array decompress content indicesProp with
              | Except.error e => Except.error e
              | Except.ok originalIndices =>
                match expandLoop toFloat originalPositionsRaw originalIndices []
                    (List.replicate (originalPositionsRaw.length % 4294967296 / 3) ⟨0, 0⟩)
                    0 with
                | Except.error e => Except.error e
                | Except.ok (positions, counted, numFaces) =>
                  match slotLoop originalIndices 0 (offsetLoop counted 0)
                      (List.replicate originalIndices.length 0) with
                  | Except.error e => Except.error e
                  | Except.ok (vertexOffsetCounts, originalToNewVertex) =>
                    match (if flagSet flags mesh_flags.mesh_flag_load_uvs then
                        match node.findChild nodes
                            (sized_string.ofLiteral "LayerElementUV") with
                        | Except.error e => Except.error e
                        | Except.ok uvNode =>
                          readGeometryData (readDoubleArray decompress content) decompress
                            content uvNode nodes properties (sized_string.ofLiteral "UV")
                            (sized_string.ofLiteral "UVIndex")
                      else Except.ok geometry_data.absent) with
                    | Except.error e => Except.error e
                    | Except.ok uvLayer =>
                      match readUVs toFloat flags uvLayer vertexOffsetCounts
                          originalToNewVertex positions.length with
                      | Except.error e => Except.error e
                      | Except.ok uvs =>
                        match (if flagSet flags mesh_flags.mesh_flag_load_normals then
                            match node.findChild nodes
                                (sized_string.ofLiteral "LayerElementNormal") with
                            | Except.error e => Except.error e
                            | Except.ok normalsNode =>
                              readGeometryData (readDoubleArray decompress content)
                                decompress content normalsNode nodes properties
                                (sized_string.ofLiteral "Normals")
                                (sized_string.ofLiteral "NormalsIndex")
                          else Except.ok geometry_data.absent) with
                        | Except.error e => Except.error e
                        | Except.ok normalLayer =>
                          match readNormals toFloat flags normalLayer vertexOffsetCounts
                              originalToNewVertex positions.length with
                          | Except.error e => Except.error e
                          | Except.ok normals =>
                            match (if flagSet flags mesh_flags.mesh_flag_load_materials then
                                match node.findChild nodes
                                    (sized_string.ofLiteral "LayerElementMaterial") with
                                | Except.error e => Except.error e
                                | Except.ok materialsNode =>
                                  readGeometryData (readInt32Array decompress content)
                                    decompress content materialsNode nodes properties
                                    (sized_string.ofLiteral "Materials")
                                    (sized_string.ofLiteral "")
                              else Except.ok geometry_data.absent) with
                            | Except.error e => Except.error e
                            | Except.ok materialLayer =>
                              match readMaterialIndices flags materialLayer numFaces with
                              | Except.error e => Except.error e
                              | Except.ok materialIndices =>
                                match polygonWalk positions uvs normals originalIndices
                                    materialIndices
                                    (toInt32 originalIndices.length).toNat
                                    (toInt32 originalIndices.length).toNat 0 0 [] with
                                | Except.error e => Except.error e
                                | Except.ok materialToMesh =>
                                  Except.ok
                                    (outMeshes ++ outputMeshes id name materialToMesh)

/-- The loop of `findNode` (lines 1277-1295), from the node `currentNode` on, with the names
that are still to be matched.  The first argument is fuel. -/
def findNodeLoop (nodes : List fbx_node) :
    Nat → Nat → List sized_string → Except fbx_error (Option fbx_node)
  | 0, _, _ => Except.error fbx_error.out_of_fuel
  | fuel + 1, currentNode, names =>
    if currentNode != noNode then
      match vecGet nodes currentNode with
      | Except.error e => Except.error e
      | Except.ok node =>
        match names with
        | [] => Except.error fbx_error.out_of_range
        | currentName :: rest =>
          if node.name.eq currentName then
            if rest.isEmpty then Except.ok (some node)
            else findNodeLoop nodes fuel node.firstChild rest
          else findNodeLoop nodes fuel node.next names
    else Except.ok none

/-- The function `findNode` (lines 1272-1297).  The loop has the state of a node and a position
in the list of names; a run of more than `nodes.length * names.length` steps has come back to a
state it has left, so the loop of the source does not end: the fuel runs out only then. -/
def findNode (nodes : List fbx_node) (names : List sized_string) :
    Except fbx_error (Option fbx_node) :=
  match vecGet nodes 0 with
  | Except.error e => Except.error e
  | Except.ok root => findNodeLoop nodes (nodes.length * names.length + 1) root.firstChild names

/-- The body of the loop of `loadFBX` over the children of the node `Objects`
(lines 1350-1374), on the four object arrays. -/
def readObject {F : Type} [DecidableEq F] [Zero F] [One F] (toFloat : Nat → F)
    (decompress : List Nat → List Nat) (content : List Nat) (nodes : List fbx_node)
    (properties : List fbx_property) (flags : Nat) (scene : fbx_scene F)
    (objectNode : fbx_node) : Except fbx_error (fbx_scene F) :=
  match (if objectNode.name.eq (sized_string.ofLiteral "Model") then
      readModel toFloat content objectNode nodes properties scene.models
    else Except.ok scene.models) with
  | Except.error e => Except.error e
  | Except.ok models =>
    if objectNode.name.eq (sized_string.ofLiteral "Geometry") then
      match readMeshOfNode toFloat decompress content objectNode nodes properties flags
          scene.meshes with
      | Except.error e => Except.error e
      | Except.ok meshes => Except.ok { scene with models := models, meshes := meshes }
    else if objectNode.name.eq (sized_string.ofLiteral "Material") then
      if flagSet flags mesh_flags.mesh_flag_load_materials then
        match readMaterial toFloat content objectNode nodes properties scene.materials with
        | Except.error e => Except.error e
        | Except.ok materials =>
          Except.ok { scene with models := models, materials := materials }
      else Except.ok { scene with models := models }
    else if objectNode.name.eq (sized_string.ofLiteral "Texture") then
      if flagSet flags mesh_flags.mesh_flag_load_materials then
        match readTexture content objectNode nodes properties scene.textures with
        | Except.error e => Except.error e
        | Except.ok textures =>
          Except.ok { scene with models := models, textures := textures }
      else Except.ok { scene with models := models }
    else Except.ok { scene with models := models }

/-- The part of `loadFBX` that extracts the objects (lines 1345-1374): the four object arrays
after the loop over the children of the node `Objects`. -/
def loadFBX_objects {F : Type} [DecidableEq F] [Zero F] [One F] (toFloat : Nat → F)
    (decompress : List Nat → List Nat) (content : List Nat) (nodes : List fbx_node)
    (properties : List fbx_property) (flags : Nat) : Except fbx_error (fbx_scene F) :=
  match findNode nodes [sized_string.ofLiteral "Objects"] with
  | Except.error e => Except.error e
  | Except.ok objectsNode =>
    forChildren nodes (readObject toFloat decompress content nodes properties flags)
      (nodes.length + 1) (iteratorBegin objectsNode) ⟨[], [], [], []⟩

/-! ## The conversion of a double to a float -/

/-- The quotient of `x` by `2 ^ shift`, rounded to the nearest integer, a tie to the even
one. -/
def roundShift (x shift : Nat) : Nat :=
  if 2 * (x % 2 ^ shift) > 2 ^ shift ∨
      (2 * (x % 2 ^ shift) = 2 ^ shift ∧ x / 2 ^ shift % 2 = 1) then
    x / 2 ^ shift + 1
  else x / 2 ^ shift

/-- The sign bit of a 64-bit pattern of a `double`. -/
def doubleSign (d : Nat) : Nat := d / 2 ^ 63 % 2

/-- The exponent field (11 bits) of a 64-bit pattern of a `double`. -/
def doubleExponent (d : Nat) : Nat := d / 2 ^ 52 % 2 ^ 11

/-- The fraction field (52 bits) of a 64-bit pattern of a `double`. -/
def doubleFraction (d : Nat) : Nat := d % 2 ^ 52

/-- The conversion `(float)x` of a `double` `x` (lines 850, 892, 914, 791-793 and 1076-1082) on
bit patterns: the IEEE 754 binary64 pattern `d` is rounded to the binary32 pattern of the nearest
`float`, a tie to the even one (the default rounding mode).  An infinity stays an infinity and
a NaN becomes a quiet NaN with the upper fraction bits; a zero or a subnormal double becomes a
zero; a finite double whose rounded value is too large becomes an infinity; a double below the
smallest normal `float` is rounded in units of `2^-149`. -/
def floatOfDouble (d : Nat) : Nat :=
  doubleSign d * 2 ^ 31 +
    (if doubleExponent d = 2047 then
      if doubleFraction d = 0 then 2139095040
      else 2139095040 + (doubleFraction d / 2 ^ 29 ||| 4194304)
    else if doubleExponent d = 0 then 0
    else if 897 ≤ doubleExponent d then
      min ((doubleExponent d - 897) * 2 ^ 23 + roundShift (2 ^ 52 + doubleFraction d) 29)
        2139095040
    else roundShift (2 ^ 52 + doubleFraction d) (926 - doubleExponent d))

/-! ## Definitions used to state the properties -/

/-- The value that the by-vertex, index-to-direct mapping assigns for the index `dataIndex`:
`data[dataIndex]`, and the zero value for the index -1. -/
def scatteredValue {data_t : Type} [Zero data_t] (data : List data_t) (dataIndex : Int) :
    Option data_t :=
  if dataIndex = -1 then some 0 else data[dataIndex.toNat]?

/-- The entries of the vertex table of a bucket whose distinct vertices are `K`, numbered from
`start` on. -/
def indexedFrom {κ : Type} : Nat → List κ → List (κ × Int)
  | _, [] => []
  | start, v :: K => (v, toInt32 start) :: indexedFrom (start + 1) K

/-- The output vertex list read back from the three vertex buffers of a bucket: vertex `k` is
`(positions[k], uvs[k], normals[k])`, with the zero value for a buffer that is not filled. -/
def zipVertices {F : Type} [Zero F] :
    List (vec3 F) → List (vec2 F) → List (vec3 F) → List (full_vertex F)
  | [], _, _ => []
  | p :: ps, uvs, normals => ⟨p, uvs.headD 0, normals.headD 0⟩ :: zipVertices ps uvs.tail normals.tail

/-- The output vertex list of a bucket. -/
def per_material.vertices {F : Type} [Zero F] (self : per_material F) : List (full_vertex F) :=
  zipVertices self.geometry.positions self.geometry.uvs self.geometry.normals

/-- The calls `addVertex(positions, uvs, normals, index)` for the corners `index` of a list, in
order, on one bucket: the returned indices and the bucket after the calls. -/
def addVertices {F : Type} [DecidableEq F] [Zero F] (positions : List (vec3 F))
    (uvs : List (vec2 F)) (normals : List (vec3 F)) :
    per_material F → List Nat → Except fbx_error (List Int × per_material F)
  | perMat, [] => Except.ok ([], perMat)
  | perMat, index :: rest =>
    match perMat.addVertex positions uvs normals index with
    | Except.error e => Except.error e
    | Except.ok (w, perMat1) =>
      match addVertices positions uvs normals perMat1 rest with
      | Except.error e => Except.error e
      | Except.ok (ws, perMat2) => Except.ok (w :: ws, perMat2)

/-- The state of a bucket whose distinct vertices, in order of first use, are `K`. -/
def bucketInv {F : Type} [Zero F] (uvs : List (vec2 F)) (normals : List (vec3 F))
    (perMat : per_material F) (K : List (full_vertex F)) : Prop :=
  K.Nodup ∧ perMat.vertexToIndex = indexedFrom 0 K ∧
    perMat.geometry.positions = K.map (fun v => v.position) ∧
    perMat.geometry.uvs = (if uvs.isEmpty then [] else K.map (fun v => v.uv)) ∧
    perMat.geometry.normals = (if normals.isEmpty then [] else K.map (fun v => v.normal)) ∧
    (uvs.isEmpty = true → ∀ v, v ∈ K → v.uv = 0) ∧
    (normals.isEmpty = true → ∀ v, v ∈ K → v.normal = 0)

/-- The fan of a polygon whose corners have the welded indices `w 0, w 1, ...`: for a polygon of
`n` corners the triangles `(w 0, w k, w (k + 1))` for `k = 1 .. n - 2`. -/
def fanTriangles (w : Nat → Int) (n : Nat) : List Int :=
  (List.range (n - 2)).flatMap fun k => [w 0, w (k + 1), w (k + 2)]

/-- The bucket `perMat` with the index buffer replaced by `indices`. -/
def per_material.withIndices {F : Type} (perMat : per_material F) (indices : List Int) :
    per_material F :=
  { perMat with geometry := { perMat.geometry with indices := indices } }

/-- The triangles that the fan loop pushes for the fan base `a`, `b` and the welded indices of
the further corners. -/
def fanFrom (a : Int) : Int → List Int → List Int
  | _, [] => []
  | b, c :: rest => a :: b :: c :: fanFrom a c rest

/-- The number of corners of the first polygon of a stream: the corners up to and including the
first negative entry (all of them when there is none). -/
def scanFace : List Int → Nat
  | [] => 0
  | x :: rest => if x < 0 then 1 else 1 + scanFace rest

/-- The polygons of an index stream, as their corner counts in stream order: a polygon ends at
the corner whose entry is negative; entries after the last negative one form a last polygon. -/
def faceSizes : List Int → List Nat
  | [] => []
  | x :: rest =>
    if x < 0 then 1 :: faceSizes rest
    else
      match faceSizes rest with
      | [] => [1]
      | n :: sizes => (n + 1) :: sizes

/-- The number of faces of an index stream: the number of its negative entries. -/
def numFacesOf (originalIndices : List Int) : Nat :=
  (originalIndices.filter (fun x => x < 0)).length

/-- The material ids of the polygons with at least three corners, where the `k`-th polygon has
`sizes[k]` corners and the material id `materialIndices[k]`. -/
def retainedMaterials : List Nat → List Int → List Int
  | s :: sizes, material :: materialIndices =>
    if 3 ≤ s then material :: retainedMaterials sizes materialIndices
    else retainedMaterials sizes materialIndices
  | _, _ => []

/-- The sum of `size - 2` over the polygons that have at least three corners and the material id
`material`. -/
def triCount (material : Int) : List Nat → List Int → Nat
  | s :: sizes, m :: materialIndices =>
    (if 3 ≤ s ∧ m = material then s - 2 else 0) + triCount material sizes materialIndices
  | _, _ => 0

/-- The sum of `size - 2` over the polygons that have at least three corners. -/
def totalTri : List Nat → Nat
  | [] => 0
  | s :: sizes => (if 3 ≤ s then s - 2 else 0) + totalTri sizes

/-- The number of indices held by the bucket of `material` (0 when there is no such bucket). -/
def bucketIndexCount {F : Type} (materialToMesh : List (Int × per_material F)) (material : Int) :
    Nat :=
  ((mapFind material materialToMesh).getD per_material.empty).geometry.indices.length

/-- The number of indices held by all buckets. -/
def totalIndices {F : Type} (materialToMesh : List (Int × per_material F)) : Nat :=
  (materialToMesh.map fun entry => entry.2.geometry.indices.length).sum

/-- The tag bytes of the properties: C, F, D, Y, I, L, b, f, d, i, l, S and R. -/
def propertyTags : List Nat := [67, 70, 68, 89, 73, 76, 98, 102, 100, 105, 108, 83, 82]

/-- The tags of the scalar properties, with the type of the property and the size of its
value. -/
def scalarTags : List (Nat × fbx_property_type × Nat) :=
  [(67, fbx_property_type.bool, 1), (70, fbx_property_type.float, 4),
    (68, fbx_property_type.double, 8), (89, fbx_property_type.int16, 2),
    (73, fbx_property_type.int32, 4), (76, fbx_property_type.int64, 8)]

/-- The tags of the array properties, with the type of the elements. -/
def arrayTags : List (Nat × fbx_property_type) :=
  [(98, fbx_property_type.bool), (102, fbx_property_type.float),
    (100, fbx_property_type.double), (105, fbx_property_type.int32),
    (108, fbx_property_type.int64)]

/-- The tags of the string and raw properties, with the type of the property. -/
def blobTags : List (Nat × fbx_property_type) :=
  [(83, fbx_property_type.string), (82, fbx_property_type.raw)]

/-- The number of bytes that the encoding of the property at `offset` takes, by its tag: the tag
and the value for a scalar (C, F, D, Y, I, L), the tag, the three `uint32` fields of the array
header and `compressedLength` bytes for an array (b, f, d, i, l), the tag, the `uint32` length
and `length` bytes for a string or raw property (S, R); `none` for every other tag. -/
def encodedSize (content : List Nat) (offset : Nat) : Option Nat :=
  match content[offset]? with
  | none => none
  | some t =>
    if t = 67 then some (1 + 1)
    else if t = 70 then some (1 + 4)
    else if t = 68 then some (1 + 8)
    else if t = 89 then some (1 + 2)
    else if t = 73 then some (1 + 4)
    else if t = 76 then some (1 + 8)
    else if t = 98 ∨ t = 102 ∨ t = 100 ∨ t = 105 ∨ t = 108 then
      some (1 + 12 + leNat ((content.drop (offset + 9)).take 4))
    else if t = 83 ∨ t = 82 then some (1 + 4 + leNat ((content.drop (offset + 1)).take 4))
    else none

/-- Whether the property at `offset` is a string or raw property (S, R) whose length is 0. -/
def isZeroLength (content : List Nat) (offset : Nat) : Bool :=
  (content[offset]? == some 83 || content[offset]? == some 82)
    && leNat ((content.drop (offset + 1)).take 4) == 0

/-- The number of string and raw properties of length 0 among the `n` properties encoded from
`offset` on. -/
def zeroLengthCount (content : List Nat) : Nat → Nat → Nat
  | 0, _ => 0
  | n + 1, offset =>
    (if isZeroLength content offset then 1 else 0)
      + zeroLengthCount content n (offset + (encodedSize content offset).getD 0)

/-- The bytes that `readArray` writes for a property: the bytes of the property for encoding 0,
what `decompress` makes of them otherwise. -/
def arrayBytes (decompress : List Nat → List Nat) (content : List Nat) (prop : fbx_property) :
    List Nat :=
  if prop.encoding = 0 then (content.drop prop.data).take prop.encodedLength
  else decompress ((content.drop prop.data).take prop.encodedLength)

/-- The four bytes of a `uint32`, little-endian. -/
def le32 (n : Nat) : List Nat :=
  [n % 256, n / 256 % 256, n / 65536 % 256, n / 16777216 % 256]

/-- The eight bytes of a `uint64`, little-endian. -/
def le64 (n : Nat) : List Nat :=
  le32 (n % 4294967296) ++ le32 (n / 4294967296 % 4294967296)

/-- The size of a node record header in the layout of the version. -/
def recordSize (version : Nat) : Nat :=
  if version ≥ 7500 then 25 else 13

/-- The bytes of a node record header in the layout of the version. -/
def recordBytes (version endOffset numProperties propertyListLength nameLength : Nat) :
    List Nat :=
  if version ≥ 7500 then
    le64 endOffset ++ le64 numProperties ++ le64 propertyListLength ++ [nameLength]
  else le32 endOffset ++ le32 numProperties ++ le32 propertyListLength ++ [nameLength]

/-- The four bytes of an `int32`, little-endian. -/
def int32Bytes (v : Int) : List Nat :=
  le32 (v % 4294967296).toNat

/-- A minimal container: the header with the version, one node record with the name `name` and
the one property `I` of value `v`, and the terminating record of zeros. -/
def minimalContainer (version : Nat) (name : List Nat) (v : Int) : List Nat :=
  fbxMagic ++ [26, 0] ++ le32 version
    ++ recordBytes version (27 + recordSize version + name.length + 5) 1 5 name.length
    ++ name ++ [73] ++ int32Bytes v
    ++ recordBytes version 0 0 0 0

/-- The node records that the loop of `parseNodes` works through, each with its declared
`endOffset` and the read offset that is reached after its properties and its child list, as far
as the run of `parseLoop` gets. -/
def nodeEnds (version : Nat) :
    Nat → fbx_node_record_header_64 → Nat → parse_state → List (Nat × Nat)
  | 0, _, _, _ => []
  | fuel + 1, currentNode, parent, st =>
    if currentNode.endOffset != 0 then
      match parseNodeHead currentNode parent st with
      | Except.error _ => []
      | Except.ok st1 =>
        let children : List (Nat × Nat) × Except fbx_error parse_state :=
          if sub64 currentNode.endOffset st1.file.readOffset > 0 then
            match readNodeRecordHeader version st1.file with
            | Except.error e => ([], Except.error e)
            | Except.ok (child, file2) =>
              (nodeEnds version fuel child (st.outNodes.length % 4294967296)
                  { st1 with file := file2 },
                parseLoop version fuel child (st.outNodes.length % 4294967296)
                  { st1 with file := file2 })
          else ([], Except.ok st1)
        match children.2 with
        | Except.error _ => children.1
        | Except.ok st2 =>
          (currentNode.endOffset, st2.file.readOffset) :: (children.1 ++
            match ASSERT (sub64 currentNode.endOffset st2.file.readOffset == 0) with
            | Except.error _ => []
            | Except.ok _ =>
              match readNodeRecordHeader version st2.file with
              | Except.error _ => []
              | Except.ok (next, file3) =>
                nodeEnds version fuel next parent { st2 with file := file3 })
    else []

/-- The node records that a call of `parseNodes` works through, as `nodeEnds` lists them. -/
def parseNodesEnds (fuel : Nat) (version : Nat) (st : parse_state) (parent : Nat) :
    List (Nat × Nat) :=
  match readNodeRecordHeader version st.file with
  | Except.error _ => []
  | Except.ok (currentNode, file1) =>
    nodeEnds version fuel currentNode parent { st with file := file1 }

/-- The object at which a scan of `readConnection` over an id list stops: the position of the
first id that is `a` or `b`, counted from `i`, and whether that id is `a` (the test for `a`
comes first). -/
def firstHit (a b : Int) : List Int → Nat → Option (Nat × Bool)
  | [], _ => none
  | id :: rest, i =>
    if id = a then some (i, true)
    else if id = b then some (i, false)
    else firstHit a b rest (i + 1)

/-- The index of an endpoint after a scan that stopped at `hit`: the scan sets the index of the
endpoint whose id it found and leaves the index of the other endpoint as the earlier scans left
it. -/
def scanResult (type : connection_type) (count : Nat) (hit : Option (Nat × Bool))
    (forA : Bool) (earlier : connection_index) : connection_index :=
  match hit with
  | some (j, isA) => if isA = forA then ⟨type, j, count⟩ else earlier
  | none => earlier

/-- The part of the loop body of `parseNodes` after the test of `sizeLeft` (lines 337-340), given the outcome of the child list. -/
def afterChildren (version fuel : Nat) (currentNode : fbx_node_record_header_64) (parent : Nat)
    (children : Except fbx_error parse_state) : Except fbx_error parse_state :=
  match children with
  | Except.error e => Except.error e
  | Except.ok st2 =>
    match ASSERT (sub64 currentNode.endOffset st2.file.readOffset == 0) with
    | Except.error e => Except.error e
    | Except.ok _ =>
      match readNodeRecordHeader version st2.file with
      | Except.error e => Except.error e
      | Except.ok (next, file3) =>
        parseLoop version fuel next parent { st2 with file := file3 }

/-- The corner positions `i` of the stream with `decodeIndex(originalIndices[i]) = v`, in
increasing order. -/
def cornersOf (originalIndices : List Int) (v : Nat) : List Nat :=
  (List.range originalIndices.length).filter fun i =>
    decide ((originalIndices[i]?).map decodeIndex = some (v : Int))

/-- The corner positions of control point `v` in a part of the stream whose first entry is corner
`i`. -/
def cornersFrom (v : Nat) : List Int → Nat → List Nat
  | [], _ => []
  | index :: rest, i =>
    if decodeIndex index = (v : Int) then i :: cornersFrom v rest (i + 1)
    else cornersFrom v rest (i + 1)

/-- The offset of the group of control point `v`: the number of corners of the control points
before `v`. -/
def cornerOffset (originalIndices : List Int) : Nat → Nat
  | 0 => 0
  | v + 1 => cornerOffset originalIndices v + (cornersOf originalIndices v).length

/-- A loop over the elements of a list with the loop body `body`, which may fail, on the state
`s`. -/
def foldExcept {σ α : Type} (body : σ → α → Except fbx_error σ) : List α → σ → Except fbx_error σ
  | [], s => Except.ok s
  | a :: rest, s =>
    match body s a with
    | Except.error e => Except.error e
    | Except.ok s1 => foldExcept body rest s1

/-- The properties of a node: the entries `firstProperty` to `firstProperty + numProperties - 1`
of the property array. -/
def nodeProperties (node : fbx_node) (properties : List fbx_property) : List fbx_property :=
  (properties.drop node.firstProperty).take node.numProperties

/-- The value of the last `int64`-typed property of a property list, 0 when there is none. -/
def lastInt64 (content : List Nat) (props : List fbx_property) : Int :=
  match (props.filter fun p => p.type == fbx_property_type.int64).getLast? with
  | none => 0
  | some p => toInt64 (leNat ((content.drop p.data).take 8))

/-- The string of the first string-typed property of a property list, the empty string when
there is none. -/
def firstString (content : List Nat) (props : List fbx_property) : sized_string :=
  match (props.filter fun p => p.type == fbx_property_type.string).head? with
  | none => ⟨[]⟩
  | some p => ⟨(content.drop p.data).take p.numElements⟩

/-- The children of a node in the order in which `fbx_node_iterator` visits them, from the child
`child` on. -/
def childrenFrom (nodes : List fbx_node) (child : Nat) : Except fbx_error (List fbx_node) :=
  forChildren nodes (fun visited node => Except.ok (visited ++ [node])) (nodes.length + 1)
    child []

/-- The children of the node that a pointer refers to, in the order in which
`fbx_node_iterator` visits them; a null pointer has no children. -/
def childrenOf (nodes : List fbx_node) (node : Option fbx_node) :
    Except fbx_error (List fbx_node) :=
  childrenFrom nodes (iteratorBegin node)

/-- The ids of the children with the name `kind` of a list of nodes, as `readObjectIDAndName`
reads them. -/
def objectIds (content : List Nat) (properties : List fbx_property) (kind : String)
    (children : List fbx_node) : List Int :=
  (children.filter fun n => n.name.eq (sized_string.ofLiteral kind)).filterMap fun n =>
    match readObjectIDAndName content n properties with
    | Except.ok (id, _) => some id
    | Except.error _ => none

/-- The ids of the objects of a scene agree with the ids of the nodes they were read from: the
materials and the textures carry, in order, the ids of the nodes `Material` and `Texture` (none
when materials are not loaded), every mesh carries the id of a node `Geometry`, and when these
ids are pairwise different, no two meshes have the same id and material index. -/
def idsAgree {F : Type} (content : List Nat) (properties : List fbx_property) (flags : Nat)
    (children : List fbx_node) (scene : fbx_scene F) : Prop :=
  (scene.materials.map fun material => material.id)
    = (if flagSet flags mesh_flags.mesh_flag_load_materials then
        objectIds content properties "Material" children else []) ∧
  (scene.textures.map fun texture => texture.id)
    = (if flagSet flags mesh_flags.mesh_flag_load_materials then
        objectIds content properties "Texture" children else []) ∧
  (∀ mesh, mesh ∈ scene.meshes → mesh.id ∈ objectIds content properties "Geometry" children) ∧
  ((objectIds content properties "Geometry" children).Nodup →
    (scene.meshes.map fun mesh => (mesh.id, mesh.materialIndex)).Nodup)

/-- A link of the node `i` of an array of `length` nodes is well-formed: it is the marker of a
missing node or the index of a later node of the array. -/
def linkOk (length i link : Nat) : Bool :=
  link == noNode || (decide (i < link) && decide (link < length))

/-- The links `next` and `firstChild` of every node of the array lead to later nodes of the
array: the sibling chains are finite. -/
def linksIncrease (nodes : List fbx_node) : Bool :=
  (List.range nodes.length).all fun i =>
    match nodes[i]? with
    | some n => linkOk nodes.length i n.next && linkOk nodes.length i n.firstChild
    | none => true

/-- The bytes of a byte sequence up to and including its first NUL byte, all of them when
there is none. -/
def upToNul : List Nat → List Nat
  | [] => []
  | x :: xs => if x == 0 then [x] else x :: upToNul xs

/-- Modelled from the spec: `quat::identity` is declared in `core/math.h`, outside the sources
at hand; following section 3 of the specification it is the identity rotation, taken to be
`(0, 0, 0, 1)`. -/
def quat.identity {F : Type} [Zero F] [One F] : quat F := ⟨0, 0, 0, 1⟩

/-- The stored property `k` of a record, counted from its first stored property: the entry
`firstProperty + k` of the property array. -/
def storedProperty (P : fbx_node) (properties : List fbx_property) (k : Nat) :
    Option fbx_property :=
  properties[P.firstProperty + k]?

/-- The string that a property holds: the property is string-typed and its bytes lie in the
buffer. -/
def storedString (content : List Nat) (prop : fbx_property) : Option sized_string :=
  if prop.type = fbx_property_type.string ∧ prop.data + prop.numElements ≤ content.length then
    some ⟨(content.drop prop.data).take prop.numElements⟩
  else none

/-- The double that a property holds, as its 64-bit pattern: the property is double-typed and
its eight bytes lie in the buffer. -/
def storedDouble (content : List Nat) (prop : fbx_property) : Option Nat :=
  if prop.type = fbx_property_type.double ∧ prop.data + 8 ≤ content.length then
    some (leNat ((content.drop prop.data).take 8))
  else none

/-- A record whose first stored property is the string `Lcl Translation`. -/
def isTranslationRecord (content : List Nat) (properties : List fbx_property) (P : fbx_node) :
    Bool :=
  (storedProperty P properties 0).bind (storedString content)
    == some (sized_string.ofLiteral "Lcl Translation")

/-- The vector of the doubles that the 4th, 5th and 6th stored properties of a record hold,
when all three hold a double. -/
def recordTranslation {F : Type} (toFloat : Nat → F) (content : List Nat)
    (properties : List fbx_property) (P : fbx_node) : Option (vec3 F) :=
  match (storedProperty P properties 3).bind (storedDouble content),
    (storedProperty P properties 4).bind (storedDouble content),
    (storedProperty P properties 5).bind (storedDouble content) with
  | some x, some y, some z => some ⟨toFloat x, toFloat y, toFloat z⟩
  | _, _, _ => none

/-- The nodes of a list, in order, cut the entries `start` to `total - 1` of the property array
into adjoining ranges: the range of each node starts where the range of the node before it
ends, the first one at `start`, and the last one ends at `total`. -/
def rangesPartition : Nat → List fbx_node → Nat → Bool
  | start, [], total => start == total
  | start, n :: rest, total =>
    n.firstProperty == start && rangesPartition (start + n.numProperties) rest total

/-- The property range of a node: where it starts and how many entries it has. -/
def propertyRange (n : fbx_node) : Nat × Nat :=
  (n.firstProperty, n.numProperties)

/-- The indices of the nodes of the array whose parent index is `p`, in increasing order. -/
def childIndices (nodes : List fbx_node) (p : Nat) : List Nat :=
  (List.range nodes.length).filter fun i => (nodes.map fun n => n.parent)[i]? == some p

/-- Following the link `link` and then the links `next` visits the nodes of the indices
`visited`, in this order, and ends at the marker of a missing node. -/
def chainVisits (nodes : List fbx_node) : Nat → List Nat → Bool
  | link, [] => link == noNode
  | link, i :: rest =>
    link == i &&
      match nodes[i]? with
      | some n => chainVisits nodes n.next rest
      | none => false

/-- The node array is a well-formed tree below the node 0: the node 0 has no parent and the
level `2^32 - 1`; every other node has a parent of smaller index and the level of its parent
plus 1, modulo `2^32`; and for every node, following `firstChild` and then `next` visits the
nodes whose parent it is, in increasing index order, the last of which is its `lastChild`. -/
def wellFormedTree (nodes : List fbx_node) : Prop :=
  (∃ root, nodes[0]? = some root ∧ root.parent = noNode ∧ root.level = noNode) ∧
  (∀ (i : Nat) (n : fbx_node), nodes[i]? = some n → 0 < i →
    n.parent < i ∧ ∃ p, nodes[n.parent]? = some p ∧ n.level = (p.level + 1) % 4294967296) ∧
  (∀ (q : Nat) (n : fbx_node), nodes[q]? = some n →
    chainVisits nodes n.firstChild (childIndices nodes q) = true ∧
    n.lastChild = (childIndices nodes q).getLast?.getD noNode)

/-- The properties of an output mesh: the number of indices is a multiple of 3, every index is
at least 0 and less than the number of positions, there are no uvs or as many as positions, no
normals or as many as positions, and every vertex is referenced by an index. -/
def meshWellFormed {F : Type} (geometry : mesh_geometry F) : Prop :=
  geometry.indices.length % 3 = 0 ∧
  (∀ w, w ∈ geometry.indices → 0 ≤ w ∧ w < (geometry.positions.length : Int)) ∧
  (geometry.uvs.length = 0 ∨ geometry.uvs.length = geometry.positions.length) ∧
  (geometry.normals.length = 0 ∨ geometry.normals.length = geometry.positions.length) ∧
  (∀ k : Nat, k < geometry.positions.length → (k : Int) ∈ geometry.indices)

/-- The state of a bucket between two polygons of the walk: it holds at most `n` distinct
vertices, its indices come in triangles, point to its vertices and reference all of them. -/
def bucketGood {F : Type} [Zero F] (uvs : List (vec2 F)) (normals : List (vec3 F)) (n : Nat)
    (perMat : per_material F) : Prop :=
  ∃ K, bucketInv uvs normals perMat K ∧ K.length ≤ n ∧
    perMat.geometry.indices.length % 3 = 0 ∧
    (∀ w, w ∈ perMat.geometry.indices → 0 ≤ w ∧ w < (K.length : Int)) ∧
    (∀ k : Nat, k < K.length → (k : Int) ∈ perMat.geometry.indices)

/-- The polygons of a stream whose corner counts are `sizes` and whose first polygon starts at
the corner `start`: the first corner and the corner count of each polygon, in stream order. -/
def facesFrom : Nat → List Nat → List (Nat × Nat)
  | _, [] => []
  | start, size :: sizes => (start, size) :: facesFrom (start + size) sizes

/-- The part of the body of the polygon walk behind the read `materialIndices[materialIndex++]`
(lines 1006-1026), for the polygon `step.1 = (firstIndex, faceSize)` and the material id `step.2`
that the read gave: a polygon of fewer than three corners is skipped, another one is
triangulated into the bucket of its material id. -/
def walkFace {F : Type} [DecidableEq F] [Zero F] (positions : List (vec3 F))
    (uvs : List (vec2 F)) (normals : List (vec3 F)) (materialToMesh : List (Int × per_material F))
    (step : (Nat × Nat) × Int) : Except fbx_error (List (Int × per_material F)) :=
  if step.1.2 < 3 then Except.ok materialToMesh
  else
    match triangulateFace positions uvs normals
        ((mapFind step.2 materialToMesh).getD per_material.empty) step.1.1 step.1.2 with
    | Except.error e => Except.error e
    | Except.ok perMat => Except.ok (mapSet step.2 perMat materialToMesh)

/-! ## Sample inputs -/

/-- The `Vertices` array of a unit quad: four control points. -/
def quadVertices : List Int := [0, 0, 0, 1, 0, 0, 1, 1, 0, 0, 1, 0]

/-- A by-polygon-vertex, direct UV layer with one UV per corner of a quad. -/
def quadUVLayer : geometry_data Int :=
  { data := [0, 0, 1, 0, 1, 1, 0, 1], indices := [],
    mapping := mapping_info.by_polygon_vertex, reference := reference_info.direct }

/-- An all-same material layer with the material index 0. -/
def allSameMaterialLayer : geometry_data Int :=
  { data := [0], indices := [], mapping := mapping_info.all_same,
    reference := reference_info.index_to_direct }

/-- An index stream over the quad with five polygons: a quad, a line, a pentagon, a triangle and
a point. -/
def mixedStream : List Int := [0, 1, 2, -4, 0, -2, 3, 2, 1, 0, -1, 1, 1, -2, -3]

/-- A by-polygon material layer for `mixedStream`. -/
def mixedMaterialLayer : geometry_data Int :=
  { data := [0, 1, 5, 5, 9], indices := [], mapping := mapping_info.by_polygon,
    reference := reference_info.index_to_direct }

/-- The meshes that `readMesh` builds for `mixedStream`. -/
def mixedMeshes : List (fbx_mesh Int) :=
  [{ id := 7, name := ⟨[81]⟩, materialIndex := 0,
     geometry := { positions := [⟨0, 0, 0⟩, ⟨1, 0, 0⟩, ⟨1, 1, 0⟩, ⟨0, 1, 0⟩], uvs := [],
                   normals := [], indices := [0, 1, 2, 0, 2, 3] } },
   { id := 7, name := ⟨[81]⟩, materialIndex := 5,
     geometry := { positions := [⟨0, 1, 0⟩, ⟨1, 1, 0⟩, ⟨1, 0, 0⟩, ⟨0, 0, 0⟩], uvs := [],
                   normals := [], indices := [0, 1, 2, 0, 2, 3, 0, 3, 3, 2, 2, 2] } }]

/-- The bucket of material 0 after the first polygon of `mixedStream`. -/
def quadBucket : per_material Int :=
  { vertexToIndex := [(⟨⟨0, 0, 0⟩, 0, 0⟩, 0), (⟨⟨1, 0, 0⟩, 0, 0⟩, 1), (⟨⟨1, 1, 0⟩, 0, 0⟩, 2),
      (⟨⟨0, 1, 0⟩, 0, 0⟩, 3)],
    geometry := { positions := [⟨0, 0, 0⟩, ⟨1, 0, 0⟩, ⟨1, 1, 0⟩, ⟨0, 1, 0⟩], uvs := [],
                  normals := [], indices := [0, 1, 2, 0, 2, 3] } }

/-- A buffer that holds a scalar `int32` property, an array of two bytes, a string of two bytes
and a property with the tag `X`. -/
def taggedProperties : List Nat :=
  [73, 1, 0, 0, 0] ++ [98, 2, 0, 0, 0, 0, 0, 0, 0, 2, 0, 0, 0, 1, 0] ++ [83, 2, 0, 0, 0, 79, 79]
    ++ [88]

/-- The bytes of a record header with `endOffset = 258`, `numProperties = 1`,
`propertyListLength = 5` and `nameLength = 4` in the layout of 25 bytes, followed by a byte. -/
def recordHeaderBytes : List Nat :=
  [2, 1, 0, 0, 0, 0, 0, 0, 1, 0, 0, 0, 0, 0, 0, 0, 5, 0, 0, 0, 0, 0, 0, 0, 4, 78]

/-- The bytes of a node named `N` with three properties: a string of length 0, the `int32` 1
and a raw property of length 0. -/
def zeroLengthBytes : List Nat :=
  [78] ++ [83, 0, 0, 0, 0] ++ [73, 1, 0, 0, 0] ++ [82, 0, 0, 0, 0]

/-- A buffer of 27 bytes whose byte 22 is not `0x00`. -/
def badSentinel : List Nat :=
  fbxMagic ++ [26, 1] ++ [0, 0, 0, 0]

/-- The bytes of the two `int32` values 1 and -2. -/
def int32ArrayBytes : List Nat := [1, 0, 0, 0, 254, 255, 255, 255]

/-- A container of version 7400 whose one node, named `N`, has no properties and declares the
end offset 100, while its empty child list ends at the offset 54. -/
def wrongEndOffset : List Nat :=
  fbxMagic ++ [26, 0] ++ le32 7400 ++ recordBytes 7400 100 0 0 1 ++ [78]
    ++ recordBytes 7400 0 0 0 0

/-- A mesh with the given id and no geometry. -/
def sampleMesh (id : Int) (materialIndex : Int) : fbx_mesh Int :=
  ⟨id, ⟨[]⟩, ⟨[], [], [], []⟩, materialIndex⟩

/-- A model with the given id and no meshes and materials. -/
def sampleModel (id : Int) : fbx_model Int :=
  ⟨id, ⟨[]⟩, ⟨0, 0, 0, 1⟩, ⟨0, 0, 0⟩, [], []⟩

/-- A material with the given id and no textures. -/
def sampleMaterial (id : Int) : fbx_material Int :=
  ⟨id, ⟨[]⟩, ⟨[]⟩, 0, ⟨0, 0, 0⟩, ⟨0, 0, 0⟩, 0, ⟨0, 0, 0⟩, 0, 0, 0, ⟨0, 0, 0⟩,
    none, none, none, none⟩

/-- A scene in which the id 1 is the id of a model and of a mesh; a material has the id 5. -/
def sharedIdScene : fbx_scene Int :=
  ⟨[sampleModel 1], [sampleMesh 1 0], [sampleMaterial 5], []⟩

/-- A scene with a model of id 1 and three meshes: one of id 10 and the two meshes of a
geometry of id 20 that was split by material. -/
def meshRunScene : fbx_scene Int :=
  ⟨[sampleModel 1], [sampleMesh 10 0, sampleMesh 20 0, sampleMesh 20 1], [], []⟩

/-- A scene with a material of id 5 and a texture of id 6. -/
def textureScene : fbx_scene Int :=
  ⟨[], [], [sampleMaterial 5], [⟨6, ⟨[]⟩, ⟨[]⟩, ⟨[]⟩⟩]⟩

/-- The node of a connection record, named `C`, whose properties start at position 0. -/
def connectionNode : fbx_node :=
  ⟨sized_string.ofLiteral "C", 0, noNode, noNode, noNode, 1, 0, 3⟩

/-- The bytes that the properties of a connection point to: the type, the two ids and the
slot. -/
def connectionBytes (type : String) (a b : Nat) (slot : String) : List Nat :=
  (sized_string.ofLiteral type).str ++ le64 a ++ le64 b ++ (sized_string.ofLiteral slot).str

/-- The properties of a connection whose type has two bytes and whose slot has `slotLength`
bytes, over the bytes of `connectionBytes`; a slot of length 0 has no property. -/
def connectionProperties (slotLength : Nat) : List fbx_property :=
  [⟨fbx_property_type.string, 0, 2, 2, 0⟩, ⟨fbx_property_type.int64, 0, 8, 1, 2⟩,
    ⟨fbx_property_type.int64, 0, 8, 1, 10⟩]
    ++ (if slotLength != 0 then [⟨fbx_property_type.string, 0, slotLength, slotLength, 18⟩]
      else [])

/-- The encoding of an `int32` array property with two elements (tag `i`, `arrayLength` 2,
`encoding` 0, `compressedLength` 8, the values 1 and 2), followed by one more byte. -/
def arrayPropertyBytes : List Nat :=
  [105, 2, 0, 0, 0, 0, 0, 0, 0, 8, 0, 0, 0, 1, 0, 0, 0, 2, 0, 0, 0, 73]

/-- A container of version 7400 whose only record declares the end offset 1. -/
def shortEndOffset : List Nat :=
  fbxMagic ++ [26, 0] ++ le32 7400 ++ recordBytes 7400 1 0 0 0

/-- A by-polygon material layer with four entries, one less than `mixedStream` has polygons. -/
def shortMaterialLayer : geometry_data Int :=
  { data := [0, 1, 5, 5], indices := [], mapping := mapping_info.by_polygon,
    reference := reference_info.index_to_direct }

/-- A buffer with two `int64` values (5 and 9) and two strings (`ab` and `xyz`). -/
def objectBytes : List Nat :=
  [5, 0, 0, 0, 0, 0, 0, 0, 97, 98, 9, 0, 0, 0, 0, 0, 0, 0, 120, 121, 122]

/-- A property array over `objectBytes`: the entries 1 to 4 are an `int64`, a string, an `int64`
and a string. -/
def objectProperties : List fbx_property :=
  [⟨fbx_property_type.int32, 0, 4, 1, 0⟩, ⟨fbx_property_type.int64, 0, 8, 1, 0⟩,
    ⟨fbx_property_type.string, 0, 2, 2, 8⟩, ⟨fbx_property_type.int64, 0, 8, 1, 10⟩,
    ⟨fbx_property_type.string, 0, 3, 3, 18⟩, ⟨fbx_property_type.int32, 0, 4, 1, 0⟩]

/-- A node with the entries 1 to 4 of `objectProperties`. -/
def objectNode : fbx_node :=
  { name := ⟨[77]⟩, parent := 0, next := noNode, firstChild := noNode, lastChild := noNode,
    level := 0, firstProperty := 1, numProperties := 4 }

/-- A container of version 7400 with one material of id 21 and name `MatB`: its child
`ShadingModel` holds the string `Phong`, and its child `Properties70` holds one record `P` with
the properties `"MultiLayer"`, `"bool"`, `""`, `""` and the `int32` value 0. -/
def materialFile : List Nat :=
  [75, 97, 121, 100, 97, 114, 97, 32, 70, 66, 88, 32, 66, 105, 110, 97, 114, 121, 32, 32, 0, 26,
    0, 232, 28, 0, 0, 238, 0, 0, 0, 0, 0, 0, 0, 0, 0, 0, 0, 7, 79, 98, 106, 101, 99, 116, 115, 225,
    0, 0, 0, 2, 0, 0, 0, 18, 0, 0, 0, 8, 77, 97, 116, 101, 114, 105, 97, 108, 76, 21, 0, 0, 0, 0,
    0, 0, 0, 83, 4, 0, 0, 0, 77, 97, 116, 66, 121, 0, 0, 0, 1, 0, 0, 0, 10, 0, 0, 0, 12, 83, 104,
    97, 100, 105, 110, 103, 77, 111, 100, 101, 108, 83, 5, 0, 0, 0, 80, 104, 111, 110, 103, 212, 0,
    0, 0, 0, 0, 0, 0, 0, 0, 0, 0, 12, 80, 114, 111, 112, 101, 114, 116, 105, 101, 115, 55, 48, 199,
    0, 0, 0, 5, 0, 0, 0, 39, 0, 0, 0, 1, 80, 83, 10, 0, 0, 0, 77, 117, 108, 116, 105, 76, 97, 121,
    101, 114, 83, 4, 0, 0, 0, 98, 111, 111, 108, 83, 0, 0, 0, 0, 83, 0, 0, 0, 0, 73, 0, 0, 0, 0, 0,
    0, 0, 0, 0, 0, 0, 0, 0, 0, 0, 0, 0, 0, 0, 0, 0, 0, 0, 0, 0, 0, 0, 0, 0, 0, 0, 0, 0, 0, 0, 0, 0,
    0, 0, 0, 0, 0, 0, 0, 0, 0, 0, 0, 0, 0, 0, 0, 0, 0, 0, 0]

/-- The nodes that the container decoder builds for `materialFile`. -/
def materialNodes : List fbx_node :=
  [{ rootNode with firstChild := 1, lastChild := 1 },
    ⟨sized_string.ofLiteral "Objects", 0, noNode, 2, 2, 0, 0, 0⟩,
    ⟨sized_string.ofLiteral "Material", 1, noNode, 3, 4, 1, 0, 2⟩,
    ⟨sized_string.ofLiteral "ShadingModel", 2, 4, noNode, noNode, 2, 2, 1⟩,
    ⟨sized_string.ofLiteral "Properties70", 2, noNode, 5, 5, 2, 3, 0⟩,
    ⟨sized_string.ofLiteral "P", 4, noNode, noNode, noNode, 3, 3, 3⟩]

/-- The properties that the container decoder builds for `materialFile`: the two strings of
length 0 of the record `P` have no entry. -/
def materialProperties : List fbx_property :=
  [⟨fbx_property_type.int64, 0, 8, 1, 69⟩, ⟨fbx_property_type.string, 0, 4, 4, 82⟩,
    ⟨fbx_property_type.string, 0, 5, 5, 116⟩, ⟨fbx_property_type.string, 0, 10, 10, 165⟩,
    ⟨fbx_property_type.string, 0, 4, 4, 180⟩, ⟨fbx_property_type.int32, 0, 4, 1, 195⟩]

/-- A container of version 7400 whose node `Objects` holds a geometry of id 7 (three control
points, the two triangles `0 1 2` and `0 2 1`, and a by-polygon material layer with the material
ids 0 and 1), a material of id 20 with the shading model `Phong`, and a texture of id 30. -/
def sceneFile : List Nat :=
  [75, 97, 121, 100, 97, 114, 97, 32, 70, 66, 88, 32, 66, 105, 110, 97, 114, 121, 32, 32, 0, 26,
    0, 232, 28, 0, 0, 139, 2, 0, 0, 0, 0, 0, 0, 0, 0, 0, 0, 7, 79, 98, 106, 101, 99, 116, 115, 214,
    1, 0, 0, 2, 0, 0, 0, 17, 0, 0, 0, 8, 71, 101, 111, 109, 101, 116, 114, 121, 76, 7, 0, 0, 0, 0,
    0, 0, 0, 83, 3, 0, 0, 0, 71, 101, 111, 191, 0, 0, 0, 1, 0, 0, 0, 85, 0, 0, 0, 8, 86, 101, 114,
    116, 105, 99, 101, 115, 100, 9, 0, 0, 0, 0, 0, 0, 0, 72, 0, 0, 0, 0, 0, 0, 0, 0, 0, 0, 0, 0, 0,
    0, 0, 0, 0, 0, 0, 0, 0, 0, 0, 0, 0, 0, 0, 0, 0, 0, 0, 0, 0, 240, 63, 0, 0, 0, 0, 0, 0, 0, 0, 0,
    0, 0, 0, 0, 0, 0, 0, 0, 0, 0, 0, 0, 0, 0, 0, 0, 0, 0, 0, 0, 0, 240, 63, 0, 0, 0, 0, 0, 0, 0, 0,
    3, 1, 0, 0, 1, 0, 0, 0, 37, 0, 0, 0, 18, 80, 111, 108, 121, 103, 111, 110, 86, 101, 114, 116,
    101, 120, 73, 110, 100, 101, 120, 105, 6, 0, 0, 0, 0, 0, 0, 0, 24, 0, 0, 0, 0, 0, 0, 0, 1, 0,
    0, 0, 253, 255, 255, 255, 0, 0, 0, 0, 2, 0, 0, 0, 254, 255, 255, 255, 201, 1, 0, 0, 1, 0, 0, 0,
    5, 0, 0, 0, 20, 76, 97, 121, 101, 114, 69, 108, 101, 109, 101, 110, 116, 77, 97, 116, 101, 114,
    105, 97, 108, 73, 0, 0, 0, 0, 90, 1, 0, 0, 1, 0, 0, 0, 14, 0, 0, 0, 22, 77, 97, 112, 112, 105,
    110, 103, 73, 110, 102, 111, 114, 109, 97, 116, 105, 111, 110, 84, 121, 112, 101, 83, 9, 0, 0,
    0, 66, 121, 80, 111, 108, 121, 103, 111, 110, 145, 1, 0, 0, 1, 0, 0, 0, 18, 0, 0, 0, 24, 82,
    101, 102, 101, 114, 101, 110, 99, 101, 73, 110, 102, 111, 114, 109, 97, 116, 105, 111, 110, 84,
    121, 112, 101, 83, 13, 0, 0, 0, 73, 110, 100, 101, 120, 84, 111, 68, 105, 114, 101, 99, 116,
    188, 1, 0, 0, 1, 0, 0, 0, 21, 0, 0, 0, 9, 77, 97, 116, 101, 114, 105, 97, 108, 115, 105, 2, 0,
    0, 0, 0, 0, 0, 0, 8, 0, 0, 0, 0, 0, 0, 0, 1, 0, 0, 0, 0, 0, 0, 0, 0, 0, 0, 0, 0, 0, 0, 0, 0, 0,
    0, 0, 0, 0, 0, 0, 0, 0, 0, 0, 0, 0, 45, 2, 0, 0, 2, 0, 0, 0, 18, 0, 0, 0, 8, 77, 97, 116, 101,
    114, 105, 97, 108, 76, 20, 0, 0, 0, 0, 0, 0, 0, 83, 4, 0, 0, 0, 77, 97, 116, 65, 32, 2, 0, 0,
    1, 0, 0, 0, 10, 0, 0, 0, 12, 83, 104, 97, 100, 105, 110, 103, 77, 111, 100, 101, 108, 83, 5, 0,
    0, 0, 80, 104, 111, 110, 103, 0, 0, 0, 0, 0, 0, 0, 0, 0, 0, 0, 0, 0, 126, 2, 0, 0, 2, 0, 0, 0,
    17, 0, 0, 0, 7, 84, 101, 120, 116, 117, 114, 101, 76, 30, 0, 0, 0, 0, 0, 0, 0, 83, 3, 0, 0, 0,
    84, 101, 120, 113, 2, 0, 0, 1, 0, 0, 0, 10, 0, 0, 0, 8, 70, 105, 108, 101, 78, 97, 109, 101,
    83, 5, 0, 0, 0, 97, 46, 112, 110, 103, 0, 0, 0, 0, 0, 0, 0, 0, 0, 0, 0, 0, 0, 0, 0, 0, 0, 0, 0,
    0, 0, 0, 0, 0, 0, 0, 0, 0, 0, 0, 0, 0, 0, 0, 0, 0, 0, 0, 0]

/-- The nodes that the container decoder builds for `sceneFile`. -/
def sceneNodes : List fbx_node :=
  [{ rootNode with firstChild := 1, lastChild := 1 },
    ⟨sized_string.ofLiteral "Objects", 0, noNode, 2, 11, 0, 0, 0⟩,
    ⟨sized_string.ofLiteral "Geometry", 1, 9, 3, 5, 1, 0, 2⟩,
    ⟨sized_string.ofLiteral "Vertices", 2, 4, noNode, noNode, 2, 2, 1⟩,
    ⟨sized_string.ofLiteral "PolygonVertexIndex", 2, 5, noNode, noNode, 2, 3, 1⟩,
    ⟨sized_string.ofLiteral "LayerElementMaterial", 2, noNode, 6, 8, 2, 4, 1⟩,
    ⟨sized_string.ofLiteral "MappingInformationType", 5, 7, noNode, noNode, 3, 5, 1⟩,
    ⟨sized_string.ofLiteral "ReferenceInformationType", 5, 8, noNode, noNode, 3, 6, 1⟩,
    ⟨sized_string.ofLiteral "Materials", 5, noNode, noNode, noNode, 3, 7, 1⟩,
    ⟨sized_string.ofLiteral "Material", 1, 11, 10, 10, 1, 8, 2⟩,
    ⟨sized_string.ofLiteral "ShadingModel", 9, noNode, noNode, noNode, 2, 10, 1⟩,
    ⟨sized_string.ofLiteral "Texture", 1, noNode, 12, 12, 1, 11, 2⟩,
    ⟨sized_string.ofLiteral "FileName", 11, noNode, noNode, noNode, 2, 13, 1⟩]

/-- The properties that the container decoder builds for `sceneFile`. -/
def sceneProperties : List fbx_property :=
  [⟨fbx_property_type.int64, 0, 8, 1, 69⟩, ⟨fbx_property_type.string, 0, 3, 3, 82⟩,
    ⟨fbx_property_type.double, 0, 72, 9, 119⟩, ⟨fbx_property_type.int32, 0, 24, 6, 235⟩,
    ⟨fbx_property_type.int32, 0, 4, 1, 293⟩, ⟨fbx_property_type.string, 0, 9, 9, 337⟩,
    ⟨fbx_property_type.string, 0, 13, 13, 388⟩, ⟨fbx_property_type.int32, 0, 8, 2, 436⟩,
    ⟨fbx_property_type.int64, 0, 8, 1, 492⟩, ⟨fbx_property_type.string, 0, 4, 4, 505⟩,
    ⟨fbx_property_type.string, 0, 5, 5, 539⟩, ⟨fbx_property_type.int64, 0, 8, 1, 578⟩,
    ⟨fbx_property_type.string, 0, 3, 3, 591⟩, ⟨fbx_property_type.string, 0, 5, 5, 620⟩]

/-- The material that `readMaterial` builds for the material node of `sceneFile`. -/
def sceneMaterial : fbx_material Int :=
  ⟨20, sized_string.ofLiteral "MatA", sized_string.ofLiteral "Phong", 0, 0, 0, 0, 0, 0, 0, 0, 0,
    none, none, none, none⟩

/-- The node `Objects` of `sceneFile`. -/
def sceneObjectsNode : fbx_node :=
  ⟨sized_string.ofLiteral "Objects", 0, noNode, 2, 11, 0, 0, 0⟩

/-- The children of the node `Objects` of `sceneFile`: a geometry, a material and a texture. -/
def sceneChildren : List fbx_node :=
  [⟨sized_string.ofLiteral "Geometry", 1, 9, 3, 5, 1, 0, 2⟩,
    ⟨sized_string.ofLiteral "Material", 1, 11, 10, 10, 1, 8, 2⟩,
    ⟨sized_string.ofLiteral "Texture", 1, noNode, 12, 12, 1, 11, 2⟩]

/-- The objects that `loadFBX` extracts from `sceneFile`, a double being given by its 64-bit
pattern: the geometry of id 7 yields one mesh for the material index 0 and one for the material
index 1. -/
def sceneObjects : fbx_scene Int :=
  { models := [],
    meshes :=
      [⟨7, sized_string.ofLiteral "Geo",
          ⟨[⟨0, 0, 0⟩, ⟨4607182418800017408, 0, 0⟩, ⟨0, 4607182418800017408, 0⟩], [], [],
            [0, 1, 2]⟩, 0⟩,
        ⟨7, sized_string.ofLiteral "Geo",
          ⟨[⟨0, 0, 0⟩, ⟨0, 4607182418800017408, 0⟩, ⟨4607182418800017408, 0, 0⟩], [], [],
            [0, 1, 2]⟩, 1⟩],
    materials := [sceneMaterial],
    textures := [⟨30, sized_string.ofLiteral "Tex", sized_string.ofLiteral "a.png", ⟨[]⟩⟩] }

/-- A container of version 7400 with the three top-level nodes `A`, `A` and `C`: the first node `A`
has no children, the second has the child `B`, and the node `C` has one `int32` property. -/
def twinFile : List Nat :=
  [75, 97, 121, 100, 97, 114, 97, 32, 70, 66, 88, 32, 66, 105, 110, 97, 114, 121, 32, 32, 0, 26,
    0, 232, 28, 0, 0, 41, 0, 0, 0, 0, 0, 0, 0, 0, 0, 0, 0, 1, 65, 82, 0, 0, 0, 0, 0, 0, 0, 0, 0, 0,
    0, 1, 65, 69, 0, 0, 0, 0, 0, 0, 0, 0, 0, 0, 0, 1, 66, 0, 0, 0, 0, 0, 0, 0, 0, 0, 0, 0, 0, 0,
    101, 0, 0, 0, 1, 0, 0, 0, 5, 0, 0, 0, 1, 67, 73, 1, 0, 0, 0, 0, 0, 0, 0, 0, 0, 0, 0, 0, 0, 0,
    0, 0]

/-- The node array that the container decoder builds from `twinFile`. -/
def twinNodes : List fbx_node :=
  [{ rootNode with firstChild := 1, lastChild := 4 },
    ⟨sized_string.ofLiteral "A", 0, 2, noNode, noNode, 0, 0, 0⟩,
    ⟨sized_string.ofLiteral "A", 0, 4, 3, 3, 0, 0, 0⟩,
    ⟨sized_string.ofLiteral "B", 2, noNode, noNode, noNode, 1, 0, 0⟩,
    ⟨sized_string.ofLiteral "C", 0, noNode, noNode, noNode, 0, 0, 1⟩]

/-- The property array that the container decoder builds from `twinFile`. -/
def twinProperties : List fbx_property :=
  [⟨fbx_property_type.int32, 0, 4, 1, 97⟩]

/-- A container of version 7400 whose node `Objects` holds two models.  The model of id 5 has the
node `Properties70` with the records `Lcl Rotation` (4, 5, 6), `Lcl Translation` (1, 2, 3) and
`Visibility`, each written with the four strings name, type, the empty string and `A` before the
doubles; the model of id 6 has no children. -/
def modelFile : List Nat :=
  [75, 97, 121, 100, 97, 114, 97, 32, 70, 66, 88, 32, 66, 105, 110, 97, 114, 121, 32, 32, 0, 26,
    0, 232, 28, 0, 0, 167, 1, 0, 0, 0, 0, 0, 0, 0, 0, 0, 0, 7, 79, 98, 106, 101, 99, 116, 115, 119,
    1, 0, 0, 2, 0, 0, 0, 17, 0, 0, 0, 5, 77, 111, 100, 101, 108, 76, 5, 0, 0, 0, 0, 0, 0, 0, 83, 3,
    0, 0, 0, 77, 100, 108, 106, 1, 0, 0, 0, 0, 0, 0, 0, 0, 0, 0, 12, 80, 114, 111, 112, 101, 114,
    116, 105, 101, 115, 55, 48, 193, 0, 0, 0, 7, 0, 0, 0, 72, 0, 0, 0, 1, 80, 83, 12, 0, 0, 0, 76,
    99, 108, 32, 82, 111, 116, 97, 116, 105, 111, 110, 83, 12, 0, 0, 0, 76, 99, 108, 32, 82, 111,
    116, 97, 116, 105, 111, 110, 83, 0, 0, 0, 0, 83, 1, 0, 0, 0, 65, 68, 0, 0, 0, 0, 0, 0, 16, 64,
    68, 0, 0, 0, 0, 0, 0, 20, 64, 68, 0, 0, 0, 0, 0, 0, 24, 64, 29, 1, 0, 0, 7, 0, 0, 0, 78, 0, 0,
    0, 1, 80, 83, 15, 0, 0, 0, 76, 99, 108, 32, 84, 114, 97, 110, 115, 108, 97, 116, 105, 111, 110,
    83, 15, 0, 0, 0, 76, 99, 108, 32, 84, 114, 97, 110, 115, 108, 97, 116, 105, 111, 110, 83, 0, 0,
    0, 0, 83, 1, 0, 0, 0, 65, 68, 0, 0, 0, 0, 0, 0, 240, 63, 68, 0, 0, 0, 0, 0, 0, 0, 64, 68, 0, 0,
    0, 0, 0, 0, 8, 64, 93, 1, 0, 0, 5, 0, 0, 0, 50, 0, 0, 0, 1, 80, 83, 10, 0, 0, 0, 86, 105, 115,
    105, 98, 105, 108, 105, 116, 121, 83, 10, 0, 0, 0, 86, 105, 115, 105, 98, 105, 108, 105, 116,
    121, 83, 0, 0, 0, 0, 83, 1, 0, 0, 0, 65, 68, 0, 0, 0, 0, 0, 0, 240, 63, 0, 0, 0, 0, 0, 0, 0, 0,
    0, 0, 0, 0, 0, 0, 0, 0, 0, 0, 0, 0, 0, 0, 0, 0, 0, 0, 154, 1, 0, 0, 2, 0, 0, 0, 17, 0, 0, 0, 5,
    77, 111, 100, 101, 108, 76, 6, 0, 0, 0, 0, 0, 0, 0, 83, 3, 0, 0, 0, 78, 117, 108, 0, 0, 0, 0,
    0, 0, 0, 0, 0, 0, 0, 0, 0, 0, 0, 0, 0, 0, 0, 0, 0, 0, 0, 0, 0, 0]

/-- The node array that the container decoder builds from `modelFile`. -/
def modelNodes : List fbx_node :=
  [{ rootNode with firstChild := 1, lastChild := 1 },
    ⟨sized_string.ofLiteral "Objects", 0, noNode, 2, 7, 0, 0, 0⟩,
    ⟨sized_string.ofLiteral "Model", 1, 7, 3, 3, 1, 0, 2⟩,
    ⟨sized_string.ofLiteral "Properties70", 2, noNode, 4, 6, 2, 2, 0⟩,
    ⟨sized_string.ofLiteral "P", 3, 5, noNode, noNode, 3, 2, 6⟩,
    ⟨sized_string.ofLiteral "P", 3, 6, noNode, noNode, 3, 8, 6⟩,
    ⟨sized_string.ofLiteral "P", 3, noNode, noNode, noNode, 3, 14, 4⟩,
    ⟨sized_string.ofLiteral "Model", 1, noNode, noNode, noNode, 1, 18, 2⟩]

/-- The property array that the container decoder builds from `modelFile`: the empty strings
have left no entry. -/
def modelProperties : List fbx_property :=
  [⟨fbx_property_type.int64, 0, 8, 1, 66⟩, ⟨fbx_property_type.string, 0, 3, 3, 79⟩,
    ⟨fbx_property_type.string, 0, 12, 12, 126⟩, ⟨fbx_property_type.string, 0, 12, 12, 143⟩,
    ⟨fbx_property_type.string, 0, 1, 1, 165⟩, ⟨fbx_property_type.double, 0, 8, 1, 167⟩,
    ⟨fbx_property_type.double, 0, 8, 1, 176⟩, ⟨fbx_property_type.double, 0, 8, 1, 185⟩,
    ⟨fbx_property_type.string, 0, 15, 15, 212⟩, ⟨fbx_property_type.string, 0, 15, 15, 232⟩,
    ⟨fbx_property_type.string, 0, 1, 1, 257⟩, ⟨fbx_property_type.double, 0, 8, 1, 259⟩,
    ⟨fbx_property_type.double, 0, 8, 1, 268⟩, ⟨fbx_property_type.double, 0, 8, 1, 277⟩,
    ⟨fbx_property_type.string, 0, 10, 10, 304⟩, ⟨fbx_property_type.string, 0, 10, 10, 319⟩,
    ⟨fbx_property_type.string, 0, 1, 1, 339⟩, ⟨fbx_property_type.double, 0, 8, 1, 341⟩,
    ⟨fbx_property_type.int64, 0, 8, 1, 394⟩, ⟨fbx_property_type.string, 0, 3, 3, 407⟩]

/-- A container of version 7400 whose node `Objects` holds a geometry of id 7 with one triangle
and without layer elements. -/
def geometryFile : List Nat :=
  [75, 97, 121, 100, 97, 114, 97, 32, 70, 66, 88, 32, 66, 105, 110, 97, 114, 121, 32, 32, 0, 26,
    0, 232, 28, 0, 0, 17, 1, 0, 0, 0, 0, 0, 0, 0, 0, 0, 0, 7, 79, 98, 106, 101, 99, 116, 115, 4, 1,
    0, 0, 2, 0, 0, 0, 17, 0, 0, 0, 8, 71, 101, 111, 109, 101, 116, 114, 121, 76, 7, 0, 0, 0, 0, 0,
    0, 0, 83, 3, 0, 0, 0, 71, 101, 111, 191, 0, 0, 0, 1, 0, 0, 0, 85, 0, 0, 0, 8, 86, 101, 114,
    116, 105, 99, 101, 115, 100, 9, 0, 0, 0, 0, 0, 0, 0, 72, 0, 0, 0, 0, 0, 0, 0, 0, 0, 0, 0, 0, 0,
    0, 0, 0, 0, 0, 0, 0, 0, 0, 0, 0, 0, 0, 0, 0, 0, 0, 0, 0, 0, 240, 63, 0, 0, 0, 0, 0, 0, 0, 0, 0,
    0, 0, 0, 0, 0, 0, 0, 0, 0, 0, 0, 0, 0, 0, 0, 0, 0, 0, 0, 0, 0, 240, 63, 0, 0, 0, 0, 0, 0, 0, 0,
    247, 0, 0, 0, 1, 0, 0, 0, 25, 0, 0, 0, 18, 80, 111, 108, 121, 103, 111, 110, 86, 101, 114, 116,
    101, 120, 73, 110, 100, 101, 120, 105, 3, 0, 0, 0, 0, 0, 0, 0, 12, 0, 0, 0, 0, 0, 0, 0, 1, 0,
    0, 0, 253, 255, 255, 255, 0, 0, 0, 0, 0, 0, 0, 0, 0, 0, 0, 0, 0, 0, 0, 0, 0, 0, 0, 0, 0, 0, 0,
    0, 0, 0, 0, 0, 0, 0, 0, 0, 0, 0, 0, 0, 0, 0, 0]

/-- The node array that the container decoder builds from `geometryFile`. -/
def geometryNodes : List fbx_node :=
  [{ rootNode with firstChild := 1, lastChild := 1 },
    ⟨sized_string.ofLiteral "Objects", 0, noNode, 2, 2, 0, 0, 0⟩,
    ⟨sized_string.ofLiteral "Geometry", 1, noNode, 3, 4, 1, 0, 2⟩,
    ⟨sized_string.ofLiteral "Vertices", 2, 4, noNode, noNode, 2, 2, 1⟩,
    ⟨sized_string.ofLiteral "PolygonVertexIndex", 2, noNode, noNode, noNode, 2, 3, 1⟩]

/-- The property array that the container decoder builds from `geometryFile`. -/
def geometryProperties : List fbx_property :=
  [⟨fbx_property_type.int64, 0, 8, 1, 69⟩, ⟨fbx_property_type.string, 0, 3, 3, 82⟩,
    ⟨fbx_property_type.double, 0, 72, 9, 119⟩, ⟨fbx_property_type.int32, 0, 12, 3, 235⟩]

/-- A container of version 7400 whose node `Objects` holds a model of id 8; the record
`Lcl Translation` of its node `Properties70` holds the `int32` value 1 where the X value is
expected. -/
def badModelFile : List Nat :=
  [75, 97, 121, 100, 97, 114, 97, 32, 70, 66, 88, 32, 66, 105, 110, 97, 114, 121, 32, 32, 0, 26,
    0, 232, 28, 0, 0, 234, 0, 0, 0, 0, 0, 0, 0, 0, 0, 0, 0, 7, 79, 98, 106, 101, 99, 116, 115, 221,
    0, 0, 0, 2, 0, 0, 0, 17, 0, 0, 0, 5, 77, 111, 100, 101, 108, 76, 8, 0, 0, 0, 0, 0, 0, 0, 83, 3,
    0, 0, 0, 66, 97, 100, 208, 0, 0, 0, 0, 0, 0, 0, 0, 0, 0, 0, 12, 80, 114, 111, 112, 101, 114,
    116, 105, 101, 115, 55, 48, 195, 0, 0, 0, 7, 0, 0, 0, 74, 0, 0, 0, 1, 80, 83, 15, 0, 0, 0, 76,
    99, 108, 32, 84, 114, 97, 110, 115, 108, 97, 116, 105, 111, 110, 83, 15, 0, 0, 0, 76, 99, 108,
    32, 84, 114, 97, 110, 115, 108, 97, 116, 105, 111, 110, 83, 0, 0, 0, 0, 83, 1, 0, 0, 0, 65, 73,
    1, 0, 0, 0, 68, 0, 0, 0, 0, 0, 0, 0, 64, 68, 0, 0, 0, 0, 0, 0, 8, 64, 0, 0, 0, 0, 0, 0, 0, 0,
    0, 0, 0, 0, 0, 0, 0, 0, 0, 0, 0, 0, 0, 0, 0, 0, 0, 0, 0, 0, 0, 0, 0, 0, 0, 0, 0, 0, 0, 0, 0, 0,
    0, 0, 0, 0, 0, 0, 0, 0, 0, 0, 0, 0]

/-- The node array that the container decoder builds from `badModelFile`. -/
def badModelNodes : List fbx_node :=
  [{ rootNode with firstChild := 1, lastChild := 1 },
    ⟨sized_string.ofLiteral "Objects", 0, noNode, 2, 2, 0, 0, 0⟩,
    ⟨sized_string.ofLiteral "Model", 1, noNode, 3, 3, 1, 0, 2⟩,
    ⟨sized_string.ofLiteral "Properties70", 2, noNode, 4, 4, 2, 2, 0⟩,
    ⟨sized_string.ofLiteral "P", 3, noNode, noNode, noNode, 3, 2, 6⟩]

/-- The property array that the container decoder builds from `badModelFile`. -/
def badModelProperties : List fbx_property :=
  [⟨fbx_property_type.int64, 0, 8, 1, 66⟩, ⟨fbx_property_type.string, 0, 3, 3, 79⟩,
    ⟨fbx_property_type.string, 0, 15, 15, 126⟩, ⟨fbx_property_type.string, 0, 15, 15, 146⟩,
    ⟨fbx_property_type.string, 0, 1, 1, 171⟩, ⟨fbx_property_type.int32, 0, 4, 1, 173⟩,
    ⟨fbx_property_type.double, 0, 8, 1, 178⟩, ⟨fbx_property_type.double, 0, 8, 1, 187⟩]

/-- A container of version 7400 whose node `Objects` holds a geometry of id 7 with one triangle
and a material layer whose `MappingInformationType` is `ByPolygonVertex`. -/
def layerFile : List Nat :=
  [75, 97, 121, 100, 97, 114, 97, 32, 70, 66, 88, 32, 66, 105, 110, 97, 114, 121, 32, 32, 0, 26,
    0, 232, 28, 0, 0, 217, 1, 0, 0, 0, 0, 0, 0, 0, 0, 0, 0, 7, 79, 98, 106, 101, 99, 116, 115, 204,
    1, 0, 0, 2, 0, 0, 0, 17, 0, 0, 0, 8, 71, 101, 111, 109, 101, 116, 114, 121, 76, 7, 0, 0, 0, 0,
    0, 0, 0, 83, 3, 0, 0, 0, 71, 101, 111, 191, 0, 0, 0, 1, 0, 0, 0, 85, 0, 0, 0, 8, 86, 101, 114,
    116, 105, 99, 101, 115, 100, 9, 0, 0, 0, 0, 0, 0, 0, 72, 0, 0, 0, 0, 0, 0, 0, 0, 0, 0, 0, 0, 0,
    0, 0, 0, 0, 0, 0, 0, 0, 0, 0, 0, 0, 0, 0, 0, 0, 0, 0, 0, 0, 240, 63, 0, 0, 0, 0, 0, 0, 0, 0, 0,
    0, 0, 0, 0, 0, 0, 0, 0, 0, 0, 0, 0, 0, 0, 0, 0, 0, 0, 0, 0, 0, 240, 63, 0, 0, 0, 0, 0, 0, 0, 0,
    247, 0, 0, 0, 1, 0, 0, 0, 25, 0, 0, 0, 18, 80, 111, 108, 121, 103, 111, 110, 86, 101, 114, 116,
    101, 120, 73, 110, 100, 101, 120, 105, 3, 0, 0, 0, 0, 0, 0, 0, 12, 0, 0, 0, 0, 0, 0, 0, 1, 0,
    0, 0, 253, 255, 255, 255, 191, 1, 0, 0, 1, 0, 0, 0, 5, 0, 0, 0, 20, 76, 97, 121, 101, 114, 69,
    108, 101, 109, 101, 110, 116, 77, 97, 116, 101, 114, 105, 97, 108, 73, 0, 0, 0, 0, 84, 1, 0, 0,
    1, 0, 0, 0, 20, 0, 0, 0, 22, 77, 97, 112, 112, 105, 110, 103, 73, 110, 102, 111, 114, 109, 97,
    116, 105, 111, 110, 84, 121, 112, 101, 83, 15, 0, 0, 0, 66, 121, 80, 111, 108, 121, 103, 111,
    110, 86, 101, 114, 116, 101, 120, 139, 1, 0, 0, 1, 0, 0, 0, 18, 0, 0, 0, 24, 82, 101, 102, 101,
    114, 101, 110, 99, 101, 73, 110, 102, 111, 114, 109, 97, 116, 105, 111, 110, 84, 121, 112, 101,
    83, 13, 0, 0, 0, 73, 110, 100, 101, 120, 84, 111, 68, 105, 114, 101, 99, 116, 178, 1, 0, 0, 1,
    0, 0, 0, 17, 0, 0, 0, 9, 77, 97, 116, 101, 114, 105, 97, 108, 115, 105, 1, 0, 0, 0, 0, 0, 0, 0,
    4, 0, 0, 0, 0, 0, 0, 0, 0, 0, 0, 0, 0, 0, 0, 0, 0, 0, 0, 0, 0, 0, 0, 0, 0, 0, 0, 0, 0, 0, 0, 0,
    0, 0, 0, 0, 0, 0, 0, 0, 0, 0, 0, 0, 0, 0, 0, 0, 0, 0, 0, 0, 0, 0, 0, 0, 0, 0, 0, 0]

/-- The node array that the container decoder builds from `layerFile`. -/
def layerNodes : List fbx_node :=
  [{ rootNode with firstChild := 1, lastChild := 1 },
    ⟨sized_string.ofLiteral "Objects", 0, noNode, 2, 2, 0, 0, 0⟩,
    ⟨sized_string.ofLiteral "Geometry", 1, noNode, 3, 5, 1, 0, 2⟩,
    ⟨sized_string.ofLiteral "Vertices", 2, 4, noNode, noNode, 2, 2, 1⟩,
    ⟨sized_string.ofLiteral "PolygonVertexIndex", 2, 5, noNode, noNode, 2, 3, 1⟩,
    ⟨sized_string.ofLiteral "LayerElementMaterial", 2, noNode, 6, 8, 2, 4, 1⟩,
    ⟨sized_string.ofLiteral "MappingInformationType", 5, 7, noNode, noNode, 3, 5, 1⟩,
    ⟨sized_string.ofLiteral "ReferenceInformationType", 5, 8, noNode, noNode, 3, 6, 1⟩,
    ⟨sized_string.ofLiteral "Materials", 5, noNode, noNode, noNode, 3, 7, 1⟩]

/-- The property array that the container decoder builds from `layerFile`. -/
def layerProperties : List fbx_property :=
  [⟨fbx_property_type.int64, 0, 8, 1, 69⟩, ⟨fbx_property_type.string, 0, 3, 3, 82⟩,
    ⟨fbx_property_type.double, 0, 72, 9, 119⟩, ⟨fbx_property_type.int32, 0, 12, 3, 235⟩,
    ⟨fbx_property_type.int32, 0, 4, 1, 281⟩, ⟨fbx_property_type.string, 0, 15, 15, 325⟩,
    ⟨fbx_property_type.string, 0, 13, 13, 382⟩, ⟨fbx_property_type.int32, 0, 4, 1, 430⟩]

/-- A stream whose last entry is not negative ends with unmarked corners: it is not empty. -/
def openStream : List Int := [0, 1, -3, 0, 1, 2]

/-- The control points of a quad, as the 64-bit patterns of their doubles: `(0, 0, 0)`,
`(1, 0, 0)`, `(1, 1, 0)` and `(1, 1 + 2^-52, 0)`; 4607182418800017408 is the pattern
`0x3FF0000000000000` of 1 and 4607182418800017409 the pattern of the next double,
`1 + 2^-52`. -/
def nearQuadVertices : List Nat :=
  [0, 0, 0, 4607182418800017408, 0, 0, 4607182418800017408, 4607182418800017408, 0,
    4607182418800017408, 4607182418800017409, 0]

/-- A read at a position that holds an element succeeds with that element. -/
theorem vecGet_eq_ok {α : Type} (v : List α) (i : Nat) (x : α) (h : v[i]? = some x) :
    vecGet v i = Except.ok x := by
  simp [vecGet, h]

/-- A write at a position inside the vector succeeds. -/
theorem vecSet_eq_ok {α : Type} (v : List α) (i : Nat) (x : α) (h : i < v.length) :
    vecSet v i x = Except.ok (v.set i x) := by
  simp [vecSet, h]

/-- For an index that is -1 or a position of `data`, `selectData` succeeds with the value
`scatteredValue` names. -/
theorem selectData_eq_ok {data_t : Type} [Zero data_t] (data : List data_t) (x : Int)
    (h : x = -1 ∨ (0 ≤ x ∧ x < data.length)) :
    ∃ v, selectData data x = Except.ok v ∧ scatteredValue data x = some v := by
  unfold selectData scatteredValue
  by_cases hx : x = -1
  · exact ⟨0, by simp [hx], by simp [hx]⟩
  · rcases h with h | ⟨h0, h1⟩
    · exact absurd h hx
    · have hlt : x.toNat < data.length := by omega
      refine ⟨data[x.toNat], ?_, ?_⟩
      · simp only [hx, if_false, vecGetI]
        rw [if_neg (by omega)]
        exact vecGet_eq_ok _ _ _ (List.getElem?_eq_getElem hlt)
      · simp [hx, List.getElem?_eq_getElem hlt]

/-- The inner scatter loop, when every slot it reads holds a corner index inside `result`,
succeeds, keeps the length, writes `out` at the corner indices of the slots and leaves every other
entry as it was. -/
theorem scatterLoop_spec {data_t : Type} (out : data_t) (originalToNewVertex : List Nat)
    (offset : Nat) (hlen : originalToNewVertex.length ≤ 4294967296) :
    ∀ (left j : Nat) (result : List data_t),
      (∀ t, t < left → ∃ c, originalToNewVertex[offset + (j + t)]? = some c ∧ c < result.length) →
      ∃ r, scatterLoop out originalToNewVertex offset left j result = Except.ok r ∧
        r.length = result.length ∧
        (∀ t c, t < left → originalToNewVertex[offset + (j + t)]? = some c → r[c]? = some out) ∧
        (∀ c, (∀ t, t < left → originalToNewVertex[offset + (j + t)]? ≠ some c) →
          r[c]? = result[c]?) := by
  intro left
  induction left with
  | zero =>
    intro j result _
    exact ⟨result, rfl, rfl, by intro t c ht; omega, by intro c _; rfl⟩
  | succ left ih =>
    intro j result h
    obtain ⟨c0, hc0, hc0lt⟩ := h 0 (by omega)
    have hin : offset + (j + 0) < originalToNewVertex.length := by
      by_contra hcon
      rw [List.getElem?_eq_none (by omega)] at hc0
      cases hc0
    have hmod : (j + offset) % 4294967296 = offset + (j + 0) := by
      rw [Nat.mod_eq_of_lt (by omega)]; omega
    have hstep : ∀ t, t < left → ∃ c, originalToNewVertex[offset + (j + 1 + t)]? = some c ∧
        c < (result.set c0 out).length := by
      intro t ht
      obtain ⟨c, hc, hclt⟩ := h (t + 1) (by omega)
      refine ⟨c, ?_, by simpa using hclt⟩
      have : offset + (j + 1 + t) = offset + (j + (t + 1)) := by omega
      rw [this]; exact hc
    obtain ⟨r, hr, hrlen, hrin, hrout⟩ := ih (j + 1) (result.set c0 out) hstep
    refine ⟨r, ?_, ?_, ?_, ?_⟩
    · simp only [scatterLoop]
      rw [hmod, vecGet_eq_ok _ _ _ hc0]
      simp only []
      rw [vecSet_eq_ok _ _ _ hc0lt]
      exact hr
    · simpa using hrlen
    · intro t c ht hc
      by_cases hex : ∃ t', t' < left ∧ originalToNewVertex[offset + (j + 1 + t')]? = some c
      · obtain ⟨t', ht', hc'⟩ := hex
        exact hrin t' c ht' hc'
      · have hno : ∀ t', t' < left → originalToNewVertex[offset + (j + 1 + t')]? ≠ some c := by
          intro t' ht' hc'
          exact hex ⟨t', ht', hc'⟩
        rw [hrout c hno]
        cases t with
        | zero =>
          rw [hc0] at hc
          cases hc
          simp [List.getElem?_set, hc0lt]
        | succ t =>
          exfalso
          apply hno t (by omega)
          have : offset + (j + 1 + t) = offset + (j + (t + 1)) := by omega
          rw [this]; exact hc
    · intro c hc
      have hno : ∀ t', t' < left → originalToNewVertex[offset + (j + 1 + t')]? ≠ some c := by
        intro t' ht'
        have := hc (t' + 1) (by omega)
        have he : offset + (j + 1 + t') = offset + (j + (t' + 1)) := by omega
        rw [he]; exact this
      rw [hrout c hno]
      have hne : c0 ≠ c := by
        intro heq
        apply hc 0 (by omega)
        rw [hc0, heq]
      simp [List.getElem?_set, hne]

/-- The outer loop of the by-vertex, index-to-direct branch, for groups that share no corner
index: every corner index of a group receives the value of its control point, all other entries
are left as they were. -/
theorem byVertexIndexLoop_spec {data_t : Type} [Zero data_t] (data : List data_t)
    (vertexOffsetCounts : List offset_count) (originalToNewVertex : List Nat)
    (hlen : originalToNewVertex.length ≤ 4294967296) :
    ∀ (rest : List Int) (i : Nat) (result : List data_t),
      (∀ x, x ∈ rest → x = -1 ∨ (0 ≤ x ∧ x < data.length)) →
      (∀ k, k < rest.length → ∃ oc, vertexOffsetCounts[i + k]? = some oc) →
      (∀ k oc j, k < rest.length → vertexOffsetCounts[i + k]? = some oc → j < oc.count →
        ∃ c, originalToNewVertex[oc.offset + j]? = some c ∧ c < result.length) →
      (∀ k k' oc oc' j j', k < rest.length → k' < rest.length → k ≠ k' →
        vertexOffsetCounts[i + k]? = some oc → vertexOffsetCounts[i + k']? = some oc' →
        j < oc.count → j' < oc'.count →
        originalToNewVertex[oc.offset + j]? ≠ originalToNewVertex[oc'.offset + j']?) →
      ∃ r, byVertexIndexLoop data vertexOffsetCounts originalToNewVertex rest i result
          = Except.ok r ∧
        r.length = result.length ∧
        (∀ k x oc j c, rest[k]? = some x → vertexOffsetCounts[i + k]? = some oc → j < oc.count →
          originalToNewVertex[oc.offset + j]? = some c → r[c]? = scatteredValue data x) ∧
        (∀ c, (∀ k oc j, k < rest.length → vertexOffsetCounts[i + k]? = some oc → j < oc.count →
          originalToNewVertex[oc.offset + j]? ≠ some c) → r[c]? = result[c]?) := by
  intro rest
  induction rest with
  | nil =>
    intro i result _ _ _ _
    refine ⟨result, rfl, rfl, ?_, ?_⟩
    · intro k x oc j c hk
      simp at hk
    · intro c _; rfl
  | cons x rest ih =>
    intro i result hvalid hvoc hslot hdisj
    obtain ⟨v, hv, hsv⟩ := selectData_eq_ok data x (hvalid x (List.mem_cons_self _ _))
    obtain ⟨oc0, hoc0⟩ := hvoc 0 (by simp)
    have hoc0' : vertexOffsetCounts[i]? = some oc0 := by simpa using hoc0
    have hslot0 : ∀ t, t < oc0.count →
        ∃ c, originalToNewVertex[oc0.offset + (0 + t)]? = some c ∧ c < result.length := by
      intro t ht
      obtain ⟨c, hc, hclt⟩ := hslot 0 oc0 t (by simp) hoc0 ht
      exact ⟨c, by simpa using hc, hclt⟩
    obtain ⟨r1, hr1, hr1len, hr1in, hr1out⟩ :=
      scatterLoop_spec v originalToNewVertex oc0.offset hlen oc0.count 0 result hslot0
    have e1 : ∀ k, i + 1 + k = i + (k + 1) := by intro k; omega
    obtain ⟨r, hr, hrlen, hrin, hrout⟩ := ih (i + 1) r1
      (fun y hy => hvalid y (List.mem_cons_of_mem _ hy))
      (by
        intro k hk
        rw [e1]
        exact hvoc (k + 1) (by simpa using hk))
      (by
        intro k oc j hk hoc hj
        rw [e1] at hoc
        rw [hr1len]
        exact hslot (k + 1) oc j (by simpa using hk) hoc hj)
      (by
        intro k k' oc oc' j j' hk hk' hne hoc hoc' hj hj'
        rw [e1] at hoc hoc'
        exact hdisj (k + 1) (k' + 1) oc oc' j j' (by simpa using hk) (by simpa using hk')
          (by omega) hoc hoc' hj hj')
    refine ⟨r, ?_, ?_, ?_, ?_⟩
    · simp only [byVertexIndexLoop]
      rw [hv]
      simp only []
      rw [vecGet_eq_ok _ _ _ hoc0']
      simp only []
      rw [hr1]
      exact hr
    · rw [hrlen, hr1len]
    · intro k y oc j c hy hoc hj hc
      cases k with
      | zero =>
        simp only [List.getElem?_cons_zero, Option.some.injEq] at hy
        subst hy
        rw [Nat.add_zero, hoc0'] at hoc
        cases hoc
        have hun : r[c]? = r1[c]? := by
          apply hrout
          intro k' oc' j' hk' hoc' hj' hc'
          rw [e1] at hoc'
          apply hdisj 0 (k' + 1) oc0 oc' j j' (by simp) (by simpa using hk') (by omega) hoc0
            hoc' hj hj'
          rw [hc, hc']
        rw [hun, hsv]
        exact hr1in j c hj (by simpa using hc)
      | succ k =>
        simp only [List.getElem?_cons_succ] at hy
        rw [← e1] at hoc
        exact hrin k y oc j c hy hoc hj hc
    · intro c hc
      have h1 : r[c]? = r1[c]? := by
        apply hrout
        intro k oc j hk hoc hj
        rw [e1] at hoc
        exact hc (k + 1) oc j (by simpa using hk) hoc hj
      rw [h1]
      apply hr1out
      intro t ht
      have := hc 0 oc0 t (by simp) hoc0 ht
      simpa using this

/-! ## Attribute mapping -/

/-- C8: with by-polygon-vertex mapping and direct reference, an attribute array whose length
equals `numVertices` is returned unchanged, whatever the index array and the offset/count and
slot tables are. -/
theorem mapDataToVertices_by_polygon_vertex_direct {data_t : Type} [Zero data_t]
    (data : List data_t) (dataIndices : List Int) (vertexOffsetCounts : List offset_count)
    (originalToNewVertex : List Nat) (numVertices : Nat) (h : data.length = numVertices) :
    mapDataToVertices data dataIndices mapping_info.by_polygon_vertex reference_info.direct
      vertexOffsetCounts originalToNewVertex numVertices = Except.ok data := by
  simp [mapDataToVertices, ASSERT, h]

/-- C8 at a sample input: a UV array of three entries, with arbitrary index array and tables. -/
theorem mapDataToVertices_by_polygon_vertex_direct_witness :
    mapDataToVertices ([⟨1, 2⟩, ⟨3, 4⟩, ⟨5, 6⟩] : List (vec2 Int)) [7, -1]
      mapping_info.by_polygon_vertex reference_info.direct [⟨5, 9⟩] [4, 4, 0] 3
      = Except.ok [⟨1, 2⟩, ⟨3, 4⟩, ⟨5, 6⟩] :=
  mapDataToVertices_by_polygon_vertex_direct _ _ _ _ 3 (by decide)

/-- C9: with by-vertex mapping and index-to-direct reference, an index array with one entry per
control point (each -1 or a position of `data`), group slots that lie in `originalToNewVertex`
and hold corner indices below `numVertices`, and groups of different control points that share
no corner index, the result has length `numVertices`, holds at every corner index of the group
of control point `i` the value `data[dataIndices[i]]` (zero for the index -1), and holds the zero
value at every corner index that lies in no group. -/
theorem mapDataToVertices_by_vertex_index_to_direct {data_t : Type} [Zero data_t]
    (data : List data_t) (dataIndices : List Int) (vertexOffsetCounts : List offset_count)
    (originalToNewVertex : List Nat) (numVertices : Nat)
    (hsize : dataIndices.length = vertexOffsetCounts.length)
    (hlen : originalToNewVertex.length ≤ 4294967296)
    (hvalid : ∀ x, x ∈ dataIndices → x = -1 ∨ (0 ≤ x ∧ x < data.length))
    (hslot : ∀ (i : Nat) (oc : offset_count) (j : Nat),
      vertexOffsetCounts[i]? = some oc → j < oc.count →
      ∃ c, originalToNewVertex[oc.offset + j]? = some c ∧ c < numVertices)
    (hdisj : ∀ (i i' : Nat) (oc oc' : offset_count) (j j' : Nat), i ≠ i' →
      vertexOffsetCounts[i]? = some oc → vertexOffsetCounts[i']? = some oc' →
      j < oc.count → j' < oc'.count →
      originalToNewVertex[oc.offset + j]? ≠ originalToNewVertex[oc'.offset + j']?) :
    ∃ result, mapDataToVertices data dataIndices mapping_info.by_vertex
        reference_info.index_to_direct vertexOffsetCounts originalToNewVertex numVertices
          = Except.ok result ∧
      result.length = numVertices ∧
      (∀ (i : Nat) (x : Int) (oc : offset_count) (j c : Nat),
        dataIndices[i]? = some x → vertexOffsetCounts[i]? = some oc →
        j < oc.count → originalToNewVertex[oc.offset + j]? = some c →
        result[c]? = scatteredValue data x) ∧
      (∀ c, c < numVertices →
        (∀ (i : Nat) (oc : offset_count) (j : Nat),
          vertexOffsetCounts[i]? = some oc → j < oc.count →
          originalToNewVertex[oc.offset + j]? ≠ some c) →
        result[c]? = some 0) := by
  obtain ⟨r, hr, hrlen, hrin, hrout⟩ :=
    byVertexIndexLoop_spec data vertexOffsetCounts originalToNewVertex hlen dataIndices 0
      (List.replicate numVertices 0) hvalid
      (by
        intro k hk
        rw [Nat.zero_add]
        have hk1 : k < vertexOffsetCounts.length := by omega
        exact ⟨vertexOffsetCounts[k], List.getElem?_eq_getElem hk1⟩)
      (by
        intro k oc j _ hoc hj
        rw [Nat.zero_add] at hoc
        simpa using hslot k oc j hoc hj)
      (by
        intro k k' oc oc' j j' _ _ hne hoc hoc' hj hj'
        rw [Nat.zero_add] at hoc hoc'
        exact hdisj k k' oc oc' j j' hne hoc hoc' hj hj')
  refine ⟨r, ?_, by simpa using hrlen, ?_, ?_⟩
  · simp only [mapDataToVertices, ASSERT, hsize, beq_self_eq_true, if_true]
    exact hr
  · intro i x oc j c hx hoc hj hc
    exact hrin i x oc j c hx (by rw [Nat.zero_add]; exact hoc) hj hc
  · intro c hc hno
    rw [hrout c (by
      intro k oc j _ hoc hj
      rw [Nat.zero_add] at hoc
      exact hno k oc j hoc hj)]
    simp [List.getElem?_replicate, hc]

/-- C9 at a sample input: three control points whose groups hold the corner indices 0 and 3,
then 1, then 2, among five corners. -/
theorem mapDataToVertices_by_vertex_index_to_direct_witness :
    ∃ result, mapDataToVertices ([10, 20, 30] : List Int) [2, -1, 0] mapping_info.by_vertex
        reference_info.index_to_direct [⟨0, 2⟩, ⟨2, 1⟩, ⟨3, 1⟩] [0, 3, 1, 2] 5
          = Except.ok result ∧
      result.length = 5 ∧
      (∀ (i : Nat) (x : Int) (oc : offset_count) (j c : Nat),
        ([2, -1, 0] : List Int)[i]? = some x →
        ([⟨0, 2⟩, ⟨2, 1⟩, ⟨3, 1⟩] : List offset_count)[i]? = some oc →
        j < oc.count → ([0, 3, 1, 2] : List Nat)[oc.offset + j]? = some c →
        result[c]? = scatteredValue ([10, 20, 30] : List Int) x) ∧
      (∀ c, c < 5 →
        (∀ (i : Nat) (oc : offset_count) (j : Nat),
          ([⟨0, 2⟩, ⟨2, 1⟩, ⟨3, 1⟩] : List offset_count)[i]? = some oc → j < oc.count →
          ([0, 3, 1, 2] : List Nat)[oc.offset + j]? ≠ some c) →
        result[c]? = some 0) :=
  mapDataToVertices_by_vertex_index_to_direct [10, 20, 30] [2, -1, 0]
    [⟨0, 2⟩, ⟨2, 1⟩, ⟨3, 1⟩] [0, 3, 1, 2] 5 (by decide) (by decide)
    (by decide)
    (by
      intro i oc j hoc hj
      have hi : i < 3 := by
        by_contra hc
        rw [List.getElem?_eq_none (by simpa using hc)] at hoc
        cases hoc
      interval_cases i <;>
        simp only [List.getElem?_cons_zero, List.getElem?_cons_succ,
          Option.some.injEq] at hoc <;>
        subst hoc <;> simp only [] at hj <;> interval_cases j <;> simp)
    (by
      intro i i' oc oc' j j' hne hoc hoc' hj hj'
      have hi : i < 3 := by
        by_contra hc
        rw [List.getElem?_eq_none (by simpa using hc)] at hoc
        cases hoc
      have hi' : i' < 3 := by
        by_contra hc
        rw [List.getElem?_eq_none (by simpa using hc)] at hoc'
        cases hoc'
      interval_cases i <;> interval_cases i' <;>
        simp only [List.getElem?_cons_zero, List.getElem?_cons_succ,
          Option.some.injEq] at hoc hoc' <;>
        subst hoc <;> subst hoc' <;> simp only [] at hj hj' <;>
        first
          | exact absurd rfl hne
          | (interval_cases j <;> interval_cases j' <;> decide))

/-- The test `flags & mesh_flag_load_uvs` is false for every flag word, since the enumerator is 0.
-/
theorem flagSet_load_uvs (flags : Nat) : flagSet flags mesh_flags.mesh_flag_load_uvs = false := by
  simp [flagSet, mesh_flags.val]

/-- The UV block of `readMesh` leaves `uvs` empty, whatever the flags and the UV layer are. -/
theorem readUVs_eq_ok_nil {D F : Type} [Zero F] (toFloat : D → F) (flags : Nat)
    (uvLayer : geometry_data D) (vertexOffsetCounts : List offset_count)
    (originalToNewVertex : List Nat) (numVertices : Nat) :
    readUVs toFloat flags uvLayer vertexOffsetCounts originalToNewVertex numVertices
      = Except.ok [] := by
  simp [readUVs, flagSet_load_uvs]

/-- C10 fails as stated: on a by-polygon UV array `mapDataToVertices` does not produce an error,
for either reference mode. -/
theorem by_polygon_is_not_an_error :
    ¬ ((∃ e, mapDataToVertices ([⟨1, 2⟩] : List (vec2 Int)) [] mapping_info.by_polygon
          reference_info.direct [⟨0, 1⟩] [0] 1 = Except.error e) ∨
       (∃ e, mapDataToVertices ([⟨1, 2⟩] : List (vec2 Int)) [] mapping_info.by_polygon
          reference_info.index_to_direct [⟨0, 1⟩] [0] 1 = Except.error e)) := by
  simp [mapDataToVertices]

/-- Without a normal layer the normal block leaves `normals` empty. -/
theorem readNormals_absent {D F : Type} [Zero F] (toFloat : D → F) (flags : Nat)
    (vertexOffsetCounts : List offset_count) (originalToNewVertex : List Nat)
    (numVertices : Nat) :
    readNormals toFloat flags (geometry_data.absent : geometry_data D) vertexOffsetCounts
      originalToNewVertex numVertices = (Except.ok [] : Except fbx_error (List (vec3 F))) := by
  unfold readNormals
  by_cases hf : flagSet flags mesh_flags.mesh_flag_load_normals = true
  · simp [hf, geometry_data.absent, ASSERT]
  · simp [hf]

/-- A by-polygon normal layer whose raw length is a multiple of 3 leaves `normals` empty. -/
theorem readNormals_by_polygon {D F : Type} [Zero F] (toFloat : D → F) (flags : Nat)
    (normalLayer : geometry_data D) (vertexOffsetCounts : List offset_count)
    (originalToNewVertex : List Nat) (numVertices : Nat)
    (hmap : normalLayer.mapping = mapping_info.by_polygon)
    (hlen : normalLayer.data.length % 3 = 0) :
    readNormals toFloat flags normalLayer vertexOffsetCounts originalToNewVertex numVertices
      = (Except.ok [] : Except fbx_error (List (vec3 F))) := by
  unfold readNormals
  by_cases hf : flagSet flags mesh_flags.mesh_flag_load_normals = true
  · by_cases h0 : normalLayer.data.length = 0
    · simp [hf, ASSERT, hlen, h0]
    · simp [hf, ASSERT, hlen, h0, hmap, mapDataToVertices]
  · simp [hf]

/-- C10, amended: with by-polygon mapping `mapDataToVertices` returns the empty array, a value and
not an error, for either reference mode and whatever its other arguments are; so a UV or normal
layer declared by-polygon whose raw array passes the length assertion does not abort the mesh
decode: the UV block and the normal block of `readMesh` yield an empty attribute array, and
`readMesh` does what it does for a geometry without that layer. -/
theorem mapDataToVertices_by_polygon_empty {D F : Type} [DecidableEq F] [Zero F]
    (toFloat : D → F)
    (reference : reference_info) (vertexOffsetCounts : List offset_count)
    (originalToNewVertex : List Nat) (numVertices : Nat) :
    (∀ (data_t : Type) (_ : Zero data_t) (data : List data_t) (dataIndices : List Int),
      mapDataToVertices data dataIndices mapping_info.by_polygon reference vertexOffsetCounts
        originalToNewVertex numVertices = Except.ok []) ∧
    (∀ (flags : Nat) (uvLayer : geometry_data D),
      uvLayer.mapping = mapping_info.by_polygon → uvLayer.data.length % 2 = 0 →
      readUVs toFloat flags uvLayer vertexOffsetCounts originalToNewVertex numVertices
        = Except.ok []) ∧
    (∀ (flags : Nat) (normalLayer : geometry_data D),
      normalLayer.mapping = mapping_info.by_polygon → normalLayer.data.length % 3 = 0 →
      readNormals toFloat flags normalLayer vertexOffsetCounts originalToNewVertex numVertices
        = Except.ok []) ∧
    (∀ (id : Int) (name : sized_string) (originalPositionsRaw : List D)
        (originalIndices : List Int) (uvLayer normalLayer : geometry_data D)
        (materialLayer : geometry_data Int) (flags : Nat) (outMeshes : List (fbx_mesh F)),
      uvLayer.mapping = mapping_info.by_polygon → uvLayer.data.length % 2 = 0 →
      normalLayer.mapping = mapping_info.by_polygon → normalLayer.data.length % 3 = 0 →
      readMesh toFloat id name originalPositionsRaw originalIndices uvLayer normalLayer
          materialLayer flags outMeshes
        = readMesh toFloat id name originalPositionsRaw originalIndices geometry_data.absent
            geometry_data.absent materialLayer flags outMeshes) := by
  refine ⟨?_, ?_, ?_, ?_⟩
  · intro data_t _ data dataIndices
    rfl
  · intro flags uvLayer _ _
    exact readUVs_eq_ok_nil toFloat flags uvLayer _ _ _
  · intro flags normalLayer hmap hlen
    exact readNormals_by_polygon toFloat flags normalLayer _ _ _ hmap hlen
  · intro id name originalPositionsRaw originalIndices uvLayer normalLayer materialLayer flags
      outMeshes _ _ hmap hlen
    unfold readMesh
    simp only [readUVs_eq_ok_nil, readNormals_absent,
      fun voc o2n n => readNormals_by_polygon toFloat flags normalLayer voc o2n n hmap hlen]

/-- C10, amended, at sample inputs: by-polygon UV and normal layers on the mixed stream. -/
theorem mapDataToVertices_by_polygon_empty_witness :
    (2 : Nat) % 2 = 0 ∧ (3 : Nat) % 3 = 0 ∧
    readUVs (fun d : Int => d) loadFBX_flags
      ⟨[1, 2], [], mapping_info.by_polygon, reference_info.direct⟩ [⟨0, 1⟩] [0] 1
        = Except.ok [] ∧
    readNormals (fun d : Int => d) loadFBX_flags
      ⟨[1, 2, 3], [], mapping_info.by_polygon, reference_info.direct⟩ [⟨0, 1⟩] [0] 1
        = Except.ok [] ∧
    readMesh (fun d : Int => d) 7 ⟨[81]⟩ quadVertices mixedStream
        ⟨[1, 2], [], mapping_info.by_polygon, reference_info.direct⟩
        ⟨[1, 2, 3], [], mapping_info.by_polygon, reference_info.direct⟩
        mixedMaterialLayer loadFBX_flags []
      = readMesh (fun d : Int => d) 7 ⟨[81]⟩ quadVertices mixedStream geometry_data.absent
          geometry_data.absent mixedMaterialLayer loadFBX_flags [] :=
  ⟨by decide, by decide,
    (mapDataToVertices_by_polygon_empty (fun d : Int => d) reference_info.direct
      [⟨0, 1⟩] [0] 1).2.1 loadFBX_flags ⟨[1, 2], [], mapping_info.by_polygon,
        reference_info.direct⟩ rfl (by decide),
    (mapDataToVertices_by_polygon_empty (fun d : Int => d) reference_info.direct
      [⟨0, 1⟩] [0] 1).2.2.1 loadFBX_flags ⟨[1, 2, 3], [], mapping_info.by_polygon,
        reference_info.direct⟩ rfl (by decide),
    (mapDataToVertices_by_polygon_empty (fun d : Int => d) reference_info.direct
      [⟨0, 1⟩] [0] 1).2.2.2 7 ⟨[81]⟩ quadVertices mixedStream
        ⟨[1, 2], [], mapping_info.by_polygon, reference_info.direct⟩
        ⟨[1, 2, 3], [], mapping_info.by_polygon, reference_info.direct⟩
        mixedMaterialLayer loadFBX_flags [] rfl (by decide) rfl (by decide)⟩

/-! ## Buckets -/

/-- The cast `(int32)n` is exact below `2^31`. -/
theorem toInt32_of_lt (n : Nat) (h : n < 2147483648) : toInt32 n = (n : Int) := by
  unfold toInt32
  have h1 : n % 4294967296 = n := Nat.mod_eq_of_lt (by omega)
  rw [h1, if_pos h]

/-- Lookup in two tables one after the other. -/
theorem mapFind_append {κ ν : Type} [DecidableEq κ] (key : κ) (l₁ l₂ : List (κ × ν)) :
    mapFind key (l₁ ++ l₂) = (mapFind key l₁).orElse (fun _ => mapFind key l₂) := by
  induction l₁ with
  | nil => simp [mapFind]
  | cons p l₁ ih =>
    obtain ⟨k, v⟩ := p
    by_cases h : k = key
    · simp [mapFind, h]
    · simp [mapFind, h, ih]

/-- Numbering a list with one more vertex at its end. -/
theorem indexedFrom_append {κ : Type} (K : List κ) (v : κ) :
    ∀ start, indexedFrom start (K ++ [v]) = indexedFrom start K ++ [(v, toInt32 (start + K.length))] := by
  induction K with
  | nil => intro start; simp [indexedFrom]
  | cons a K ih =>
    intro start
    have e : start + 1 + K.length = start + (K.length + 1) := by omega
    show indexedFrom start (a :: (K ++ [v])) = indexedFrom start (a :: K) ++ _
    simp only [indexedFrom, ih, List.length_cons, List.cons_append, e]

/-- A vertex is missing from the numbered table exactly when it is not in the list. -/
theorem mapFind_indexedFrom_none {κ : Type} [DecidableEq κ] (key : κ) (K : List κ) :
    ∀ start, mapFind key (indexedFrom start K) = none ↔ key ∉ K := by
  induction K with
  | nil => intro start; simp [indexedFrom, mapFind]
  | cons a K ih =>
    intro start
    by_cases h : a = key
    · simp [indexedFrom, mapFind, h]
    · have h' : ¬ key = a := fun e => h e.symm
      simp [indexedFrom, mapFind, h, h', ih]

/-- A lookup in the numbered table returns the number of a place that holds the vertex. -/
theorem mapFind_indexedFrom_some {κ : Type} [DecidableEq κ] (key : κ) (K : List κ) :
    ∀ start x, mapFind key (indexedFrom start K) = some x →
      ∃ k, K[k]? = some key ∧ x = toInt32 (start + k) := by
  induction K with
  | nil => intro start x h; simp [indexedFrom, mapFind] at h
  | cons a K ih =>
    intro start x h
    by_cases ha : a = key
    · simp only [indexedFrom, mapFind, ha, if_true, Option.some.injEq] at h
      exact ⟨0, by simp [ha], by simp [h]⟩
    · simp only [indexedFrom, mapFind, ha, if_false] at h
      obtain ⟨k, hk, hx⟩ := ih (start + 1) x h
      refine ⟨k + 1, by simpa using hk, ?_⟩
      rw [hx]
      congr 1
      omega

/-- Reading back the three buffers built from a vertex list gives the list. -/
theorem zipVertices_of_inv {F : Type} [Zero F] (uvsEmpty normalsEmpty : Bool)
    (K : List (full_vertex F))
    (hu : uvsEmpty = true → ∀ v, v ∈ K → v.uv = 0)
    (hn : normalsEmpty = true → ∀ v, v ∈ K → v.normal = 0) :
    zipVertices (K.map (fun v => v.position))
      (if uvsEmpty then [] else K.map (fun v => v.uv))
      (if normalsEmpty then [] else K.map (fun v => v.normal)) = K := by
  induction K with
  | nil => simp [zipVertices]
  | cons a K ih =>
    have ih' := ih (fun h v hv => hu h v (List.mem_cons_of_mem _ hv))
      (fun h v hv => hn h v (List.mem_cons_of_mem _ hv))
    cases uvsEmpty <;> cases normalsEmpty
    · simpa [zipVertices] using ih'
    · have h1 := hn rfl a (List.mem_cons_self _ _)
      simp only [zipVertices, List.map_cons, if_true, Bool.false_eq_true, if_false,
        List.headD_cons, List.tail_cons, List.headD_nil, List.tail_nil]
      simp only [Bool.false_eq_true, if_false, if_true] at ih'
      rw [ih', ← h1]
    · have h1 := hu rfl a (List.mem_cons_self _ _)
      simp only [zipVertices, List.map_cons, if_true, Bool.false_eq_true, if_false,
        List.headD_cons, List.tail_cons, List.headD_nil, List.tail_nil]
      simp only [Bool.false_eq_true, if_false, if_true] at ih'
      rw [ih', ← h1]
    · have h1 := hu rfl a (List.mem_cons_self _ _)
      have h2 := hn rfl a (List.mem_cons_self _ _)
      simp only [zipVertices, List.map_cons, if_true,
        List.headD_nil, List.tail_nil]
      simp only [if_true] at ih'
      rw [ih', ← h1, ← h2]

/-- The output vertex list of a bucket in the state of `bucketInv` is the list of its distinct
vertices. -/
theorem bucketInv_vertices {F : Type} [Zero F] (uvs : List (vec2 F)) (normals : List (vec3 F))
    (perMat : per_material F) (K : List (full_vertex F)) (h : bucketInv uvs normals perMat K) :
    perMat.vertices = K := by
  obtain ⟨_, _, hp, huv, hno, hu, hn⟩ := h
  unfold per_material.vertices
  rw [hp, huv, hno]
  exact zipVertices_of_inv uvs.isEmpty normals.isEmpty K hu hn

/-- A default-constructed bucket has no vertices. -/
theorem bucketInv_empty {F : Type} [Zero F] (uvs : List (vec2 F)) (normals : List (vec3 F))
 :
    bucketInv uvs normals (per_material.empty : per_material F) [] := by
  simp [bucketInv, indexedFrom, per_material.empty]

/-- The vertex tuple of a corner has the zero uv when there are no uvs and the zero normal when
there are no normals. -/
theorem cornerVertex_uv {F : Type} [Zero F] (positions : List (vec3 F)) (uvs : List (vec2 F))
    (normals : List (vec3 F)) (index : Nat) (v : full_vertex F)
    (h : cornerVertex positions uvs normals index = Except.ok v) :
    (uvs.isEmpty = true → v.uv = 0) ∧ (normals.isEmpty = true → v.normal = 0) := by
  unfold cornerVertex at h
  cases hp : vecGet positions index with
  | error e => simp [hp] at h
  | ok p =>
    simp only [hp] at h
    constructor
    · intro hu
      simp only [hu, Bool.not_true, Bool.false_eq_true, if_false] at h
      split at h
      · cases h
      · cases h; rfl
    · intro hn
      simp only [hn, Bool.not_true, Bool.false_eq_true, if_false] at h
      split at h
      · cases h
      · cases h; rfl

/-- One `addVertex` call on a bucket with the distinct vertices `K`: the bucket keeps its state,
with the vertex of the corner appended when it is new, the index buffer is untouched, and the
returned index is the place of the vertex. -/
theorem addVertex_inv {F : Type} [DecidableEq F] [Zero F] (positions : List (vec3 F))
    (uvs : List (vec2 F)) (normals : List (vec3 F)) (perMat perMat1 : per_material F)
    (K : List (full_vertex F)) (index : Nat) (w : Int)
    (hinv : bucketInv uvs normals perMat K) (hK : K.length < 2147483648)
    (h : perMat.addVertex positions uvs normals index = Except.ok (w, perMat1)) :
    ∃ v K1, cornerVertex positions uvs normals index = Except.ok v ∧
      bucketInv uvs normals perMat1 K1 ∧ (K1 = K ∨ K1 = K ++ [v]) ∧
      perMat1.geometry.indices = perMat.geometry.indices ∧
      ∃ k : Nat, K1[k]? = some v ∧ w = (k : Int) := by
  unfold per_material.addVertex at h
  cases hv : cornerVertex positions uvs normals index with
  | error e => simp [hv] at h
  | ok v =>
    simp only [hv] at h
    obtain ⟨hnd, hidx, hpos, huv, hno, hu, hn⟩ := hinv
    have hvz := cornerVertex_uv positions uvs normals index v hv
    cases hf : mapFind v perMat.vertexToIndex with
    | none =>
      simp only [hf, Except.ok.injEq, Prod.mk.injEq] at h
      obtain ⟨hw, hpm⟩ := h
      have hnotin : v ∉ K := by
        rw [hidx] at hf
        exact (mapFind_indexedFrom_none v K 0).1 hf
      have hlenK : perMat.geometry.positions.length = K.length := by simp [hpos]
      refine ⟨v, K ++ [v], rfl, ?_, Or.inr rfl, ?_, K.length, ?_, ?_⟩
      · subst hpm
        refine ⟨?_, ?_, ?_, ?_, ?_, ?_, ?_⟩
        · exact List.Nodup.append hnd (List.nodup_singleton v) (by simpa using hnotin)
        · simp only [hidx, indexedFrom_append, Nat.zero_add, hlenK]
        · simp [hpos]
        · by_cases he : uvs.isEmpty = true
          · simp [he, huv]
          · simp [he, huv]
        · by_cases he : normals.isEmpty = true
          · simp [he, hno]
          · simp [he, hno]
        · intro he x hx
          rcases List.mem_append.1 hx with hx | hx
          · exact hu he x hx
          · simp only [List.mem_singleton] at hx
            subst hx
            exact hvz.1 he
        · intro he x hx
          rcases List.mem_append.1 hx with hx | hx
          · exact hn he x hx
          · simp only [List.mem_singleton] at hx
            subst hx
            exact hvz.2 he
      · subst hpm; rfl
      · exact List.getElem?_concat_length K v
      · rw [← hw, hlenK, toInt32_of_lt _ hK]
    | some x =>
      simp only [hf, Except.ok.injEq, Prod.mk.injEq] at h
      obtain ⟨hw, hpm⟩ := h
      subst hpm
      rw [hidx] at hf
      obtain ⟨k, hk, hx⟩ := mapFind_indexedFrom_some v K 0 x hf
      have hklt : k < K.length := by
        by_contra hcon
        rw [List.getElem?_eq_none (by omega)] at hk
        cases hk
      refine ⟨v, K, rfl, ⟨hnd, hidx, hpos, huv, hno, hu, hn⟩, Or.inl rfl, rfl, k, hk, ?_⟩
      rw [← hw, hx, Nat.zero_add, toInt32_of_lt _ (by omega)]

/-- A sequence of `addVertex` calls: the distinct vertices only grow at the end, and every
returned index is the place of the corner's vertex in the final list. -/
theorem addVertices_inv {F : Type} [DecidableEq F] [Zero F] (positions : List (vec3 F))
    (uvs : List (vec2 F)) (normals : List (vec3 F)) :
    ∀ (corners : List Nat) (perMat perMat1 : per_material F) (K : List (full_vertex F))
      (ws : List Int),
      bucketInv uvs normals perMat K → K.length + corners.length ≤ 2147483648 →
      addVertices positions uvs normals perMat corners = Except.ok (ws, perMat1) →
      ∃ T, bucketInv uvs normals perMat1 (K ++ T) ∧ T.length ≤ corners.length ∧
        ws.length = corners.length ∧
        perMat1.geometry.indices = perMat.geometry.indices ∧
        ∀ (i c : Nat) (wi : Int) (v : full_vertex F), corners[i]? = some c → ws[i]? = some wi →
          cornerVertex positions uvs normals c = Except.ok v →
          ∃ k : Nat, (K ++ T)[k]? = some v ∧ wi = (k : Int) := by
  intro corners
  induction corners with
  | nil =>
    intro perMat perMat1 K ws hinv _ h
    simp only [addVertices, Except.ok.injEq, Prod.mk.injEq] at h
    obtain ⟨hws, hpm⟩ := h
    subst hws; subst hpm
    refine ⟨[], by simpa using hinv, by simp, rfl, rfl, ?_⟩
    intro i c wi v hc
    simp at hc
  | cons c0 corners ih =>
    intro perMat perMat2 K ws hinv hK h
    simp only [addVertices] at h
    cases h1 : perMat.addVertex positions uvs normals c0 with
    | error e => simp [h1] at h
    | ok r1 =>
      obtain ⟨w0, perMat1⟩ := r1
      simp only [h1] at h
      cases h2 : addVertices positions uvs normals perMat1 corners with
      | error e => simp [h2] at h
      | ok r2 =>
        obtain ⟨ws1, perMat2'⟩ := r2
        simp only [h2, Except.ok.injEq, Prod.mk.injEq] at h
        obtain ⟨hws, hpm⟩ := h
        subst hws; subst hpm
        simp only [List.length_cons] at hK
        obtain ⟨v0, K1, hv0, hinv1, hK1, hidx1, k0, hk0, hw0⟩ :=
          addVertex_inv positions uvs normals perMat perMat1 K c0 w0 hinv (by omega) h1
        have hK1len : K1.length + corners.length ≤ 2147483648 := by
          rcases hK1 with e | e
          · rw [e]; omega
          · rw [e]; simp; omega
        obtain ⟨T, hinv2, hT, hwslen, hidx2, hall⟩ :=
          ih perMat1 perMat2' K1 ws1 hinv1 hK1len h2
        rcases hK1 with e | e
        · subst e
          refine ⟨T, hinv2, by simp; omega, by simp [hwslen], by rw [hidx2, hidx1], ?_⟩
          intro i c wi v hc hwi hv
          cases i with
          | zero =>
            simp only [List.getElem?_cons_zero, Option.some.injEq] at hc hwi
            subst hc; subst hwi
            rw [hv0] at hv
            cases hv
            refine ⟨k0, ?_, hw0⟩
            have hlt : k0 < K1.length := by
              by_contra hcon
              rw [List.getElem?_eq_none (by omega)] at hk0
              cases hk0
            rw [List.getElem?_append_left hlt]
            exact hk0
          | succ i =>
            simp only [List.getElem?_cons_succ] at hc hwi
            exact hall i c wi v hc hwi hv
        · subst e
          refine ⟨v0 :: T, by simpa using hinv2, by simp; omega, by simp [hwslen],
            by rw [hidx2, hidx1], ?_⟩
          intro i c wi v hc hwi hv
          cases i with
          | zero =>
            simp only [List.getElem?_cons_zero, Option.some.injEq] at hc hwi
            subst hc; subst hwi
            rw [hv0] at hv
            cases hv
            refine ⟨k0, ?_, hw0⟩
            have hlt : k0 < (K ++ [v0]).length := by
              by_contra hcon
              rw [List.getElem?_eq_none (by omega)] at hk0
              cases hk0
            have e2 : K ++ v0 :: T = (K ++ [v0]) ++ T := by simp
            rw [e2, List.getElem?_append_left hlt]
            exact hk0
          | succ i =>
            simp only [List.getElem?_cons_succ] at hc hwi
            obtain ⟨k, hk, hwk⟩ := hall i c wi v hc hwi hv
            exact ⟨k, by simpa using hk, hwk⟩

/-- The result of `addVertex` does not depend on the index buffer, which it carries along. -/
theorem addVertex_withIndices {F : Type} [DecidableEq F] [Zero F] (positions : List (vec3 F))
    (uvs : List (vec2 F)) (normals : List (vec3 F)) (perMat perMat1 : per_material F)
    (indices : List Int) (index : Nat) (w : Int)
    (h : perMat.addVertex positions uvs normals index = Except.ok (w, perMat1)) :
    (perMat.withIndices indices).addVertex positions uvs normals index
      = Except.ok (w, perMat1.withIndices indices) := by
  unfold per_material.addVertex at h ⊢
  cases hv : cornerVertex positions uvs normals index with
  | error e => simp [hv] at h
  | ok v =>
    simp only [hv] at h ⊢
    have e : (perMat.withIndices indices).vertexToIndex = perMat.vertexToIndex := rfl
    rw [e]
    cases hf : mapFind v perMat.vertexToIndex with
    | none =>
      simp only [hf, Except.ok.injEq, Prod.mk.injEq] at h ⊢
      obtain ⟨hw, hpm⟩ := h
      subst hpm
      exact ⟨hw, rfl⟩
    | some x =>
      simp only [hf, Except.ok.injEq, Prod.mk.injEq] at h ⊢
      obtain ⟨hw, hpm⟩ := h
      subst hpm
      exact ⟨hw, rfl⟩

/-- The call `addVertex` leaves the index buffer as it is. -/
theorem addVertex_indices {F : Type} [DecidableEq F] [Zero F] (positions : List (vec3 F))
    (uvs : List (vec2 F)) (normals : List (vec3 F)) (perMat perMat1 : per_material F)
    (index : Nat) (w : Int)
    (h : perMat.addVertex positions uvs normals index = Except.ok (w, perMat1)) :
    perMat1.geometry.indices = perMat.geometry.indices := by
  unfold per_material.addVertex at h
  cases hv : cornerVertex positions uvs normals index with
  | error e => simp [hv] at h
  | ok v =>
    simp only [hv] at h
    cases hf : mapFind v perMat.vertexToIndex with
    | none =>
      simp only [hf, Except.ok.injEq, Prod.mk.injEq] at h
      obtain ⟨_, hpm⟩ := h
      subst hpm
      rfl
    | some x =>
      simp only [hf, Except.ok.injEq, Prod.mk.injEq] at h
      obtain ⟨_, hpm⟩ := h
      subst hpm
      rfl

/-- A sequence of `addVertex` calls returns one index per corner. -/
theorem addVertices_length {F : Type} [DecidableEq F] [Zero F] (positions : List (vec3 F))
    (uvs : List (vec2 F)) (normals : List (vec3 F)) :
    ∀ (corners : List Nat) (perMat perMat1 : per_material F) (ws : List Int),
      addVertices positions uvs normals perMat corners = Except.ok (ws, perMat1) →
      ws.length = corners.length := by
  intro corners
  induction corners with
  | nil =>
    intro perMat perMat1 ws h
    simp only [addVertices, Except.ok.injEq, Prod.mk.injEq] at h
    rw [← h.1]
    rfl
  | cons c corners ih =>
    intro perMat perMat2 ws h
    simp only [addVertices] at h
    cases h1 : perMat.addVertex positions uvs normals c with
    | error e => simp [h1] at h
    | ok r1 =>
      obtain ⟨w0, perMat1⟩ := r1
      simp only [h1] at h
      cases h2 : addVertices positions uvs normals perMat1 corners with
      | error e => simp [h2] at h
      | ok r2 =>
        obtain ⟨ws1, perMat2'⟩ := r2
        simp only [h2, Except.ok.injEq, Prod.mk.injEq] at h
        rw [← h.1, List.length_cons, ih perMat1 perMat2' ws1 h2, List.length_cons]

/-- Replacing the index buffer twice. -/
theorem withIndices_withIndices {F : Type} (perMat : per_material F) (i₁ i₂ : List Int) :
    (perMat.withIndices i₁).withIndices i₂ = perMat.withIndices i₂ := rfl

/-- Replacing the index buffer by itself. -/
theorem withIndices_self {F : Type} (perMat : per_material F) :
    perMat.withIndices perMat.geometry.indices = perMat := rfl

/-- The fan loop pushes the triangles of `fanFrom` and leaves the vertex buffers that the
`addVertex` calls for its corners leave. -/
theorem fanLoop_eq {F : Type} [DecidableEq F] [Zero F] (positions : List (vec3 F))
    (uvs : List (vec2 F)) (normals : List (vec3 F)) (a : Int) :
    ∀ (left : Nat) (b : Int) (firstIndex : Nat) (perMat perMatW : per_material F)
      (indices : List Int) (ws : List Int),
      addVertices positions uvs normals perMat (List.range' firstIndex left)
        = Except.ok (ws, perMatW) →
      fanLoop positions uvs normals a left b firstIndex (perMat.withIndices indices)
        = Except.ok (perMatW.withIndices (indices ++ fanFrom a b ws)) := by
  intro left
  induction left with
  | zero =>
    intro b firstIndex perMat perMatW indices ws h
    simp only [List.range'_zero, addVertices, Except.ok.injEq, Prod.mk.injEq] at h
    obtain ⟨hws, hpm⟩ := h
    subst hws; subst hpm
    simp [fanLoop, fanFrom]
  | succ left ih =>
    intro b firstIndex perMat perMatW indices ws h
    rw [List.range'_succ] at h
    simp only [addVertices] at h
    cases h1 : perMat.addVertex positions uvs normals firstIndex with
    | error e => simp [h1] at h
    | ok r1 =>
      obtain ⟨c, perMat1⟩ := r1
      simp only [h1] at h
      cases h2 : addVertices positions uvs normals perMat1
          (List.range' (firstIndex + 1) left) with
      | error e => simp [h2] at h
      | ok r2 =>
        obtain ⟨ws1, perMat2⟩ := r2
        simp only [h2, Except.ok.injEq, Prod.mk.injEq] at h
        obtain ⟨hws, hpm⟩ := h
        subst hws; subst hpm
        simp only [fanLoop]
        rw [addVertex_withIndices positions uvs normals perMat perMat1 indices firstIndex c h1]
        simp only []
        have := ih c (firstIndex + 1) perMat1 perMat2 (indices ++ [a, b, c]) ws1 h2
        simp only [fanFrom]
        have e : indices ++ a :: b :: c :: fanFrom a c ws1
            = indices ++ [a, b, c] ++ fanFrom a c ws1 := by simp
        rw [e, ← this]
        rfl

/-- The triangles of `fanFrom`, written out by position. -/
theorem fanFrom_eq_flatMap (a : Int) :
    ∀ (rest : List Int) (b : Int),
      fanFrom a b rest = (List.range rest.length).flatMap
        (fun k => [a, (b :: rest).getD k 0, (b :: rest).getD (k + 1) 0]) := by
  intro rest
  induction rest with
  | nil => intro b; simp [fanFrom]
  | cons c rest ih =>
    intro b
    simp only [fanFrom, List.length_cons]
    rw [List.range_succ_eq_map, List.flatMap_cons, List.flatMap_map, ih c]
    simp

/-- A fan over `n` corners has `3 * (n - 2)` indices. -/
theorem length_fanTriangles (w : Nat → Int) (n : Nat) :
    (fanTriangles w n).length = 3 * (n - 2) := by
  simp [fanTriangles, List.length_flatMap, Function.comp_def]
  omega

/-- C2: a polygon of `faceSize >= 3` corners that starts at corner `firstIndex`, whose corners
are welded to the indices `ws` by the successive `addVertex` calls, makes the triangulation loop
append to its bucket exactly `faceSize - 2` triangles, the `k`-th of which is
`(ws[0], ws[k], ws[k+1])`; the vertex buffers of the bucket are the ones that the `addVertex`
calls leave. -/
theorem triangulateFace_fan {F : Type} [DecidableEq F] [Zero F] (positions : List (vec3 F))
    (uvs : List (vec2 F)) (normals : List (vec3 F)) (perMat perMatW : per_material F)
    (firstIndex faceSize : Nat) (ws : List Int) (hsize : 3 ≤ faceSize)
    (hweld : addVertices positions uvs normals perMat (List.range' firstIndex faceSize)
      = Except.ok (ws, perMatW)) :
    triangulateFace positions uvs normals perMat firstIndex faceSize
        = Except.ok (perMatW.withIndices
            (perMat.geometry.indices ++ fanTriangles (fun j => ws.getD j 0) faceSize)) ∧
      (fanTriangles (fun j => ws.getD j 0) faceSize).length = 3 * (faceSize - 2) ∧
      ws.length = faceSize := by
  obtain ⟨n, rfl⟩ : ∃ n, faceSize = n + 2 := ⟨faceSize - 2, by omega⟩
  refine ⟨?_, length_fanTriangles _ _, ?_⟩
  · rw [List.range'_succ, List.range'_succ] at hweld
    simp only [addVertices] at hweld
    cases h1 : perMat.addVertex positions uvs normals firstIndex with
    | error e => simp [h1] at hweld
    | ok r1 =>
      obtain ⟨a, perMat1⟩ := r1
      simp only [h1] at hweld
      cases h2 : perMat1.addVertex positions uvs normals (firstIndex + 1) with
      | error e => simp [h2] at hweld
      | ok r2 =>
        obtain ⟨b, perMat2⟩ := r2
        simp only [h2] at hweld
        cases h3 : addVertices positions uvs normals perMat2
            (List.range' (firstIndex + 1 + 1) n) with
        | error e => simp [h3] at hweld
        | ok r3 =>
          obtain ⟨ws3, perMat3⟩ := r3
          simp only [h3, Except.ok.injEq, Prod.mk.injEq] at hweld
          obtain ⟨hws, hpm⟩ := hweld
          subst hws; subst hpm
          simp only [triangulateFace, h1, h2, Nat.add_sub_cancel]
          have hI1 := addVertex_indices positions uvs normals perMat perMat1 firstIndex a h1
          have hI2 := addVertex_indices positions uvs normals perMat1 perMat2 (firstIndex + 1) b h2
          have hloop := fanLoop_eq positions uvs normals a n b (firstIndex + 2) perMat2 perMat3
            perMat2.geometry.indices ws3 h3
          rw [withIndices_self] at hloop
          rw [hloop, hI2, hI1, fanFrom_eq_flatMap]
          have hlen3 := addVertices_length positions uvs normals _ _ _ _ h3
          simp only [List.length_range'] at hlen3
          simp only [fanTriangles, Nat.add_sub_cancel, hlen3, List.getD_cons_zero,
            List.getD_cons_succ]
  · have := addVertices_length positions uvs normals _ _ _ _ hweld
    simpa using this

/-! ## The polygon walk -/

/-- A non-empty stream starts with a polygon of at least one corner. -/
theorem scanFace_pos (x : Int) (rest : List Int) : 1 ≤ scanFace (x :: rest) := by
  simp only [scanFace]
  split <;> omega

/-- The first polygon is not longer than the stream. -/
theorem scanFace_le : ∀ (l : List Int), scanFace l ≤ l.length := by
  intro l
  induction l with
  | nil => simp [scanFace]
  | cons x rest ih =>
    simp only [scanFace, List.length_cons]
    split <;> omega

/-- The polygons of a non-empty stream: the first polygon, then the polygons of the rest. -/
theorem faceSizes_cons (x : Int) (rest : List Int) :
    faceSizes (x :: rest)
      = scanFace (x :: rest) :: faceSizes ((x :: rest).drop (scanFace (x :: rest))) := by
  induction rest generalizing x with
  | nil =>
    by_cases hx : x < 0 <;> simp [faceSizes, scanFace, hx]
  | cons y rest ih =>
    by_cases hx : x < 0
    · simp [faceSizes, scanFace, hx]
    · have h := ih y
      simp only [faceSizes, hx, if_false, scanFace] at h ⊢
      rw [h]
      have e : 1 + (if y < 0 then 1 else 1 + scanFace rest)
          = (if y < 0 then 1 else 1 + scanFace rest) + 1 := by omega
      rw [e, List.drop_succ_cons]

/-- With enough fuel the inner loop of the walk counts the corners of the polygon that starts at
`firstIndex + faceSize`. -/
theorem faceSizeLoop_eq (originalIndices : List Int) (firstIndex : Nat) :
    ∀ (fuel faceSize : Nat), originalIndices.length ≤ firstIndex + faceSize + fuel →
      faceSizeLoop originalIndices firstIndex originalIndices.length (fuel + 1) faceSize
        = Except.ok (faceSize + scanFace (originalIndices.drop (firstIndex + faceSize))) := by
  intro fuel
  induction fuel with
  | zero =>
    intro faceSize h
    simp only [faceSizeLoop]
    rw [if_neg (by omega)]
    have : originalIndices.drop (firstIndex + faceSize) = [] :=
      List.drop_eq_nil_of_le (by omega)
    rw [this]
    simp [scanFace]
  | succ fuel ih =>
    intro faceSize h
    rw [faceSizeLoop]
    by_cases hlt : firstIndex + faceSize < originalIndices.length
    · rw [if_pos hlt]
      have hget : originalIndices[firstIndex + faceSize]?
          = some originalIndices[firstIndex + faceSize] := List.getElem?_eq_getElem hlt
      rw [vecGet_eq_ok _ _ _ hget]
      simp only []
      have hdrop : originalIndices.drop (firstIndex + faceSize)
          = originalIndices[firstIndex + faceSize]
            :: originalIndices.drop (firstIndex + faceSize + 1) :=
        List.drop_eq_getElem_cons hlt
      rw [hdrop]
      by_cases hneg : originalIndices[firstIndex + faceSize] < 0
      · simp [hneg, scanFace]
      · rw [if_neg hneg, ih (faceSize + 1) (by omega)]
        simp only [scanFace, hneg, if_false]
        have e : firstIndex + (faceSize + 1) = firstIndex + faceSize + 1 := by omega
        rw [e]
        congr 1
        omega
    · rw [if_neg hlt]
      have : originalIndices.drop (firstIndex + faceSize) = [] :=
        List.drop_eq_nil_of_le (by omega)
      rw [this]
      simp [scanFace]

/-- Lookup after an assignment through `map[key]`. -/
theorem mapFind_mapSet {κ ν : Type} [DecidableEq κ] (key key' : κ) (value : ν)
    (m : List (κ × ν)) :
    mapFind key' (mapSet key value m) = if key = key' then some value else mapFind key' m := by
  induction m with
  | nil => simp [mapSet, mapFind]
  | cons p m ih =>
    obtain ⟨k, v⟩ := p
    by_cases h : k = key
    · subst h
      by_cases h' : k = key' <;> simp [mapSet, mapFind, h']
    · by_cases h' : k = key'
      · subst h'
        have hkey : ¬ key = k := fun e => h e.symm
        simp [mapSet, mapFind, h, hkey]
      · simp [mapSet, mapFind, h, h', ih]

/-- The keys after an assignment through `map[key]`. -/
theorem map_fst_mapSet {κ ν : Type} [DecidableEq κ] (key : κ) (value : ν) (m : List (κ × ν)) :
    (mapSet key value m).map Prod.fst
      = if key ∈ m.map Prod.fst then m.map Prod.fst else m.map Prod.fst ++ [key] := by
  induction m with
  | nil => simp [mapSet]
  | cons p m ih =>
    obtain ⟨k, v⟩ := p
    by_cases h : k = key
    · subst h
      simp [mapSet]
    · have h' : ¬ key = k := fun e => h e.symm
      simp only [mapSet, h, if_false, List.map_cons, ih, List.mem_cons, h', false_or]
      split <;> simp

/-- The number of indices of all buckets after one bucket is replaced. -/
theorem totalIndices_mapSet {F : Type} (material : Int) (perMat : per_material F)
    (m : List (Int × per_material F)) :
    totalIndices (mapSet material perMat m) + bucketIndexCount m material
      = totalIndices m + perMat.geometry.indices.length := by
  induction m with
  | nil => simp [mapSet, totalIndices, bucketIndexCount, mapFind, per_material.empty]
  | cons p m ih =>
    obtain ⟨k, v⟩ := p
    by_cases h : k = material
    · subst h
      simp [mapSet, totalIndices, bucketIndexCount, mapFind]
      omega
    · simp only [mapSet, h, if_false, totalIndices, List.map_cons, List.sum_cons,
        bucketIndexCount, mapFind] at ih ⊢
      omega

/-- In a table with distinct keys every entry is found under its key. -/
theorem mapFind_of_mem {κ ν : Type} [DecidableEq κ] (key : κ) (value : ν) (m : List (κ × ν))
    (hnd : (m.map Prod.fst).Nodup) (hmem : (key, value) ∈ m) : mapFind key m = some value := by
  induction m with
  | nil => simp at hmem
  | cons p m ih =>
    obtain ⟨k, v⟩ := p
    simp only [List.map_cons, List.nodup_cons] at hnd
    rcases List.mem_cons.1 hmem with e | hm
    · cases e
      simp [mapFind]
    · have hne : k ≠ key := by
        intro e
        subst e
        exact hnd.1 (List.mem_map.2 ⟨(k, value), hm, rfl⟩)
      simp only [mapFind, hne, if_false]
      exact ih hnd.2 hm

/-- The fan loop pushes three indices per iteration. -/
theorem fanLoop_length {F : Type} [DecidableEq F] [Zero F] (positions : List (vec3 F))
    (uvs : List (vec2 F)) (normals : List (vec3 F)) (a : Int) :
    ∀ (left : Nat) (b : Int) (firstIndex : Nat) (perMat perMat1 : per_material F),
      fanLoop positions uvs normals a left b firstIndex perMat = Except.ok perMat1 →
      perMat1.geometry.indices.length = perMat.geometry.indices.length + 3 * left := by
  intro left
  induction left with
  | zero =>
    intro b firstIndex perMat perMat1 h
    simp only [fanLoop, Except.ok.injEq] at h
    subst h
    rfl
  | succ left ih =>
    intro b firstIndex perMat perMat2 h
    simp only [fanLoop] at h
    cases h1 : perMat.addVertex positions uvs normals firstIndex with
    | error e => simp [h1] at h
    | ok r1 =>
      obtain ⟨c, perMat1⟩ := r1
      simp only [h1] at h
      have := ih c (firstIndex + 1) _ perMat2 h
      rw [this]
      have hI := addVertex_indices positions uvs normals perMat perMat1 firstIndex c h1
      simp only [List.length_append, hI, List.length_cons, List.length_nil]
      omega

/-- Triangulating a face pushes `3 * (faceSize - 2)` indices. -/
theorem triangulateFace_length {F : Type} [DecidableEq F] [Zero F] (positions : List (vec3 F))
    (uvs : List (vec2 F)) (normals : List (vec3 F)) (perMat perMat1 : per_material F)
    (firstIndex faceSize : Nat)
    (h : triangulateFace positions uvs normals perMat firstIndex faceSize = Except.ok perMat1) :
    perMat1.geometry.indices.length = perMat.geometry.indices.length + 3 * (faceSize - 2) := by
  simp only [triangulateFace] at h
  cases h1 : perMat.addVertex positions uvs normals firstIndex with
  | error e => simp [h1] at h
  | ok r1 =>
    obtain ⟨a, perMatA⟩ := r1
    simp only [h1] at h
    cases h2 : perMatA.addVertex positions uvs normals (firstIndex + 1) with
    | error e => simp [h2] at h
    | ok r2 =>
      obtain ⟨b, perMatB⟩ := r2
      simp only [h2] at h
      rw [fanLoop_length positions uvs normals a _ _ _ _ _ h,
        addVertex_indices positions uvs normals perMatA perMatB (firstIndex + 1) b h2,
        addVertex_indices positions uvs normals perMat perMatA firstIndex a h1]

/-- The state of the buckets after the polygon walk, from any state: every polygon found a
material id, the bucket of each material id grew by the triangles of its polygons with at least
three corners, distinct keys stay distinct, and the new keys are the material ids of those
polygons. -/
theorem polygonWalk_spec {F : Type} [DecidableEq F] [Zero F] (positions : List (vec3 F))
    (uvs : List (vec2 F)) (normals : List (vec3 F)) (originalIndices : List Int)
    (materialIndices : List Int) :
    ∀ (fuel firstIndex materialIndex : Nat) (m m' : List (Int × per_material F)),
      polygonWalk positions uvs normals originalIndices materialIndices originalIndices.length
        fuel firstIndex materialIndex m = Except.ok m' →
      (faceSizes (originalIndices.drop firstIndex)).length
          ≤ (materialIndices.drop materialIndex).length ∧
        (∀ material, bucketIndexCount m' material = bucketIndexCount m material
          + 3 * triCount material (faceSizes (originalIndices.drop firstIndex))
              (materialIndices.drop materialIndex)) ∧
        totalIndices m' = totalIndices m
          + 3 * totalTri (faceSizes (originalIndices.drop firstIndex)) ∧
        ((m.map Prod.fst).Nodup → (m'.map Prod.fst).Nodup) ∧
        (∀ material, material ∈ m'.map Prod.fst ↔ material ∈ m.map Prod.fst ∨
          material ∈ retainedMaterials (faceSizes (originalIndices.drop firstIndex))
            (materialIndices.drop materialIndex)) := by
  intro fuel
  induction fuel with
  | zero =>
    intro firstIndex materialIndex m m' h
    simp only [polygonWalk] at h
    by_cases hlt : firstIndex < originalIndices.length
    · simp [hlt] at h
    · simp only [hlt, if_false, Except.ok.injEq] at h
      subst h
      have hd : originalIndices.drop firstIndex = [] := List.drop_eq_nil_of_le (by omega)
      simp [hd, faceSizes, triCount, totalTri, retainedMaterials]
  | succ fuel ih =>
    intro firstIndex materialIndex m m' h
    rw [polygonWalk] at h
    by_cases hlt : firstIndex < originalIndices.length
    · rw [if_pos hlt] at h
      have hfs := faceSizeLoop_eq originalIndices firstIndex originalIndices.length 0 (by omega)
      simp only [Nat.add_zero, Nat.zero_add] at hfs
      rw [hfs] at h
      simp only [] at h
      have hdrop : originalIndices.drop firstIndex
          = originalIndices[firstIndex] :: originalIndices.drop (firstIndex + 1) :=
        List.drop_eq_getElem_cons hlt
      generalize hs : scanFace (originalIndices.drop firstIndex) = s at h
      have hsizes : faceSizes (originalIndices.drop firstIndex)
          = s :: faceSizes (originalIndices.drop (firstIndex + s)) := by
        rw [hdrop, faceSizes_cons, ← hdrop, hs, List.drop_drop]
      cases hm : vecGet materialIndices materialIndex with
      | error e => simp [hm] at h
      | ok material0 =>
        simp only [hm] at h
        have hmlt : materialIndex < materialIndices.length := by
          by_contra hcon
          simp [vecGet, List.getElem?_eq_none (Nat.le_of_not_lt hcon)] at hm
        have hmget : materialIndices[materialIndex] = material0 := by
          simp [vecGet, List.getElem?_eq_getElem hmlt] at hm
          exact hm
        have hmdrop : materialIndices.drop materialIndex
            = material0 :: materialIndices.drop (materialIndex + 1) := by
          rw [List.drop_eq_getElem_cons hmlt, hmget]
        rw [hsizes, hmdrop]
        by_cases hsmall : s < 3
        · rw [if_pos hsmall] at h
          obtain ⟨h1, h2, h3, h4, h5⟩ := ih (firstIndex + s) (materialIndex + 1) m m' h
          have hn3 : ¬ 3 ≤ s := by omega
          refine ⟨by simpa using h1, ?_, ?_, h4, ?_⟩
          · intro material
            rw [h2 material]
            simp [triCount, hn3]
          · rw [h3]
            simp [totalTri, hn3]
          · intro material
            rw [h5 material]
            simp [retainedMaterials, hn3]
        · rw [if_neg hsmall] at h
          have h3s : 3 ≤ s := by omega
          cases ht : triangulateFace positions uvs normals
              ((mapFind material0 m).getD per_material.empty) firstIndex s with
          | error e => simp [ht] at h
          | ok perMat =>
            simp only [ht] at h
            have hlenT := triangulateFace_length positions uvs normals _ _ _ _ ht
            obtain ⟨h1, h2, h3, h4, h5⟩ :=
              ih (firstIndex + s) (materialIndex + 1) (mapSet material0 perMat m) m' h
            refine ⟨by simpa using h1, ?_, ?_, ?_, ?_⟩
            · intro material
              rw [h2 material]
              by_cases hmat : material0 = material
              · subst hmat
                simp only [bucketIndexCount, mapFind_mapSet, if_true, Option.getD_some,
                  triCount, h3s, true_and]
                rw [hlenT]
                omega
              · simp only [bucketIndexCount, mapFind_mapSet, hmat, if_false, triCount,
                  and_false, Nat.zero_add]
            · rw [h3]
              have := totalIndices_mapSet material0 perMat m
              simp only [bucketIndexCount] at this
              simp only [totalTri, h3s, if_true]
              omega
            · intro hnd
              apply h4
              rw [map_fst_mapSet]
              split
              · exact hnd
              · rename_i hnotin
                exact List.Nodup.append hnd (List.nodup_singleton _) (by simpa using hnotin)
            · intro material
              rw [h5 material, map_fst_mapSet]
              simp only [retainedMaterials, h3s, if_true, List.mem_cons]
              split
              · rename_i hin
                constructor
                · rintro (h | h)
                  · exact Or.inl h
                  · exact Or.inr (Or.inr h)
                · rintro (h | h | h)
                  · exact Or.inl h
                  · subst h; exact Or.inl hin
                  · exact Or.inr h
              · simp only [List.mem_append, List.mem_singleton]
                tauto
    · rw [if_neg hlt] at h
      simp only [Except.ok.injEq] at h
      subst h
      have hd : originalIndices.drop firstIndex = [] := List.drop_eq_nil_of_le (by omega)
      simp [hd, faceSizes, triCount, totalTri, retainedMaterials]

/-- The first loop of `readMesh` counts the negative entries of the stream and appends one
position per corner. -/
theorem expandLoop_numFaces {D F : Type} (toFloat : D → F) (originalPositionsRaw : List D) :
    ∀ (stream : List Int) (positions positions1 : List (vec3 F))
      (counts counts1 : List offset_count) (numFaces numFaces1 : Nat),
      expandLoop toFloat originalPositionsRaw stream positions counts numFaces
        = Except.ok (positions1, counts1, numFaces1) →
      numFaces1 = numFaces + numFacesOf stream ∧
        positions1.length = positions.length + stream.length := by
  intro stream
  induction stream with
  | nil =>
    intro positions positions1 counts counts1 numFaces numFaces1 h
    simp only [expandLoop, Except.ok.injEq, Prod.mk.injEq] at h
    obtain ⟨h1, _, h3⟩ := h
    subst h1; subst h3
    simp [numFacesOf]
  | cons index rest ih =>
    intro positions positions1 counts counts1 numFaces numFaces1 h
    simp only [expandLoop] at h
    cases hp : readVec3d originalPositionsRaw (decodeIndex index) with
    | error e => simp [hp] at h
    | ok position =>
      simp only [hp] at h
      cases hc : vecGetI counts (decodeIndex index) with
      | error e => simp [hc] at h
      | ok oc =>
        simp only [hc] at h
        obtain ⟨h1, h2⟩ := ih _ _ _ _ _ _ h
        refine ⟨?_, ?_⟩
        · rw [h1]
          by_cases hneg : index < 0
          · simp [numFacesOf, hneg, List.filter_cons]
            omega
          · simp [numFacesOf, hneg, List.filter_cons]
        · rw [h2]
          simp
          omega

/-- A successful `readMesh` on a stream of fewer than `2^31` corners: the material ids it used,
the buckets its polygon walk ended with and the meshes it appended. -/
theorem readMesh_ok {D F : Type} [DecidableEq F] [Zero F] (toFloat : D → F) (id : Int)
    (name : sized_string) (originalPositionsRaw : List D) (originalIndices : List Int)
    (uvLayer normalLayer : geometry_data D) (materialLayer : geometry_data Int) (flags : Nat)
    (outMeshes out : List (fbx_mesh F)) (hlen : originalIndices.length < 2147483648)
    (h : readMesh toFloat id name originalPositionsRaw originalIndices uvLayer normalLayer
      materialLayer flags outMeshes = Except.ok out) :
    ∃ (positions : List (vec3 F)) (uvs : List (vec2 F)) (normals : List (vec3 F))
      (materialIndices : List Int) (m : List (Int × per_material F)),
      positions.length = originalIndices.length ∧
      readMaterialIndices flags materialLayer (numFacesOf originalIndices)
        = Except.ok materialIndices ∧
      polygonWalk positions uvs normals originalIndices materialIndices originalIndices.length
        originalIndices.length 0 0 [] = Except.ok m ∧
      out = outMeshes ++ outputMeshes id name m := by
  unfold readMesh at h
  simp only [] at h
  cases h1 : expandLoop toFloat originalPositionsRaw originalIndices []
      (List.replicate (originalPositionsRaw.length / 3) ⟨0, 0⟩) 0 with
  | error e => simp [h1] at h
  | ok r1 =>
    obtain ⟨positions, counted, numFaces⟩ := r1
    simp only [h1] at h
    obtain ⟨hnf, hpl⟩ := expandLoop_numFaces toFloat originalPositionsRaw _ _ _ _ _ _ _ h1
    cases h2 : slotLoop originalIndices 0 (offsetLoop counted 0)
        (List.replicate originalIndices.length 0) with
    | error e => simp [h2] at h
    | ok r2 =>
      obtain ⟨vertexOffsetCounts, originalToNewVertex⟩ := r2
      simp only [h2] at h
      cases h3 : readUVs toFloat flags uvLayer vertexOffsetCounts originalToNewVertex
          positions.length with
      | error e => simp [h3] at h
      | ok uvs =>
        simp only [h3] at h
        cases h4 : readNormals toFloat flags normalLayer vertexOffsetCounts originalToNewVertex
            positions.length with
        | error e => simp [h4] at h
        | ok normals =>
          simp only [h4] at h
          cases h5 : readMaterialIndices flags materialLayer numFaces with
          | error e => simp [h5] at h
          | ok materialIndices =>
            simp only [h5] at h
            have hend : (toInt32 originalIndices.length).toNat = originalIndices.length := by
              rw [toInt32_of_lt _ hlen]
              simp
            rw [hend] at h
            cases h6 : polygonWalk positions uvs normals originalIndices materialIndices
                originalIndices.length originalIndices.length 0 0 [] with
            | error e => simp [h6] at h
            | ok m =>
              simp only [h6, Except.ok.injEq] at h
              refine ⟨positions, uvs, normals, materialIndices, m, by simpa using hpl, ?_,
                h6, h.symm⟩
              rw [← h5, hnf, Nat.zero_add]

/-- C5: a successful `readMesh` appends to `outMeshes` exactly one mesh per distinct material id
among the polygons that have at least three corners: the material indices of the new meshes are
pairwise different, they are exactly the material ids of those polygons, and every new mesh
carries the object id and the name of the geometry node. -/
theorem readMesh_one_mesh_per_material {D F : Type} [DecidableEq F] [Zero F] (toFloat : D → F)
    (id : Int) (name : sized_string) (originalPositionsRaw : List D)
    (originalIndices : List Int) (uvLayer normalLayer : geometry_data D)
    (materialLayer : geometry_data Int) (flags : Nat) (outMeshes out : List (fbx_mesh F))
    (hlen : originalIndices.length < 2147483648)
    (h : readMesh toFloat id name originalPositionsRaw originalIndices uvLayer normalLayer
      materialLayer flags outMeshes = Except.ok out) :
    ∃ (materialIndices : List Int) (newMeshes : List (fbx_mesh F)),
      readMaterialIndices flags materialLayer (numFacesOf originalIndices)
        = Except.ok materialIndices ∧
      out = outMeshes ++ newMeshes ∧
      (newMeshes.map fun mesh => mesh.materialIndex).Nodup ∧
      (∀ material : Int, material ∈ (newMeshes.map fun mesh => mesh.materialIndex) ↔
        material ∈ retainedMaterials (faceSizes originalIndices) materialIndices) ∧
      (∀ mesh, mesh ∈ newMeshes → mesh.id = id ∧ mesh.name = name) := by
  obtain ⟨positions, uvs, normals, materialIndices, m, _, hmat, hwalk, hout⟩ :=
    readMesh_ok toFloat id name originalPositionsRaw originalIndices uvLayer normalLayer
      materialLayer flags outMeshes out hlen h
  obtain ⟨_, _, _, hnd, hmem⟩ :=
    polygonWalk_spec positions uvs normals originalIndices materialIndices _ 0 0 [] m hwalk
  have hkeys : (outputMeshes id name m).map (fun mesh => mesh.materialIndex)
      = m.map Prod.fst := by
    simp [outputMeshes, Function.comp_def]
  refine ⟨materialIndices, outputMeshes id name m, hmat, hout, ?_, ?_, ?_⟩
  · rw [hkeys]
    exact hnd (by simp)
  · intro material
    rw [hkeys, hmem material]
    simp
  · intro mesh hmesh
    simp only [outputMeshes, List.mem_map] at hmesh
    obtain ⟨entry, _, rfl⟩ := hmesh
    exact ⟨rfl, rfl⟩

/-- One iteration of the polygon walk at a polygon of at least three corners. -/
theorem polygonWalk_retained_step {F : Type} [DecidableEq F] [Zero F]
    (positions : List (vec3 F)) (uvs : List (vec2 F)) (normals : List (vec3 F))
    (originalIndices materialIndices : List Int) (fuel firstIndex materialIndex : Nat)
    (materialToMesh : List (Int × per_material F)) (material : Int) (perMat : per_material F)
    (hfirst : firstIndex < originalIndices.length)
    (hmat : materialIndices[materialIndex]? = some material)
    (hsize : 3 ≤ scanFace (originalIndices.drop firstIndex))
    (htri : triangulateFace positions uvs normals
      ((mapFind material materialToMesh).getD per_material.empty) firstIndex
      (scanFace (originalIndices.drop firstIndex)) = Except.ok perMat) :
    polygonWalk positions uvs normals originalIndices materialIndices originalIndices.length
        (fuel + 1) firstIndex materialIndex materialToMesh
      = polygonWalk positions uvs normals originalIndices materialIndices
          originalIndices.length fuel
          (firstIndex + scanFace (originalIndices.drop firstIndex)) (materialIndex + 1)
          (mapSet material perMat materialToMesh) := by
  rw [polygonWalk, if_pos hfirst]
  have hfs := faceSizeLoop_eq originalIndices firstIndex originalIndices.length 0 (by omega)
  simp only [Nat.add_zero, Nat.zero_add] at hfs
  rw [hfs]
  simp only []
  rw [vecGet_eq_ok _ _ _ hmat]
  simp only []
  rw [if_neg (by omega), htri]

/-- C6: in the polygon walk the iteration for the `k`-th polygon of the stream (polygons are
counted with the dropped ones), when it has at least three corners, triangulates into the bucket
of `materialIndices[k]` and leaves every other bucket as it is.  After a successful `readMesh`
the mesh of material id `μ` therefore holds exactly the triangles of the polygons `k` with at
least three corners and `materialIndices[k] = μ`: its index buffer has `3 * Σ (size_k - 2)`
entries over those polygons; and the index buffers of all new meshes together hold
`3 * Σ (size_k - 2)` entries over all polygons with at least three corners. -/
theorem readMesh_material_partition {D F : Type} [DecidableEq F] [Zero F] (toFloat : D → F)
    (id : Int) (name : sized_string) (originalPositionsRaw : List D)
    (originalIndices : List Int) (uvLayer normalLayer : geometry_data D)
    (materialLayer : geometry_data Int) (flags : Nat) (outMeshes out : List (fbx_mesh F))
    (hlen : originalIndices.length < 2147483648)
    (h : readMesh toFloat id name originalPositionsRaw originalIndices uvLayer normalLayer
      materialLayer flags outMeshes = Except.ok out) :
    (∀ (positions : List (vec3 F)) (uvs : List (vec2 F)) (normals : List (vec3 F))
        (materialIndices : List Int) (fuel firstIndex materialIndex : Nat)
        (materialToMesh : List (Int × per_material F)) (material : Int)
        (perMat : per_material F),
      firstIndex < originalIndices.length →
      materialIndices[materialIndex]? = some material →
      3 ≤ scanFace (originalIndices.drop firstIndex) →
      triangulateFace positions uvs normals
        ((mapFind material materialToMesh).getD per_material.empty) firstIndex
        (scanFace (originalIndices.drop firstIndex)) = Except.ok perMat →
      polygonWalk positions uvs normals originalIndices materialIndices originalIndices.length
          (fuel + 1) firstIndex materialIndex materialToMesh
        = polygonWalk positions uvs normals originalIndices materialIndices
            originalIndices.length fuel
            (firstIndex + scanFace (originalIndices.drop firstIndex)) (materialIndex + 1)
            (mapSet material perMat materialToMesh) ∧
      ∀ other : Int, other ≠ material →
        mapFind other (mapSet material perMat materialToMesh) = mapFind other materialToMesh) ∧
    ∃ (materialIndices : List Int) (newMeshes : List (fbx_mesh F)),
      readMaterialIndices flags materialLayer (numFacesOf originalIndices)
        = Except.ok materialIndices ∧
      out = outMeshes ++ newMeshes ∧
      (faceSizes originalIndices).length ≤ materialIndices.length ∧
      (∀ mesh, mesh ∈ newMeshes → mesh.geometry.indices.length
        = 3 * triCount mesh.materialIndex (faceSizes originalIndices) materialIndices) ∧
      (newMeshes.map fun mesh => mesh.geometry.indices.length).sum
        = 3 * totalTri (faceSizes originalIndices) := by
  constructor
  · intro positions uvs normals materialIndices fuel firstIndex materialIndex materialToMesh
      material perMat hfirst hmat hsize htri
    refine ⟨polygonWalk_retained_step positions uvs normals originalIndices materialIndices
      fuel firstIndex materialIndex materialToMesh material perMat hfirst hmat hsize htri, ?_⟩
    intro other hne
    rw [mapFind_mapSet, if_neg (fun e => hne e.symm)]
  obtain ⟨positions, uvs, normals, materialIndices, m, _, hmat, hwalk, hout⟩ :=
    readMesh_ok toFloat id name originalPositionsRaw originalIndices uvLayer normalLayer
      materialLayer flags outMeshes out hlen h
  obtain ⟨hle, hcount, htotal, hnd, _⟩ :=
    polygonWalk_spec positions uvs normals originalIndices materialIndices _ 0 0 [] m hwalk
  refine ⟨materialIndices, outputMeshes id name m, hmat, hout, by simpa using hle, ?_, ?_⟩
  · intro mesh hmesh
    simp only [outputMeshes, List.mem_map] at hmesh
    obtain ⟨entry, hentry, rfl⟩ := hmesh
    have hfind := mapFind_of_mem entry.1 entry.2 m (hnd (by simp)) hentry
    have := hcount entry.1
    simp only [bucketIndexCount, hfind, Option.getD_some, mapFind, Option.getD_none,
      per_material.empty, List.length_nil, Nat.zero_add, List.drop_zero] at this
    exact this
  · have : (outputMeshes id name m).map (fun mesh => mesh.geometry.indices.length)
        = m.map (fun entry => entry.2.geometry.indices.length) := by
      simp [outputMeshes, Function.comp_def]
    rw [this]
    simpa [totalIndices] using htotal

/-- A retained material id belongs to a polygon of at least three corners. -/
theorem mem_retainedMaterials (material : Int) :
    ∀ (sizes : List Nat) (materialIndices : List Int),
      material ∈ retainedMaterials sizes materialIndices →
      ∃ (k s : Nat), sizes[k]? = some s ∧ materialIndices[k]? = some material ∧ 3 ≤ s := by
  intro sizes
  induction sizes with
  | nil => intro materialIndices h; simp [retainedMaterials] at h
  | cons s sizes ih =>
    intro materialIndices h
    cases materialIndices with
    | nil => simp [retainedMaterials] at h
    | cons x rest =>
      simp only [retainedMaterials] at h
      by_cases h3 : 3 ≤ s
      · simp only [h3, if_true, List.mem_cons] at h
        rcases h with h | h
        · exact ⟨0, s, by simp, by simp [h], h3⟩
        · obtain ⟨k, s', h1, h2, h3'⟩ := ih rest h
          exact ⟨k + 1, s', by simpa using h1, by simpa using h2, h3'⟩
      · simp only [h3, if_false] at h
        obtain ⟨k, s', h1, h2, h3'⟩ := ih rest h
        exact ⟨k + 1, s', by simpa using h1, by simpa using h2, h3'⟩

/-- C4: in the polygon walk an iteration that starts at a polygon of one or two corners hands
every material bucket on unchanged (no index and no vertex is added), and after a successful
`readMesh` no new mesh has a material id that is referenced only by polygons of fewer than three
corners. -/
theorem readMesh_drops_small_polygons {D F : Type} [DecidableEq F] [Zero F] (toFloat : D → F)
    (id : Int) (name : sized_string) (originalPositionsRaw : List D)
    (originalIndices : List Int) (uvLayer normalLayer : geometry_data D)
    (materialLayer : geometry_data Int) (flags : Nat) (outMeshes out : List (fbx_mesh F))
    (hlen : originalIndices.length < 2147483648)
    (h : readMesh toFloat id name originalPositionsRaw originalIndices uvLayer normalLayer
      materialLayer flags outMeshes = Except.ok out) :
    (∀ (positions : List (vec3 F)) (uvs : List (vec2 F)) (normals : List (vec3 F))
        (materialIndices : List Int) (fuel firstIndex materialIndex : Nat)
        (materialToMesh : List (Int × per_material F)),
      firstIndex < originalIndices.length → materialIndex < materialIndices.length →
      scanFace (originalIndices.drop firstIndex) < 3 →
      polygonWalk positions uvs normals originalIndices materialIndices originalIndices.length
          (fuel + 1) firstIndex materialIndex materialToMesh
        = polygonWalk positions uvs normals originalIndices materialIndices
            originalIndices.length fuel
            (firstIndex + scanFace (originalIndices.drop firstIndex)) (materialIndex + 1)
            materialToMesh) ∧
    ∃ (materialIndices : List Int) (newMeshes : List (fbx_mesh F)),
      readMaterialIndices flags materialLayer (numFacesOf originalIndices)
        = Except.ok materialIndices ∧
      out = outMeshes ++ newMeshes ∧
      ∀ material : Int,
        (∀ (k s : Nat), (faceSizes originalIndices)[k]? = some s →
          materialIndices[k]? = some material → s < 3) →
        ∀ mesh, mesh ∈ newMeshes → mesh.materialIndex ≠ material := by
  constructor
  · intro positions uvs normals materialIndices fuel firstIndex materialIndex materialToMesh
      hfirst hmat hsmall
    rw [polygonWalk, if_pos hfirst]
    have hfs := faceSizeLoop_eq originalIndices firstIndex originalIndices.length 0 (by omega)
    simp only [Nat.add_zero, Nat.zero_add] at hfs
    rw [hfs]
    simp only []
    rw [vecGet_eq_ok _ _ _ (List.getElem?_eq_getElem hmat)]
    simp only []
    rw [if_pos hsmall]
  · obtain ⟨positions, uvs, normals, materialIndices, m, _, hmat, hwalk, hout⟩ :=
      readMesh_ok toFloat id name originalPositionsRaw originalIndices uvLayer normalLayer
        materialLayer flags outMeshes out hlen h
    obtain ⟨_, _, _, _, hmem⟩ :=
      polygonWalk_spec positions uvs normals originalIndices materialIndices _ 0 0 [] m hwalk
    refine ⟨materialIndices, outputMeshes id name m, hmat, hout, ?_⟩
    intro material hall mesh hmesh heq
    simp only [outputMeshes, List.mem_map] at hmesh
    obtain ⟨entry, hentry, rfl⟩ := hmesh
    have hin : material ∈ m.map Prod.fst := List.mem_map.2 ⟨entry, hentry, heq⟩
    have hret := (hmem material).1 hin
    simp only [List.map_nil, List.not_mem_nil, false_or, List.drop_zero] at hret
    obtain ⟨k, s, h1, h2, h3⟩ := mem_retainedMaterials material _ _ hret
    have := hall k s h1 h2
    omega

/-- C3: the `addVertex` calls for a list of corners on one bucket, starting from the empty
bucket, return the same index for two corners exactly when their (position, uv, normal) tuples
are equal; in particular two corners that differ only in their normal receive different
indices.  The returned index of a corner is the place of its tuple in the output vertex list of
the bucket, and that list holds no tuple twice. -/
theorem addVertex_welds {F : Type} [DecidableEq F] [Zero F] (positions : List (vec3 F))
    (uvs : List (vec2 F)) (normals : List (vec3 F)) (corners : List Nat) (ws : List Int)
    (perMat : per_material F) (hlen : corners.length < 2147483648)
    (h : addVertices positions uvs normals per_material.empty corners = Except.ok (ws, perMat)) :
    ws.length = corners.length ∧
    (∀ (i j ci cj : Nat) (wi wj : Int) (vi vj : full_vertex F),
      corners[i]? = some ci → corners[j]? = some cj → ws[i]? = some wi → ws[j]? = some wj →
      cornerVertex positions uvs normals ci = Except.ok vi →
      cornerVertex positions uvs normals cj = Except.ok vj →
      ((wi = wj ↔ vi = vj) ∧
        (vi.position = vj.position → vi.uv = vj.uv → vi.normal ≠ vj.normal → wi ≠ wj))) ∧
    (∀ (i ci : Nat) (wi : Int) (vi : full_vertex F),
      corners[i]? = some ci → ws[i]? = some wi →
      cornerVertex positions uvs normals ci = Except.ok vi →
      ∃ k : Nat, wi = (k : Int) ∧ perMat.vertices[k]? = some vi) ∧
    perMat.vertices.Nodup := by
  obtain ⟨T, hinv, _, hwslen, _, hall⟩ :=
    addVertices_inv positions uvs normals corners per_material.empty perMat [] ws
      (bucketInv_empty uvs normals) (by simp; omega) h
  rw [List.nil_append] at hinv hall
  have hverts := bucketInv_vertices uvs normals perMat T hinv
  have hnd : T.Nodup := hinv.1
  have hiff : ∀ (i j ci cj : Nat) (wi wj : Int) (vi vj : full_vertex F),
      corners[i]? = some ci → corners[j]? = some cj → ws[i]? = some wi → ws[j]? = some wj →
      cornerVertex positions uvs normals ci = Except.ok vi →
      cornerVertex positions uvs normals cj = Except.ok vj → (wi = wj ↔ vi = vj) := by
    intro i j ci cj wi wj vi vj hci hcj hwi hwj hvi hvj
    obtain ⟨ki, hki, hwki⟩ := hall i ci wi vi hci hwi hvi
    obtain ⟨kj, hkj, hwkj⟩ := hall j cj wj vj hcj hwj hvj
    constructor
    · intro heq
      have hk : ki = kj := by omega
      subst hk
      rw [hki] at hkj
      exact Option.some.inj hkj
    · intro heq
      subst heq
      have hilt : ki < T.length := by
        by_contra hcon
        rw [List.getElem?_eq_none (by omega)] at hki
        cases hki
      have hjlt : kj < T.length := by
        by_contra hcon
        rw [List.getElem?_eq_none (by omega)] at hkj
        cases hkj
      have h1 : T[ki] = vi := by
        rw [List.getElem?_eq_getElem hilt] at hki
        exact Option.some.inj hki
      have h2 : T[kj] = vi := by
        rw [List.getElem?_eq_getElem hjlt] at hkj
        exact Option.some.inj hkj
      have hk : ki = kj := (List.Nodup.getElem_inj_iff hnd).1 (h1.trans h2.symm)
      rw [hwki, hwkj, hk]
  refine ⟨hwslen, ?_, ?_, ?_⟩
  · intro i j ci cj wi wj vi vj hci hcj hwi hwj hvi hvj
    refine ⟨hiff i j ci cj wi wj vi vj hci hcj hwi hwj hvi hvj, ?_⟩
    intro _ _ hne heq
    have := (hiff i j ci cj wi wj vi vj hci hcj hwi hwj hvi hvj).1 heq
    exact hne (by rw [this])
  · intro i ci wi vi hci hwi hvi
    obtain ⟨k, hk, hwk⟩ := hall i ci wi vi hci hwi hvi
    exact ⟨k, hwk, by rw [hverts]; exact hk⟩
  · rw [hverts]
    exact hnd

/-! ## The mesh reader -/

/-- An all-same material layer with the material index 0 gives every face the material id 0,
whether or not materials are requested. -/
theorem readMaterialIndices_all_same (flags : Nat) (indices : List Int)
    (reference : reference_info) (numFaces : Nat) :
    readMaterialIndices flags ⟨[0], indices, mapping_info.all_same, reference⟩ numFaces
      = Except.ok (List.replicate numFaces 0) := by
  unfold readMaterialIndices
  by_cases hf : flagSet flags mesh_flags.mesh_flag_load_materials = true
  · simp [hf, ASSERT]
  · simp [hf, ASSERT]

/-- C1, amended: the geometry node of a single quad, with four control points whose positions,
converted to floats, are pairwise distinct, the index stream `[0, 1, 2, ~3]`, an all-same
material layer with the material index 0 and by-polygon-vertex, direct UVs of length 4 (eight
raw doubles), makes `readMesh` append exactly one mesh: its material index is 0, its positions
are the four converted control points in stream order and its index buffer is
`[0, 1, 2, 0, 2, 3]`. -/
theorem readMesh_single_quad {D F : Type} [DecidableEq F] [Zero F] (toFloat : D → F) (id : Int)
    (name : sized_string) (x0 y0 z0 x1 y1 z1 x2 y2 z2 x3 y3 z3 : D)
    (u0 v0 u1 v1 u2 v2 u3 v3 : D) (uvIndices materialRefs : List Int)
    (materialReference : reference_info) (flags : Nat) (outMeshes : List (fbx_mesh F))
    (hdistinct : ([⟨toFloat x0, toFloat y0, toFloat z0⟩, ⟨toFloat x1, toFloat y1, toFloat z1⟩,
      ⟨toFloat x2, toFloat y2, toFloat z2⟩, ⟨toFloat x3, toFloat y3, toFloat z3⟩]
        : List (vec3 F)).Nodup) :
    ∃ mesh : fbx_mesh F,
      readMesh toFloat id name [x0, y0, z0, x1, y1, z1, x2, y2, z2, x3, y3, z3] [0, 1, 2, -4]
          ⟨[u0, v0, u1, v1, u2, v2, u3, v3], uvIndices, mapping_info.by_polygon_vertex,
            reference_info.direct⟩
          geometry_data.absent
          ⟨[0], materialRefs, mapping_info.all_same, materialReference⟩ flags outMeshes
        = Except.ok (outMeshes ++ [mesh]) ∧
      mesh.id = id ∧ mesh.name = name ∧ mesh.materialIndex = 0 ∧
      mesh.geometry.positions
        = [⟨toFloat x0, toFloat y0, toFloat z0⟩, ⟨toFloat x1, toFloat y1, toFloat z1⟩,
            ⟨toFloat x2, toFloat y2, toFloat z2⟩, ⟨toFloat x3, toFloat y3, toFloat z3⟩] ∧
      mesh.geometry.indices = [0, 1, 2, 0, 2, 3] := by
  simp only [List.nodup_cons, List.mem_cons, List.mem_singleton, not_or, List.not_mem_nil,
    not_false_eq_true, List.nodup_nil, and_true] at hdistinct
  obtain ⟨⟨h01, h02, h03⟩, ⟨h12, h13⟩, h23⟩ := hdistinct
  have hexp : expandLoop toFloat [x0, y0, z0, x1, y1, z1, x2, y2, z2, x3, y3, z3] [0, 1, 2, -4]
      [] (List.replicate 4 ⟨0, 0⟩) 0
      = Except.ok ([⟨toFloat x0, toFloat y0, toFloat z0⟩, ⟨toFloat x1, toFloat y1, toFloat z1⟩,
        ⟨toFloat x2, toFloat y2, toFloat z2⟩, ⟨toFloat x3, toFloat y3, toFloat z3⟩],
        [⟨0, 1⟩, ⟨0, 1⟩, ⟨0, 1⟩, ⟨0, 1⟩], 1) := rfl
  have hslot : slotLoop [0, 1, 2, -4] 0 (offsetLoop [⟨0, 1⟩, ⟨0, 1⟩, ⟨0, 1⟩, ⟨0, 1⟩] 0)
      (List.replicate 4 0)
      = Except.ok ([⟨0, 1⟩, ⟨1, 1⟩, ⟨2, 1⟩, ⟨3, 1⟩], [0, 1, 2, 3]) := rfl
  have hend : (toInt32 4).toNat = 4 := rfl
  refine ⟨⟨id, name, ⟨[⟨toFloat x0, toFloat y0, toFloat z0⟩,
      ⟨toFloat x1, toFloat y1, toFloat z1⟩, ⟨toFloat x2, toFloat y2, toFloat z2⟩,
      ⟨toFloat x3, toFloat y3, toFloat z3⟩], [], [], [0, 1, 2, 0, 2, 3]⟩, 0⟩,
    ?_, rfl, rfl, rfl, rfl, rfl⟩
  unfold readMesh
  simp only [List.length_cons, List.length_nil, Nat.reduceAdd, Nat.reduceDiv, hexp, hslot,
    readUVs_eq_ok_nil, readNormals_absent, readMaterialIndices_all_same, hend]
  have hwalk : polygonWalk
      ([⟨toFloat x0, toFloat y0, toFloat z0⟩, ⟨toFloat x1, toFloat y1, toFloat z1⟩,
        ⟨toFloat x2, toFloat y2, toFloat z2⟩, ⟨toFloat x3, toFloat y3, toFloat z3⟩]
          : List (vec3 F)) [] [] [0, 1, 2, -4] (List.replicate 1 0) 4 4 0 0 []
      = Except.ok [(0, ⟨[(⟨⟨toFloat x0, toFloat y0, toFloat z0⟩, 0, 0⟩, 0),
          (⟨⟨toFloat x1, toFloat y1, toFloat z1⟩, 0, 0⟩, 1),
          (⟨⟨toFloat x2, toFloat y2, toFloat z2⟩, 0, 0⟩, 2),
          (⟨⟨toFloat x3, toFloat y3, toFloat z3⟩, 0, 0⟩, 3)],
        ⟨[⟨toFloat x0, toFloat y0, toFloat z0⟩, ⟨toFloat x1, toFloat y1, toFloat z1⟩,
          ⟨toFloat x2, toFloat y2, toFloat z2⟩, ⟨toFloat x3, toFloat y3, toFloat z3⟩], [], [],
          [0, 1, 2, 0, 2, 3]⟩⟩)] := by
    have t0 : toInt32 0 = 0 := rfl
    have t1 : toInt32 1 = 1 := rfl
    have t2 : toInt32 2 = 2 := rfl
    have t3 : toInt32 3 = 3 := rfl
    simp [polygonWalk, faceSizeLoop, vecGet, triangulateFace, per_material.addVertex,
      cornerVertex, mapFind, mapSet, fanLoop, per_material.empty, t0, t1, t2, t3,
      h01, h02, h03, h12, h13, h23, Ne.symm h01, Ne.symm h02, Ne.symm h03, Ne.symm h12,
      Ne.symm h13, Ne.symm h23]
  rw [hwalk]
  simp [outputMeshes]

/-- C1, amended, at a sample input: the unit quad. -/
theorem readMesh_single_quad_witness :
    ([⟨0, 0, 0⟩, ⟨1, 0, 0⟩, ⟨1, 1, 0⟩, ⟨0, 1, 0⟩] : List (vec3 Int)).Nodup ∧
    ∃ mesh : fbx_mesh Int,
      readMesh (fun d : Int => d) 7 ⟨[81]⟩ [0, 0, 0, 1, 0, 0, 1, 1, 0, 0, 1, 0] [0, 1, 2, -4]
          ⟨[0, 0, 1, 0, 1, 1, 0, 1], [], mapping_info.by_polygon_vertex,
            reference_info.direct⟩
          geometry_data.absent
          ⟨[0], [], mapping_info.all_same, reference_info.index_to_direct⟩ loadFBX_flags []
        = Except.ok ([] ++ [mesh]) ∧
      mesh.id = 7 ∧ mesh.name = ⟨[81]⟩ ∧ mesh.materialIndex = 0 ∧
      mesh.geometry.positions = [⟨0, 0, 0⟩, ⟨1, 0, 0⟩, ⟨1, 1, 0⟩, ⟨0, 1, 0⟩] ∧
      mesh.geometry.indices = [0, 1, 2, 0, 2, 3] :=
  ⟨by decide,
    readMesh_single_quad (fun d : Int => d) 7 ⟨[81]⟩ 0 0 0 1 0 0 1 1 0 0 1 0
      0 0 1 0 1 1 0 1 [] [] reference_info.index_to_direct loadFBX_flags [] (by decide)⟩

/-- C2 at a sample input: a quad whose third corner repeats the first one. -/
theorem triangulateFace_fan_witness :
    3 ≤ 4 ∧
    triangulateFace ([⟨0, 0, 0⟩, ⟨1, 0, 0⟩, ⟨0, 0, 0⟩, ⟨0, 1, 0⟩] : List (vec3 Int)) [] []
        per_material.empty 0 4
      = Except.ok
          { vertexToIndex := [(⟨⟨0, 0, 0⟩, 0, 0⟩, 0), (⟨⟨1, 0, 0⟩, 0, 0⟩, 1),
              (⟨⟨0, 1, 0⟩, 0, 0⟩, 2)],
            geometry := { positions := [⟨0, 0, 0⟩, ⟨1, 0, 0⟩, ⟨0, 1, 0⟩], uvs := [],
                          normals := [], indices := [0, 1, 0, 0, 0, 2] } } :=
  ⟨by decide,
    (triangulateFace_fan ([⟨0, 0, 0⟩, ⟨1, 0, 0⟩, ⟨0, 0, 0⟩, ⟨0, 1, 0⟩] : List (vec3 Int)) [] []
      per_material.empty
      { vertexToIndex := [(⟨⟨0, 0, 0⟩, 0, 0⟩, 0), (⟨⟨1, 0, 0⟩, 0, 0⟩, 1),
          (⟨⟨0, 1, 0⟩, 0, 0⟩, 2)],
        geometry := { positions := [⟨0, 0, 0⟩, ⟨1, 0, 0⟩, ⟨0, 1, 0⟩], uvs := [],
                      normals := [], indices := [] } }
      0 4 [0, 1, 0, 2] (by decide) (by rfl)).1⟩

/-- C3 at a sample input: corners 0 and 1 differ only in their normal, corner 0 is used twice. -/
theorem addVertex_welds_witness :
    ∃ (ws : List Int) (perMat : per_material Int),
      addVertices ([⟨1, 1, 1⟩, ⟨1, 1, 1⟩, ⟨2, 2, 2⟩] : List (vec3 Int)) []
        [⟨0, 0, 1⟩, ⟨0, 1, 0⟩, ⟨0, 0, 1⟩] per_material.empty [0, 1, 2, 0]
          = Except.ok (ws, perMat) ∧
      ws = [0, 1, 2, 0] ∧ perMat.vertices.Nodup :=
  ⟨[0, 1, 2, 0], _, rfl, rfl,
    (addVertex_welds ([⟨1, 1, 1⟩, ⟨1, 1, 1⟩, ⟨2, 2, 2⟩] : List (vec3 Int)) []
      [⟨0, 0, 1⟩, ⟨0, 1, 0⟩, ⟨0, 0, 1⟩] [0, 1, 2, 0] [0, 1, 2, 0] _ (by decide) (by rfl)).2.2.2⟩

/-- C4 at a sample input: the line of the mixed stream, whose material id 1 gets no mesh. -/
theorem readMesh_drops_small_polygons_witness :
    (4 < mixedStream.length ∧ 1 < mixedMaterialLayer.data.length ∧
      scanFace (mixedStream.drop 4) < 3 ∧
      polygonWalk ([] : List (vec3 Int)) [] [] mixedStream mixedMaterialLayer.data
          mixedStream.length (3 + 1) 4 1 [(0, quadBucket)]
        = polygonWalk ([] : List (vec3 Int)) [] [] mixedStream mixedMaterialLayer.data
            mixedStream.length 3 (4 + scanFace (mixedStream.drop 4)) (1 + 1)
            [(0, quadBucket)]) ∧
    ∃ (materialIndices : List Int) (newMeshes : List (fbx_mesh Int)),
      readMaterialIndices loadFBX_flags mixedMaterialLayer (numFacesOf mixedStream)
        = Except.ok materialIndices ∧
      mixedMeshes = [] ++ newMeshes ∧
      ∀ material : Int,
        (∀ (k s : Nat), (faceSizes mixedStream)[k]? = some s →
          materialIndices[k]? = some material → s < 3) →
        ∀ mesh, mesh ∈ newMeshes → mesh.materialIndex ≠ material :=
  ⟨⟨by decide, by decide, by decide,
    (readMesh_drops_small_polygons (fun d : Int => d) 7 ⟨[81]⟩ quadVertices mixedStream
      quadUVLayer geometry_data.absent mixedMaterialLayer loadFBX_flags [] mixedMeshes
      (by decide) (by rfl)).1 [] [] [] mixedMaterialLayer.data 3 4 1 [(0, quadBucket)]
      (by decide) (by decide) (by decide)⟩,
   (readMesh_drops_small_polygons (fun d : Int => d) 7 ⟨[81]⟩ quadVertices mixedStream
      quadUVLayer geometry_data.absent mixedMaterialLayer loadFBX_flags [] mixedMeshes
      (by decide) (by rfl)).2⟩

/-- C5 at a sample input: the mixed stream yields the meshes of the material ids 0 and 5. -/
theorem readMesh_one_mesh_per_material_witness :
    ∃ (materialIndices : List Int) (newMeshes : List (fbx_mesh Int)),
      readMaterialIndices loadFBX_flags mixedMaterialLayer (numFacesOf mixedStream)
        = Except.ok materialIndices ∧
      mixedMeshes = [] ++ newMeshes ∧
      (newMeshes.map fun mesh => mesh.materialIndex).Nodup ∧
      (∀ material : Int, material ∈ (newMeshes.map fun mesh => mesh.materialIndex) ↔
        material ∈ retainedMaterials (faceSizes mixedStream) materialIndices) ∧
      (∀ mesh, mesh ∈ newMeshes → mesh.id = 7 ∧ mesh.name = ⟨[81]⟩) :=
  readMesh_one_mesh_per_material (fun d : Int => d) 7 ⟨[81]⟩ quadVertices mixedStream
    quadUVLayer geometry_data.absent mixedMaterialLayer loadFBX_flags [] mixedMeshes
    (by decide) (by rfl)

/-- C6 at a sample input: the mixed stream, with 2 triangles for material 0 and 4 for material 5.
-/
theorem readMesh_material_partition_witness :
    (0 < mixedStream.length ∧ mixedMaterialLayer.data[0]? = some 0 ∧
      3 ≤ scanFace (mixedStream.drop 0) ∧
      triangulateFace ([⟨0, 0, 0⟩, ⟨1, 0, 0⟩, ⟨1, 1, 0⟩, ⟨0, 1, 0⟩] : List (vec3 Int)) [] []
        ((mapFind 0 ([] : List (Int × per_material Int))).getD per_material.empty) 0
        (scanFace (mixedStream.drop 0)) = Except.ok quadBucket ∧
      polygonWalk ([⟨0, 0, 0⟩, ⟨1, 0, 0⟩, ⟨1, 1, 0⟩, ⟨0, 1, 0⟩] : List (vec3 Int)) [] []
          mixedStream mixedMaterialLayer.data mixedStream.length (2 + 1) 0 0 []
        = polygonWalk ([⟨0, 0, 0⟩, ⟨1, 0, 0⟩, ⟨1, 1, 0⟩, ⟨0, 1, 0⟩] : List (vec3 Int)) [] []
            mixedStream mixedMaterialLayer.data mixedStream.length 2
            (0 + scanFace (mixedStream.drop 0)) (0 + 1) (mapSet 0 quadBucket [])) ∧
    ∃ (materialIndices : List Int) (newMeshes : List (fbx_mesh Int)),
      readMaterialIndices loadFBX_flags mixedMaterialLayer (numFacesOf mixedStream)
        = Except.ok materialIndices ∧
      mixedMeshes = [] ++ newMeshes ∧
      (faceSizes mixedStream).length ≤ materialIndices.length ∧
      (∀ mesh, mesh ∈ newMeshes → mesh.geometry.indices.length
        = 3 * triCount mesh.materialIndex (faceSizes mixedStream) materialIndices) ∧
      (newMeshes.map fun mesh => mesh.geometry.indices.length).sum
        = 3 * totalTri (faceSizes mixedStream) :=
  ⟨⟨by decide, by decide, by decide, by rfl,
    ((readMesh_material_partition (fun d : Int => d) 7 ⟨[81]⟩ quadVertices mixedStream
      quadUVLayer geometry_data.absent mixedMaterialLayer loadFBX_flags [] mixedMeshes
      (by decide) (by rfl)).1 [⟨0, 0, 0⟩, ⟨1, 0, 0⟩, ⟨1, 1, 0⟩, ⟨0, 1, 0⟩] [] []
      mixedMaterialLayer.data 2 0 0 [] 0 quadBucket
      (by decide) (by decide) (by decide) (by rfl)).1⟩,
   (readMesh_material_partition (fun d : Int => d) 7 ⟨[81]⟩ quadVertices mixedStream
      quadUVLayer geometry_data.absent mixedMaterialLayer loadFBX_flags [] mixedMeshes
      (by decide) (by rfl)).2⟩

/-- C7 fails on the code: the enumerators of `mesh_flags` are 0, 1 and 2, so the flag word of
`loadFBX` is 3 and the test `flags & mesh_flag_load_uvs` is `flags & 0`, false for every flag
word.  The UV block of `readMesh` therefore never reads the UV layer, and the quad with a
by-polygon-vertex, direct UV array of corner-count length is decoded to a mesh with four
positions and no uv. -/
theorem readMesh_loadFBX_flags_skips_uvs :
    loadFBX_flags = 3 ∧
    (∀ flags : Nat, flagSet flags mesh_flags.mesh_flag_load_uvs = false) ∧
    flagSet loadFBX_flags mesh_flags.mesh_flag_load_normals = true ∧
    flagSet loadFBX_flags mesh_flags.mesh_flag_load_materials = true ∧
    readMesh (fun d : Int => d) 7 ⟨[81]⟩ quadVertices [0, 1, 2, -4] quadUVLayer
        geometry_data.absent allSameMaterialLayer loadFBX_flags []
      = Except.ok
          [{ id := 7, name := ⟨[81]⟩, materialIndex := 0,
             geometry := { positions := [⟨0, 0, 0⟩, ⟨1, 0, 0⟩, ⟨1, 1, 0⟩, ⟨0, 1, 0⟩],
                           uvs := [], normals := [], indices := [0, 1, 2, 0, 2, 3] } }] :=
  ⟨rfl, flagSet_load_uvs, rfl, rfl, rfl⟩

/-! ## Fuel -/

/-- The function `vecGet` never stops for lack of fuel. -/
theorem vecGet_fuel {α : Type} (v : List α) (i : Nat) :
    vecGet v i ≠ Except.error fbx_error.out_of_fuel := by
  unfold vecGet
  split <;> simp

/-- The function `vecGetI` never stops for lack of fuel. -/
theorem vecGetI_fuel {α : Type} (v : List α) (i : Int) :
    vecGetI v i ≠ Except.error fbx_error.out_of_fuel := by
  unfold vecGetI
  split
  · simp
  · exact vecGet_fuel _ _

/-- The function `vecSet` never stops for lack of fuel. -/
theorem vecSet_fuel {α : Type} (v : List α) (i : Nat) (x : α) :
    vecSet v i x ≠ Except.error fbx_error.out_of_fuel := by
  unfold vecSet
  split <;> simp

/-- The function `ASSERT` never stops for lack of fuel. -/
theorem ASSERT_fuel (cond : Bool) : ASSERT cond ≠ Except.error fbx_error.out_of_fuel := by
  unfold ASSERT
  split <;> simp

/-- The function `selectData` never stops for lack of fuel. -/
theorem selectData_fuel {data_t : Type} [Zero data_t] (data : List data_t) (dataIndex : Int) :
    selectData data dataIndex ≠ Except.error fbx_error.out_of_fuel := by
  unfold selectData
  split
  · simp
  · exact vecGetI_fuel _ _

/-- The function `gatherLoop` never stops for lack of fuel. -/
theorem gatherLoop_fuel {data_t : Type} [Zero data_t] (data : List data_t) :
    ∀ (dataIndices : List Int) (i : Nat) (result : List data_t),
      gatherLoop data dataIndices i result ≠ Except.error fbx_error.out_of_fuel := by
  intro dataIndices
  induction dataIndices with
  | nil => intro i result; simp [gatherLoop]
  | cons x rest ih =>
    intro i result
    simp only [gatherLoop]
    have h1 := selectData_fuel data x
    split
    · rename_i e he
      intro hc
      cases hc
      exact h1 he
    · rename_i out _
      have h2 := vecSet_fuel result i out
      split
      · rename_i e he
        intro hc
        cases hc
        exact h2 he
      · exact ih _ _

/-- The function `scatterLoop` never stops for lack of fuel. -/
theorem scatterLoop_fuel {data_t : Type} (out : data_t) (originalToNewVertex : List Nat)
    (offset : Nat) :
    ∀ (left j : Nat) (result : List data_t),
      scatterLoop out originalToNewVertex offset left j result
        ≠ Except.error fbx_error.out_of_fuel := by
  intro left
  induction left with
  | zero => intro j result; simp [scatterLoop]
  | succ left ih =>
    intro j result
    simp only [scatterLoop]
    have h1 := vecGet_fuel originalToNewVertex ((j + offset) % 4294967296)
    split
    · rename_i e he
      intro hc
      cases hc
      exact h1 he
    · rename_i vertexIndex _
      have h2 := vecSet_fuel result vertexIndex out
      split
      · rename_i e he
        intro hc
        cases hc
        exact h2 he
      · exact ih _ _

/-- The function `byVertexDirectLoop` never stops for lack of fuel. -/
theorem byVertexDirectLoop_fuel {data_t : Type} (vertexOffsetCounts : List offset_count)
    (originalToNewVertex : List Nat) :
    ∀ (data : List data_t) (i : Nat) (result : List data_t),
      byVertexDirectLoop vertexOffsetCounts originalToNewVertex data i result
        ≠ Except.error fbx_error.out_of_fuel := by
  intro data
  induction data with
  | nil => intro i result; simp [byVertexDirectLoop]
  | cons out rest ih =>
    intro i result
    simp only [byVertexDirectLoop]
    have h1 := vecGet_fuel vertexOffsetCounts i
    split
    · rename_i e he
      intro hc
      cases hc
      exact h1 he
    · rename_i oc _
      have h2 := scatterLoop_fuel out originalToNewVertex oc.offset oc.count 0 result
      split
      · rename_i e he
        intro hc
        cases hc
        exact h2 he
      · exact ih _ _

/-- The function `byVertexIndexLoop` never stops for lack of fuel. -/
theorem byVertexIndexLoop_fuel {data_t : Type} [Zero data_t] (data : List data_t)
    (vertexOffsetCounts : List offset_count) (originalToNewVertex : List Nat) :
    ∀ (dataIndices : List Int) (i : Nat) (result : List data_t),
      byVertexIndexLoop data vertexOffsetCounts originalToNewVertex dataIndices i result
        ≠ Except.error fbx_error.out_of_fuel := by
  intro dataIndices
  induction dataIndices with
  | nil => intro i result; simp [byVertexIndexLoop]
  | cons x rest ih =>
    intro i result
    simp only [byVertexIndexLoop]
    have h0 := selectData_fuel data x
    split
    · rename_i e he
      intro hc
      cases hc
      exact h0 he
    · rename_i out _
      have h1 := vecGet_fuel vertexOffsetCounts i
      split
      · rename_i e he
        intro hc
        cases hc
        exact h1 he
      · rename_i oc _
        have h2 := scatterLoop_fuel out originalToNewVertex oc.offset oc.count 0 result
        split
        · rename_i e he
          intro hc
          cases hc
          exact h2 he
        · exact ih _ _

/-- The function `mapDataToVertices` never stops for lack of fuel. -/
theorem mapDataToVertices_fuel {data_t : Type} [Zero data_t] (data : List data_t)
    (dataIndices : List Int) (mapping : mapping_info) (reference : reference_info)
    (vertexOffsetCounts : List offset_count) (originalToNewVertex : List Nat)
    (numVertices : Nat) :
    mapDataToVertices data dataIndices mapping reference vertexOffsetCounts originalToNewVertex
      numVertices ≠ Except.error fbx_error.out_of_fuel := by
  have hA := ASSERT_fuel
  cases mapping <;> cases reference <;> simp only [mapDataToVertices]
  all_goals
    first
      | (intro hc; cases hc)
      | (split
         · rename_i e he
           intro hc
           cases hc
           exact hA _ he
         · first
             | exact gatherLoop_fuel _ _ _ _
             | exact byVertexDirectLoop_fuel _ _ _ _ _
             | exact byVertexIndexLoop_fuel _ _ _ _ _ _
             | (intro hc; cases hc)
             | (split
                · rename_i e he
                  intro hc
                  cases hc
                  exact hA _ he
                · split
                  · rename_i e he
                    intro hc
                    cases hc
                    exact vecGet_fuel _ _ he
                  · intro hc
                    cases hc))

/-- The function `readVec3d` never stops for lack of fuel. -/
theorem readVec3d_fuel {D : Type} (originalPositionsRaw : List D) (i : Int) :
    readVec3d originalPositionsRaw i ≠ Except.error fbx_error.out_of_fuel := by
  unfold readVec3d
  split
  · rename_i e he
    intro hc
    cases hc
    exact vecGetI_fuel _ _ he
  · split
    · rename_i e he
      intro hc
      cases hc
      exact vecGetI_fuel _ _ he
    · split
      · rename_i e he
        intro hc
        cases hc
        exact vecGetI_fuel _ _ he
      · simp

/-- The function `expandLoop` never stops for lack of fuel. -/
theorem expandLoop_fuel {D F : Type} (toFloat : D → F) (originalPositionsRaw : List D) :
    ∀ (stream : List Int) (positions : List (vec3 F)) (counts : List offset_count)
      (numFaces : Nat),
      expandLoop toFloat originalPositionsRaw stream positions counts numFaces
        ≠ Except.error fbx_error.out_of_fuel := by
  intro stream
  induction stream with
  | nil => intro positions counts numFaces; simp [expandLoop]
  | cons index rest ih =>
    intro positions counts numFaces
    simp only [expandLoop]
    split
    · rename_i e he
      intro hc
      cases hc
      exact readVec3d_fuel _ _ he
    · split
      · rename_i e he
        intro hc
        cases hc
        exact vecGetI_fuel _ _ he
      · exact ih _ _ _

/-- The function `slotLoop` never stops for lack of fuel. -/
theorem slotLoop_fuel :
    ∀ (stream : List Int) (i : Nat) (vertexOffsetCounts : List offset_count)
      (originalToNewVertex : List Nat),
      slotLoop stream i vertexOffsetCounts originalToNewVertex
        ≠ Except.error fbx_error.out_of_fuel := by
  intro stream
  induction stream with
  | nil => intro i vertexOffsetCounts originalToNewVertex; simp [slotLoop]
  | cons index rest ih =>
    intro i vertexOffsetCounts originalToNewVertex
    simp only [slotLoop]
    split
    · rename_i e he
      intro hc
      cases hc
      exact vecGetI_fuel _ _ he
    · split
      · rename_i e he
        intro hc
        cases hc
        exact vecSet_fuel _ _ _ he
      · exact ih _ _ _

/-- The function `readNormals` never stops for lack of fuel. -/
theorem readNormals_fuel {D F : Type} [Zero F] (toFloat : D → F) (flags : Nat)
    (normalLayer : geometry_data D) (vertexOffsetCounts : List offset_count)
    (originalToNewVertex : List Nat) (numVertices : Nat) :
    (readNormals toFloat flags normalLayer vertexOffsetCounts originalToNewVertex numVertices
      : Except fbx_error (List (vec3 F))) ≠ Except.error fbx_error.out_of_fuel := by
  unfold readNormals
  split
  · split
    · rename_i e he
      intro hc
      cases hc
      exact ASSERT_fuel _ he
    · split
      · exact mapDataToVertices_fuel _ _ _ _ _ _ _
      · simp
  · simp

/-- The function `readMaterialIndices` never stops for lack of fuel. -/
theorem readMaterialIndices_fuel (flags : Nat) (materialLayer : geometry_data Int)
    (numFaces : Nat) :
    readMaterialIndices flags materialLayer numFaces ≠ Except.error fbx_error.out_of_fuel := by
  unfold readMaterialIndices
  simp only []
  split
  · rename_i e he
    intro hc
    cases hc
    split at he
    · split at he <;> cases he
    · cases he
  · split
    · rename_i e he
      intro hc
      cases hc
      exact ASSERT_fuel _ he
    · simp

/-- The function `cornerVertex` never stops for lack of fuel. -/
theorem cornerVertex_fuel {F : Type} [Zero F] (positions : List (vec3 F)) (uvs : List (vec2 F))
    (normals : List (vec3 F)) (index : Nat) :
    cornerVertex positions uvs normals index ≠ Except.error fbx_error.out_of_fuel := by
  unfold cornerVertex
  split
  · rename_i e he
    intro hc
    cases hc
    exact vecGet_fuel _ _ he
  · split
    · rename_i e he
      intro hc
      cases hc
      split at he
      · exact vecGet_fuel _ _ he
      · cases he
    · split
      · rename_i e he
        intro hc
        cases hc
        split at he
        · exact vecGet_fuel _ _ he
        · cases he
      · simp

/-- The function `addVertex` never stops for lack of fuel. -/
theorem addVertex_fuel {F : Type} [DecidableEq F] [Zero F] (perMat : per_material F)
    (positions : List (vec3 F)) (uvs : List (vec2 F)) (normals : List (vec3 F)) (index : Nat) :
    perMat.addVertex positions uvs normals index ≠ Except.error fbx_error.out_of_fuel := by
  unfold per_material.addVertex
  split
  · rename_i e he
    intro hc
    cases hc
    exact cornerVertex_fuel _ _ _ _ he
  · split <;> simp

/-- The function `fanLoop` never stops for lack of fuel. -/
theorem fanLoop_fuel {F : Type} [DecidableEq F] [Zero F] (positions : List (vec3 F))
    (uvs : List (vec2 F)) (normals : List (vec3 F)) (a : Int) :
    ∀ (left : Nat) (b : Int) (firstIndex : Nat) (perMat : per_material F),
      fanLoop positions uvs normals a left b firstIndex perMat
        ≠ Except.error fbx_error.out_of_fuel := by
  intro left
  induction left with
  | zero => intro b firstIndex perMat; simp [fanLoop]
  | succ left ih =>
    intro b firstIndex perMat
    simp only [fanLoop]
    split
    · rename_i e he
      intro hc
      cases hc
      exact addVertex_fuel _ _ _ _ _ he
    · exact ih _ _ _

/-- The function `triangulateFace` never stops for lack of fuel. -/
theorem triangulateFace_fuel {F : Type} [DecidableEq F] [Zero F] (positions : List (vec3 F))
    (uvs : List (vec2 F)) (normals : List (vec3 F)) (perMat : per_material F)
    (firstIndex faceSize : Nat) :
    triangulateFace positions uvs normals perMat firstIndex faceSize
      ≠ Except.error fbx_error.out_of_fuel := by
  unfold triangulateFace
  split
  · rename_i e he
    intro hc
    cases hc
    exact addVertex_fuel _ _ _ _ _ he
  · split
    · rename_i e he
      intro hc
      cases hc
      exact addVertex_fuel _ _ _ _ _ he
    · exact fanLoop_fuel _ _ _ _ _ _ _ _

/-- With at least as much fuel as there are corners left, the polygon walk never stops for lack of
fuel. -/
theorem polygonWalk_fuel {F : Type} [DecidableEq F] [Zero F] (positions : List (vec3 F))
    (uvs : List (vec2 F)) (normals : List (vec3 F)) (originalIndices : List Int)
    (materialIndices : List Int) :
    ∀ (fuel firstIndex materialIndex : Nat) (m : List (Int × per_material F)),
      originalIndices.length ≤ firstIndex + fuel →
      polygonWalk positions uvs normals originalIndices materialIndices originalIndices.length
        fuel firstIndex materialIndex m ≠ Except.error fbx_error.out_of_fuel := by
  intro fuel
  induction fuel with
  | zero =>
    intro firstIndex materialIndex m h
    simp only [polygonWalk]
    rw [if_neg (by omega)]
    simp
  | succ fuel ih =>
    intro firstIndex materialIndex m h
    rw [polygonWalk]
    by_cases hlt : firstIndex < originalIndices.length
    · rw [if_pos hlt]
      have hfs := faceSizeLoop_eq originalIndices firstIndex originalIndices.length 0 (by omega)
      simp only [Nat.add_zero, Nat.zero_add] at hfs
      rw [hfs]
      simp only []
      have hdrop : originalIndices.drop firstIndex
          = originalIndices[firstIndex] :: originalIndices.drop (firstIndex + 1) :=
        List.drop_eq_getElem_cons hlt
      have hpos : 1 ≤ scanFace (originalIndices.drop firstIndex) := by
        rw [hdrop]
        exact scanFace_pos _ _
      split
      · rename_i e he
        intro hc
        cases hc
        exact vecGet_fuel _ _ he
      · split
        · exact ih _ _ _ (by omega)
        · split
          · rename_i e he
            intro hc
            cases hc
            exact triangulateFace_fuel _ _ _ _ _ _ he
          · exact ih _ _ _ (by omega)
    · rw [if_neg hlt]
      simp

/-- The fuel of the embedded loops is enough: `readMesh` never stops for lack of fuel. -/
theorem readMesh_fuel {D F : Type} [DecidableEq F] [Zero F] (toFloat : D → F) (id : Int)
    (name : sized_string) (originalPositionsRaw : List D) (originalIndices : List Int)
    (uvLayer normalLayer : geometry_data D) (materialLayer : geometry_data Int) (flags : Nat)
    (outMeshes : List (fbx_mesh F)) (hlen : originalIndices.length < 2147483648) :
    readMesh toFloat id name originalPositionsRaw originalIndices uvLayer normalLayer
      materialLayer flags outMeshes ≠ Except.error fbx_error.out_of_fuel := by
  unfold readMesh
  simp only [readUVs_eq_ok_nil]
  have hend : (toInt32 originalIndices.length).toNat = originalIndices.length := by
    rw [toInt32_of_lt _ hlen]
    simp
  rw [hend]
  split
  · rename_i e he
    intro hc
    cases hc
    exact expandLoop_fuel _ _ _ _ _ _ he
  · split
    · rename_i e he
      intro hc
      cases hc
      exact slotLoop_fuel _ _ _ _ he
    · split
      · rename_i e he
        intro hc
        cases hc
        exact readNormals_fuel _ _ _ _ _ _ he
      · split
        · rename_i e he
          intro hc
          cases hc
          exact readMaterialIndices_fuel _ _ _ he
        · split
          · rename_i e he
            intro hc
            cases hc
            exact polygonWalk_fuel _ _ _ _ _ _ _ _ _ (by omega) he
          · simp

/-! ## The byte cursor -/

/-- A read inside the buffer succeeds with the bytes at the offset. -/
theorem readBytes_eq_ok (content : List Nat) (offset n : Nat)
    (h : offset + n ≤ content.length) :
    readBytes content offset n = Except.ok ((content.drop offset).take n) := by
  simp [readBytes, h]

/-- A read that passes the end of the buffer is out of range. -/
theorem readBytes_eq_error (content : List Nat) (offset n : Nat)
    (h : content.length < offset + n) :
    readBytes content offset n = Except.error fbx_error.out_of_range := by
  have h1 : ¬ offset + n ≤ content.length := by omega
  simp [readBytes, h1]

/-- A slice of a slice of the buffer is a slice of the buffer. -/
theorem slice_slice (content : List Nat) (offset n a b : Nat) (h : a + b ≤ n) :
    (((content.drop offset).take n).drop a).take b = (content.drop (offset + a)).take b := by
  rw [List.drop_take, List.take_take, List.drop_drop]
  congr 1
  · omega

/-- The first bytes of a slice of the buffer are a slice of the buffer. -/
theorem slice_take (content : List Nat) (offset n b : Nat) (h : b ≤ n) :
    ((content.drop offset).take n).take b = (content.drop offset).take b := by
  rw [List.take_take]
  congr 1
  omega

/-- The slice of one byte at a position holds the byte at that position. -/
theorem slice_one (content : List Nat) (offset t : Nat) (h : content[offset]? = some t) :
    (content.drop offset).take 1 = [t] := by
  have hlt : offset < content.length := by
    by_contra hc
    rw [List.getElem?_eq_none (by omega)] at h
    exact absurd h (by simp)
  rw [List.getElem?_eq_getElem hlt] at h
  rw [List.drop_eq_getElem_cons hlt]
  simp at h
  simp [h]

/-- The little-endian value of one byte is the byte. -/
theorem leNat_singleton (t : Nat) : leNat [t] = t := by
  simp [leNat]

/-- The little-endian value of `n` bytes is below `256 ^ n`. -/
theorem leNat_lt : ∀ (bytes : List Nat), (∀ b ∈ bytes, b < 256) →
    leNat bytes < 256 ^ bytes.length := by
  intro bytes
  induction bytes with
  | nil => intro _; simp [leNat]
  | cons b bs ih =>
    intro h
    have h1 : b < 256 := h b (by simp)
    have h2 := ih (fun x hx => h x (by simp [hx]))
    simp only [leNat, List.length_cons, pow_succ]
    omega

/-- The two layouts of `readNodeRecordHeader`, for a record that lies in the buffer. -/
theorem readNodeRecordHeader_cases (version : Nat) (file : entire_file) :
    (7500 ≤ version → file.readOffset + 25 ≤ file.content.length →
      readNodeRecordHeader version file = Except.ok
        (⟨leNat ((file.content.drop file.readOffset).take 8),
          leNat ((file.content.drop (file.readOffset + 8)).take 8),
          leNat ((file.content.drop (file.readOffset + 16)).take 8),
          leNat ((file.content.drop (file.readOffset + 24)).take 1)⟩,
         { file with readOffset := file.readOffset + 25 })) ∧
    (version < 7500 → file.readOffset + 13 ≤ file.content.length →
      readNodeRecordHeader version file = Except.ok
        (⟨leNat ((file.content.drop file.readOffset).take 4),
          leNat ((file.content.drop (file.readOffset + 4)).take 4),
          leNat ((file.content.drop (file.readOffset + 8)).take 4),
          leNat ((file.content.drop (file.readOffset + 12)).take 1)⟩,
         { file with readOffset := file.readOffset + 13 })) := by
  constructor
  · intro hv hlen
    have hv' : version ≥ 7500 := hv
    simp only [readNodeRecordHeader, hv', if_true, entire_file.consume,
      readBytes_eq_ok _ _ _ hlen, Nat.mul_one]
    rw [slice_take _ _ _ _ (by omega), slice_slice _ _ _ _ _ (by omega),
      slice_slice _ _ _ _ _ (by omega), slice_slice _ _ _ _ _ (by omega)]
  · intro hv hlen
    have hv' : ¬ version ≥ 7500 := by omega
    simp only [readNodeRecordHeader, hv', if_false, entire_file.consume,
      readBytes_eq_ok _ _ _ hlen, Nat.mul_one]
    rw [slice_take _ _ _ _ (by omega), slice_slice _ _ _ _ _ (by omega),
      slice_slice _ _ _ _ _ (by omega), slice_slice _ _ _ _ _ (by omega)]

/-! ## Properties of a node -/

/-- The body of the loop of `parseProperties`, once the tag byte is known. -/
theorem parseProperty_of_tag (file : entire_file) (outProperties : List fbx_property) (t : Nat)
    (h : file.content[file.readOffset]? = some t) :
    parseProperty file outProperties =
      if t = 67 then
        Except.ok (parseScalar { file with readOffset := file.readOffset + 1 } outProperties
          fbx_property_type.bool 1)
      else if t = 70 then
        Except.ok (parseScalar { file with readOffset := file.readOffset + 1 } outProperties
          fbx_property_type.float 4)
      else if t = 68 then
        Except.ok (parseScalar { file with readOffset := file.readOffset + 1 } outProperties
          fbx_property_type.double 8)
      else if t = 89 then
        Except.ok (parseScalar { file with readOffset := file.readOffset + 1 } outProperties
          fbx_property_type.int16 2)
      else if t = 73 then
        Except.ok (parseScalar { file with readOffset := file.readOffset + 1 } outProperties
          fbx_property_type.int32 4)
      else if t = 76 then
        Except.ok (parseScalar { file with readOffset := file.readOffset + 1 } outProperties
          fbx_property_type.int64 8)
      else if t = 98 then
        parseArray { file with readOffset := file.readOffset + 1 } outProperties
          fbx_property_type.bool
      else if t = 102 then
        parseArray { file with readOffset := file.readOffset + 1 } outProperties
          fbx_property_type.float
      else if t = 100 then
        parseArray { file with readOffset := file.readOffset + 1 } outProperties
          fbx_property_type.double
      else if t = 105 then
        parseArray { file with readOffset := file.readOffset + 1 } outProperties
          fbx_property_type.int32
      else if t = 108 then
        parseArray { file with readOffset := file.readOffset + 1 } outProperties
          fbx_property_type.int64
      else if t = 83 then
        parseBlob { file with readOffset := file.readOffset + 1 } outProperties
          fbx_property_type.string
      else if t = 82 then
        parseBlob { file with readOffset := file.readOffset + 1 } outProperties
          fbx_property_type.raw
      else Except.error fbx_error.assertion_failed := by
  have hlt : file.readOffset + 1 ≤ file.content.length := by
    by_contra hc
    rw [List.getElem?_eq_none (by omega)] at h
    exact absurd h (by simp)
  simp only [parseProperty, entire_file.consume, readBytes_eq_ok _ _ _ hlt, slice_one _ _ _ h,
    leNat_singleton, Nat.mul_one]

/-- At the end of the buffer the read of the tag byte is out of range. -/
theorem parseProperty_no_tag (file : entire_file) (outProperties : List fbx_property)
    (h : file.content.length ≤ file.readOffset) :
    parseProperty file outProperties = Except.error fbx_error.out_of_range := by
  simp only [parseProperty, entire_file.consume,
    readBytes_eq_error _ _ _ (by omega : file.content.length < file.readOffset + 1)]

/-- The result of a scalar case. -/
theorem parseScalar_eq (file : entire_file) (outProperties : List fbx_property)
    (type : fbx_property_type) (sizeofT : Nat) :
    parseScalar file outProperties type sizeofT =
      ({ file with readOffset := file.readOffset + sizeofT },
        outProperties ++ [⟨type, 0, sizeofT, 1, file.readOffset⟩]) := by
  simp [parseScalar, entire_file.consume]

/-- The result of an array case whose header lies in the buffer. -/
theorem parseArray_eq (file : entire_file) (outProperties : List fbx_property)
    (type : fbx_property_type) (h : file.readOffset + 12 ≤ file.content.length) :
    parseArray file outProperties type =
      Except.ok (⟨file.content,
          file.readOffset + 12 + leNat ((file.content.drop (file.readOffset + 8)).take 4)⟩,
        outProperties ++ [⟨type, leNat ((file.content.drop (file.readOffset + 4)).take 4),
          leNat ((file.content.drop (file.readOffset + 8)).take 4),
          leNat ((file.content.drop file.readOffset).take 4), file.readOffset + 12⟩]) := by
  simp only [parseArray, entire_file.consume, readBytes_eq_ok _ _ _ h, Nat.mul_one, Nat.one_mul]
  rw [slice_take _ _ _ _ (by omega), slice_slice _ _ _ _ _ (by omega),
    slice_slice _ _ _ _ _ (by omega)]

/-- An array case whose header passes the end of the buffer is out of range. -/
theorem parseArray_eq_error (file : entire_file) (outProperties : List fbx_property)
    (type : fbx_property_type) (h : file.content.length < file.readOffset + 12) :
    parseArray file outProperties type = Except.error fbx_error.out_of_range := by
  simp only [parseArray, entire_file.consume, readBytes_eq_error _ _ _ h]

/-- The result of a string or raw case whose length field lies in the buffer. -/
theorem parseBlob_eq (file : entire_file) (outProperties : List fbx_property)
    (type : fbx_property_type) (h : file.readOffset + 4 ≤ file.content.length) :
    parseBlob file outProperties type =
      Except.ok (⟨file.content,
          file.readOffset + 4 + leNat ((file.content.drop file.readOffset).take 4)⟩,
        if leNat ((file.content.drop file.readOffset).take 4) ≠ 0 then
          outProperties ++ [⟨type, 0, leNat ((file.content.drop file.readOffset).take 4),
            leNat ((file.content.drop file.readOffset).take 4), file.readOffset + 4⟩]
        else outProperties) := by
  simp only [parseBlob, entire_file.consume, readBytes_eq_ok _ _ _ h, Nat.mul_one, Nat.one_mul]
  by_cases h0 : leNat ((file.content.drop file.readOffset).take 4) = 0 <;> simp [h0]

/-- A string or raw case whose length field passes the end of the buffer is out of
range. -/
theorem parseBlob_eq_error (file : entire_file) (outProperties : List fbx_property)
    (type : fbx_property_type) (h : file.content.length < file.readOffset + 4) :
    parseBlob file outProperties type = Except.error fbx_error.out_of_range := by
  simp only [parseBlob, entire_file.consume, readBytes_eq_error _ _ _ h]

/-- The body of the loop at a scalar tag. -/
theorem parseProperty_scalar (file : entire_file) (out : List fbx_property) (t : Nat)
    (type : fbx_property_type) (s : Nat) (hm : (t, type, s) ∈ scalarTags)
    (ht : file.content[file.readOffset]? = some t) :
    parseProperty file out = Except.ok (⟨file.content, file.readOffset + 1 + s⟩,
      out ++ [⟨type, 0, s, 1, file.readOffset + 1⟩]) := by
  rw [parseProperty_of_tag _ _ _ ht]
  simp only [scalarTags, List.mem_cons, List.mem_singleton, List.not_mem_nil, or_false,
    Prod.mk.injEq] at hm
  rcases hm with hC | hF | hD | hY | hI | hL
  · obtain ⟨rfl, rfl, rfl⟩ := hC; rfl
  · obtain ⟨rfl, rfl, rfl⟩ := hF; rfl
  · obtain ⟨rfl, rfl, rfl⟩ := hD; rfl
  · obtain ⟨rfl, rfl, rfl⟩ := hY; rfl
  · obtain ⟨rfl, rfl, rfl⟩ := hI; rfl
  · obtain ⟨rfl, rfl, rfl⟩ := hL; rfl

/-- The body of the loop at an array tag. -/
theorem parseProperty_array (file : entire_file) (out : List fbx_property) (t : Nat)
    (type : fbx_property_type) (hm : (t, type) ∈ arrayTags)
    (ht : file.content[file.readOffset]? = some t) :
    parseProperty file out = parseArray ⟨file.content, file.readOffset + 1⟩ out type := by
  rw [parseProperty_of_tag _ _ _ ht]
  simp only [arrayTags, List.mem_cons, List.mem_singleton, List.not_mem_nil, or_false,
    Prod.mk.injEq] at hm
  rcases hm with hb | hf | hd | hi | hl
  · obtain ⟨rfl, rfl⟩ := hb; rfl
  · obtain ⟨rfl, rfl⟩ := hf; rfl
  · obtain ⟨rfl, rfl⟩ := hd; rfl
  · obtain ⟨rfl, rfl⟩ := hi; rfl
  · obtain ⟨rfl, rfl⟩ := hl; rfl

/-- The body of the loop at the tag of a string or raw property. -/
theorem parseProperty_blob (file : entire_file) (out : List fbx_property) (t : Nat)
    (type : fbx_property_type) (hm : (t, type) ∈ blobTags)
    (ht : file.content[file.readOffset]? = some t) :
    parseProperty file out = parseBlob ⟨file.content, file.readOffset + 1⟩ out type := by
  rw [parseProperty_of_tag _ _ _ ht]
  simp only [blobTags, List.mem_cons, List.mem_singleton, List.not_mem_nil, or_false,
    Prod.mk.injEq] at hm
  rcases hm with ⟨rfl, rfl⟩ | ⟨rfl, rfl⟩ <;> rfl

/-- The body of the loop at any other tag: the assertion of the default case fails. -/
theorem parseProperty_unknown (file : entire_file) (out : List fbx_property) (t : Nat)
    (hm : t ∉ propertyTags) (ht : file.content[file.readOffset]? = some t) :
    parseProperty file out = Except.error fbx_error.assertion_failed := by
  rw [parseProperty_of_tag _ _ _ ht]
  simp only [propertyTags, List.mem_cons, List.mem_singleton, List.not_mem_nil, or_false,
    not_or] at hm
  obtain ⟨h1, h2, h3, h4, h5, h6, h7, h8, h9, h10, h11, h12, h13⟩ := hm
  rw [if_neg h1, if_neg h2, if_neg h3, if_neg h4, if_neg h5, if_neg h6, if_neg h7, if_neg h8,
    if_neg h9, if_neg h10, if_neg h11, if_neg h12, if_neg h13]

/-- A tag of `propertyTags` is a scalar tag, an array tag or the tag of a string or raw
property. -/
theorem propertyTags_cases (t : Nat) (hm : t ∈ propertyTags) :
    (∃ type s, (t, type, s) ∈ scalarTags) ∨ (∃ type, (t, type) ∈ arrayTags)
      ∨ (∃ type, (t, type) ∈ blobTags) := by
  simp only [propertyTags, List.mem_cons, List.mem_singleton, List.not_mem_nil, or_false] at hm
  rcases hm with rfl | rfl | rfl | rfl | rfl | rfl | rfl | rfl | rfl | rfl | rfl | rfl | rfl
  all_goals simp [scalarTags, arrayTags, blobTags]

/-- The size of the encoding of a scalar property. -/
theorem encodedSize_scalar (content : List Nat) (offset t : Nat) (type : fbx_property_type)
    (s : Nat) (hm : (t, type, s) ∈ scalarTags) (ht : content[offset]? = some t) :
    encodedSize content offset = some (1 + s) ∧ isZeroLength content offset = false := by
  simp only [scalarTags, List.mem_cons, List.mem_singleton, List.not_mem_nil, or_false,
    Prod.mk.injEq] at hm
  rcases hm with hC | hF | hD | hY | hI | hL
  · obtain ⟨rfl, rfl, rfl⟩ := hC; simp [encodedSize, isZeroLength, ht]
  · obtain ⟨rfl, rfl, rfl⟩ := hF; simp [encodedSize, isZeroLength, ht]
  · obtain ⟨rfl, rfl, rfl⟩ := hD; simp [encodedSize, isZeroLength, ht]
  · obtain ⟨rfl, rfl, rfl⟩ := hY; simp [encodedSize, isZeroLength, ht]
  · obtain ⟨rfl, rfl, rfl⟩ := hI; simp [encodedSize, isZeroLength, ht]
  · obtain ⟨rfl, rfl, rfl⟩ := hL; simp [encodedSize, isZeroLength, ht]

/-- The size of the encoding of an array property. -/
theorem encodedSize_array (content : List Nat) (offset t : Nat) (type : fbx_property_type)
    (hm : (t, type) ∈ arrayTags) (ht : content[offset]? = some t) :
    encodedSize content offset = some (1 + 12 + leNat ((content.drop (offset + 9)).take 4))
      ∧ isZeroLength content offset = false := by
  simp only [arrayTags, List.mem_cons, List.mem_singleton, List.not_mem_nil, or_false,
    Prod.mk.injEq] at hm
  rcases hm with hb | hf | hd | hi | hl
  · obtain ⟨rfl, rfl⟩ := hb; simp [encodedSize, isZeroLength, ht]
  · obtain ⟨rfl, rfl⟩ := hf; simp [encodedSize, isZeroLength, ht]
  · obtain ⟨rfl, rfl⟩ := hd; simp [encodedSize, isZeroLength, ht]
  · obtain ⟨rfl, rfl⟩ := hi; simp [encodedSize, isZeroLength, ht]
  · obtain ⟨rfl, rfl⟩ := hl; simp [encodedSize, isZeroLength, ht]

/-- The size of the encoding of a string or raw property, and when its length is 0. -/
theorem encodedSize_blob (content : List Nat) (offset t : Nat) (type : fbx_property_type)
    (hm : (t, type) ∈ blobTags) (ht : content[offset]? = some t) :
    encodedSize content offset = some (1 + 4 + leNat ((content.drop (offset + 1)).take 4))
      ∧ isZeroLength content offset
        = (leNat ((content.drop (offset + 1)).take 4) == 0) := by
  simp only [blobTags, List.mem_cons, List.mem_singleton, List.not_mem_nil, or_false,
    Prod.mk.injEq] at hm
  rcases hm with ⟨rfl, rfl⟩ | ⟨rfl, rfl⟩ <;> simp [encodedSize, isZeroLength, ht]

/-- What a successful run of the body of the loop does: the buffer is kept, the read
offset moves by the size of the encoding, and one entry is appended unless the property is a
string or raw property of length 0. -/
theorem parseProperty_step (file file1 : entire_file) (out out1 : List fbx_property)
    (h : parseProperty file out = Except.ok (file1, out1)) :
    file1.content = file.content ∧
    encodedSize file.content file.readOffset = some (file1.readOffset - file.readOffset) ∧
    file.readOffset < file1.readOffset ∧
    file.readOffset < file.content.length ∧
    out1.length + (if isZeroLength file.content file.readOffset then 1 else 0)
      = out.length + 1 := by
  cases ht : file.content[file.readOffset]? with
  | none =>
    rw [parseProperty_no_tag _ _ (by simpa using ht)] at h
    exact absurd h (by simp)
  | some t =>
    have hlt : file.readOffset < file.content.length := by
      by_contra hc
      rw [List.getElem?_eq_none (by omega)] at ht
      exact absurd ht (by simp)
    by_cases hmem : t ∈ propertyTags
    · rcases propertyTags_cases t hmem with ⟨type, s, hm⟩ | ⟨type, hm⟩ | ⟨type, hm⟩
      · rw [parseProperty_scalar _ _ _ _ _ hm ht] at h
        simp only [Except.ok.injEq, Prod.mk.injEq] at h
        obtain ⟨rfl, rfl⟩ := h
        obtain ⟨he, hz⟩ := encodedSize_scalar _ _ _ _ _ hm ht
        refine ⟨rfl, ?_, ?_, hlt, ?_⟩
        · rw [he]; simp; omega
        · simp; omega
        · simp [hz]
      · obtain ⟨he, hz⟩ := encodedSize_array _ _ _ _ hm ht
        rw [parseProperty_array _ _ _ _ hm ht] at h
        by_cases hb : file.readOffset + 1 + 12 ≤ file.content.length
        · rw [parseArray_eq _ _ _ hb] at h
          simp only [Except.ok.injEq, Prod.mk.injEq] at h
          obtain ⟨rfl, rfl⟩ := h
          have e9 : file.readOffset + 1 + 8 = file.readOffset + 9 := by omega
          refine ⟨rfl, ?_, ?_, hlt, ?_⟩
          · rw [he]; simp [e9]; omega
          · simp; omega
          · simp [hz]
        · rw [parseArray_eq_error _ _ _ (by simpa using hb)] at h
          exact absurd h (by simp)
      · obtain ⟨he, hz⟩ := encodedSize_blob _ _ _ _ hm ht
        rw [parseProperty_blob _ _ _ _ hm ht] at h
        by_cases hb : file.readOffset + 1 + 4 ≤ file.content.length
        · rw [parseBlob_eq _ _ _ hb] at h
          simp only [Except.ok.injEq, Prod.mk.injEq] at h
          obtain ⟨rfl, rfl⟩ := h
          refine ⟨rfl, ?_, ?_, hlt, ?_⟩
          · rw [he]; simp; omega
          · simp; omega
          · rw [hz]
            by_cases h0 : leNat ((file.content.drop (file.readOffset + 1)).take 4) = 0
            · simp [h0]
            · simp [h0]
        · rw [parseBlob_eq_error _ _ _ (by simpa using hb)] at h
          exact absurd h (by simp)
    · rw [parseProperty_unknown _ _ _ hmem ht] at h
      exact absurd h (by simp)

/-- The loop over `k + j` properties is the loop over `k` properties followed by the loop
over `j` properties. -/
theorem parsePropertiesLoop_add (k j : Nat) : ∀ (file : entire_file) (out : List fbx_property),
    parsePropertiesLoop (k + j) file out =
      match parsePropertiesLoop k file out with
      | Except.error e => Except.error e
      | Except.ok (fileK, outK) => parsePropertiesLoop j fileK outK := by
  induction k with
  | zero => intro file out; simp [parsePropertiesLoop]
  | succ k ih =>
    intro file out
    rw [show k + 1 + j = (k + j) + 1 from by omega]
    simp only [parsePropertiesLoop]
    cases h : parseProperty file out with
    | error e => rfl
    | ok r =>
      obtain ⟨file1, out1⟩ := r
      exact ih file1 out1

/-- What a successful run of the loop of `parseProperties` does. -/
theorem parsePropertiesLoop_spec : ∀ (n : Nat) (file file1 : entire_file)
    (out out1 : List fbx_property),
    parsePropertiesLoop n file out = Except.ok (file1, out1) →
    file1.content = file.content ∧ file.readOffset ≤ file1.readOffset ∧
    out.length ≤ out1.length ∧
    out1.length + zeroLengthCount file.content n file.readOffset = out.length + n := by
  intro n
  induction n with
  | zero =>
    intro file file1 out out1 h
    simp only [parsePropertiesLoop, Except.ok.injEq, Prod.mk.injEq] at h
    obtain ⟨rfl, rfl⟩ := h
    simp [zeroLengthCount]
  | succ n ih =>
    intro file file1 out out1 h
    simp only [parsePropertiesLoop] at h
    cases h1 : parseProperty file out with
    | error e => rw [h1] at h; exact absurd h (by simp)
    | ok r =>
      obtain ⟨file2, out2⟩ := r
      rw [h1] at h
      simp only at h
      obtain ⟨hc, he, hlt, _, hlen⟩ := parseProperty_step _ _ _ _ h1
      obtain ⟨hc2, hle2, hout2, hlen2⟩ := ih _ _ _ _ h
      have hout : out.length ≤ out2.length := by
        split at hlen <;> omega
      refine ⟨hc2.trans hc, by omega, by omega, ?_⟩
      simp only [zeroLengthCount, he, Option.getD_some]
      rw [show file.readOffset + (file2.readOffset - file.readOffset) = file2.readOffset
        from by omega]
      rw [hc] at hlen2
      omega

/-- What a successful call of `parseProperties` returns. -/
theorem parseProperties_spec (n : Nat) (file file1 : entire_file)
    (out out1 : List fbx_property) (count : Nat) (hn : n < 4294967296)
    (h : parseProperties file out n = Except.ok (file1, out1, count)) :
    file1.content = file.content ∧ file.readOffset ≤ file1.readOffset ∧
    count + out.length = out1.length ∧
    count + zeroLengthCount file.content n file.readOffset = n := by
  simp only [parseProperties] at h
  cases h1 : parsePropertiesLoop n file out with
  | error e => rw [h1] at h; exact absurd h (by simp)
  | ok r =>
    obtain ⟨file2, out2⟩ := r
    rw [h1] at h
    simp only [Except.ok.injEq, Prod.mk.injEq] at h
    obtain ⟨rfl, rfl, rfl⟩ := h
    obtain ⟨hc, hle, hout, hlen⟩ := parsePropertiesLoop_spec _ _ _ _ _ h1
    refine ⟨hc, hle, ?_, ?_⟩ <;> omega

/-- C16: `parseProperties` fails with a failed assertion as soon as it reaches a property whose
tag byte is not one of C, F, D, Y, I, L, b, f, d, i, l, S, R, whatever number of properties went
before and is still to come; and for a property with one of these tags, whose encoding lies in
the buffer, the body of the loop succeeds and moves the read offset by exactly the size of the
encoding of that property. -/
theorem parseProperties_tags (file : entire_file) (outProperties : List fbx_property) :
    (∀ (k m : Nat) (fileK : entire_file) (outK : List fbx_property) (t : Nat),
      parsePropertiesLoop k file outProperties = Except.ok (fileK, outK) →
      fileK.content[fileK.readOffset]? = some t → t ∉ propertyTags →
      parseProperties file outProperties (k + 1 + m)
        = Except.error fbx_error.assertion_failed) ∧
    (∀ (t : Nat), file.content[file.readOffset]? = some t → t ∈ propertyTags →
      ∃ (n : Nat), encodedSize file.content file.readOffset = some n ∧
        (file.readOffset + n ≤ file.content.length →
          ∃ out1, parseProperty file outProperties
            = Except.ok (⟨file.content, file.readOffset + n⟩, out1))) := by
  constructor
  · intro k m fileK outK t hk ht hm
    simp only [parseProperties]
    rw [show k + 1 + m = k + (1 + m) from by omega, parsePropertiesLoop_add, hk]
    simp only
    rw [show 1 + m = m + 1 from by omega]
    simp only [parsePropertiesLoop, parseProperty_unknown _ _ _ hm ht]
  · intro t ht hm
    rcases propertyTags_cases t hm with ⟨type, s, hs⟩ | ⟨type, hs⟩ | ⟨type, hs⟩
    · refine ⟨1 + s, (encodedSize_scalar _ _ _ _ _ hs ht).1, fun _ => ?_⟩
      rw [parseProperty_scalar _ _ _ _ _ hs ht, Nat.add_assoc]
      exact ⟨_, rfl⟩
    · refine ⟨_, (encodedSize_array _ _ _ _ hs ht).1, fun hlen => ?_⟩
      rw [parseProperty_array _ _ _ _ hs ht, parseArray_eq _ _ _ (by simp only; omega)]
      simp only
      rw [show file.readOffset + 1 + 8 = file.readOffset + 9 from by omega,
        show file.readOffset + 1 + 12 = file.readOffset + (1 + 12) from by omega, Nat.add_assoc]
      exact ⟨_, rfl⟩
    · refine ⟨_, (encodedSize_blob _ _ _ _ hs ht).1, fun hlen => ?_⟩
      rw [parseProperty_blob _ _ _ _ hs ht, parseBlob_eq _ _ _ (by simp only; omega)]
      simp only
      rw [show file.readOffset + 1 + 4 = file.readOffset + (1 + 4) from by omega, Nat.add_assoc]
      exact ⟨_, rfl⟩

/-- The property list of `taggedProperties`: the fourth property has the tag `X`, so the parse
of more than three properties fails; the array at offset 5 is parsed and takes 15 bytes. -/
theorem parseProperties_tags_witness :
    parseProperties ⟨taggedProperties, 0⟩ [] (3 + 1 + 5)
        = Except.error fbx_error.assertion_failed ∧
    (∃ (n : Nat), encodedSize taggedProperties 5 = some n ∧
        (5 + n ≤ taggedProperties.length →
          ∃ out1, parseProperty ⟨taggedProperties, 5⟩ []
            = Except.ok (⟨taggedProperties, 5 + n⟩, out1))) :=
  ⟨(parseProperties_tags ⟨taggedProperties, 0⟩ []).1 3 5 ⟨taggedProperties, 27⟩ _ 88
      (by rfl) (by decide) (by decide),
    (parseProperties_tags ⟨taggedProperties, 5⟩ []).2 98 (by decide) (by decide)⟩

/-! ## Node records -/

/-- The little-endian value of a slice of `n` bytes of a buffer of bytes is below
`256 ^ n`. -/
theorem leNat_slice_lt (content : List Nat) (offset n : Nat) (h : ∀ b ∈ content, b < 256) :
    leNat ((content.drop offset).take n) < 256 ^ n := by
  have h1 := leNat_lt ((content.drop offset).take n)
    (fun b hb => h b (List.mem_of_mem_drop (List.mem_of_mem_take hb)))
  have h2 : ((content.drop offset).take n).length ≤ n := by simp
  exact lt_of_lt_of_le h1 (Nat.pow_le_pow_right (by decide) h2)

/-- The layout of 25 bytes. -/
theorem readNodeRecordHeader_eq_64 (version : Nat) (file : entire_file) (hv : 7500 ≤ version)
    (hlen : file.readOffset + 25 ≤ file.content.length) :
    readNodeRecordHeader version file = Except.ok
      (⟨leNat ((file.content.drop file.readOffset).take 8),
        leNat ((file.content.drop (file.readOffset + 8)).take 8),
        leNat ((file.content.drop (file.readOffset + 16)).take 8),
        leNat ((file.content.drop (file.readOffset + 24)).take 1)⟩,
       ⟨file.content, file.readOffset + 25⟩) :=
  (readNodeRecordHeader_cases version file).1 hv hlen

/-- The layout of 13 bytes. -/
theorem readNodeRecordHeader_eq_32 (version : Nat) (file : entire_file) (hv : version < 7500)
    (hlen : file.readOffset + 13 ≤ file.content.length) :
    readNodeRecordHeader version file = Except.ok
      (⟨leNat ((file.content.drop file.readOffset).take 4),
        leNat ((file.content.drop (file.readOffset + 4)).take 4),
        leNat ((file.content.drop (file.readOffset + 8)).take 4),
        leNat ((file.content.drop (file.readOffset + 12)).take 1)⟩,
       ⟨file.content, file.readOffset + 13⟩) :=
  (readNodeRecordHeader_cases version file).2 hv hlen

/-- C14: `readNodeRecordHeader` selects the layout of the record from the version alone.  For a
version from 7500 on it moves the read offset by 25 bytes and returns the little-endian values
of the three fields of 8 bytes and of the byte `nameLength`; for a version below 7500 it moves
the read offset by 13 bytes and returns the little-endian values of the three fields of 4 bytes
(numbers below `2^32`, unchanged by the widening to 64 bits) and of the byte `nameLength`. -/
theorem readNodeRecordHeader_layout (version : Nat) (file : entire_file) :
    (7500 ≤ version → file.readOffset + 25 ≤ file.content.length →
      readNodeRecordHeader version file = Except.ok
        (⟨leNat ((file.content.drop file.readOffset).take 8),
          leNat ((file.content.drop (file.readOffset + 8)).take 8),
          leNat ((file.content.drop (file.readOffset + 16)).take 8),
          leNat ((file.content.drop (file.readOffset + 24)).take 1)⟩,
         ⟨file.content, file.readOffset + 25⟩)) ∧
    (version < 7500 → file.readOffset + 13 ≤ file.content.length →
      readNodeRecordHeader version file = Except.ok
        (⟨leNat ((file.content.drop file.readOffset).take 4),
          leNat ((file.content.drop (file.readOffset + 4)).take 4),
          leNat ((file.content.drop (file.readOffset + 8)).take 4),
          leNat ((file.content.drop (file.readOffset + 12)).take 1)⟩,
         ⟨file.content, file.readOffset + 13⟩) ∧
      ((∀ b ∈ file.content, b < 256) →
        leNat ((file.content.drop file.readOffset).take 4) < 4294967296 ∧
        leNat ((file.content.drop (file.readOffset + 4)).take 4) < 4294967296 ∧
        leNat ((file.content.drop (file.readOffset + 8)).take 4) < 4294967296)) :=
  ⟨readNodeRecordHeader_eq_64 version file,
    fun hv hlen => ⟨readNodeRecordHeader_eq_32 version file hv hlen, fun hb =>
      ⟨leNat_slice_lt _ _ 4 hb, leNat_slice_lt _ _ 4 hb, leNat_slice_lt _ _ 4 hb⟩⟩⟩

/-- The bytes of `recordHeaderBytes` read in the two layouts. -/
theorem readNodeRecordHeader_layout_witness :
    readNodeRecordHeader 7500 ⟨recordHeaderBytes, 0⟩
      = Except.ok (⟨258, 1, 5, 4⟩, ⟨recordHeaderBytes, 25⟩) ∧
    readNodeRecordHeader 7400 ⟨recordHeaderBytes, 0⟩
      = Except.ok (⟨258, 0, 1, 0⟩, ⟨recordHeaderBytes, 13⟩) :=
  ⟨(readNodeRecordHeader_layout 7500 ⟨recordHeaderBytes, 0⟩).1 (by decide) (by decide),
    ((readNodeRecordHeader_layout 7400 ⟨recordHeaderBytes, 0⟩).2 (by decide) (by decide)).1⟩

/-- A write keeps the size of the vector. -/
theorem vecSet_length {α : Type} (v v1 : List α) (i : Nat) (x : α)
    (h : vecSet v i x = Except.ok v1) : v1.length = v.length := by
  simp only [vecSet] at h
  split at h
  · simp only [Except.ok.injEq] at h
    subst h
    simp
  · exact absurd h (by simp)

/-- Linking a child keeps the size of the node array. -/
theorem linkChild_length (outNodes outNodes1 : List fbx_node) (parent nodeIndex : Nat)
    (h : linkChild outNodes parent nodeIndex = Except.ok outNodes1) :
    outNodes1.length = outNodes.length := by
  simp only [linkChild] at h
  split at h
  · cases h1 : vecGet outNodes parent with
    | error e => rw [h1] at h; exact absurd h (by simp)
    | ok parentNode =>
      rw [h1] at h
      simp only at h
      split at h
      · exact absurd h (by simp)
      · rename_i outNodes2 h2
        have hlen2 : outNodes2.length = outNodes.length := by
          split at h2
          · exact vecSet_length _ _ _ _ h2
          · cases h3 : vecGet outNodes parentNode.lastChild with
            | error e => rw [h3] at h2; exact absurd h2 (by simp)
            | ok lastNode =>
              rw [h3] at h2
              exact vecSet_length _ _ _ _ h2
        cases h4 : vecGet outNodes2 parent with
        | error e => rw [h4] at h; exact absurd h (by simp)
        | ok parentNode1 =>
          rw [h4] at h
          rw [vecSet_length _ _ _ _ h, hlen2]
  · simp only [Except.ok.injEq] at h
    rw [← h]

/-- What a successful run of `parseNodeHead` does: one node is appended, whose
`numProperties` is the number of entries appended to the property array. -/
theorem parseNodeHead_spec (currentNode : fbx_node_record_header_64) (parent : Nat)
    (st st1 : parse_state) (h : parseNodeHead currentNode parent st = Except.ok st1) :
    st1.file.content = st.file.content ∧
    st.file.readOffset + currentNode.nameLength ≤ st1.file.readOffset ∧
    ∃ nodes node, st1.outNodes = nodes ++ [node] ∧ nodes.length = st.outNodes.length ∧
      node.numProperties + st.outProperties.length = st1.outProperties.length ∧
      node.numProperties + zeroLengthCount st.file.content
          (currentNode.numProperties % 4294967296)
          (st.file.readOffset + currentNode.nameLength)
        = currentNode.numProperties % 4294967296 := by
  simp only [parseNodeHead] at h
  cases h1 : vecGet st.outNodes parent with
  | error e => rw [h1] at h; exact absurd h (by simp)
  | ok parentNode =>
    rw [h1] at h
    simp only at h
    cases h2 : linkChild st.outNodes parent (st.outNodes.length % 4294967296) with
    | error e => rw [h2] at h; exact absurd h (by simp)
    | ok outNodes1 =>
      rw [h2] at h
      simp only at h
      cases h3 : parseProperties (st.file.consume 1 currentNode.nameLength).2 st.outProperties
          (currentNode.numProperties % 4294967296) with
      | error e => rw [h3] at h; exact absurd h (by simp)
      | ok r =>
        obtain ⟨file2, outProperties2, numProperties⟩ := r
        rw [h3] at h
        simp only [Except.ok.injEq] at h
        subst h
        obtain ⟨hc, hle, hcount, hzero⟩ := parseProperties_spec _ _ _ _ _ _
          (Nat.mod_lt _ (by decide)) h3
        simp only [entire_file.consume, Nat.one_mul] at hc hle hzero
        exact ⟨hc, hle, _, _, rfl, linkChild_length _ _ _ _ h2, hcount, hzero⟩

/-- C11: a string or raw property (tags S and R) whose length prefix is 0 moves the read offset
over its 5 bytes and leaves the property array as it was; and the node that `parseNodes`
appends for a record stores as `numProperties` the number of entries that were appended to the
property array, which is the declared count (as a `uint32`) less the number of string and raw
properties of length 0 among the properties of the record. -/
theorem parseNodes_skips_zero_length :
    (∀ (file : entire_file) (outProperties : List fbx_property) (t : Nat)
      (type : fbx_property_type), (t, type) ∈ blobTags →
      file.content[file.readOffset]? = some t →
      file.readOffset + 5 ≤ file.content.length →
      leNat ((file.content.drop (file.readOffset + 1)).take 4) = 0 →
      parseProperty file outProperties
        = Except.ok (⟨file.content, file.readOffset + 5⟩, outProperties)) ∧
    (∀ (currentNode : fbx_node_record_header_64) (parent : Nat) (st st1 : parse_state),
      parseNodeHead currentNode parent st = Except.ok st1 →
      ∃ nodes node, st1.outNodes = nodes ++ [node] ∧
        node.numProperties + st.outProperties.length = st1.outProperties.length ∧
        node.numProperties + zeroLengthCount st.file.content
            (currentNode.numProperties % 4294967296)
            (st.file.readOffset + currentNode.nameLength)
          = currentNode.numProperties % 4294967296) := by
  constructor
  · intro file outProperties t type hm ht hlen h0
    rw [parseProperty_blob _ _ _ _ hm ht, parseBlob_eq _ _ _ (by simp only; omega)]
    simp only [h0, ne_eq, not_true_eq_false, if_false, Nat.add_zero]
  · intro currentNode parent st st1 h
    obtain ⟨_, _, nodes, node, h1, _, h2, h3⟩ := parseNodeHead_spec _ _ _ _ h
    exact ⟨nodes, node, h1, h2, h3⟩

/-- The node of `zeroLengthBytes`: the string of length 0 at offset 1 is skipped, and of
the three declared properties one is stored. -/
theorem parseNodes_skips_zero_length_witness :
    parseProperty ⟨zeroLengthBytes, 1⟩ [] = Except.ok (⟨zeroLengthBytes, 6⟩, []) ∧
    ∃ nodes node,
      [{ rootNode with firstChild := 1, lastChild := 1 },
        (⟨⟨[78]⟩, 0, noNode, noNode, noNode, 0, 0, 1⟩ : fbx_node)] = nodes ++ [node] ∧
      node.numProperties + 0 = 1 ∧
      node.numProperties + zeroLengthCount zeroLengthBytes 3 1 = 3 :=
  ⟨parseNodes_skips_zero_length.1 ⟨zeroLengthBytes, 1⟩ [] 83 fbx_property_type.string
      (by decide) (by decide) (by decide) (by decide),
    parseNodes_skips_zero_length.2 ⟨0, 3, 0, 1⟩ 0
      ⟨⟨zeroLengthBytes, 0⟩, [rootNode], []⟩
      ⟨⟨zeroLengthBytes, 16⟩, [{ rootNode with firstChild := 1, lastChild := 1 },
        ⟨⟨[78]⟩, 0, noNode, noNode, noNode, 0, 0, 1⟩],
        [⟨fbx_property_type.int32, 0, 4, 1, 7⟩]⟩ (by rfl)⟩

/-! ## The header of the file -/

/-- The comparison `strcmp` with a literal without inner NUL bytes succeeds exactly on the
byte sequences that start with the literal and its terminating NUL. -/
theorem strcmpEq_iff : ∀ (lit xs : List Nat), 0 ∉ lit →
    (strcmpEq xs (lit ++ [0]) = true ↔ ∃ rest, xs = lit ++ [0] ++ rest) := by
  intro lit
  induction lit with
  | nil =>
    intro xs _
    cases xs with
    | nil => simp [strcmpEq]
    | cons x xs =>
      simp only [List.nil_append, strcmpEq, bne_iff_ne, ne_eq, ite_not, beq_iff_eq,
        List.singleton_append, List.cons.injEq, exists_and_left, exists_eq', and_true]
      by_cases hx : x = 0
      · simp [hx]
      · simp [hx]
  | cons c lit ih =>
    intro xs h0
    have hc : c ≠ 0 := fun h => h0 (by simp [h])
    have hl : 0 ∉ lit := fun h => h0 (by simp [h])
    cases xs with
    | nil => simp [strcmpEq]
    | cons x xs =>
      simp only [List.cons_append, strcmpEq, bne_iff_ne, ne_eq, ite_not, beq_iff_eq,
        List.cons.injEq]
      by_cases hx : x = c
      · subst hx
        simp only [if_true, hc, if_false, true_and]
        have := ih xs hl
        simpa using this
      · simp [hx]

/-- The comparison of 21 bytes with the magic string succeeds exactly when they are the
bytes of the magic string. -/
theorem strcmpEq_fbxMagic (xs : List Nat) (h : xs.length = 21) :
    strcmpEq xs fbxMagic = true ↔ xs = fbxMagic := by
  have hm : fbxMagic = [75, 97, 121, 100, 97, 114, 97, 32, 70, 66, 88, 32, 66, 105, 110, 97,
      114, 121, 32, 32] ++ [0] := rfl
  rw [hm, strcmpEq_iff _ _ (by decide)]
  constructor
  · rintro ⟨rest, hr⟩
    have hl := congrArg List.length hr
    simp only [List.length_append, List.length_cons, List.length_nil, h] at hl
    have : rest = [] := List.length_eq_zero.mp (by omega)
    rw [hr, this, List.append_nil]
  · intro hx
    exact ⟨[], by rw [hx, List.append_nil]⟩

/-- The three outcomes of the first part of `loadFBX`, by the header of the buffer. -/
theorem loadFBX_nodes_cases (bytes : List Nat) :
    ((∃ version outcome, loadFBX_nodes (entire_file.ofBytes bytes)
        = load_result.parsed version outcome) ↔
      (27 ≤ bytes.length ∧ bytes.take 21 = fbxMagic ∧ bytes[21]? = some 26
        ∧ bytes[22]? = some 0)) ∧
    (¬ (27 ≤ bytes.length ∧ bytes.take 21 = fbxMagic ∧ bytes[21]? = some 26
        ∧ bytes[22]? = some 0) →
      loadFBX_nodes (entire_file.ofBytes bytes) = load_result.smaller_than_header
        ∨ loadFBX_nodes (entire_file.ofBytes bytes) = load_result.header_mismatch) ∧
    ((27 ≤ bytes.length ∧ bytes.take 21 = fbxMagic ∧ bytes[21]? = some 26
        ∧ bytes[22]? = some 0) →
      loadFBX_nodes (entire_file.ofBytes bytes)
        = load_result.parsed (leNat ((bytes.drop 23).take 4))
            (parseNodes (bytes.length + 1) (leNat ((bytes.drop 23).take 4))
              ⟨⟨bytes, 27⟩, [rootNode], []⟩ 0 0)) := by
  by_cases hlen : bytes.length < 27
  · have h1 : loadFBX_nodes (entire_file.ofBytes bytes) = load_result.smaller_than_header := by
      simp [loadFBX_nodes, entire_file.ofBytes, entire_file.size, hlen]
    rw [h1]
    refine ⟨⟨?_, ?_⟩, fun _ => Or.inl rfl, ?_⟩
    · rintro ⟨v, o, h⟩
      exact absurd h (by simp)
    · rintro ⟨h, _⟩
      omega
    · rintro ⟨h, _⟩
      omega
  · have h21 : bytes[21]? = some (bytes[21]) := List.getElem?_eq_getElem (by omega)
    have h22 : bytes[22]? = some (bytes[22]) := List.getElem?_eq_getElem (by omega)
    have e0 : (bytes.drop 0).take 27 = bytes.take 27 := by simp
    have e1 : ((bytes.drop 0).take 27).take 21 = bytes.take 21 := by
      rw [slice_take _ _ _ _ (by omega)]; simp
    have e2 : (((bytes.drop 0).take 27).drop 21).take 1 = [bytes[21]] := by
      rw [slice_slice _ _ _ _ _ (by omega)]
      exact slice_one _ _ _ (by simp [h21])
    have e3 : (((bytes.drop 0).take 27).drop 22).take 1 = [bytes[22]] := by
      rw [slice_slice _ _ _ _ _ (by omega)]
      exact slice_one _ _ _ (by simp [h22])
    have e4 : (((bytes.drop 0).take 27).drop 23).take 4 = (bytes.drop 23).take 4 := by
      rw [slice_slice _ _ _ _ _ (by omega)]
    have hm := strcmpEq_fbxMagic (bytes.take 21) (by simp; omega)
    by_cases hc : bytes.take 21 = fbxMagic ∧ bytes[21] = 26 ∧ bytes[22] = 0
    · obtain ⟨hc1, hc2, hc3⟩ := hc
      have hs : strcmpEq (bytes.take 21) fbxMagic = true := hm.mpr hc1
      have hp : loadFBX_nodes (entire_file.ofBytes bytes)
          = load_result.parsed (leNat ((bytes.drop 23).take 4))
              (parseNodes (bytes.length + 1) (leNat ((bytes.drop 23).take 4))
                ⟨⟨bytes, 27⟩, [rootNode], []⟩ 0 0) := by
        simp only [loadFBX_nodes, entire_file.ofBytes, entire_file.size, hlen, if_false,
          entire_file.consume, e1, e2, e3, e4, leNat_singleton, hs, hc2, hc3]
        rfl
      have h1 : ∃ version outcome, loadFBX_nodes (entire_file.ofBytes bytes)
          = load_result.parsed version outcome := ⟨_, _, hp⟩
      have h2 : 27 ≤ bytes.length ∧ bytes.take 21 = fbxMagic ∧ bytes[21]? = some 26
          ∧ bytes[22]? = some 0 := ⟨by omega, hc1, by rw [h21, hc2], by rw [h22, hc3]⟩
      exact ⟨⟨fun _ => h2, fun _ => h1⟩, fun hn => absurd h2 hn, fun _ => hp⟩
    · have h1 : loadFBX_nodes (entire_file.ofBytes bytes) = load_result.header_mismatch := by
        simp only [loadFBX_nodes, entire_file.ofBytes, entire_file.size, hlen, if_false,
          entire_file.consume, e1, e2, e3, leNat_singleton]
        rw [if_pos]
        by_cases hs : strcmpEq (bytes.take 21) fbxMagic = true
        · have hc1 := hm.mp hs
          by_cases hc2 : bytes[21] = 26
          · have hc3 : bytes[22] ≠ 0 := fun h => hc ⟨hc1, hc2, h⟩
            simp [hc3]
          · simp [hc2]
        · simp [hs]
      rw [h1]
      have hn : ¬ (27 ≤ bytes.length ∧ bytes.take 21 = fbxMagic ∧ bytes[21]? = some 26
          ∧ bytes[22]? = some 0) := by
        rintro ⟨_, g1, g2, g3⟩
        rw [h21] at g2
        rw [h22] at g3
        exact absurd ⟨g1, by simpa using g2, by simpa using g3⟩ hc
      refine ⟨⟨?_, fun g => absurd g hn⟩, fun _ => Or.inr rfl, fun g => absurd g hn⟩
      rintro ⟨v, o, h⟩
      exact absurd h (by simp)

/-- C12: `loadFBX` reaches the call of `parseNodes` if and only if the buffer has at least 27
bytes, its first 21 bytes are the text `Kaydara FBX Binary  ` with the NUL byte that ends it,
and the bytes 21 and 22 are `0x1A` and `0x00`.  In every other case it prints one of the two
messages and returns, and no node array exists. -/
theorem loadFBX_nodes_header (bytes : List Nat) :
    ((∃ version outcome, loadFBX_nodes (entire_file.ofBytes bytes)
        = load_result.parsed version outcome) ↔
      (27 ≤ bytes.length ∧ bytes.take 21 = fbxMagic ∧ bytes[21]? = some 26
        ∧ bytes[22]? = some 0)) ∧
    (¬ (27 ≤ bytes.length ∧ bytes.take 21 = fbxMagic ∧ bytes[21]? = some 26
        ∧ bytes[22]? = some 0) →
      loadFBX_nodes (entire_file.ofBytes bytes) = load_result.smaller_than_header
        ∨ loadFBX_nodes (entire_file.ofBytes bytes) = load_result.header_mismatch) ∧
    ((27 ≤ bytes.length ∧ bytes.take 21 = fbxMagic ∧ bytes[21]? = some 26
        ∧ bytes[22]? = some 0) →
      loadFBX_nodes (entire_file.ofBytes bytes)
        = load_result.parsed (leNat ((bytes.drop 23).take 4))
            (parseNodes (bytes.length + 1) (leNat ((bytes.drop 23).take 4))
              ⟨⟨bytes, 27⟩, [rootNode], []⟩ 0 0)) :=
  loadFBX_nodes_cases bytes

/-- A buffer of 27 bytes with a valid header is taken on, the buffer `badSentinel` is turned
down. -/
theorem loadFBX_nodes_header_witness :
    (∃ version outcome, loadFBX_nodes (entire_file.ofBytes (fbxMagic ++ [26, 0, 0, 0, 0, 0]))
        = load_result.parsed version outcome) ∧
    (loadFBX_nodes (entire_file.ofBytes badSentinel) = load_result.smaller_than_header
      ∨ loadFBX_nodes (entire_file.ofBytes badSentinel) = load_result.header_mismatch) :=
  ⟨(loadFBX_nodes_header (fbxMagic ++ [26, 0, 0, 0, 0, 0])).1.mpr (by decide),
    (loadFBX_nodes_header badSentinel).2.1 (by decide)⟩

/-! ## Typed reads of a property -/

/-- The number of elements that `chunks` returns. -/
theorem chunks_length (sizeofT : Nat) : ∀ (n : Nat) (bytes : List Nat),
    (chunks sizeofT n bytes).length = n := by
  intro n
  induction n with
  | zero => intro bytes; rfl
  | succ n ih => intro bytes; simp [chunks, ih]

/-- The element `i` that `chunks` returns. -/
theorem chunks_getElem (sizeofT : Nat) : ∀ (n : Nat) (bytes : List Nat) (i : Nat), i < n →
    (chunks sizeofT n bytes)[i]? = some ((bytes.drop (sizeofT * i)).take sizeofT) := by
  intro n
  induction n with
  | zero => intro bytes i hi; omega
  | succ n ih =>
    intro bytes i hi
    cases i with
    | zero => simp [chunks]
    | succ i =>
      simp only [chunks, List.getElem?_cons_succ]
      rw [ih _ _ (by omega), List.drop_drop, Nat.mul_succ, Nat.add_comm]

/-- The result of `readArray` for a property whose bytes lie in the buffer. -/
theorem readArray_eq (decompress : List Nat → List Nat) (content : List Nat)
    (prop : fbx_property) (capacity : Nat)
    (hb : prop.data + prop.encodedLength ≤ content.length) :
    readArray decompress content prop capacity =
      if (arrayBytes decompress content prop).length ≤ capacity then
        Except.ok (arrayBytes decompress content prop
            ++ List.replicate (capacity - (arrayBytes decompress content prop).length) 0,
          (arrayBytes decompress content prop).length)
      else Except.error fbx_error.out_of_range := by
  simp only [readArray, readBytes_eq_ok _ _ _ hb, arrayBytes, beq_iff_eq]

/-- The three outcomes of `readInt32Array`. -/
theorem readInt32Array_spec (decompress : List Nat → List Nat) (content : List Nat)
    (prop : fbx_property) :
    (prop.type ≠ fbx_property_type.int32 →
      readInt32Array decompress content prop = Except.error fbx_error.assertion_failed) ∧
    (prop.type = fbx_property_type.int32 → prop.data + prop.encodedLength ≤ content.length →
      ((arrayBytes decompress content prop).length = prop.numElements * 4 →
        readInt32Array decompress content prop = Except.ok
          ((chunks 4 prop.numElements (arrayBytes decompress content prop)).map
            fun b => toInt32 (leNat b))) ∧
      ((arrayBytes decompress content prop).length ≠ prop.numElements * 4 →
        ∃ e, readInt32Array decompress content prop = Except.error e)) := by
  constructor
  · intro ht
    simp [readInt32Array, ASSERT, ht]
  · intro ht hb
    constructor
    · intro hl
      simp [readInt32Array, ASSERT, ht, readArray_eq _ _ _ _ hb, hl]
    · intro hl
      by_cases hle : (arrayBytes decompress content prop).length ≤ prop.numElements * 4
      · exact ⟨fbx_error.assertion_failed, by
          simp [readInt32Array, ASSERT, ht, readArray_eq _ _ _ _ hb, hl, hle]⟩
      · exact ⟨fbx_error.out_of_range, by
          simp [readInt32Array, ASSERT, ht, readArray_eq _ _ _ _ hb, hle]⟩

/-- The three outcomes of `readDoubleArray`. -/
theorem readDoubleArray_spec (decompress : List Nat → List Nat) (content : List Nat)
    (prop : fbx_property) :
    (prop.type ≠ fbx_property_type.double →
      readDoubleArray decompress content prop = Except.error fbx_error.assertion_failed) ∧
    (prop.type = fbx_property_type.double → prop.data + prop.encodedLength ≤ content.length →
      ((arrayBytes decompress content prop).length = prop.numElements * 8 →
        readDoubleArray decompress content prop = Except.ok
          ((chunks 8 prop.numElements (arrayBytes decompress content prop)).map leNat)) ∧
      ((arrayBytes decompress content prop).length ≠ prop.numElements * 8 →
        ∃ e, readDoubleArray decompress content prop = Except.error e)) := by
  constructor
  · intro ht
    simp [readDoubleArray, ASSERT, ht]
  · intro ht hb
    constructor
    · intro hl
      simp [readDoubleArray, ASSERT, ht, readArray_eq _ _ _ _ hb, hl]
    · intro hl
      by_cases hle : (arrayBytes decompress content prop).length ≤ prop.numElements * 8
      · exact ⟨fbx_error.assertion_failed, by
          simp [readDoubleArray, ASSERT, ht, readArray_eq _ _ _ _ hb, hl, hle]⟩
      · exact ⟨fbx_error.out_of_range, by
          simp [readDoubleArray, ASSERT, ht, readArray_eq _ _ _ _ hb, hle]⟩

/-- C17: `readInt32Array` and `readDoubleArray` fail when the type of the property is not the
element type asked for.  For a property of that type whose bytes lie in the buffer, let the
bytes written be the bytes of the property for encoding 0 and the output of `decompress`
otherwise.  If their number is `numElements` times the element size, the read returns exactly
`numElements` elements, element `i` being the little-endian value of the bytes written at
`size * i`; if it is any other number, the read fails. -/
theorem readArray_typed (decompress : List Nat → List Nat) (content : List Nat)
    (prop : fbx_property) :
    (prop.type ≠ fbx_property_type.int32 →
      readInt32Array decompress content prop = Except.error fbx_error.assertion_failed) ∧
    (prop.type ≠ fbx_property_type.double →
      readDoubleArray decompress content prop = Except.error fbx_error.assertion_failed) ∧
    (prop.type = fbx_property_type.int32 → prop.data + prop.encodedLength ≤ content.length →
      ((arrayBytes decompress content prop).length = prop.numElements * 4 →
        ∃ result, readInt32Array decompress content prop = Except.ok result ∧
          result.length = prop.numElements ∧
          ∀ (i : Nat), i < prop.numElements → result[i]? = some (toInt32 (leNat
            (((arrayBytes decompress content prop).drop (4 * i)).take 4)))) ∧
      ((arrayBytes decompress content prop).length ≠ prop.numElements * 4 →
        ∃ e, readInt32Array decompress content prop = Except.error e)) ∧
    (prop.type = fbx_property_type.double → prop.data + prop.encodedLength ≤ content.length →
      ((arrayBytes decompress content prop).length = prop.numElements * 8 →
        ∃ result, readDoubleArray decompress content prop = Except.ok result ∧
          result.length = prop.numElements ∧
          ∀ (i : Nat), i < prop.numElements → result[i]? = some (leNat
            (((arrayBytes decompress content prop).drop (8 * i)).take 8))) ∧
      ((arrayBytes decompress content prop).length ≠ prop.numElements * 8 →
        ∃ e, readDoubleArray decompress content prop = Except.error e)) := by
  refine ⟨(readInt32Array_spec decompress content prop).1,
    (readDoubleArray_spec decompress content prop).1, ?_, ?_⟩
  · intro ht hb
    obtain ⟨h1, h2⟩ := (readInt32Array_spec decompress content prop).2 ht hb
    refine ⟨fun hl => ⟨_, h1 hl, ?_, ?_⟩, h2⟩
    · simp [chunks_length]
    · intro i hi
      simp [chunks_getElem _ _ _ _ hi]
  · intro ht hb
    obtain ⟨h1, h2⟩ := (readDoubleArray_spec decompress content prop).2 ht hb
    refine ⟨fun hl => ⟨_, h1 hl, ?_, ?_⟩, h2⟩
    · simp [chunks_length]
    · intro i hi
      simp [chunks_getElem _ _ _ _ hi]

/-- The property over `int32ArrayBytes` read as two `int32` values, and turned down as an
array of two doubles. -/
theorem readArray_typed_witness :
    (∃ result, readInt32Array (fun source => source) int32ArrayBytes
          ⟨fbx_property_type.int32, 0, 8, 2, 0⟩ = Except.ok result ∧
        result.length = 2 ∧
        ∀ (i : Nat), i < 2 → result[i]? = some (toInt32 (leNat
          (((arrayBytes (fun source => source) int32ArrayBytes
            ⟨fbx_property_type.int32, 0, 8, 2, 0⟩).drop (4 * i)).take 4)))) ∧
    (∃ e, readDoubleArray (fun source => source) int32ArrayBytes
        ⟨fbx_property_type.double, 0, 8, 2, 0⟩ = Except.error e) :=
  ⟨((readArray_typed (fun source => source) int32ArrayBytes
      ⟨fbx_property_type.int32, 0, 8, 2, 0⟩).2.2.1 rfl (by decide)).1 (by decide),
    ((readArray_typed (fun source => source) int32ArrayBytes
      ⟨fbx_property_type.double, 0, 8, 2, 0⟩).2.2.2 rfl (by decide)).2 (by decide)⟩

/-! ## A minimal container -/

/-- The bytes of `le32` decode to the number. -/
theorem leNat_le32 (n : Nat) (h : n < 4294967296) : leNat (le32 n) = n := by
  simp only [le32, leNat]
  omega

/-- The little-endian value of two byte sequences in a row. -/
theorem leNat_append : ∀ (xs ys : List Nat),
    leNat (xs ++ ys) = leNat xs + 256 ^ xs.length * leNat ys := by
  intro xs
  induction xs with
  | nil => intro ys; simp [leNat]
  | cons x xs ih =>
    intro ys
    rw [List.cons_append, leNat, ih, leNat, List.length_cons, pow_succ]
    ring

/-- The number of bytes of `le32`. -/
theorem le32_length (n : Nat) : (le32 n).length = 4 := rfl

/-- The number of bytes of `le64`. -/
theorem le64_length (n : Nat) : (le64 n).length = 8 := rfl

/-- The bytes of `le64` decode to the number. -/
theorem leNat_le64 (n : Nat) (h : n < 18446744073709551616) : leNat (le64 n) = n := by
  rw [le64, leNat_append, leNat_le32 _ (Nat.mod_lt _ (by decide)),
    leNat_le32 _ (Nat.mod_lt _ (by decide)), le32_length]
  omega

/-- The bytes of `int32Bytes` decode to the number. -/
theorem toInt32_int32Bytes (v : Int) (h1 : -2147483648 ≤ v) (h2 : v < 2147483648) :
    toInt32 (leNat (int32Bytes v)) = v := by
  have hlt : (v % 4294967296).toNat < 4294967296 := by omega
  rw [int32Bytes, leNat_le32 _ hlt]
  simp only [toInt32, Nat.mod_eq_of_lt hlt]
  split <;> omega

/-- The number of bytes of a record header. -/
theorem recordBytes_length (version e n p l : Nat) :
    (recordBytes version e n p l).length = recordSize version := by
  simp only [recordBytes, recordSize]
  split <;> rfl

/-- A slice that is known from a decomposition of the buffer. -/
theorem slice_of_eq (content pre mid post : List Nat) (offset n : Nat)
    (h : content = pre ++ (mid ++ post)) (ho : offset = pre.length) (hn : n = mid.length) :
    (content.drop offset).take n = mid := by
  subst h ho hn
  simp

/-- The read of a record header that the buffer holds at the read offset, in the layout
of the version. -/
theorem readNodeRecordHeader_recordBytes (version : Nat) (file : entire_file)
    (e n p l : Nat) (pre post : List Nat)
    (h : file.content = pre ++ (recordBytes version e n p l ++ post))
    (ho : file.readOffset = pre.length)
    (he : e < 4294967296) (hn : n < 4294967296) (hp : p < 4294967296) :
    readNodeRecordHeader version file
      = Except.ok (⟨e, n, p, l⟩, ⟨file.content, file.readOffset + recordSize version⟩) := by
  have hs := slice_of_eq _ _ _ _ file.readOffset (recordSize version) h ho
    (recordBytes_length _ _ _ _ _).symm
  have hlen : file.readOffset + recordSize version ≤ file.content.length := by
    rw [h, ho]
    simp [recordBytes_length]
  by_cases hv : 7500 ≤ version
  · have hr : recordSize version = 25 := by simp [recordSize, hv]
    have hb : recordBytes version e n p l = le64 e ++ le64 n ++ le64 p ++ [l] := by
      simp [recordBytes, hv]
    rw [hr] at hs hlen
    rw [readNodeRecordHeader_eq_64 _ _ hv hlen, hr,
      ← slice_take _ _ 25 8 (by omega), ← slice_slice _ _ 25 8 8 (by omega),
      ← slice_slice _ _ 25 16 8 (by omega), ← slice_slice _ _ 25 24 1 (by omega), hs, hb]
    have e1 : (le64 e ++ le64 n ++ le64 p ++ [l]).take 8 = le64 e := rfl
    have e2 : ((le64 e ++ le64 n ++ le64 p ++ [l]).drop 8).take 8 = le64 n := rfl
    have e3 : ((le64 e ++ le64 n ++ le64 p ++ [l]).drop 16).take 8 = le64 p := rfl
    have e4 : ((le64 e ++ le64 n ++ le64 p ++ [l]).drop 24).take 1 = [l] := rfl
    rw [e1, e2, e3, e4, leNat_le64 _ (by omega), leNat_le64 _ (by omega),
      leNat_le64 _ (by omega), leNat_singleton]
  · have hv' : version < 7500 := by omega
    have hr : recordSize version = 13 := by simp [recordSize, hv]
    have hb : recordBytes version e n p l = le32 e ++ le32 n ++ le32 p ++ [l] := by
      simp [recordBytes, hv]
    rw [hr] at hs hlen
    rw [readNodeRecordHeader_eq_32 _ _ hv' hlen, hr,
      ← slice_take _ _ 13 4 (by omega), ← slice_slice _ _ 13 4 4 (by omega),
      ← slice_slice _ _ 13 8 4 (by omega), ← slice_slice _ _ 13 12 1 (by omega), hs, hb]
    have e1 : (le32 e ++ le32 n ++ le32 p ++ [l]).take 4 = le32 e := rfl
    have e2 : ((le32 e ++ le32 n ++ le32 p ++ [l]).drop 4).take 4 = le32 n := rfl
    have e3 : ((le32 e ++ le32 n ++ le32 p ++ [l]).drop 8).take 4 = le32 p := rfl
    have e4 : ((le32 e ++ le32 n ++ le32 p ++ [l]).drop 12).take 1 = [l] := rfl
    rw [e1, e2, e3, e4, leNat_le32 _ he, leNat_le32 _ hn, leNat_le32 _ hp, leNat_singleton]

/-- The outcome of the first part of `loadFBX` for a buffer with a valid header. -/
theorem loadFBX_nodes_parsed (bytes : List Nat)
    (h : 27 ≤ bytes.length ∧ bytes.take 21 = fbxMagic ∧ bytes[21]? = some 26
      ∧ bytes[22]? = some 0) :
    loadFBX_nodes (entire_file.ofBytes bytes)
      = load_result.parsed (leNat ((bytes.drop 23).take 4))
          (parseNodes (bytes.length + 1) (leNat ((bytes.drop 23).take 4))
            ⟨⟨bytes, 27⟩, [rootNode], []⟩ 0 0) :=
  (loadFBX_nodes_cases bytes).2.2 h

/-- The `uint64` difference of a number and itself. -/
theorem sub64_self (a : Nat) : sub64 a a = 0 := by
  simp only [sub64]
  omega

/-- The loop ends at a record whose `endOffset` is 0. -/
theorem parseLoop_done (version fuel : Nat) (currentNode : fbx_node_record_header_64)
    (parent : Nat) (st : parse_state) (hf : 0 < fuel) (h : currentNode.endOffset = 0) :
    parseLoop version fuel currentNode parent st = Except.ok st := by
  cases fuel with
  | zero => omega
  | succ fuel => simp [parseLoop, h]

/-- The loop at a node without children that is followed by the terminating record. -/
theorem parseLoop_leaf (version fuel : Nat) (currentNode next : fbx_node_record_header_64)
    (parent : Nat) (st st1 : parse_state) (file3 : entire_file) (hf : 0 < fuel)
    (he : currentNode.endOffset ≠ 0) (h1 : parseNodeHead currentNode parent st = Except.ok st1)
    (h2 : sub64 currentNode.endOffset st1.file.readOffset = 0)
    (h3 : readNodeRecordHeader version st1.file = Except.ok (next, file3))
    (h4 : next.endOffset = 0) :
    parseLoop version (fuel + 1) currentNode parent st
      = Except.ok { st1 with file := file3 } := by
  simp only [parseLoop, bne_iff_ne, ne_eq, he, not_false_eq_true, if_true, h1, h2,
    gt_iff_lt, lt_irrefl, if_false, ASSERT, beq_self_eq_true, h3]
  exact parseLoop_done _ _ _ _ _ hf h4

/-- The result of `parseNodeHead`, from the results of its three steps. -/
theorem parseNodeHead_eq (currentNode : fbx_node_record_header_64) (parent : Nat)
    (st : parse_state) (parentNode : fbx_node) (outNodes1 : List fbx_node)
    (file2 : entire_file) (outProperties2 : List fbx_property) (numProperties : Nat)
    (h1 : vecGet st.outNodes parent = Except.ok parentNode)
    (h2 : linkChild st.outNodes parent (st.outNodes.length % 4294967296)
      = Except.ok outNodes1)
    (h3 : parseProperties ⟨st.file.content, st.file.readOffset + currentNode.nameLength⟩
      st.outProperties (currentNode.numProperties % 4294967296)
      = Except.ok (file2, outProperties2, numProperties)) :
    parseNodeHead currentNode parent st = Except.ok
      ⟨file2, outNodes1 ++ [⟨viewString st.file.content st.file.readOffset
          currentNode.nameLength, parent, noNode, noNode, noNode,
          (parentNode.level + 1) % 4294967296, st.outProperties.length % 4294967296,
          numProperties⟩], outProperties2⟩ := by
  simp only [parseNodeHead, h1, h2, entire_file.consume, Nat.one_mul, h3]

/-- The parse of a buffer that holds, after the header, one node record with one `int32`
property and the terminating record. -/
theorem parseNodes_single_node (version fuel : Nat) (content name : List Nat)
    (recordSize : Nat)
    (hr1 : readNodeRecordHeader version ⟨content, 27⟩ = Except.ok
      (⟨27 + recordSize + name.length + 5, 1, 5, name.length⟩, ⟨content, 27 + recordSize⟩))
    (hname : (content.drop (27 + recordSize)).take name.length = name)
    (htag : content[27 + recordSize + name.length]? = some 73)
    (hr2 : readNodeRecordHeader version ⟨content, 27 + recordSize + name.length + 5⟩
      = Except.ok (⟨0, 0, 0, 0⟩,
          ⟨content, 27 + recordSize + name.length + 5 + recordSize⟩)) :
    parseNodes (fuel + 2) version ⟨⟨content, 27⟩, [rootNode], []⟩ 0 0
      = Except.ok ⟨⟨content, 27 + recordSize + name.length + 5 + recordSize⟩,
          [{ rootNode with firstChild := 1, lastChild := 1 },
            ⟨⟨name⟩, 0, noNode, noNode, noNode, 0, 0, 1⟩],
          [⟨fbx_property_type.int32, 0, 4, 1, 27 + recordSize + name.length + 1⟩]⟩ := by
  have hprops : parseProperties ⟨content, 27 + recordSize + name.length⟩ [] 1
      = Except.ok (⟨content, 27 + recordSize + name.length + 5⟩,
          [⟨fbx_property_type.int32, 0, 4, 1, 27 + recordSize + name.length + 1⟩], 1) := by
    simp only [parseProperties, parsePropertiesLoop]
    rw [parseProperty_scalar _ _ 73 fbx_property_type.int32 4 (by decide) htag]
    simp only [List.nil_append, List.length_singleton, List.length_nil, Nat.add_assoc]
  have h1 : vecGet [rootNode] 0 = Except.ok rootNode := rfl
  have h2 : linkChild [rootNode] 0 ([rootNode].length % 4294967296)
      = Except.ok [{ rootNode with firstChild := 1, lastChild := 1 }] := rfl
  have hhead := parseNodeHead_eq ⟨27 + recordSize + name.length + 5, 1, 5, name.length⟩ 0
    ⟨⟨content, 27 + recordSize⟩, [rootNode], []⟩ rootNode
    [{ rootNode with firstChild := 1, lastChild := 1 }] _ _ _ h1 h2 hprops
  simp only [parseNodes, hr1]
  rw [parseLoop_leaf version (fuel + 1) _ _ 0 _ _ _ (by omega) (by simp) hhead
    (sub64_self _) hr2 rfl]
  simp only [viewString, hname]
  rfl

/-- The decode of a minimal container. -/
theorem minimalContainer_parse (version : Nat) (name : List Nat) (v : Int)
    (hversion : version < 4294967296) (hname : name.length < 256) :
    loadFBX_nodes (entire_file.ofBytes (minimalContainer version name v))
      = load_result.parsed version (Except.ok
          ⟨⟨minimalContainer version name v, (minimalContainer version name v).length⟩,
            [{ rootNode with firstChild := 1, lastChild := 1 },
              ⟨⟨name⟩, 0, noNode, noNode, noNode, 0, 0, 1⟩],
            [⟨fbx_property_type.int32, 0, 4, 1, 27 + recordSize version + name.length + 1⟩]⟩)
    ∧ ((minimalContainer version name v).drop
        (27 + recordSize version + name.length + 1)).take 4 = int32Bytes v
    ∧ 27 + recordSize version + name.length + 1 + 4
        ≤ (minimalContainer version name v).length := by
  have hrs : recordSize version ≤ 25 := by
    simp only [recordSize]; split <;> omega
  have hlen : (minimalContainer version name v).length
      = 27 + recordSize version + name.length + 5 + recordSize version := by
    simp only [minimalContainer, List.length_append, recordBytes_length, fbxMagic,
      List.length_cons, List.length_nil, le32_length, int32Bytes]
  have hhead : 27 ≤ (minimalContainer version name v).length
      ∧ (minimalContainer version name v).take 21 = fbxMagic
      ∧ (minimalContainer version name v)[21]? = some 26
      ∧ (minimalContainer version name v)[22]? = some 0 :=
    ⟨by omega, rfl, rfl, rfl⟩
  have hver : ((minimalContainer version name v).drop 23).take 4 = le32 version := rfl
  have hd1 : minimalContainer version name v = (fbxMagic ++ [26, 0] ++ le32 version)
      ++ (recordBytes version (27 + recordSize version + name.length + 5) 1 5 name.length
        ++ (name ++ [73] ++ int32Bytes v ++ recordBytes version 0 0 0 0)) := by
    simp only [minimalContainer, List.append_assoc]
  have hd2 : minimalContainer version name v = (fbxMagic ++ [26, 0] ++ le32 version
        ++ recordBytes version (27 + recordSize version + name.length + 5) 1 5 name.length)
      ++ (name ++ ([73] ++ int32Bytes v ++ recordBytes version 0 0 0 0)) := by
    simp only [minimalContainer, List.append_assoc]
  have hd3 : minimalContainer version name v = (fbxMagic ++ [26, 0] ++ le32 version
        ++ recordBytes version (27 + recordSize version + name.length + 5) 1 5 name.length
        ++ name) ++ ([73] ++ (int32Bytes v ++ recordBytes version 0 0 0 0)) := by
    simp only [minimalContainer, List.append_assoc]
  have hd4 : minimalContainer version name v = (fbxMagic ++ [26, 0] ++ le32 version
        ++ recordBytes version (27 + recordSize version + name.length + 5) 1 5 name.length
        ++ name ++ [73]) ++ (int32Bytes v ++ recordBytes version 0 0 0 0) := by
    simp only [minimalContainer, List.append_assoc]
  have hd5 : minimalContainer version name v = (fbxMagic ++ [26, 0] ++ le32 version
        ++ recordBytes version (27 + recordSize version + name.length + 5) 1 5 name.length
        ++ name ++ [73] ++ int32Bytes v) ++ (recordBytes version 0 0 0 0 ++ []) := by
    simp only [minimalContainer, List.append_assoc, List.append_nil]
  have hl1 : (fbxMagic ++ [26, 0] ++ le32 version).length = 27 := rfl
  have hl2 : (fbxMagic ++ [26, 0] ++ le32 version
      ++ recordBytes version (27 + recordSize version + name.length + 5) 1 5
        name.length).length = 27 + recordSize version := by
    rw [List.length_append, hl1, recordBytes_length]
  have hl3 : (fbxMagic ++ [26, 0] ++ le32 version
      ++ recordBytes version (27 + recordSize version + name.length + 5) 1 5 name.length
      ++ name).length = 27 + recordSize version + name.length := by
    rw [List.length_append, hl2]
  have hl4 : (fbxMagic ++ [26, 0] ++ le32 version
      ++ recordBytes version (27 + recordSize version + name.length + 5) 1 5 name.length
      ++ name ++ [73]).length = 27 + recordSize version + name.length + 1 := by
    rw [List.length_append, hl3]; rfl
  have hl5 : (fbxMagic ++ [26, 0] ++ le32 version
      ++ recordBytes version (27 + recordSize version + name.length + 5) 1 5 name.length
      ++ name ++ [73] ++ int32Bytes v).length
      = 27 + recordSize version + name.length + 5 := by
    rw [List.length_append, hl4]; rfl
  -- the slices that the parser reads
  have hname : ((minimalContainer version name v).drop (27 + recordSize version)).take
      name.length = name := slice_of_eq _ _ _ _ _ _ hd2 hl2.symm rfl
  have htag : (minimalContainer version name v)[27 + recordSize version + name.length]?
      = some 73 := by
    rw [hd3, List.getElem?_append_right (by rw [hl3]), hl3, Nat.sub_self]
    rfl
  have hvalue : ((minimalContainer version name v).drop
      (27 + recordSize version + name.length + 1)).take 4 = int32Bytes v :=
    slice_of_eq _ _ _ _ _ _ hd4 hl4.symm rfl
  refine ⟨?_, hvalue, by omega⟩
  rw [loadFBX_nodes_parsed _ hhead, hver, leNat_le32 _ hversion]
  congr 1
  have hr1 := readNodeRecordHeader_recordBytes version ⟨minimalContainer version name v, 27⟩
    (27 + recordSize version + name.length + 5) 1 5 name.length _ _ hd1 hl1.symm
    (by omega) (by decide) (by decide)
  have hr2 := readNodeRecordHeader_recordBytes version
    ⟨minimalContainer version name v, 27 + recordSize version + name.length + 5⟩
    0 0 0 0 _ _ hd5 hl5.symm (by decide) (by decide) (by decide)
  have hfuel : (minimalContainer version name v).length + 1
      = (26 + recordSize version + name.length + 5 + recordSize version) + 2 := by
    rw [hlen]; omega
  rw [hfuel, parseNodes_single_node version _ _ name (recordSize version) hr1 hname htag hr2,
    hlen]

/-- C13: the decode of a minimal container (a valid header of any version, one node record
with one scalar `int32` property, tag `I`, of value `v`, and the terminating record of zeros)
succeeds and yields, after the synthetic root node at index 0, exactly one node, which is a
child of the root and has exactly one property; the property has the type `int32` and
`readInt32` reads the value `v` from it. -/
theorem loadFBX_nodes_minimal_container (version : Nat) (name : List Nat) (v : Int)
    (hversion : version < 4294967296) (hname : name.length < 256)
    (hv1 : -2147483648 ≤ v) (hv2 : v < 2147483648) :
    ∃ st node prop,
      loadFBX_nodes (entire_file.ofBytes (minimalContainer version name v))
        = load_result.parsed version (Except.ok st) ∧
      st.outNodes = [{ rootNode with firstChild := 1, lastChild := 1 }, node] ∧
      node.name = ⟨name⟩ ∧ node.parent = 0 ∧ node.firstProperty = 0 ∧
      node.numProperties = 1 ∧
      st.outProperties = [prop] ∧ prop.type = fbx_property_type.int32 ∧
      prop.numElements = 1 ∧
      readInt32 (minimalContainer version name v) prop = Except.ok v := by
  obtain ⟨h1, h2, h3⟩ := minimalContainer_parse version name v hversion hname
  refine ⟨_, _, _, h1, rfl, rfl, rfl, rfl, rfl, rfl, rfl, rfl, ?_⟩
  simp only [readInt32, ASSERT, beq_self_eq_true, if_true, readBytes_eq_ok _ _ _ h3, h2,
    toInt32_int32Bytes v hv1 hv2]

/-- The minimal container of version 7400 with a node named `Node` and the value -2. -/
theorem loadFBX_nodes_minimal_container_witness :
    ∃ st node prop,
      loadFBX_nodes (entire_file.ofBytes (minimalContainer 7400 [78, 111, 100, 101] (-2)))
        = load_result.parsed 7400 (Except.ok st) ∧
      st.outNodes = [{ rootNode with firstChild := 1, lastChild := 1 }, node] ∧
      node.name = ⟨[78, 111, 100, 101]⟩ ∧ node.parent = 0 ∧ node.firstProperty = 0 ∧
      node.numProperties = 1 ∧
      st.outProperties = [prop] ∧ prop.type = fbx_property_type.int32 ∧
      prop.numElements = 1 ∧
      readInt32 (minimalContainer 7400 [78, 111, 100, 101] (-2)) prop = Except.ok (-2) :=
  loadFBX_nodes_minimal_container 7400 [78, 111, 100, 101] (-2) (by decide) (by decide)
    (by decide) (by decide)

/-! ## End offsets of the node records -/

/-- What a successful read of a record header does. -/
theorem readNodeRecordHeader_ok (version : Nat) (file file1 : entire_file)
    (header : fbx_node_record_header_64)
    (h : readNodeRecordHeader version file = Except.ok (header, file1)) :
    file1.content = file.content ∧ file.readOffset + 13 ≤ file1.readOffset ∧
    file1.readOffset ≤ file.content.length ∧
    ((∀ b ∈ file.content, b < 256) → header.endOffset < 18446744073709551616) := by
  by_cases hv : 7500 ≤ version
  · by_cases hlen : file.readOffset + 25 ≤ file.content.length
    · rw [readNodeRecordHeader_eq_64 _ _ hv hlen] at h
      simp only [Except.ok.injEq, Prod.mk.injEq] at h
      obtain ⟨rfl, rfl⟩ := h
      exact ⟨rfl, by simp, hlen, fun hb => leNat_slice_lt _ _ 8 hb⟩
    · have hv' : version ≥ 7500 := hv
      simp only [readNodeRecordHeader, hv', if_true, entire_file.consume,
        readBytes_eq_error _ _ _ (by omega : file.content.length < file.readOffset + 25)] at h
      exact absurd h (by simp)
  · by_cases hlen : file.readOffset + 13 ≤ file.content.length
    · rw [readNodeRecordHeader_eq_32 _ _ (by omega) hlen] at h
      simp only [Except.ok.injEq, Prod.mk.injEq] at h
      obtain ⟨rfl, rfl⟩ := h
      exact ⟨rfl, by simp, hlen, fun hb =>
        lt_trans (leNat_slice_lt _ _ 4 hb) (by decide)⟩
    · have hv' : ¬ version ≥ 7500 := hv
      simp only [readNodeRecordHeader, hv', if_false, entire_file.consume,
        readBytes_eq_error _ _ _ (by omega : file.content.length < file.readOffset + 13)] at h
      exact absurd h (by simp)

/-- The `uint64` difference of two numbers below `2^64` is 0 exactly when they are equal. -/
theorem sub64_eq_zero (a b : Nat) (ha : a < 18446744073709551616)
    (hb : b < 18446744073709551616) : sub64 a b = 0 ↔ a = b := by
  simp only [sub64]
  omega

/-- What a successful run of the loop of `parseNodes` does: the buffer is kept, the read
offset does not go back and ends inside the buffer, every node record that was worked through
ended at its declared `endOffset`, and one node was appended for each of them. -/
theorem parseLoop_spec (version : Nat) : ∀ (fuel : Nat)
    (currentNode : fbx_node_record_header_64) (parent : Nat) (st r : parse_state),
    st.file.readOffset ≤ st.file.content.length →
    parseLoop version fuel currentNode parent st = Except.ok r →
    r.file.content = st.file.content ∧ st.file.readOffset ≤ r.file.readOffset ∧
    r.file.readOffset ≤ st.file.content.length ∧
    ((∀ b ∈ st.file.content, b < 256) → st.file.content.length < 18446744073709551616 →
      currentNode.endOffset < 18446744073709551616 →
      ∀ p ∈ nodeEnds version fuel currentNode parent st, p.1 = p.2) ∧
    (nodeEnds version fuel currentNode parent st).length + st.outNodes.length
      = r.outNodes.length := by
  intro fuel
  induction fuel with
  | zero =>
    intro currentNode parent st r _ h
    simp [parseLoop] at h
  | succ fuel ih =>
    intro currentNode parent st r hoff h
    simp only [parseLoop] at h
    simp only [nodeEnds]
    by_cases he : currentNode.endOffset = 0
    · simp only [he, bne_self_eq_false, Bool.false_eq_true, if_false, Except.ok.injEq] at h
      subst h
      simp [he, hoff]
    · have he' : (currentNode.endOffset != 0) = true := by simp [he]
      simp only [he', if_true] at h ⊢
      cases h1 : parseNodeHead currentNode parent st with
      | error e => rw [h1] at h; exact absurd h (by simp)
      | ok st1 =>
        rw [h1] at h
        simp only at h ⊢
        obtain ⟨hc1, hle1, nodes, node, hn1, hn2, _, _⟩ := parseNodeHead_spec _ _ _ _ h1
        have hlen1 : st1.outNodes.length = st.outNodes.length + 1 := by
          rw [hn1, List.length_append, hn2]; rfl
        -- what remains to be done once the child list is parsed
        have common : ∀ (st2 : parse_state) (ends : List (Nat × Nat))
            (next : fbx_node_record_header_64) (file3 : entire_file),
            st2.file.content = st.file.content → st1.file.readOffset ≤ st2.file.readOffset →
            ((∀ b ∈ st.file.content, b < 256) →
              st.file.content.length < 18446744073709551616 → ∀ p ∈ ends, p.1 = p.2) →
            ends.length + st1.outNodes.length = st2.outNodes.length →
            sub64 currentNode.endOffset st2.file.readOffset = 0 →
            readNodeRecordHeader version st2.file = Except.ok (next, file3) →
            parseLoop version fuel next parent { st2 with file := file3 } = Except.ok r →
            r.file.content = st.file.content ∧ st.file.readOffset ≤ r.file.readOffset ∧
            r.file.readOffset ≤ st.file.content.length ∧
            ((∀ b ∈ st.file.content, b < 256) →
              st.file.content.length < 18446744073709551616 →
              currentNode.endOffset < 18446744073709551616 →
              ∀ p ∈ (currentNode.endOffset, st2.file.readOffset) ::
                (ends ++ nodeEnds version fuel next parent { st2 with file := file3 }),
              p.1 = p.2) ∧
            ((currentNode.endOffset, st2.file.readOffset) ::
                (ends ++ nodeEnds version fuel next parent { st2 with file := file3 })).length
              + st.outNodes.length = r.outNodes.length := by
          intro st2 ends next file3 k1 k2 k3 k4 hz h4 h5
          obtain ⟨g1, g2, g3, g4⟩ := readNodeRecordHeader_ok _ _ _ _ h4
          rw [k1] at g3 g4
          have := ih next parent { st2 with file := file3 } r
            (by simp only [g1, k1]; exact g3) h5
          simp only [g1, k1] at this
          obtain ⟨m1, m2, m3, m4, m5⟩ := this
          refine ⟨m1, by omega, m3, ?_, ?_⟩
          · intro hbytes hlen hend p hp
            have heq : currentNode.endOffset = st2.file.readOffset :=
              (sub64_eq_zero _ _ hend (by omega)).mp hz
            simp only [List.mem_cons, List.mem_append] at hp
            rcases hp with rfl | hp | hp
            · exact heq
            · exact k3 hbytes hlen p hp
            · exact m4 hbytes hlen (g4 hbytes) p hp
          · simp only [List.length_cons, List.length_append]
            omega
        by_cases hpos : sub64 currentNode.endOffset st1.file.readOffset > 0
        · simp only [hpos, if_true] at h ⊢
          cases h2 : readNodeRecordHeader version st1.file with
          | error e => rw [h2] at h; exact absurd h (by simp)
          | ok r2 =>
            obtain ⟨child, file2⟩ := r2
            rw [h2] at h
            simp only at h ⊢
            cases h3 : parseLoop version fuel child (st.outNodes.length % 4294967296)
                { st1 with file := file2 } with
            | error e => rw [h3] at h; exact absurd h (by simp)
            | ok st2 =>
              rw [h3] at h
              simp only at h ⊢
              obtain ⟨g1, g2, g3, g4⟩ := readNodeRecordHeader_ok _ _ _ _ h2
              rw [hc1] at g4
              have := ih child (st.outNodes.length % 4294967296) { st1 with file := file2 }
                st2 (by simp only [g1]; exact g3) h3
              simp only [g1, hc1] at this
              obtain ⟨k1, k2, k3, k4, k5⟩ := this
              by_cases hz : sub64 currentNode.endOffset st2.file.readOffset = 0
              · simp only [ASSERT, hz, beq_self_eq_true, if_true] at h ⊢
                cases h4 : readNodeRecordHeader version st2.file with
                | error e => rw [h4] at h; exact absurd h (by simp)
                | ok r4 =>
                  obtain ⟨next, file3⟩ := r4
                  rw [h4] at h
                  simp only at h ⊢
                  exact common st2 _ next file3 k1 (by omega)
                    (fun hbytes hlen => k4 hbytes hlen (g4 hbytes)) k5 hz h4 h
              · have hz' : (sub64 currentNode.endOffset st2.file.readOffset == 0) = false := by
                  simp [hz]
                simp only [ASSERT, hz', Bool.false_eq_true, if_false] at h
                exact absurd h (by simp)
        · simp only [hpos, if_false] at h ⊢
          have hz : sub64 currentNode.endOffset st1.file.readOffset = 0 := by omega
          simp only [ASSERT, hz, beq_self_eq_true, if_true] at h ⊢
          cases h4 : readNodeRecordHeader version st1.file with
          | error e => rw [h4] at h; exact absurd h (by simp)
          | ok r4 =>
            obtain ⟨next, file3⟩ := r4
            rw [h4] at h
            simp only at h ⊢
            have := common st1 [] next file3 hc1 (le_refl _) (by simp) (by simp) hz h4 h
            simpa using this

/-- C15: if `parseNodes` completes without error then, for every node record it worked through,
the read offset reached after the properties and the child list of the node equals the declared
`endOffset` of the node, and there is one such record for every node that was appended; and a
node whose child list is parsed but ends at another offset makes the parse fail with a failed
assertion. -/
theorem parseNodes_end_offset :
    (∀ (fuel version : Nat) (st : parse_state) (level parent : Nat) (r : parse_state),
      (∀ b ∈ st.file.content, b < 256) → st.file.content.length < 18446744073709551616 →
      parseNodes fuel version st level parent = Except.ok r →
      (∀ p ∈ parseNodesEnds fuel version st parent, p.1 = p.2) ∧
      (parseNodesEnds fuel version st parent).length + st.outNodes.length
        = r.outNodes.length) ∧
    (∀ (version fuel : Nat) (currentNode child : fbx_node_record_header_64) (parent : Nat)
      (st st1 st2 : parse_state) (file2 : entire_file),
      currentNode.endOffset ≠ 0 → parseNodeHead currentNode parent st = Except.ok st1 →
      sub64 currentNode.endOffset st1.file.readOffset > 0 →
      readNodeRecordHeader version st1.file = Except.ok (child, file2) →
      parseLoop version fuel child (st.outNodes.length % 4294967296)
        { st1 with file := file2 } = Except.ok st2 →
      currentNode.endOffset < 18446744073709551616 →
      st2.file.readOffset < 18446744073709551616 →
      st2.file.readOffset ≠ currentNode.endOffset →
      parseLoop version (fuel + 1) currentNode parent st
        = Except.error fbx_error.assertion_failed) := by
  constructor
  · intro fuel version st level parent r hbytes hlen h
    simp only [parseNodes] at h
    simp only [parseNodesEnds]
    cases h1 : readNodeRecordHeader version st.file with
    | error e => rw [h1] at h; exact absurd h (by simp)
    | ok r1 =>
      obtain ⟨currentNode, file1⟩ := r1
      rw [h1] at h
      simp only at h ⊢
      obtain ⟨g1, g2, g3, g4⟩ := readNodeRecordHeader_ok _ _ _ _ h1
      have := parseLoop_spec version fuel currentNode parent { st with file := file1 } r
        (by simp only [g1]; exact g3) h
      simp only [g1] at this
      obtain ⟨_, _, _, k4, k5⟩ := this
      exact ⟨k4 hbytes hlen (g4 hbytes), k5⟩
  · intro version fuel currentNode child parent st st1 st2 file2 he h1 hpos h2 h3 hend hoff hne
    have he' : (currentNode.endOffset != 0) = true := by simp [he]
    have hz : (sub64 currentNode.endOffset st2.file.readOffset == 0) = false := by
      have := (sub64_eq_zero _ _ hend hoff).not.mpr (fun h => hne h.symm)
      simp [this]
    simp only [parseLoop, he', if_true, h1, hpos, h2, h3, ASSERT, hz, Bool.false_eq_true,
      if_false]

/-- The minimal container of version 7400, whose node ends at its declared offset, and the
container `wrongEndOffset`, whose node does not. -/
theorem parseNodes_end_offset_witness :
    ((∀ p ∈ parseNodesEnds 10 7400 ⟨⟨minimalContainer 7400 [78] 1, 27⟩, [rootNode], []⟩ 0,
        p.1 = p.2) ∧
      (parseNodesEnds 10 7400 ⟨⟨minimalContainer 7400 [78] 1, 27⟩, [rootNode], []⟩ 0).length
        + 1 = 2) ∧
    parseLoop 7400 (9 + 1) ⟨100, 0, 0, 1⟩ 0 ⟨⟨wrongEndOffset, 40⟩, [rootNode], []⟩
      = Except.error fbx_error.assertion_failed :=
  ⟨parseNodes_end_offset.1 10 7400 ⟨⟨minimalContainer 7400 [78] 1, 27⟩, [rootNode], []⟩ 0 0
      ⟨⟨minimalContainer 7400 [78] 1, 59⟩,
        [{ rootNode with firstChild := 1, lastChild := 1 },
          ⟨⟨[78]⟩, 0, noNode, noNode, noNode, 0, 0, 1⟩],
        [⟨fbx_property_type.int32, 0, 4, 1, 42⟩]⟩
      (by decide) (by decide) (by rfl),
    parseNodes_end_offset.2 7400 9 ⟨100, 0, 0, 1⟩ ⟨0, 0, 0, 0⟩ 0
      ⟨⟨wrongEndOffset, 40⟩, [rootNode], []⟩
      ⟨⟨wrongEndOffset, 41⟩, [{ rootNode with firstChild := 1, lastChild := 1 },
        ⟨⟨[78]⟩, 0, noNode, noNode, noNode, 0, 0, 0⟩], []⟩
      ⟨⟨wrongEndOffset, 54⟩, [{ rootNode with firstChild := 1, lastChild := 1 },
        ⟨⟨[78]⟩, 0, noNode, noNode, noNode, 0, 0, 0⟩], []⟩
      ⟨wrongEndOffset, 54⟩
      (by decide) (by rfl) (by decide) (by rfl) (by rfl) (by decide) (by decide) (by decide)⟩

/-! ## Fuel of the container decoder -/

/-- Linking a child never stops for lack of fuel. -/
theorem linkChild_fuel (outNodes : List fbx_node) (parent nodeIndex : Nat) :
    linkChild outNodes parent nodeIndex ≠ Except.error fbx_error.out_of_fuel := by
  intro h
  simp only [linkChild] at h
  split at h
  · cases h1 : vecGet outNodes parent with
    | error e =>
      rw [h1] at h
      simp only [Except.error.injEq] at h
      exact vecGet_fuel _ _ (h ▸ h1)
    | ok parentNode =>
      rw [h1] at h
      simp only at h
      split at h
      · rename_i e h2
        simp only [Except.error.injEq] at h
        subst h
        split at h2
        · exact vecSet_fuel _ _ _ h2
        · cases h3 : vecGet outNodes parentNode.lastChild with
          | error e =>
            rw [h3] at h2
            simp only [Except.error.injEq] at h2
            exact vecGet_fuel _ _ (h2 ▸ h3)
          | ok lastNode =>
            rw [h3] at h2
            exact vecSet_fuel _ _ _ h2
      · rename_i outNodes2 h2
        cases h4 : vecGet outNodes2 parent with
        | error e =>
          rw [h4] at h
          simp only [Except.error.injEq] at h
          exact vecGet_fuel _ _ (h ▸ h4)
        | ok parentNode1 =>
          rw [h4] at h
          exact vecSet_fuel _ _ _ h
  · exact absurd h (by simp)

/-- A read of bytes never stops for lack of fuel. -/
theorem readBytes_fuel (content : List Nat) (offset n : Nat) :
    readBytes content offset n ≠ Except.error fbx_error.out_of_fuel := by
  simp only [readBytes]
  split <;> simp

/-- An array case never stops for lack of fuel. -/
theorem parseArray_fuel (file : entire_file) (out : List fbx_property)
    (type : fbx_property_type) :
    parseArray file out type ≠ Except.error fbx_error.out_of_fuel := by
  by_cases hb : file.readOffset + 12 ≤ file.content.length
  · rw [parseArray_eq _ _ _ hb]; simp
  · rw [parseArray_eq_error _ _ _ (by omega)]; simp

/-- A string or raw case never stops for lack of fuel. -/
theorem parseBlob_fuel (file : entire_file) (out : List fbx_property)
    (type : fbx_property_type) :
    parseBlob file out type ≠ Except.error fbx_error.out_of_fuel := by
  by_cases hb : file.readOffset + 4 ≤ file.content.length
  · rw [parseBlob_eq _ _ _ hb]; simp
  · rw [parseBlob_eq_error _ _ _ (by omega)]; simp

/-- The body of the loop of `parseProperties` never stops for lack of fuel. -/
theorem parseProperty_fuel (file : entire_file) (out : List fbx_property) :
    parseProperty file out ≠ Except.error fbx_error.out_of_fuel := by
  cases ht : file.content[file.readOffset]? with
  | none =>
    rw [parseProperty_no_tag _ _ (by simpa using ht)]
    simp
  | some t =>
    by_cases hmem : t ∈ propertyTags
    · rcases propertyTags_cases t hmem with ⟨type, s, hm⟩ | ⟨type, hm⟩ | ⟨type, hm⟩
      · rw [parseProperty_scalar _ _ _ _ _ hm ht]; simp
      · rw [parseProperty_array _ _ _ _ hm ht]; exact parseArray_fuel _ _ _
      · rw [parseProperty_blob _ _ _ _ hm ht]; exact parseBlob_fuel _ _ _
    · rw [parseProperty_unknown _ _ _ hmem ht]; simp

/-- The loop of `parseProperties` never stops for lack of fuel. -/
theorem parsePropertiesLoop_fuel : ∀ (n : Nat) (file : entire_file)
    (out : List fbx_property),
    parsePropertiesLoop n file out ≠ Except.error fbx_error.out_of_fuel := by
  intro n
  induction n with
  | zero => intro file out; simp [parsePropertiesLoop]
  | succ n ih =>
    intro file out
    simp only [parsePropertiesLoop]
    cases h1 : parseProperty file out with
    | error e =>
      simp only [ne_eq, Except.error.injEq]
      intro h
      exact parseProperty_fuel _ _ (h ▸ h1)
    | ok r =>
      obtain ⟨file1, out1⟩ := r
      exact ih file1 out1

/-- The function `parseProperties` never stops for lack of fuel. -/
theorem parseProperties_fuel (file : entire_file) (out : List fbx_property) (n : Nat) :
    parseProperties file out n ≠ Except.error fbx_error.out_of_fuel := by
  simp only [parseProperties]
  cases h1 : parsePropertiesLoop n file out with
  | error e =>
    simp only [ne_eq, Except.error.injEq]
    intro h
    exact parsePropertiesLoop_fuel _ _ _ (h ▸ h1)
  | ok r => simp

/-- The creation of a node never stops for lack of fuel. -/
theorem parseNodeHead_fuel (currentNode : fbx_node_record_header_64) (parent : Nat)
    (st : parse_state) :
    parseNodeHead currentNode parent st ≠ Except.error fbx_error.out_of_fuel := by
  simp only [parseNodeHead]
  cases h1 : vecGet st.outNodes parent with
  | error e =>
    simp only [ne_eq, Except.error.injEq]
    intro h
    exact vecGet_fuel _ _ (h ▸ h1)
  | ok parentNode =>
    simp only
    cases h2 : linkChild st.outNodes parent (st.outNodes.length % 4294967296) with
    | error e =>
      simp only [ne_eq, Except.error.injEq]
      intro h
      exact linkChild_fuel _ _ _ (h ▸ h2)
    | ok outNodes1 =>
      simp only
      cases h3 : parseProperties (st.file.consume 1 currentNode.nameLength).2 st.outProperties
          (currentNode.numProperties % 4294967296) with
      | error e =>
        simp only [ne_eq, Except.error.injEq]
        intro h
        exact parseProperties_fuel _ _ _ (h ▸ h3)
      | ok r => simp

/-- The read of a record header never stops for lack of fuel. -/
theorem readNodeRecordHeader_fuel (version : Nat) (file : entire_file) :
    readNodeRecordHeader version file ≠ Except.error fbx_error.out_of_fuel := by
  simp only [readNodeRecordHeader]
  split
  · cases h1 : readBytes file.content (file.consume 25 1).1 25 with
    | error e =>
      simp only [ne_eq, Except.error.injEq]
      intro h
      exact readBytes_fuel _ _ _ (h ▸ h1)
    | ok r => simp
  · cases h1 : readBytes file.content (file.consume 13 1).1 13 with
    | error e =>
      simp only [ne_eq, Except.error.injEq]
      intro h
      exact readBytes_fuel _ _ _ (h ▸ h1)
    | ok r => simp

/-- The loop of `parseNodes` never stops for lack of fuel when the fuel exceeds the number
of bytes left: every iteration follows the read of a record header of at least 13 bytes. -/
theorem parseLoop_fuel (version : Nat) : ∀ (fuel : Nat)
    (currentNode : fbx_node_record_header_64) (parent : Nat) (st : parse_state),
    st.file.readOffset ≤ st.file.content.length →
    st.file.content.length < st.file.readOffset + fuel →
    parseLoop version fuel currentNode parent st ≠ Except.error fbx_error.out_of_fuel := by
  intro fuel
  induction fuel with
  | zero => intro currentNode parent st h1 h2; omega
  | succ fuel ih =>
    intro currentNode parent st hoff hfuel h
    simp only [parseLoop] at h
    by_cases he : currentNode.endOffset = 0
    · simp [he] at h
    · have he' : (currentNode.endOffset != 0) = true := by simp [he]
      simp only [he', if_true] at h
      cases h1 : parseNodeHead currentNode parent st with
      | error e =>
        rw [h1] at h
        simp only [Except.error.injEq] at h
        exact parseNodeHead_fuel _ _ _ (h ▸ h1)
      | ok st1 =>
        rw [h1] at h
        simp only at h
        obtain ⟨hc1, hle1, _⟩ := parseNodeHead_spec _ _ _ _ h1
        have tail : ∀ (st2 : parse_state), st2.file.content = st.file.content →
            st1.file.readOffset ≤ st2.file.readOffset →
            (match ASSERT (sub64 currentNode.endOffset st2.file.readOffset == 0) with
              | Except.error e => Except.error e
              | Except.ok _ =>
                match readNodeRecordHeader version st2.file with
                | Except.error e => Except.error e
                | Except.ok (next, file3) =>
                  parseLoop version fuel next parent { st2 with file := file3 })
              = Except.error fbx_error.out_of_fuel → False := by
          intro st2 k1 k2 ht
          by_cases hz : (sub64 currentNode.endOffset st2.file.readOffset == 0) = true
          · simp only [ASSERT, hz, if_true] at ht
            cases h4 : readNodeRecordHeader version st2.file with
            | error e =>
              rw [h4] at ht
              simp only [Except.error.injEq] at ht
              exact readNodeRecordHeader_fuel _ _ (ht ▸ h4)
            | ok r4 =>
              obtain ⟨next, file3⟩ := r4
              rw [h4] at ht
              obtain ⟨g1, g2, g3, _⟩ := readNodeRecordHeader_ok _ _ _ _ h4
              exact ih next parent { st2 with file := file3 }
                (by simp only [g1]; exact g3) (by simp only [g1, k1]; omega) ht
          · simp only [ASSERT, hz, if_false] at ht
            exact absurd ht (by simp)
        by_cases hpos : sub64 currentNode.endOffset st1.file.readOffset > 0
        · simp only [hpos, if_true] at h
          cases h2 : readNodeRecordHeader version st1.file with
          | error e =>
            rw [h2] at h
            simp only [Except.error.injEq] at h
            exact readNodeRecordHeader_fuel _ _ (h ▸ h2)
          | ok r2 =>
            obtain ⟨child, file2⟩ := r2
            rw [h2] at h
            simp only at h
            obtain ⟨g1, g2, g3, _⟩ := readNodeRecordHeader_ok _ _ _ _ h2
            cases h3 : parseLoop version fuel child (st.outNodes.length % 4294967296)
                { st1 with file := file2 } with
            | error e =>
              rw [h3] at h
              simp only [Except.error.injEq] at h
              exact ih child _ { st1 with file := file2 }
                (by simp only [g1]; exact g3) (by simp only [g1, hc1]; omega) (h ▸ h3)
            | ok st2 =>
              rw [h3] at h
              simp only at h
              obtain ⟨k1, k2, _⟩ := parseLoop_spec version fuel child _ _ _
                (by simp only [g1]; exact g3) h3
              simp only [g1, hc1] at k1 k2
              exact tail st2 k1 (by omega) h
        · simp only [hpos, if_false] at h
          exact tail st1 hc1 (le_refl _) h

/-- The fuel that `loadFBX_nodes` passes is enough: the parse never stops for lack of fuel. -/
theorem loadFBX_nodes_fuel (bytes : List Nat) (version : Nat) :
    loadFBX_nodes (entire_file.ofBytes bytes)
      ≠ load_result.parsed version (Except.error fbx_error.out_of_fuel) := by
  intro h
  by_cases hc : 27 ≤ bytes.length ∧ bytes.take 21 = fbxMagic ∧ bytes[21]? = some 26
      ∧ bytes[22]? = some 0
  · rw [loadFBX_nodes_parsed bytes hc] at h
    simp only [load_result.parsed.injEq] at h
    obtain ⟨_, h⟩ := h
    simp only [parseNodes] at h
    cases h1 : readNodeRecordHeader (leNat ((bytes.drop 23).take 4)) ⟨bytes, 27⟩ with
    | error e =>
      rw [h1] at h
      simp only [Except.error.injEq] at h
      exact readNodeRecordHeader_fuel _ _ (h ▸ h1)
    | ok r1 =>
      obtain ⟨currentNode, file1⟩ := r1
      rw [h1] at h
      obtain ⟨g1, g2, g3, _⟩ := readNodeRecordHeader_ok _ _ _ _ h1
      exact parseLoop_fuel _ _ _ _ _ (by simp only [g1]; exact g3)
        (by simp only [g1]; simp only at g2; omega) h
  · rcases (loadFBX_nodes_cases bytes).2.1 hc with h2 | h2 <;>
      · rw [h2] at h
        exact absurd h (by simp)

/-! ## Connections -/

/-- A scan of `readConnection`, by the object at which it stops. -/
theorem scanLoop_eq (type : connection_type) (count : Int → Nat) (a b : Int) :
    ∀ (ids : List Int) (i : Nat) (types : connection_index × connection_index),
    scanLoop type count a b ids i types =
      (scanResult type (count a) (firstHit a b ids i) true types.1,
        scanResult type (count b) (firstHit a b ids i) false types.2) := by
  intro ids
  induction ids with
  | nil => intro i types; simp [scanLoop, firstHit, scanResult]
  | cons id rest ih =>
    intro i types
    simp only [scanLoop, firstHit]
    by_cases ha : id = a
    · subst ha
      simp [scanResult]
    · by_cases hb : id = b
      · subst hb
        simp [ha, scanResult]
      · simp only [ha, hb, if_false]
        exact ih (i + 1) types

/-- The position at which a scan stops is a position of the id list. -/
theorem firstHit_lt (a b : Int) : ∀ (ids : List Int) (i j : Nat) (isA : Bool),
    firstHit a b ids i = some (j, isA) → i ≤ j ∧ j < i + ids.length := by
  intro ids
  induction ids with
  | nil => intro i j isA h; simp [firstHit] at h
  | cons id rest ih =>
    intro i j isA h
    simp only [firstHit] at h
    split at h
    · simp only [Option.some.injEq, Prod.mk.injEq] at h
      simp only [List.length_cons]; omega
    · split at h
      · simp only [Option.some.injEq, Prod.mk.injEq] at h
        simp only [List.length_cons]; omega
      · have := ih _ _ _ h
        simp only [List.length_cons]; omega

/-- A scan over an id list without the id `a` does not stop at an object with the id
`a`. -/
theorem firstHit_not_mem (a b : Int) : ∀ (ids : List Int) (i : Nat), a ∉ ids →
    ∀ j, firstHit a b ids i ≠ some (j, true) := by
  intro ids
  induction ids with
  | nil => intro i _ j; simp [firstHit]
  | cons id rest ih =>
    intro i h j
    have h1 : id ≠ a := fun e => h (by simp [e])
    have h2 : a ∉ rest := fun e => h (by simp [e])
    simp only [firstHit, h1, if_false]
    split
    · simp
    · exact ih _ h2 j

/-- A scan over an id list with the id `a` and without the id `b` stops at an object with
the id `a`. -/
theorem firstHit_mem (a b : Int) : ∀ (ids : List Int) (i : Nat), a ∈ ids → b ∉ ids →
    ∃ j, firstHit a b ids i = some (j, true) := by
  intro ids
  induction ids with
  | nil => intro i h; simp at h
  | cons id rest ih =>
    intro i h hb
    have h1 : id ≠ b := fun e => hb (by simp [e])
    have h2 : b ∉ rest := fun e => hb (by simp [e])
    simp only [firstHit]
    by_cases ha : id = a
    · exact ⟨i, by simp [ha]⟩
    · simp only [ha, h1, if_false]
      have h3 : a ∈ rest := by
        simp only [List.mem_cons] at h
        rcases h with h | h
        · exact absurd h.symm ha
        · exact h
      exact ih _ h3 h2

/-- The count of the run is 0 when the scan stops after position 0: the first id of the
list is neither `a` nor `b`. -/
theorem countRun_eq_zero (a b : Int) (ids : List Int) (j : Nat) (isA : Bool)
    (h : firstHit a b ids 0 = some (j, isA)) (hj : 0 < j) :
    countRun a ids = 0 ∧ countRun b ids = 0 := by
  cases ids with
  | nil => simp [countRun]
  | cons id rest =>
    simp only [firstHit] at h
    by_cases ha : id = a
    · simp only [ha, if_true, Option.some.injEq, Prod.mk.injEq] at h
      exact absurd h.1 (by omega)
    · by_cases hb : id = b
      · subst hb
        simp only [ha, if_true, if_false, Option.some.injEq, Prod.mk.injEq] at h
        exact absurd h.1 (by omega)
      · simp [countRun, ha, hb]

/-- The four scans of `readConnection`, by the objects at which they stop. -/
theorem scanEndpoints_eq {F : Type} (scene : fbx_scene F) (a b : Int) :
    scanEndpoints scene a b =
      (scanResult connection_type.connection_type_texture 1
          (firstHit a b (scene.textures.map fun texture => texture.id) 0) true
        (scanResult connection_type.connection_type_material 1
          (firstHit a b (scene.materials.map fun material => material.id) 0) true
        (scanResult connection_type.connection_type_mesh
          (countRun a (scene.meshes.map fun mesh => mesh.id))
          (firstHit a b (scene.meshes.map fun mesh => mesh.id) 0) true
        (scanResult connection_type.connection_type_model 1
          (firstHit a b (scene.models.map fun model => model.id) 0) true
          ⟨connection_type.connection_type_unknown, 0, 0⟩))),
       scanResult connection_type.connection_type_texture 1
          (firstHit a b (scene.textures.map fun texture => texture.id) 0) false
        (scanResult connection_type.connection_type_material 1
          (firstHit a b (scene.materials.map fun material => material.id) 0) false
        (scanResult connection_type.connection_type_mesh
          (countRun b (scene.meshes.map fun mesh => mesh.id))
          (firstHit a b (scene.meshes.map fun mesh => mesh.id) 0) false
        (scanResult connection_type.connection_type_model 1
          (firstHit a b (scene.models.map fun model => model.id) 0) false
          ⟨connection_type.connection_type_unknown, 0, 0⟩)))) := by
  simp only [scanEndpoints, scanLoop_eq]

/-- A scan keeps the index of an endpoint or sets it to the position at which it stops. -/
theorem scanResult_cases (type : connection_type) (count : Nat) (hit : Option (Nat × Bool))
    (forA : Bool) (earlier : connection_index) :
    scanResult type count hit forA earlier = earlier ∨
      ∃ j isA, hit = some (j, isA) ∧ scanResult type count hit forA earlier
        = ⟨type, j, count⟩ := by
  cases hit with
  | none => left; rfl
  | some p =>
    obtain ⟨j, isA⟩ := p
    by_cases h : isA = forA
    · right; exact ⟨j, isA, rfl, by simp [scanResult, h]⟩
    · left; simp [scanResult, h]

/-- A scan over an id list without the id `a` keeps the index of the endpoint `a`. -/
theorem scanResult_not_mem (type : connection_type) (count : Nat) (a b : Int)
    (ids : List Int) (h : a ∉ ids) (earlier : connection_index) :
    scanResult type count (firstHit a b ids 0) true earlier = earlier := by
  rcases scanResult_cases type count (firstHit a b ids 0) true earlier with h1 | h1
  · exact h1
  · obtain ⟨k, isA, hk, _⟩ := h1
    cases isA with
    | true => exact absurd hk (firstHit_not_mem a b _ 0 h k)
    | false => simp [scanResult, hk]

/-- After the four scans, the index of an endpoint of a known type is a position of the
array of that type. -/
theorem scanResult_chain_valid {F : Type} (scene : fbx_scene F) (a b : Int) (forA : Bool)
    (c1 c2 c3 c4 : Nat) (x : connection_index)
    (hx : x = scanResult connection_type.connection_type_texture c4
          (firstHit a b (scene.textures.map fun texture => texture.id) 0) forA
        (scanResult connection_type.connection_type_material c3
          (firstHit a b (scene.materials.map fun material => material.id) 0) forA
        (scanResult connection_type.connection_type_mesh c2
          (firstHit a b (scene.meshes.map fun mesh => mesh.id) 0) forA
        (scanResult connection_type.connection_type_model c1
          (firstHit a b (scene.models.map fun model => model.id) 0) forA
          ⟨connection_type.connection_type_unknown, 0, 0⟩)))) :
    (x.type = connection_type.connection_type_model → x.first < scene.models.length) ∧
    (x.type = connection_type.connection_type_mesh → x.first < scene.meshes.length) ∧
    (x.type = connection_type.connection_type_material → x.first < scene.materials.length) ∧
    (x.type = connection_type.connection_type_texture → x.first < scene.textures.length) := by
  subst hx
  rcases scanResult_cases connection_type.connection_type_texture c4
    (firstHit a b (scene.textures.map fun texture => texture.id) 0) forA _ with h | h
  · rw [h]
    rcases scanResult_cases connection_type.connection_type_material c3
      (firstHit a b (scene.materials.map fun material => material.id) 0) forA _ with h | h
    · rw [h]
      rcases scanResult_cases connection_type.connection_type_mesh c2
        (firstHit a b (scene.meshes.map fun mesh => mesh.id) 0) forA _ with h | h
      · rw [h]
        rcases scanResult_cases connection_type.connection_type_model c1
          (firstHit a b (scene.models.map fun model => model.id) 0) forA _ with h | h
        · rw [h]; simp
        · obtain ⟨j, isA, hj, h⟩ := h
          rw [h]
          have := firstHit_lt _ _ _ _ _ _ hj
          simp only [List.length_map] at this
          simp; omega
      · obtain ⟨j, isA, hj, h⟩ := h
        rw [h]
        have := firstHit_lt _ _ _ _ _ _ hj
        simp only [List.length_map] at this
        simp; omega
    · obtain ⟨j, isA, hj, h⟩ := h
      rw [h]
      have := firstHit_lt _ _ _ _ _ _ hj
      simp only [List.length_map] at this
      simp; omega
  · obtain ⟨j, isA, hj, h⟩ := h
    rw [h]
    have := firstHit_lt _ _ _ _ _ _ hj
    simp only [List.length_map] at this
    simp; omega

/-- A resolved material endpoint is a position of the material array, a resolved texture
endpoint a position of the texture array. -/
theorem resolveEndpoints_valid {F : Type} (scene : fbx_scene F) (a b : Int)
    (x y : connection_index) (h : resolveEndpoints scene a b = (x, y)) :
    (x.type = connection_type.connection_type_material → x.first < scene.materials.length) ∧
    (y.type = connection_type.connection_type_texture → y.first < scene.textures.length) := by
  have h1 := scanResult_chain_valid scene a b true 1
    (countRun a (scene.meshes.map fun mesh => mesh.id)) 1 1 (scanEndpoints scene a b).1
    (by rw [scanEndpoints_eq])
  have h2 := scanResult_chain_valid scene a b false 1
    (countRun b (scene.meshes.map fun mesh => mesh.id)) 1 1 (scanEndpoints scene a b).2
    (by rw [scanEndpoints_eq])
  simp only [resolveEndpoints] at h
  split at h
  · simp only [Prod.mk.injEq] at h
    obtain ⟨rfl, rfl⟩ := h
    exact ⟨h2.2.2.1, h1.2.2.2⟩
  · rw [h] at h1 h2
    exact ⟨h1.2.2.1, h2.2.2.2⟩

/-- The comparison `strncmp` of two byte sequences of equal length, the second without NUL
bytes, succeeds only when they are equal. -/
theorem strncmpEq_eq : ∀ (xs ys : List Nat), xs.length = ys.length → 0 ∉ ys →
    strncmpEq xs ys = true → xs = ys := by
  intro xs
  induction xs with
  | nil =>
    intro ys hl _ _
    exact (List.length_eq_zero.mp hl.symm).symm
  | cons x xs ih =>
    intro ys hl h0 h
    cases ys with
    | nil => simp at hl
    | cons y ys =>
      simp only [strncmpEq, bne_iff_ne, ne_eq, ite_not, beq_iff_eq] at h
      by_cases hxy : x = y
      · subst hxy
        have hx : x ≠ 0 := fun e => h0 (by simp [e])
        simp only [if_true, hx, if_false] at h
        rw [ih ys (by simpa using hl) (fun e => h0 (by simp [e])) h]
      · simp [hxy] at h

/-- The comparison `strncmp` of a byte sequence with itself succeeds. -/
theorem strncmpEq_self : ∀ (xs : List Nat), strncmpEq xs xs = true := by
  intro xs
  induction xs with
  | nil => rfl
  | cons x xs ih =>
    simp only [strncmpEq, bne_self_eq_false, Bool.false_eq_true, if_false, ih]
    split <;> rfl

/-- The `operator==` with a literal without NUL bytes holds exactly for the string of the
bytes of the literal. -/
theorem sized_string_eq_iff (s literal : sized_string) (h0 : 0 ∉ literal.str) :
    s.eq literal = true ↔ s = literal := by
  constructor
  · intro h
    simp only [sized_string.eq, Bool.and_eq_true, beq_iff_eq] at h
    have := strncmpEq_eq _ _ h.1 h0 h.2
    cases s; cases literal
    simpa using this
  · rintro rfl
    simp [sized_string.eq, strncmpEq_self]

/-- The assignment of the texture slot, for endpoints inside their arrays. -/
theorem connectTexture_eq {F : Type} (scene : fbx_scene F) (aType bType : connection_index)
    (textureSlot : sized_string) (material : fbx_material F)
    (hm : scene.materials[aType.first]? = some material)
    (ht : bType.first < scene.textures.length) :
    connectTexture scene aType bType textureSlot =
      if textureSlot = sized_string.ofLiteral "DiffuseColor" then
        Except.ok { scene with materials := (scene.materials.set aType.first
          { material with albedoTexture := some bType.first }) }
      else if textureSlot = sized_string.ofLiteral "NormalMap" then
        Except.ok { scene with materials := (scene.materials.set aType.first
          { material with normalTexture := some bType.first }) }
      else if textureSlot = sized_string.ofLiteral "ShininessExponent" then
        Except.ok { scene with materials := (scene.materials.set aType.first
          { material with roughnessTexture := some bType.first }) }
      else if textureSlot = sized_string.ofLiteral "ReflectionFactor" then
        Except.ok { scene with materials := (scene.materials.set aType.first
          { material with metallicTexture := some bType.first }) }
      else Except.error fbx_error.assertion_failed := by
  have hlt : aType.first < scene.materials.length := by
    by_contra hc
    rw [List.getElem?_eq_none (by omega)] at hm
    exact absurd hm (by simp)
  have e1 := sized_string_eq_iff textureSlot (sized_string.ofLiteral "DiffuseColor")
    (by decide)
  have e2 := sized_string_eq_iff textureSlot (sized_string.ofLiteral "NormalMap") (by decide)
  have e3 := sized_string_eq_iff textureSlot (sized_string.ofLiteral "ShininessExponent")
    (by decide)
  have e4 := sized_string_eq_iff textureSlot (sized_string.ofLiteral "ReflectionFactor")
    (by decide)
  simp only [connectTexture, vecGet_eq_ok _ _ _ hm, ht, if_true, e1, e2, e3, e4]
  split_ifs <;> simp only [vecSet_eq_ok _ _ _ hlt]

/-- C18, the claim refuted on an id shared by a model and a mesh: with a model and a mesh of
id 1 and a material of id 5, the endpoint 1 of the connection `OO` between 1 and 5 is resolved
as the mesh, not as the model, and the connection leaves the material list of the model
empty. -/
theorem shared_id_resolves_as_the_mesh :
    scanEndpoints sharedIdScene 1 5
      = (⟨connection_type.connection_type_mesh, 0, 1⟩,
          ⟨connection_type.connection_type_material, 0, 1⟩) ∧
    readConnection (connectionBytes "OO" 1 5 "") connectionNode (connectionProperties 0)
      sharedIdScene = Except.ok sharedIdScene :=
  ⟨by decide, by rfl⟩

/-- C18, amended: every scan of `readConnection` stops at its first object whose id is one of
the two endpoint ids and overwrites the index of that endpoint, so an endpoint is resolved to
the category that is scanned last, in the order model, mesh, material, texture, among those
whose scan stops at an object with the id of the endpoint.  An id shared by a model and a mesh,
and by no material or texture, is resolved as the mesh when the other endpoint id is not the
id of a mesh. -/
theorem scanEndpoints_last_scan_wins {F : Type} (scene : fbx_scene F) (a b : Int) :
    scanEndpoints scene a b =
      (scanResult connection_type.connection_type_texture 1
          (firstHit a b (scene.textures.map fun texture => texture.id) 0) true
        (scanResult connection_type.connection_type_material 1
          (firstHit a b (scene.materials.map fun material => material.id) 0) true
        (scanResult connection_type.connection_type_mesh
          (countRun a (scene.meshes.map fun mesh => mesh.id))
          (firstHit a b (scene.meshes.map fun mesh => mesh.id) 0) true
        (scanResult connection_type.connection_type_model 1
          (firstHit a b (scene.models.map fun model => model.id) 0) true
          ⟨connection_type.connection_type_unknown, 0, 0⟩))),
       scanResult connection_type.connection_type_texture 1
          (firstHit a b (scene.textures.map fun texture => texture.id) 0) false
        (scanResult connection_type.connection_type_material 1
          (firstHit a b (scene.materials.map fun material => material.id) 0) false
        (scanResult connection_type.connection_type_mesh
          (countRun b (scene.meshes.map fun mesh => mesh.id))
          (firstHit a b (scene.meshes.map fun mesh => mesh.id) 0) false
        (scanResult connection_type.connection_type_model 1
          (firstHit a b (scene.models.map fun model => model.id) 0) false
          ⟨connection_type.connection_type_unknown, 0, 0⟩)))) ∧
    (a ∈ (scene.models.map fun model => model.id) →
      a ∈ (scene.meshes.map fun mesh => mesh.id) →
      b ∉ (scene.meshes.map fun mesh => mesh.id) →
      a ∉ (scene.materials.map fun material => material.id) →
      a ∉ (scene.textures.map fun texture => texture.id) →
      (scanEndpoints scene a b).1.type = connection_type.connection_type_mesh) := by
  refine ⟨scanEndpoints_eq scene a b, ?_⟩
  intro _ hmesh hb hmat htex
  rw [scanEndpoints_eq]
  obtain ⟨j, hj⟩ := firstHit_mem a b _ 0 hmesh hb
  simp only
  rw [scanResult_not_mem _ _ a b _ htex, scanResult_not_mem _ _ a b _ hmat]
  simp only [hj, scanResult, if_true]

/-- A model and a mesh with the id 10: the endpoint 10 is resolved as the mesh. -/
theorem scanEndpoints_last_scan_wins_witness :
    (scanEndpoints (⟨[sampleModel 10], [sampleMesh 10 0], [], []⟩ : fbx_scene Int) 10 1).1.type
      = connection_type.connection_type_mesh :=
  (scanEndpoints_last_scan_wins ⟨[sampleModel 10], [sampleMesh 10 0], [], []⟩ 10 1).2
    (by decide) (by decide) (by decide) (by decide) (by decide)

/-- C19: the inner loop that counts the run of meshes with the id of the endpoint starts at
position 0 of the mesh array, not at the position `j` of the first match.  So an endpoint whose
first match in the mesh array is at a position `j > 0` (and whose id is not the id of a
material or texture) is resolved with `first = j` and `count = 0`, whatever the number of
consecutive meshes that share the id; only for `j = 0` is the count the length of the run. -/
theorem scanEndpoints_mesh_run_count {F : Type} (scene : fbx_scene F) (a b : Int) (j : Nat)
    (hj : firstHit a b (scene.meshes.map fun mesh => mesh.id) 0 = some (j, true))
    (hmat : a ∉ (scene.materials.map fun material => material.id))
    (htex : a ∉ (scene.textures.map fun texture => texture.id)) :
    (scanEndpoints scene a b).1 = ⟨connection_type.connection_type_mesh, j,
      if j = 0 then countRun a (scene.meshes.map fun mesh => mesh.id) else 0⟩ := by
  rw [scanEndpoints_eq]
  simp only
  rw [scanResult_not_mem _ _ a b _ htex, scanResult_not_mem _ _ a b _ hmat]
  simp only [hj, scanResult, if_true]
  by_cases h0 : j = 0
  · simp [h0]
  · simp only [h0, if_false, (countRun_eq_zero a b _ j true hj (by omega)).1]

/-- The scene `meshRunScene`: the endpoint 20, whose two meshes are at the positions 1 and
2, is resolved with the count 0, and the connection `OO` between 20 and the model 1 appends no
mesh to the model. -/
theorem scanEndpoints_mesh_run_count_witness :
    (scanEndpoints meshRunScene 20 1).1
        = ⟨connection_type.connection_type_mesh, 1, 0⟩ ∧
    readConnection (connectionBytes "OO" 20 1 "") connectionNode (connectionProperties 0)
      meshRunScene = Except.ok meshRunScene :=
  ⟨scanEndpoints_mesh_run_count meshRunScene 20 1 1 (by decide) (by decide) (by decide),
    by rfl⟩

/-- C20: for a connection `OP` whose endpoints are resolved to the material at position `m` and
the texture at position `t`, the slot string selects the field of that material that is set to
the texture: `DiffuseColor` sets `albedoTexture`, `NormalMap` sets `normalTexture`,
`ShininessExponent` sets `roughnessTexture`, `ReflectionFactor` sets `metallicTexture`; the
result differs from the scene in that one field of that one material only.  Any other slot
string makes `readConnection` fail with a failed assertion. -/
theorem readConnection_texture_slot {F : Type} (content : List Nat) (node : fbx_node)
    (properties : List fbx_property) (scene : fbx_scene F)
    (typeProp aProp bProp slotProp : fbx_property) (a b : Int) (m t aCount bCount : Nat)
    (textureSlot : sized_string) (material : fbx_material F)
    (hname : node.name.eq (sized_string.ofLiteral "C") = true)
    (h0 : propertyAt node properties 0 = Except.ok typeProp)
    (htype : readString content typeProp = Except.ok (sized_string.ofLiteral "OP"))
    (h1 : propertyAt node properties 1 = Except.ok aProp)
    (ha : readInt64 content aProp = Except.ok a)
    (h2 : propertyAt node properties 2 = Except.ok bProp)
    (hb : readInt64 content bProp = Except.ok b)
    (hresolve : resolveEndpoints scene a b
      = (⟨connection_type.connection_type_material, m, aCount⟩,
          ⟨connection_type.connection_type_texture, t, bCount⟩))
    (h3 : propertyAt node properties 3 = Except.ok slotProp)
    (hslot : readString content slotProp = Except.ok textureSlot)
    (hmaterial : scene.materials[m]? = some material) :
    (textureSlot = sized_string.ofLiteral "DiffuseColor" →
      readConnection content node properties scene = Except.ok
        { scene with materials := (scene.materials.set m
          { material with albedoTexture := some t }) }) ∧
    (textureSlot = sized_string.ofLiteral "NormalMap" →
      readConnection content node properties scene = Except.ok
        { scene with materials := (scene.materials.set m
          { material with normalTexture := some t }) }) ∧
    (textureSlot = sized_string.ofLiteral "ShininessExponent" →
      readConnection content node properties scene = Except.ok
        { scene with materials := (scene.materials.set m
          { material with roughnessTexture := some t }) }) ∧
    (textureSlot = sized_string.ofLiteral "ReflectionFactor" →
      readConnection content node properties scene = Except.ok
        { scene with materials := (scene.materials.set m
          { material with metallicTexture := some t }) }) ∧
    (textureSlot ≠ sized_string.ofLiteral "DiffuseColor" →
      textureSlot ≠ sized_string.ofLiteral "NormalMap" →
      textureSlot ≠ sized_string.ofLiteral "ShininessExponent" →
      textureSlot ≠ sized_string.ofLiteral "ReflectionFactor" →
      readConnection content node properties scene
        = Except.error fbx_error.assertion_failed) := by
  have ht : t < scene.textures.length := (resolveEndpoints_valid scene a b _ _ hresolve).2 rfl
  have hOO : (sized_string.ofLiteral "OP").eq (sized_string.ofLiteral "OO") = false := by
    decide
  have hOP : (sized_string.ofLiteral "OP").eq (sized_string.ofLiteral "OP") = true := by
    decide
  have hrun : readConnection content node properties scene
      = connectTexture scene ⟨connection_type.connection_type_material, m, aCount⟩
          ⟨connection_type.connection_type_texture, t, bCount⟩ textureSlot := by
    simp only [readConnection, ASSERT, hname, if_true, h0, htype, h1, ha, h2, hb, hOO, hOP,
      hresolve, Bool.false_eq_true, if_false, and_self, h3, hslot]
  rw [hrun, connectTexture_eq scene _ _ textureSlot material hmaterial ht]
  have d1 : sized_string.ofLiteral "NormalMap" ≠ sized_string.ofLiteral "DiffuseColor" := by
    decide
  have d2 : sized_string.ofLiteral "ShininessExponent" ≠ sized_string.ofLiteral "DiffuseColor"
      := by decide
  have d3 : sized_string.ofLiteral "ShininessExponent" ≠ sized_string.ofLiteral "NormalMap" := by
    decide
  have d4 : sized_string.ofLiteral "ReflectionFactor" ≠ sized_string.ofLiteral "DiffuseColor"
      := by decide
  have d5 : sized_string.ofLiteral "ReflectionFactor" ≠ sized_string.ofLiteral "NormalMap" := by
    decide
  have d6 : sized_string.ofLiteral "ReflectionFactor"
      ≠ sized_string.ofLiteral "ShininessExponent" := by decide
  refine ⟨?_, ?_, ?_, ?_, ?_⟩
  · intro h; simp only [h, if_true]
  · intro h; simp only [h, d1, if_true, if_false]
  · intro h; simp only [h, d2, d3, if_true, if_false]
  · intro h; simp only [h, d4, d5, d6, if_true, if_false]
  · intro g1 g2 g3 g4; simp only [g1, g2, g3, g4, if_false]

/-- The connection `OP` between the material 5 and the texture 6 with the slot `NormalMap`
sets the field `normalTexture` of the material. -/
theorem readConnection_texture_slot_witness :
    readConnection (connectionBytes "OP" 5 6 "NormalMap") connectionNode
        (connectionProperties 9) textureScene
      = Except.ok { textureScene with materials := (textureScene.materials.set 0
          { sampleMaterial 5 with normalTexture := some 0 }) } :=
  (readConnection_texture_slot (connectionBytes "OP" 5 6 "NormalMap") connectionNode
    (connectionProperties 9) textureScene ⟨fbx_property_type.string, 0, 2, 2, 0⟩
    ⟨fbx_property_type.int64, 0, 8, 1, 2⟩ ⟨fbx_property_type.int64, 0, 8, 1, 10⟩
    ⟨fbx_property_type.string, 0, 9, 9, 18⟩ 5 6 0 0 1 1 (sized_string.ofLiteral "NormalMap")
    (sampleMaterial 5) (by rfl) (by rfl) (by rfl) (by rfl) (by rfl) (by rfl) (by rfl)
    (by rfl) (by rfl) (by rfl) (by rfl)).2.1 rfl

/-! ## Decoded indices -/

/-- C27: for every `int32` value `idx`, `decodeIndex idx` is `idx` when `idx ≥ 0` and the bitwise
complement `~idx = -idx - 1` when `idx < 0`; the result lies in `[0, 2^31 - 1]`, also for
`idx = -2^31`; and `decodeIndex (~k) = decodeIndex k = k` for every `k ≥ 0`. -/
theorem decodeIndex_int32 (idx : Int) (hlo : -2147483648 ≤ idx) (hhi : idx < 2147483648) :
    (0 ≤ idx → decodeIndex idx = idx) ∧
    (idx < 0 → decodeIndex idx = ~~~idx ∧ decodeIndex idx = -idx - 1) ∧
    0 ≤ decodeIndex idx ∧ decodeIndex idx ≤ 2147483647 ∧
    (0 ≤ idx → decodeIndex (~~~idx) = idx ∧ decodeIndex idx = idx) := by
  have hnot : ∀ x : Int, ~~~x = -x - 1 := by
    intro x
    cases x with
    | ofNat n => show Int.negSucc n = _; simp [Int.negSucc_eq]; omega
    | negSucc n => show Int.ofNat n = _; simp [Int.negSucc_eq]
  refine ⟨?_, ?_, ?_, ?_, ?_⟩
  · intro h; simp only [decodeIndex]; rw [if_neg (by omega)]
  · intro h; rw [hnot]; simp only [decodeIndex]; rw [if_pos h]; exact ⟨rfl, rfl⟩
  · simp only [decodeIndex]; split <;> omega
  · simp only [decodeIndex]; split <;> omega
  · intro h
    rw [hnot]
    simp only [decodeIndex]
    rw [if_pos (by omega), if_neg (by omega)]
    exact ⟨by omega, rfl⟩

/-- C27 at the smallest `int32` value: `decodeIndex (-2^31)` is the complement `2^31 - 1`. -/
theorem decodeIndex_int32_witness :
    ((0 : Int) ≤ -2147483648 → decodeIndex (-2147483648) = -2147483648) ∧
    ((-2147483648 : Int) < 0 → decodeIndex (-2147483648) = ~~~(-2147483648)
      ∧ decodeIndex (-2147483648) = - (-2147483648) - 1) ∧
    0 ≤ decodeIndex (-2147483648) ∧ decodeIndex (-2147483648) ≤ 2147483647 ∧
    ((0 : Int) ≤ -2147483648 → decodeIndex (~~~(-2147483648)) = -2147483648
      ∧ decodeIndex (-2147483648) = -2147483648) :=
  decodeIndex_int32 (-2147483648) (by decide) (by decide)

/-! ## Array properties -/

/-- C29: at an array tag (b, f, d, i, l) whose header of 12 bytes lies in the buffer, the body of
the loop of `parseProperties` appends exactly one entry, whose `numElements`, `encoding` and
`encodedLength` are the little-endian `uint32` fields `arrayLength`, `encoding` and
`compressedLength` of the header and whose `data` is the position behind the header; the read
offset moves by exactly `1 + 12 + compressedLength`, the buffer is kept as it is (nothing is
decompressed), and `parseProperties` for this one property returns the count 1. -/
theorem parseProperties_array_header (file : entire_file) (out : List fbx_property) (t : Nat)
    (type : fbx_property_type) (hm : (t, type) ∈ arrayTags)
    (ht : file.content[file.readOffset]? = some t)
    (hh : file.readOffset + 1 + 12 ≤ file.content.length) :
    ∃ entry : fbx_property,
      parseProperty file out
        = Except.ok (⟨file.content, file.readOffset + 1 + 12 + entry.encodedLength⟩,
            out ++ [entry]) ∧
      parseProperties file out 1
        = Except.ok (⟨file.content, file.readOffset + 1 + 12 + entry.encodedLength⟩,
            out ++ [entry], 1) ∧
      entry.type = type ∧
      entry.numElements = leNat ((file.content.drop (file.readOffset + 1)).take 4) ∧
      entry.encoding = leNat ((file.content.drop (file.readOffset + 5)).take 4) ∧
      entry.encodedLength = leNat ((file.content.drop (file.readOffset + 9)).take 4) ∧
      entry.data = file.readOffset + 1 + 12 := by
  have h1 := parseProperty_array file out t type hm ht
  have h2 := parseArray_eq ⟨file.content, file.readOffset + 1⟩ out type (by simpa using hh)
  simp only [] at h2
  rw [h2] at h1
  rw [show file.readOffset + 1 + 8 = file.readOffset + 9 from rfl,
    show file.readOffset + 1 + 4 = file.readOffset + 5 from rfl] at h1
  refine ⟨⟨type, leNat ((file.content.drop (file.readOffset + 5)).take 4),
    leNat ((file.content.drop (file.readOffset + 9)).take 4),
    leNat ((file.content.drop (file.readOffset + 1)).take 4), file.readOffset + 1 + 12⟩,
    h1, ?_, rfl, rfl, rfl, rfl, rfl⟩
  simp only [parseProperties, parsePropertiesLoop, h1, List.length_append, List.length_singleton]
  have e : ((out.length + 1) % 4294967296 + 4294967296 - out.length % 4294967296) % 4294967296
      = 1 := by omega
  rw [e]

/-- C29 at a sample input: the `int32` array property of `arrayPropertyBytes`. -/
theorem parseProperties_array_header_witness :
    ∃ entry : fbx_property,
      parseProperty ⟨arrayPropertyBytes, 0⟩ []
        = Except.ok (⟨arrayPropertyBytes, 0 + 1 + 12 + entry.encodedLength⟩, [] ++ [entry]) ∧
      parseProperties ⟨arrayPropertyBytes, 0⟩ [] 1
        = Except.ok (⟨arrayPropertyBytes, 0 + 1 + 12 + entry.encodedLength⟩,
            [] ++ [entry], 1) ∧
      entry.type = fbx_property_type.int32 ∧
      entry.numElements = leNat ((arrayPropertyBytes.drop (0 + 1)).take 4) ∧
      entry.encoding = leNat ((arrayPropertyBytes.drop (0 + 5)).take 4) ∧
      entry.encodedLength = leNat ((arrayPropertyBytes.drop (0 + 9)).take 4) ∧
      entry.data = 0 + 1 + 12 :=
  parseProperties_array_header ⟨arrayPropertyBytes, 0⟩ [] 105 fbx_property_type.int32
    (by decide) (by decide) (by decide)

/-! ## The test for children -/

/-- C28, code bug: the loop of `parseNodes` reads the child list of a node whenever the declared
end offset differs from the read offset reached after the properties of the node, also when it
is smaller, because the `uint64` difference `sizeLeft` wraps; it skips the child list only when
the two are equal.  For a declared end offset below the read offset and fewer than 13 bytes left
in the buffer, the read of the record header of the first child passes the end of the buffer. -/
theorem parseLoop_recurses_unless_equal (version fuel : Nat)
    (currentNode : fbx_node_record_header_64) (parent level : Nat) (st st1 : parse_state)
    (hend : currentNode.endOffset ≠ 0) (hlt : currentNode.endOffset < 18446744073709551616)
    (hoff : st1.file.readOffset < 18446744073709551616)
    (hhead : parseNodeHead currentNode parent st = Except.ok st1) :
    (currentNode.endOffset ≠ st1.file.readOffset →
      parseLoop version (fuel + 1) currentNode parent st
        = afterChildren version fuel currentNode parent
            (parseNodes fuel version st1 level (st.outNodes.length % 4294967296))) ∧
    (currentNode.endOffset = st1.file.readOffset →
      parseLoop version (fuel + 1) currentNode parent st
        = afterChildren version fuel currentNode parent (Except.ok st1)) ∧
    (currentNode.endOffset < st1.file.readOffset →
      st1.file.content.length < st1.file.readOffset + 13 →
      parseLoop version (fuel + 1) currentNode parent st
        = Except.error fbx_error.out_of_range) := by
  have hstep : parseLoop version (fuel + 1) currentNode parent st
      = afterChildren version fuel currentNode parent
          (if sub64 currentNode.endOffset st1.file.readOffset > 0 then
            parseNodes fuel version st1 level (st.outNodes.length % 4294967296)
          else Except.ok st1) := by
    rw [parseLoop]
    have h0 : (currentNode.endOffset != 0) = true := by simpa using hend
    rw [if_pos h0, hhead]
    simp only [afterChildren, parseNodes]
  have hsub : currentNode.endOffset ≠ st1.file.readOffset →
      sub64 currentNode.endOffset st1.file.readOffset > 0 := by
    intro hne
    simp only [sub64]
    omega
  refine ⟨?_, ?_, ?_⟩
  · intro hne
    rw [hstep, if_pos (hsub hne)]
  · intro heq
    rw [hstep, heq, sub64_self, if_neg (by omega)]
  · intro hb hshort
    rw [hstep, if_pos (hsub (by omega))]
    have hr : readNodeRecordHeader version st1.file = Except.error fbx_error.out_of_range := by
      simp only [readNodeRecordHeader, entire_file.consume]
      split
      · rw [readBytes_eq_error _ _ _ (by omega)]
      · rw [readBytes_eq_error _ _ _ (by omega)]
    simp only [parseNodes, hr, afterChildren]

/-- C28 at sample inputs: in `shortEndOffset` the record declares the end offset 1 and its
properties end at offset 40, the end of the buffer; the child list is read and the read is out of
range.  With the declared end offset 40 the child list is skipped. -/
theorem parseLoop_recurses_unless_equal_witness :
    parseLoop 7400 (40 + 1) ⟨1, 0, 0, 0⟩ 0 ⟨⟨shortEndOffset, 40⟩, [rootNode], []⟩
      = afterChildren 7400 40 ⟨1, 0, 0, 0⟩ 0
          (parseNodes 40 7400 ⟨⟨shortEndOffset, 40⟩,
            [{ rootNode with firstChild := 1, lastChild := 1 },
              ⟨⟨[]⟩, 0, noNode, noNode, noNode, 0, 0, 0⟩], []⟩ 1
            ([rootNode].length % 4294967296)) ∧
    parseLoop 7400 (40 + 1) ⟨40, 0, 0, 0⟩ 0 ⟨⟨shortEndOffset, 40⟩, [rootNode], []⟩
      = afterChildren 7400 40 ⟨40, 0, 0, 0⟩ 0
          (Except.ok ⟨⟨shortEndOffset, 40⟩,
            [{ rootNode with firstChild := 1, lastChild := 1 },
              ⟨⟨[]⟩, 0, noNode, noNode, noNode, 0, 0, 0⟩], []⟩) ∧
    parseLoop 7400 (40 + 1) ⟨1, 0, 0, 0⟩ 0 ⟨⟨shortEndOffset, 40⟩, [rootNode], []⟩
      = Except.error fbx_error.out_of_range :=
  ⟨(parseLoop_recurses_unless_equal 7400 40 ⟨1, 0, 0, 0⟩ 0 1
      ⟨⟨shortEndOffset, 40⟩, [rootNode], []⟩
      ⟨⟨shortEndOffset, 40⟩, [{ rootNode with firstChild := 1, lastChild := 1 },
        ⟨⟨[]⟩, 0, noNode, noNode, noNode, 0, 0, 0⟩], []⟩
      (by decide) (by decide) (by decide) (by rfl)).1 (by decide),
    (parseLoop_recurses_unless_equal 7400 40 ⟨40, 0, 0, 0⟩ 0 1
      ⟨⟨shortEndOffset, 40⟩, [rootNode], []⟩
      ⟨⟨shortEndOffset, 40⟩, [{ rootNode with firstChild := 1, lastChild := 1 },
        ⟨⟨[]⟩, 0, noNode, noNode, noNode, 0, 0, 0⟩], []⟩
      (by decide) (by decide) (by decide) (by rfl)).2.1 (by decide),
    (parseLoop_recurses_unless_equal 7400 40 ⟨1, 0, 0, 0⟩ 0 1
      ⟨⟨shortEndOffset, 40⟩, [rootNode], []⟩
      ⟨⟨shortEndOffset, 40⟩, [{ rootNode with firstChild := 1, lastChild := 1 },
        ⟨⟨[]⟩, 0, noNode, noNode, noNode, 0, 0, 0⟩], []⟩
      (by decide) (by decide) (by decide) (by rfl)).2.2 (by decide) (by decide)⟩

/-- The decode of the container `shortEndOffset` reads past the end of the buffer. -/
theorem shortEndOffset_load :
    loadFBX_nodes (entire_file.ofBytes shortEndOffset)
      = load_result.parsed 7400 (Except.error fbx_error.out_of_range) := by
  rfl

/-! ## Gathered attributes -/

/-- The gather loop of the by-polygon-vertex, index-to-direct branch, on indices that are -1 or
positions of `data` and slots that lie in `result`: every slot from `i` on receives the value of
its index, the slots before `i` are left as they were. -/
theorem gatherLoop_spec {data_t : Type} [Zero data_t] (data : List data_t) :
    ∀ (rest : List Int) (i : Nat) (result : List data_t),
      (∀ x, x ∈ rest → x = -1 ∨ (0 ≤ x ∧ x < data.length)) →
      i + rest.length ≤ result.length →
      ∃ r, gatherLoop data rest i result = Except.ok r ∧
        r.length = result.length ∧
        (∀ k x, rest[k]? = some x → r[i + k]? = scatteredValue data x) ∧
        (∀ c, c < i → r[c]? = result[c]?) := by
  intro rest
  induction rest with
  | nil =>
    intro i result _ _
    refine ⟨result, rfl, rfl, ?_, ?_⟩
    · intro k x hk
      simp at hk
    · intro c _; rfl
  | cons x rest ih =>
    intro i result hvalid hlen
    obtain ⟨v, hv, hsv⟩ := selectData_eq_ok data x (hvalid x (List.mem_cons_self _ _))
    have hi : i < result.length := by
      simp only [List.length_cons] at hlen
      omega
    obtain ⟨r, hr, hrlen, hrin, hrout⟩ := ih (i + 1) (result.set i v)
      (fun y hy => hvalid y (List.mem_cons_of_mem _ hy))
      (by simp only [List.length_cons] at hlen; simp only [List.length_set]; omega)
    refine ⟨r, ?_, ?_, ?_, ?_⟩
    · simp only [gatherLoop]
      rw [hv]
      simp only []
      rw [vecSet_eq_ok _ _ _ hi]
      exact hr
    · simpa using hrlen
    · intro k y hy
      cases k with
      | zero =>
        simp only [List.getElem?_cons_zero, Option.some.injEq] at hy
        subst hy
        rw [Nat.add_zero, hrout i (by omega), hsv]
        simp [List.getElem?_set, hi]
      | succ k =>
        simp only [List.getElem?_cons_succ] at hy
        have := hrin k y hy
        rw [show i + (k + 1) = i + 1 + k from by omega]
        exact this
    · intro c hc
      rw [hrout c (by omega)]
      have hne : i ≠ c := by omega
      simp [List.getElem?_set, hne]

/-- C25: with by-polygon-vertex mapping and index-to-direct reference, an index array of length
`numVertices` whose entries are -1 or positions of `data` gives a result of length `numVertices`
whose entry `i` is `data[dataIndices[i]]`, or the zero value when `dataIndices[i] = -1`; an index
array of another length fails the assertion. -/
theorem mapDataToVertices_by_polygon_vertex_index_to_direct {data_t : Type} [Zero data_t]
    (data : List data_t) (dataIndices : List Int) (vertexOffsetCounts : List offset_count)
    (originalToNewVertex : List Nat) (numVertices : Nat) :
    (dataIndices.length = numVertices →
      (∀ x, x ∈ dataIndices → x = -1 ∨ (0 ≤ x ∧ x < data.length)) →
      ∃ result, mapDataToVertices data dataIndices mapping_info.by_polygon_vertex
          reference_info.index_to_direct vertexOffsetCounts originalToNewVertex numVertices
            = Except.ok result ∧
        result.length = numVertices ∧
        (∀ (i : Nat) (x : Int), dataIndices[i]? = some x →
          result[i]? = if x = -1 then some 0 else data[x.toNat]?) ∧
        (∀ (i : Nat), i < numVertices → ∃ x, dataIndices[i]? = some x)) ∧
    (dataIndices.length ≠ numVertices →
      mapDataToVertices data dataIndices mapping_info.by_polygon_vertex
        reference_info.index_to_direct vertexOffsetCounts originalToNewVertex numVertices
          = Except.error fbx_error.assertion_failed) := by
  refine ⟨?_, ?_⟩
  · intro hsize hvalid
    obtain ⟨r, hr, hrlen, hrin, _⟩ :=
      gatherLoop_spec data dataIndices 0 (List.replicate numVertices 0) hvalid
        (by simp [hsize])
    refine ⟨r, ?_, ?_, ?_, ?_⟩
    · simp only [mapDataToVertices, ASSERT, hsize, beq_self_eq_true, if_true]
      exact hr
    · simpa using hrlen
    · intro i x hx
      have := hrin i x hx
      rw [Nat.zero_add] at this
      exact this
    · intro i hi
      exact ⟨dataIndices[i], List.getElem?_eq_getElem (by omega)⟩
  · intro hne
    simp [mapDataToVertices, ASSERT, hne]

/-- C25 at sample inputs: four indices into three values, and an index array of length 3 for
four vertices. -/
theorem mapDataToVertices_by_polygon_vertex_index_to_direct_witness :
    (∃ result, mapDataToVertices ([10, 20, 30] : List Int) [2, -1, 0, 0]
          mapping_info.by_polygon_vertex reference_info.index_to_direct [] [] 4
            = Except.ok result ∧
        result.length = 4 ∧
        (∀ (i : Nat) (x : Int), ([2, -1, 0, 0] : List Int)[i]? = some x →
          result[i]? = if x = -1 then some 0 else ([10, 20, 30] : List Int)[x.toNat]?) ∧
        (∀ (i : Nat), i < 4 → ∃ x, ([2, -1, 0, 0] : List Int)[i]? = some x)) ∧
    mapDataToVertices ([10, 20, 30] : List Int) [2, -1, 0]
        mapping_info.by_polygon_vertex reference_info.index_to_direct [] [] 4
          = Except.error fbx_error.assertion_failed :=
  ⟨(mapDataToVertices_by_polygon_vertex_index_to_direct [10, 20, 30] [2, -1, 0, 0] [] [] 4).1
      (by decide) (by decide),
    (mapDataToVertices_by_polygon_vertex_index_to_direct [10, 20, 30] [2, -1, 0] [] [] 4).2
      (by decide)⟩

/-! ## Material ids of the polygons -/

/-- One iteration of the polygon walk: the polygon that starts at `firstIndex` takes the entry
`materialIndices[materialIndex]` as its material id, and the next polygon takes the next
entry. -/
theorem polygonWalk_step {F : Type} [DecidableEq F] [Zero F]
    (positions : List (vec3 F)) (uvs : List (vec2 F)) (normals : List (vec3 F))
    (originalIndices materialIndices : List Int) (fuel firstIndex materialIndex : Nat)
    (materialToMesh : List (Int × per_material F)) (material : Int)
    (hfirst : firstIndex < originalIndices.length)
    (hmat : materialIndices[materialIndex]? = some material) :
    polygonWalk positions uvs normals originalIndices materialIndices originalIndices.length
        (fuel + 1) firstIndex materialIndex materialToMesh
      = if scanFace (originalIndices.drop firstIndex) < 3 then
          polygonWalk positions uvs normals originalIndices materialIndices
            originalIndices.length fuel
            (firstIndex + scanFace (originalIndices.drop firstIndex)) (materialIndex + 1)
            materialToMesh
        else
          match triangulateFace positions uvs normals
              ((mapFind material materialToMesh).getD per_material.empty) firstIndex
              (scanFace (originalIndices.drop firstIndex)) with
          | Except.error e => Except.error e
          | Except.ok perMat =>
            polygonWalk positions uvs normals originalIndices materialIndices
              originalIndices.length fuel
              (firstIndex + scanFace (originalIndices.drop firstIndex)) (materialIndex + 1)
              (mapSet material perMat materialToMesh) := by
  rw [polygonWalk, if_pos hfirst]
  have hfs := faceSizeLoop_eq originalIndices firstIndex originalIndices.length 0 (by omega)
  simp only [Nat.add_zero, Nat.zero_add] at hfs
  rw [hfs]
  simp only []
  rw [vecGet_eq_ok _ _ _ hmat]

/-- The walk fails at a polygon for which the list of material ids has no entry. -/
theorem polygonWalk_no_material {F : Type} [DecidableEq F] [Zero F]
    (positions : List (vec3 F)) (uvs : List (vec2 F)) (normals : List (vec3 F))
    (originalIndices materialIndices : List Int) (fuel firstIndex materialIndex : Nat)
    (materialToMesh : List (Int × per_material F))
    (hfirst : firstIndex < originalIndices.length)
    (hmat : materialIndices.length ≤ materialIndex) :
    polygonWalk positions uvs normals originalIndices materialIndices originalIndices.length
        (fuel + 1) firstIndex materialIndex materialToMesh
      = Except.error fbx_error.out_of_range := by
  rw [polygonWalk, if_pos hfirst]
  have hfs := faceSizeLoop_eq originalIndices firstIndex originalIndices.length 0 (by omega)
  simp only [Nat.add_zero, Nat.zero_add] at hfs
  rw [hfs]
  simp only [vecGet]
  rw [List.getElem?_eq_none hmat]

/-- The material block of `readMesh` by cases: a by-polygon layer gives its `Materials` array,
which has to have one entry per polygon; an all-same layer gives the first entry of the array (0
for an empty array) for every polygon; without the flag every polygon gets 0; in every case the
list has one entry per polygon. -/
theorem readMaterialIndices_cases (flags : Nat) (materialLayer : geometry_data Int)
    (numFaces : Nat) :
    (flagSet flags mesh_flags.mesh_flag_load_materials = true →
      materialLayer.mapping = mapping_info.by_polygon →
      (materialLayer.data.length = numFaces →
        readMaterialIndices flags materialLayer numFaces = Except.ok materialLayer.data) ∧
      (materialLayer.data.length ≠ numFaces →
        readMaterialIndices flags materialLayer numFaces
          = Except.error fbx_error.assertion_failed)) ∧
    (flagSet flags mesh_flags.mesh_flag_load_materials = true →
      materialLayer.mapping = mapping_info.all_same →
      readMaterialIndices flags materialLayer numFaces
        = Except.ok (List.replicate numFaces (materialLayer.data.headD 0))) ∧
    (flagSet flags mesh_flags.mesh_flag_load_materials = false →
      readMaterialIndices flags materialLayer numFaces
        = Except.ok (List.replicate numFaces 0)) ∧
    (∀ materialIndices, readMaterialIndices flags materialLayer numFaces
        = Except.ok materialIndices → materialIndices.length = numFaces) := by
  refine ⟨?_, ?_, ?_, ?_⟩
  · intro hf hm
    refine ⟨?_, ?_⟩
    · intro hl
      simp [readMaterialIndices, hf, hm, ASSERT, hl]
    · intro hl
      simp [readMaterialIndices, hf, hm, ASSERT, hl]
  · intro hf hm
    simp [readMaterialIndices, hf, hm, ASSERT]
  · intro hf
    simp [readMaterialIndices, hf, ASSERT]
  · intro materialIndices h
    simp only [readMaterialIndices] at h
    split at h
    · exact absurd h (by simp)
    · rename_i mi hmi
      simp only [ASSERT] at h
      by_cases hl : mi.length = numFaces
      · simp only [hl, beq_self_eq_true, if_true, Except.ok.injEq] at h
        rw [← h]; exact hl
      · have : (mi.length == numFaces) = false := by simpa using hl
        simp only [this] at h
        exact absurd h (by simp)

/-- C26: the polygon walk of a successful `readMesh` starts at the entry 0 of the list of material
ids that the material block returns, takes the entry `k` for the polygon `k` of the stream and the
next entry for the next polygon; this list is the `Materials` array for a by-polygon layer, holds
`Materials[0]` (0 for an empty array) for every polygon for an all-same layer, and holds 0 for
every polygon when materials are not requested; and `readMesh` fails when the number of entries
differs from the number of polygons (the negative entries of the index stream). -/
theorem readMesh_material_ids {D F : Type} [DecidableEq F] [Zero F] (toFloat : D → F)
    (id : Int) (name : sized_string) (originalPositionsRaw : List D)
    (originalIndices : List Int) (uvLayer normalLayer : geometry_data D)
    (materialLayer : geometry_data Int) (flags : Nat) (outMeshes : List (fbx_mesh F))
    (hlen : originalIndices.length < 2147483648) :
    (∀ out, readMesh toFloat id name originalPositionsRaw originalIndices uvLayer normalLayer
        materialLayer flags outMeshes = Except.ok out →
      ∃ (positions : List (vec3 F)) (uvs : List (vec2 F)) (normals : List (vec3 F))
        (materialIndices : List Int) (m : List (Int × per_material F)),
        readMaterialIndices flags materialLayer (numFacesOf originalIndices)
          = Except.ok materialIndices ∧
        materialIndices.length = numFacesOf originalIndices ∧
        polygonWalk positions uvs normals originalIndices materialIndices
          originalIndices.length originalIndices.length 0 0 [] = Except.ok m ∧
        out = outMeshes ++ outputMeshes id name m) ∧
    (∀ (positions : List (vec3 F)) (uvs : List (vec2 F)) (normals : List (vec3 F))
        (materialIndices : List Int) (fuel firstIndex k : Nat)
        (materialToMesh : List (Int × per_material F)) (material : Int),
      firstIndex < originalIndices.length → materialIndices[k]? = some material →
      polygonWalk positions uvs normals originalIndices materialIndices originalIndices.length
          (fuel + 1) firstIndex k materialToMesh
        = if scanFace (originalIndices.drop firstIndex) < 3 then
            polygonWalk positions uvs normals originalIndices materialIndices
              originalIndices.length fuel
              (firstIndex + scanFace (originalIndices.drop firstIndex)) (k + 1) materialToMesh
          else
            match triangulateFace positions uvs normals
                ((mapFind material materialToMesh).getD per_material.empty) firstIndex
                (scanFace (originalIndices.drop firstIndex)) with
            | Except.error e => Except.error e
            | Except.ok perMat =>
              polygonWalk positions uvs normals originalIndices materialIndices
                originalIndices.length fuel
                (firstIndex + scanFace (originalIndices.drop firstIndex)) (k + 1)
                (mapSet material perMat materialToMesh)) ∧
    (flagSet flags mesh_flags.mesh_flag_load_materials = true →
      materialLayer.mapping = mapping_info.by_polygon →
      materialLayer.data.length = numFacesOf originalIndices →
      readMaterialIndices flags materialLayer (numFacesOf originalIndices)
        = Except.ok materialLayer.data) ∧
    (flagSet flags mesh_flags.mesh_flag_load_materials = true →
      materialLayer.mapping = mapping_info.all_same →
      readMaterialIndices flags materialLayer (numFacesOf originalIndices)
        = Except.ok (List.replicate (numFacesOf originalIndices)
            (materialLayer.data.headD 0))) ∧
    (flagSet flags mesh_flags.mesh_flag_load_materials = false →
      readMaterialIndices flags materialLayer (numFacesOf originalIndices)
        = Except.ok (List.replicate (numFacesOf originalIndices) 0)) ∧
    (flagSet flags mesh_flags.mesh_flag_load_materials = true →
      materialLayer.mapping = mapping_info.by_polygon →
      materialLayer.data.length ≠ numFacesOf originalIndices →
      readMaterialIndices flags materialLayer (numFacesOf originalIndices)
          = Except.error fbx_error.assertion_failed ∧
        ∀ out, readMesh toFloat id name originalPositionsRaw originalIndices uvLayer
          normalLayer materialLayer flags outMeshes ≠ Except.ok out) := by
  obtain ⟨hpoly, hsame, hoff, hcount⟩ :=
    readMaterialIndices_cases flags materialLayer (numFacesOf originalIndices)
  refine ⟨?_, ?_, ?_, hsame, hoff, ?_⟩
  · intro out h
    obtain ⟨positions, uvs, normals, materialIndices, m, _, hmat, hwalk, hout⟩ :=
      readMesh_ok toFloat id name originalPositionsRaw originalIndices uvLayer normalLayer
        materialLayer flags outMeshes out hlen h
    exact ⟨positions, uvs, normals, materialIndices, m, hmat, hcount _ hmat, hwalk, hout⟩
  · intro positions uvs normals materialIndices fuel firstIndex k materialToMesh material
      hfirst hmat
    exact polygonWalk_step positions uvs normals originalIndices materialIndices fuel firstIndex
      k materialToMesh material hfirst hmat
  · intro hf hm hl
    exact (hpoly hf hm).1 hl
  · intro hf hm hl
    have herr := (hpoly hf hm).2 hl
    refine ⟨herr, ?_⟩
    intro out h
    obtain ⟨_, _, _, materialIndices, _, _, hmat, _, _⟩ :=
      readMesh_ok toFloat id name originalPositionsRaw originalIndices uvLayer normalLayer
        materialLayer flags outMeshes out hlen h
    rw [herr] at hmat
    exact absurd hmat (by simp)

/-- C26 at sample inputs: the mixed stream of five polygons with a by-polygon layer of five
entries, an all-same layer with an empty array, a flag word without the material flag, and a
by-polygon layer of four entries. -/
theorem readMesh_material_ids_witness :
    (∃ (positions : List (vec3 Int)) (uvs : List (vec2 Int)) (normals : List (vec3 Int))
        (materialIndices : List Int) (m : List (Int × per_material Int)),
        readMaterialIndices loadFBX_flags mixedMaterialLayer (numFacesOf mixedStream)
          = Except.ok materialIndices ∧
        materialIndices.length = numFacesOf mixedStream ∧
        polygonWalk positions uvs normals mixedStream materialIndices
          mixedStream.length mixedStream.length 0 0 [] = Except.ok m ∧
        mixedMeshes = [] ++ outputMeshes 7 ⟨[81]⟩ m) ∧
    (polygonWalk ([] : List (vec3 Int)) [] [] mixedStream mixedMaterialLayer.data
          mixedStream.length (3 + 1) 4 1 [(0, quadBucket)]
        = if scanFace (mixedStream.drop 4) < 3 then
            polygonWalk ([] : List (vec3 Int)) [] [] mixedStream mixedMaterialLayer.data
              mixedStream.length 3 (4 + scanFace (mixedStream.drop 4)) (1 + 1)
              [(0, quadBucket)]
          else
            match triangulateFace ([] : List (vec3 Int)) [] []
                ((mapFind 1 [(0, quadBucket)]).getD per_material.empty) 4
                (scanFace (mixedStream.drop 4)) with
            | Except.error e => Except.error e
            | Except.ok perMat =>
              polygonWalk ([] : List (vec3 Int)) [] [] mixedStream mixedMaterialLayer.data
                mixedStream.length 3 (4 + scanFace (mixedStream.drop 4)) (1 + 1)
                (mapSet 1 perMat [(0, quadBucket)])) ∧
    readMaterialIndices loadFBX_flags mixedMaterialLayer (numFacesOf mixedStream)
      = Except.ok mixedMaterialLayer.data ∧
    readMaterialIndices loadFBX_flags ⟨[], [], mapping_info.all_same,
        reference_info.index_to_direct⟩ (numFacesOf mixedStream)
      = Except.ok (List.replicate (numFacesOf mixedStream) (([] : List Int).headD 0)) ∧
    readMaterialIndices 1 mixedMaterialLayer (numFacesOf mixedStream)
      = Except.ok (List.replicate (numFacesOf mixedStream) 0) ∧
    (readMaterialIndices loadFBX_flags shortMaterialLayer (numFacesOf mixedStream)
        = Except.error fbx_error.assertion_failed ∧
      ∀ out, readMesh (fun d : Int => d) 7 ⟨[81]⟩ quadVertices mixedStream quadUVLayer
        geometry_data.absent shortMaterialLayer loadFBX_flags [] ≠ Except.ok out) :=
  ⟨(readMesh_material_ids (fun d : Int => d) 7 ⟨[81]⟩ quadVertices mixedStream
      quadUVLayer geometry_data.absent mixedMaterialLayer loadFBX_flags [] (by decide)).1
      mixedMeshes (by rfl),
    (readMesh_material_ids (fun d : Int => d) 7 ⟨[81]⟩ quadVertices mixedStream
      quadUVLayer geometry_data.absent mixedMaterialLayer loadFBX_flags [] (by decide)).2.1
      [] [] [] mixedMaterialLayer.data 3 4 1 [(0, quadBucket)] 1 (by decide) (by decide),
    (readMesh_material_ids (fun d : Int => d) 7 ⟨[81]⟩ quadVertices mixedStream
      quadUVLayer geometry_data.absent mixedMaterialLayer loadFBX_flags [] (by decide)).2.2.1
      (by decide) (by decide) (by decide),
    (readMesh_material_ids (fun d : Int => d) 7 ⟨[81]⟩ quadVertices mixedStream
      quadUVLayer geometry_data.absent ⟨[], [], mapping_info.all_same,
        reference_info.index_to_direct⟩ loadFBX_flags [] (by decide)).2.2.2.1
      (by decide) (by decide),
    (readMesh_material_ids (fun d : Int => d) 7 ⟨[81]⟩ quadVertices mixedStream
      quadUVLayer geometry_data.absent mixedMaterialLayer 1 [] (by decide)).2.2.2.2.1
      (by decide),
    (readMesh_material_ids (fun d : Int => d) 7 ⟨[81]⟩ quadVertices mixedStream
      quadUVLayer geometry_data.absent shortMaterialLayer loadFBX_flags [] (by decide)).2.2.2.2.2
      (by decide) (by decide) (by decide)⟩

/-! ## The tables of Step A -/

/-- The corner positions of a part of the stream, counted from `i`, are those counted from 0
moved by `i`. -/
theorem cornersFrom_shift (v : Nat) : ∀ (stream : List Int) (i : Nat),
    cornersFrom v stream i = (cornersFrom v stream 0).map (· + i) := by
  intro stream
  induction stream with
  | nil => intro i; rfl
  | cons x rest ih =>
    intro i
    simp only [cornersFrom]
    rw [ih (i + 1), ih (0 + 1)]
    split
    · simp only [List.map_cons, List.map_map, Nat.zero_add]
      congr 1
      apply List.map_congr_left
      intro a _
      simp only [Function.comp]
      omega
    · simp only [List.map_map]
      apply List.map_congr_left
      intro a _
      simp only [Function.comp]
      omega

/-- The number of corners of a control point does not depend on the position of the part. -/
theorem cornersFrom_length (v : Nat) (stream : List Int) (i j : Nat) :
    (cornersFrom v stream i).length = (cornersFrom v stream j).length := by
  rw [cornersFrom_shift v stream i, cornersFrom_shift v stream j]
  simp

/-- The recursive list of corner positions is the filtered list of all positions. -/
theorem cornersFrom_eq_cornersOf (v : Nat) : ∀ (stream : List Int),
    cornersFrom v stream 0 = cornersOf stream v := by
  intro stream
  induction stream with
  | nil => rfl
  | cons x rest ih =>
    simp only [cornersFrom, cornersOf, List.length_cons]
    rw [List.range_succ_eq_map, List.filter_cons, List.filter_map]
    simp only [List.getElem?_cons_zero, Option.map_some', Option.some.injEq, Nat.zero_add]
    rw [cornersFrom_shift v rest 1, ih]
    have hf : (fun i => decide (Option.map decodeIndex (x :: rest)[i]? = some (v : Int)))
        ∘ Nat.succ
        = fun i => decide (Option.map decodeIndex rest[i]? = some (v : Int)) := by
      funext i
      simp
    rw [hf]
    by_cases hx : decodeIndex x = (v : Int)
    · simp only [hx, if_true, decide_True]
      rfl
    · simp only [hx, if_false, decide_False]
      rfl

/-- The value of `decodeIndex` is never negative. -/
theorem decodeIndex_nonneg (idx : Int) : 0 ≤ decodeIndex idx := by
  simp only [decodeIndex]
  split <;> omega

/-- A read of a control point below the number of triples of the raw array succeeds. -/
theorem readVec3d_eq_ok {D : Type} (originalPositionsRaw : List D) (i : Int) (h0 : 0 ≤ i)
    (h : i.toNat < originalPositionsRaw.length / 3) :
    ∃ p, readVec3d originalPositionsRaw i = Except.ok p := by
  have hx : (3 * i).toNat < originalPositionsRaw.length := by omega
  have hy : (3 * i + 1).toNat < originalPositionsRaw.length := by omega
  have hz : (3 * i + 2).toNat < originalPositionsRaw.length := by omega
  refine ⟨⟨originalPositionsRaw[(3 * i).toNat], originalPositionsRaw[(3 * i + 1).toNat],
    originalPositionsRaw[(3 * i + 2).toNat]⟩, ?_⟩
  simp only [readVec3d, vecGetI]
  rw [if_neg (by omega), if_neg (by omega), if_neg (by omega),
    vecGet_eq_ok _ _ _ (List.getElem?_eq_getElem hx),
    vecGet_eq_ok _ _ _ (List.getElem?_eq_getElem hy),
    vecGet_eq_ok _ _ _ (List.getElem?_eq_getElem hz)]

/-- The first loop of `readMesh`, on a stream whose decoded indices are control points: it
succeeds and adds to the count of every control point the number of its corners. -/
theorem expandLoop_counts {D F : Type} (toFloat : D → F) (originalPositionsRaw : List D) :
    ∀ (stream : List Int) (positions : List (vec3 F)) (counts : List offset_count)
      (numFaces : Nat),
      (∀ x, x ∈ stream → (decodeIndex x).toNat < originalPositionsRaw.length / 3) →
      (∀ x, x ∈ stream → (decodeIndex x).toNat < counts.length) →
      ∃ positions1 counts1 numFaces1,
        expandLoop toFloat originalPositionsRaw stream positions counts numFaces
          = Except.ok (positions1, counts1, numFaces1) ∧
        counts1.length = counts.length ∧
        ∀ (v : Nat) (oc : offset_count), counts[v]? = some oc →
          counts1[v]? = some ⟨oc.offset, oc.count + (cornersFrom v stream 0).length⟩ := by
  intro stream
  induction stream with
  | nil =>
    intro positions counts numFaces _ _
    exact ⟨positions, counts, numFaces, rfl, rfl, by intro v oc h; simpa [cornersFrom] using h⟩
  | cons x rest ih =>
    intro positions counts numFaces hraw hcnt
    have hnn := decodeIndex_nonneg x
    obtain ⟨p, hp⟩ := readVec3d_eq_ok originalPositionsRaw (decodeIndex x) hnn
      (hraw x (List.mem_cons_self _ _))
    have hd : (decodeIndex x).toNat < counts.length := hcnt x (List.mem_cons_self _ _)
    obtain ⟨oc0, hoc0⟩ : ∃ oc0, counts[(decodeIndex x).toNat]? = some oc0 :=
      ⟨_, List.getElem?_eq_getElem hd⟩
    obtain ⟨positions1, counts1, numFaces1, h1, h2, h3⟩ := ih
      (positions ++ [⟨toFloat p.x, toFloat p.y, toFloat p.z⟩])
      (counts.set (decodeIndex x).toNat ⟨oc0.offset, oc0.count + 1⟩)
      (if x < 0 then numFaces + 1 else numFaces)
      (fun y hy => hraw y (List.mem_cons_of_mem _ hy))
      (fun y hy => by
        rw [List.length_set]
        exact hcnt y (List.mem_cons_of_mem _ hy))
    refine ⟨positions1, counts1, numFaces1, ?_, ?_, ?_⟩
    · simp only [expandLoop]
      rw [hp]
      simp only [vecGetI]
      rw [if_neg (by omega), vecGet_eq_ok _ _ _ hoc0]
      exact h1
    · rw [h2, List.length_set]
    · intro v oc hv
      simp only [cornersFrom]
      by_cases hvd : decodeIndex x = (v : Int)
      · have hvd1 : (decodeIndex x).toNat = v := by omega
        rw [if_pos hvd]
        rw [hvd1] at hoc0 h3 hd
        rw [hoc0] at hv
        simp only [Option.some.injEq] at hv
        subst hv
        have := h3 v ⟨oc0.offset, oc0.count + 1⟩ (by
          rw [List.getElem?_set_self hd])
        rw [this, List.length_cons, cornersFrom_length v rest (0 + 1) 0]
        simp only [Option.some.injEq, offset_count.mk.injEq, true_and]
        omega
      · have hvd1 : (decodeIndex x).toNat ≠ v := by omega
        rw [if_neg hvd]
        have := h3 v oc (by
          rw [List.getElem?_set_ne hvd1]
          exact hv)
        rw [this, cornersFrom_length v rest (0 + 1) 0]

/-- The second loop of `readMesh` keeps the number of entries. -/
theorem offsetLoop_length : ∀ (counted : List offset_count) (offset : Nat),
    (offsetLoop counted offset).length = counted.length := by
  intro counted
  induction counted with
  | nil => intro offset; rfl
  | cons oc rest ih => intro offset; simp [offsetLoop, ih]

/-- The second loop of `readMesh`: the offset of entry `v` is the start offset plus the counts
of the entries before `v`, and its count is 0. -/
theorem offsetLoop_getElem : ∀ (counted : List offset_count) (offset v : Nat),
    v < counted.length →
    (offsetLoop counted offset)[v]?
      = some ⟨offset + ((counted.take v).map fun oc => oc.count).sum, 0⟩ := by
  intro counted
  induction counted with
  | nil => intro offset v hv; simp at hv
  | cons oc rest ih =>
    intro offset v hv
    cases v with
    | zero => simp [offsetLoop]
    | succ v =>
      simp only [offsetLoop, List.getElem?_cons_succ, List.take_succ_cons, List.map_cons,
        List.sum_cons]
      rw [ih (offset + oc.count) v (by simpa using hv)]
      simp only [Option.some.injEq, offset_count.mk.injEq, and_true]
      omega

/-- The number of corners of control point `v` in a stream with one more entry in front. -/
theorem cornersFrom_length_cons (v : Nat) (x : Int) (rest : List Int) :
    (cornersFrom v (x :: rest) 0).length
      = (cornersFrom v rest 0).length + (if (decodeIndex x).toNat = v then 1 else 0) := by
  have hnn := decodeIndex_nonneg x
  simp only [cornersFrom]
  by_cases h : decodeIndex x = (v : Int)
  · rw [if_pos h, if_pos (by omega), List.length_cons, cornersFrom_length v rest (0 + 1) 0]
  · rw [if_neg h, if_neg (by omega), cornersFrom_length v rest (0 + 1) 0]
    rfl

/-- The third loop of `readMesh`, from a state in which control point `v` has the offset `off v`
and the count `c v` and in which the groups have room for the corners still to come and do not
overlap: it succeeds, every count grows by the number of corners of its control point, every
corner position is written behind the earlier corners of its control point, and the slots
outside the groups are left as they were. -/
theorem slotLoop_spec (n : Nat) (off : Nat → Nat) :
    ∀ (rest : List Int) (i : Nat) (c : Nat → Nat) (vertexOffsetCounts : List offset_count)
      (originalToNewVertex : List Nat),
      vertexOffsetCounts.length = n →
      (∀ v, v < n → vertexOffsetCounts[v]? = some ⟨off v, c v⟩) →
      (∀ x, x ∈ rest → (decodeIndex x).toNat < n) →
      (∀ v, v < n → off v + c v + (cornersFrom v rest 0).length ≤ originalToNewVertex.length) →
      (∀ v w, v < w → w < n → off v + c v + (cornersFrom v rest 0).length ≤ off w) →
      originalToNewVertex.length ≤ 4294967296 →
      ∃ voc1 o2n1, slotLoop rest i vertexOffsetCounts originalToNewVertex
          = Except.ok (voc1, o2n1) ∧
        voc1.length = n ∧ o2n1.length = originalToNewVertex.length ∧
        (∀ v, v < n → voc1[v]? = some ⟨off v, c v + (cornersFrom v rest 0).length⟩) ∧
        (∀ v k p, v < n → (cornersFrom v rest i)[k]? = some p →
          o2n1[off v + c v + k]? = some p) ∧
        (∀ q, (∀ v, v < n →
            ¬ (off v + c v ≤ q ∧ q < off v + c v + (cornersFrom v rest 0).length)) →
          o2n1[q]? = originalToNewVertex[q]?) := by
  intro rest
  induction rest with
  | nil =>
    intro i c voc o2n hlen hvoc _ _ _ _
    refine ⟨voc, o2n, rfl, hlen, rfl, ?_, ?_, ?_⟩
    · intro v hv
      simpa [cornersFrom] using hvoc v hv
    · intro v k p _ hk
      simp [cornersFrom] at hk
    · intro q _; rfl
  | cons x rest ih =>
    intro i c voc o2n hlen hvoc hdec hroom hdisj h32
    have hnn := decodeIndex_nonneg x
    have hd : (decodeIndex x).toNat < n := hdec x (List.mem_cons_self _ _)
    generalize hdd : (decodeIndex x).toNat = d at hd
    have hxd : decodeIndex x = (d : Int) := by omega
    have hLd : (cornersFrom d (x :: rest) 0).length = (cornersFrom d rest 0).length + 1 := by
      rw [cornersFrom_length_cons, hdd, if_pos rfl]
    have hLne : ∀ v, v ≠ d →
        (cornersFrom v (x :: rest) 0).length = (cornersFrom v rest 0).length := by
      intro v hv
      rw [cornersFrom_length_cons, hdd, if_neg (fun h => hv h.symm)]
      rfl
    have hq0 : off d + c d < o2n.length := by
      have := hroom d hd
      omega
    obtain ⟨voc1, o2n1, h1, h2, h3, h4, h5, h6⟩ :=
      ih (i + 1) (fun v => if v = d then c v + 1 else c v)
        (voc.set d ⟨off d, c d + 1⟩) ((o2n.set (off d + c d) i))
        (by rw [List.length_set]; exact hlen)
        (by
          intro v hv
          by_cases hvd : v = d
          · subst hvd
            rw [List.getElem?_set_self (by omega)]
            simp
          · rw [List.getElem?_set_ne (fun h => hvd h.symm), hvoc v hv]
            simp [hvd])
        (fun y hy => hdec y (List.mem_cons_of_mem _ hy))
        (by
          intro v hv
          rw [List.length_set]
          have := hroom v hv
          by_cases hvd : v = d
          · subst hvd
            simp only [if_true]
            omega
          · rw [hLne v hvd] at this
            simp only [hvd, if_false]
            exact this)
        (by
          intro v w hvw hw
          have := hdisj v w hvw hw
          by_cases hvd : v = d
          · subst hvd
            simp only [if_true]
            omega
          · rw [hLne v hvd] at this
            simp only [hvd, if_false]
            exact this)
        (by rw [List.length_set]; exact h32)
    refine ⟨voc1, o2n1, ?_, h2, ?_, ?_, ?_, ?_⟩
    · simp only [slotLoop, vecGetI]
      rw [if_neg (by omega), hdd, vecGet_eq_ok _ _ _ (hvoc d hd)]
      simp only []
      rw [Nat.mod_eq_of_lt (by omega), vecSet_eq_ok _ _ _ hq0]
      exact h1
    · rw [h3, List.length_set]
    · intro v hv
      rw [h4 v hv]
      by_cases hvd : v = d
      · subst hvd
        simp only [if_true, Option.some.injEq, offset_count.mk.injEq, true_and]
        omega
      · rw [hLne v hvd]
        simp [hvd]
    · intro v k p hv hk
      simp only [cornersFrom] at hk
      by_cases hvd : v = d
      · subst hvd
        rw [if_pos hxd] at hk
        cases k with
        | zero =>
          simp only [List.getElem?_cons_zero, Option.some.injEq] at hk
          subst hk
          rw [Nat.add_zero, h6 (off v + c v) (by
            intro w hw
            by_cases hwv : w = v
            · subst hwv
              simp only [if_true]
              omega
            · simp only [hwv, if_false]
              rcases Nat.lt_or_gt_of_ne hwv with hlt | hgt
              · have := hdisj w v hlt hv
                rw [hLne w hwv] at this
                omega
              · have := hdisj v w hgt hw
                omega)]
          rw [List.getElem?_set_self hq0]
        | succ k =>
          simp only [List.getElem?_cons_succ] at hk
          have := h5 v k p hv hk
          simp only [if_true] at this
          rw [show off v + c v + (k + 1) = off v + (c v + 1) + k from by omega]
          exact this
      · have hne : decodeIndex x ≠ (v : Int) := by omega
        rw [if_neg hne] at hk
        have := h5 v k p hv hk
        simp only [hvd, if_false] at this
        exact this
    · intro q hq
      have hqd := hq d hd
      rw [h6 q (by
        intro w hw
        have := hq w hw
        by_cases hwd : w = d
        · subst hwd
          simp only [if_true]
          omega
        · rw [hLne w hwd] at this
          simp only [hwd, if_false]
          exact this)]
      rw [List.getElem?_set_ne (by omega)]

/-- The offsets of the groups in a stream with one more entry in front. -/
theorem cornerOffset_cons (x : Int) (rest : List Int) : ∀ (m : Nat),
    cornerOffset (x :: rest) m
      = cornerOffset rest m + (if (decodeIndex x).toNat < m then 1 else 0) := by
  intro m
  induction m with
  | zero => simp [cornerOffset]
  | succ m ih =>
    simp only [cornerOffset]
    rw [ih, ← cornersFrom_eq_cornersOf, ← cornersFrom_eq_cornersOf, cornersFrom_length_cons]
    by_cases h1 : (decodeIndex x).toNat < m
    · rw [if_pos h1, if_neg (by omega), if_pos (by omega)]
      omega
    · by_cases h2 : (decodeIndex x).toNat = m
      · rw [if_neg h1, if_pos h2, if_pos (by omega)]
        omega
      · rw [if_neg h1, if_neg h2, if_neg (by omega)]
        omega

/-- The groups of all control points together hold one slot per corner. -/
theorem cornerOffset_total (n : Nat) : ∀ (stream : List Int),
    (∀ x, x ∈ stream → (decodeIndex x).toNat < n) → cornerOffset stream n = stream.length := by
  intro stream
  induction stream with
  | nil =>
    intro _
    induction n with
    | zero => rfl
    | succ n ih => simp [cornerOffset, ih, cornersOf]
  | cons x rest ih =>
    intro h
    rw [cornerOffset_cons, if_pos (h x (List.mem_cons_self _ _)),
      ih (fun y hy => h y (List.mem_cons_of_mem _ hy)), List.length_cons]

/-- The offsets of the groups grow with the control point. -/
theorem cornerOffset_mono (stream : List Int) : ∀ (w v : Nat), v ≤ w →
    cornerOffset stream v ≤ cornerOffset stream w := by
  intro w
  induction w with
  | zero =>
    intro v hv
    have : v = 0 := by omega
    subst this
    exact Nat.le_refl _
  | succ w ih =>
    intro v hv
    by_cases h : v = w + 1
    · subst h; exact Nat.le_refl _
    · have := ih v (by omega)
      simp only [cornerOffset]
      omega

/-- The counts of the entries before `v`, in a table whose counts are the numbers of corners,
add up to the offset of the group of `v`. -/
theorem counted_prefix_sum (stream : List Int) (counted : List offset_count)
    (h : ∀ v, v < counted.length →
      counted[v]? = some ⟨0, 0 + (cornersFrom v stream 0).length⟩) :
    ∀ v, v ≤ counted.length →
      ((counted.take v).map fun oc => oc.count).sum = cornerOffset stream v := by
  intro v
  induction v with
  | zero => intro _; rfl
  | succ v ih =>
    intro hv
    rw [List.take_succ, h v (by omega)]
    simp only [Option.toList_some, List.map_append, List.map_cons, List.map_nil,
      List.sum_append, List.sum_cons, List.sum_nil, cornerOffset]
    rw [ih (by omega), cornersFrom_eq_cornersOf]
    omega

/-- Step A of `readMesh` (lines 842-874) on a stream of fewer than `2^32` corners whose decoded
indices are control points: the three loops succeed, the table has one entry per control point
with the offset and the number of its corners, the group of every control point lists its
corner positions in increasing order, and `originalToNewVertex` is a permutation of the corner
positions. -/
theorem stepA_spec {D F : Type} (toFloat : D → F) (originalPositionsRaw : List D)
    (originalIndices : List Int)
    (hdec : ∀ x, x ∈ originalIndices →
      (decodeIndex x).toNat < originalPositionsRaw.length / 3)
    (hlen : originalIndices.length < 4294967296) :
    ∃ (positions : List (vec3 F)) (counted : List offset_count) (numFaces : Nat)
      (vertexOffsetCounts : List offset_count) (originalToNewVertex : List Nat),
      expandLoop toFloat originalPositionsRaw originalIndices []
          (List.replicate (originalPositionsRaw.length / 3) ⟨0, 0⟩) 0
        = Except.ok (positions, counted, numFaces) ∧
      slotLoop originalIndices 0 (offsetLoop counted 0)
          (List.replicate originalIndices.length 0)
        = Except.ok (vertexOffsetCounts, originalToNewVertex) ∧
      positions.length = originalIndices.length ∧
      vertexOffsetCounts.length = originalPositionsRaw.length / 3 ∧
      originalToNewVertex.length = originalIndices.length ∧
      (∀ v, v < originalPositionsRaw.length / 3 →
        vertexOffsetCounts[v]?
          = some ⟨cornerOffset originalIndices v, (cornersOf originalIndices v).length⟩) ∧
      (∀ v, v < originalPositionsRaw.length / 3 →
        (originalToNewVertex.drop (cornerOffset originalIndices v)).take
            (cornersOf originalIndices v).length
          = cornersOf originalIndices v) ∧
      originalToNewVertex.Perm (List.range originalIndices.length) := by
  obtain ⟨positions, counted, numFaces, h1, h1len, h1get⟩ :=
    expandLoop_counts toFloat originalPositionsRaw originalIndices []
      (List.replicate (originalPositionsRaw.length / 3) ⟨0, 0⟩) 0 hdec
      (by simpa using hdec)
  have hplen := (expandLoop_numFaces toFloat originalPositionsRaw _ _ _ _ _ _ _ h1).2
  rw [List.length_replicate] at h1len
  have hcounted : ∀ v, v < counted.length →
      counted[v]? = some ⟨0, 0 + (cornersFrom v originalIndices 0).length⟩ := by
    intro v hv
    exact h1get v ⟨0, 0⟩ (by
      rw [List.getElem?_replicate, if_pos (by omega)])
  have hsum := counted_prefix_sum originalIndices counted hcounted
  have htotal := cornerOffset_total (originalPositionsRaw.length / 3) originalIndices hdec
  have hend : ∀ v, v < originalPositionsRaw.length / 3 →
      cornerOffset originalIndices v + (cornersFrom v originalIndices 0).length
        = cornerOffset originalIndices (v + 1) := by
    intro v _
    rw [cornersFrom_eq_cornersOf]
    rfl
  obtain ⟨voc, o2n, h2, h2len, h2olen, h2voc, h2in, _⟩ :=
    slotLoop_spec (originalPositionsRaw.length / 3) (cornerOffset originalIndices)
      originalIndices 0 (fun _ => 0) (offsetLoop counted 0)
      (List.replicate originalIndices.length 0)
      (by rw [offsetLoop_length, h1len])
      (by
        intro v hv
        rw [offsetLoop_getElem counted 0 v (by omega), hsum v (by omega), Nat.zero_add])
      hdec
      (by
        intro v hv
        rw [List.length_replicate, Nat.add_zero, hend v hv, ← htotal]
        exact cornerOffset_mono originalIndices _ _ (by omega))
      (by
        intro v w hvw hw
        rw [Nat.add_zero, hend v (by omega)]
        exact cornerOffset_mono originalIndices _ _ (by omega))
      (by rw [List.length_replicate]; omega)
  rw [List.length_replicate] at h2olen
  refine ⟨positions, counted, numFaces, voc, o2n, h1, h2, ?_, h2len, h2olen, ?_, ?_, ?_⟩
  · simpa using hplen
  · intro v hv
    rw [h2voc v hv, cornersFrom_eq_cornersOf, Nat.zero_add]
  · intro v hv
    apply List.ext_getElem?
    intro k
    by_cases hk : k < (cornersOf originalIndices v).length
    · rw [List.getElem?_take_of_lt hk, List.getElem?_drop]
      have hp : (cornersFrom v originalIndices 0)[k]?
          = some ((cornersOf originalIndices v)[k]) := by
        rw [cornersFrom_eq_cornersOf]
        exact List.getElem?_eq_getElem hk
      have := h2in v k _ hv hp
      rw [Nat.add_zero] at this
      rw [this, List.getElem?_eq_getElem hk]
    · rw [List.getElem?_eq_none (by simp; omega), List.getElem?_eq_none (by omega)]
  · apply List.Perm.symm
    apply List.Subperm.perm_of_length_le
    · apply List.subperm_of_subset (List.nodup_range _)
      intro i hi
      rw [List.mem_range] at hi
      have hx : originalIndices[i]? = some originalIndices[i] := List.getElem?_eq_getElem hi
      have hnn := decodeIndex_nonneg originalIndices[i]
      have hv := hdec _ (List.getElem_mem hi)
      have hmem : i ∈ cornersOf originalIndices (decodeIndex originalIndices[i]).toNat := by
        simp only [cornersOf, List.mem_filter, List.mem_range, decide_eq_true_eq]
        refine ⟨hi, ?_⟩
        rw [hx]
        simp only [Option.map_some', Option.some.injEq]
        omega
      rw [← cornersFrom_eq_cornersOf] at hmem
      obtain ⟨k, hk⟩ := List.getElem?_of_mem hmem
      have := h2in _ k i hv hk
      exact List.getElem?_mem this
    · rw [h2olen, List.length_range]

/-- C23: for an index stream of fewer than `2^32` corners (the element count of an array of the
file is a `uint32`) whose decoded indices are all smaller than the number of control points,
Step A of `readMesh` succeeds and leaves the tables in this state: the offset of control point 0
is 0 and the offset of control point `v + 1` is the offset plus the count of control point `v`;
the count of control point `v` is the number of corners that reference it; the slots `offset_v`
to `offset_v + count_v - 1` of `originalToNewVertex` list the corner positions `i` with
`decodeIndex(originalIndices[i]) = v` in increasing order; and `originalToNewVertex` is a
permutation of the corner positions. -/
theorem readMesh_stepA_tables {D F : Type} (toFloat : D → F) (originalPositionsRaw : List D)
    (originalIndices : List Int)
    (hdec : ∀ x, x ∈ originalIndices →
      decodeIndex x < ((originalPositionsRaw.length / 3 : Nat) : Int))
    (hlen : originalIndices.length < 4294967296) :
    ∃ (positions : List (vec3 F)) (counted : List offset_count) (numFaces : Nat)
      (vertexOffsetCounts : List offset_count) (originalToNewVertex : List Nat),
      expandLoop toFloat originalPositionsRaw originalIndices []
          (List.replicate (originalPositionsRaw.length / 3) ⟨0, 0⟩) 0
        = Except.ok (positions, counted, numFaces) ∧
      slotLoop originalIndices 0 (offsetLoop counted 0)
          (List.replicate originalIndices.length 0)
        = Except.ok (vertexOffsetCounts, originalToNewVertex) ∧
      vertexOffsetCounts.length = originalPositionsRaw.length / 3 ∧
      originalToNewVertex.length = originalIndices.length ∧
      (∀ (oc : offset_count), vertexOffsetCounts[0]? = some oc → oc.offset = 0) ∧
      (∀ (v : Nat) (oc next : offset_count), vertexOffsetCounts[v]? = some oc →
        vertexOffsetCounts[v + 1]? = some next → next.offset = oc.offset + oc.count) ∧
      (∀ (v : Nat) (oc : offset_count), vertexOffsetCounts[v]? = some oc →
        oc.count = (cornersOf originalIndices v).length ∧
        (originalToNewVertex.drop oc.offset).take oc.count = cornersOf originalIndices v) ∧
      originalToNewVertex.Perm (List.range originalIndices.length) := by
  obtain ⟨positions, counted, numFaces, voc, o2n, h1, h2, _, hvlen, holen, hvoc, hgroup,
      hperm⟩ :=
    stepA_spec toFloat originalPositionsRaw originalIndices
      (fun x hx => by
        have := hdec x hx
        have := decodeIndex_nonneg x
        omega) hlen
  have hin : ∀ (v : Nat) (oc : offset_count), voc[v]? = some oc →
      v < originalPositionsRaw.length / 3 ∧
        oc = ⟨cornerOffset originalIndices v, (cornersOf originalIndices v).length⟩ := by
    intro v oc h
    have hv : v < originalPositionsRaw.length / 3 := by
      by_contra hc
      rw [List.getElem?_eq_none (by omega)] at h
      cases h
    rw [hvoc v hv] at h
    exact ⟨hv, (Option.some.inj h).symm⟩
  refine ⟨positions, counted, numFaces, voc, o2n, h1, h2, hvlen, holen, ?_, ?_, ?_, hperm⟩
  · intro oc h
    rw [(hin 0 oc h).2]
    rfl
  · intro v oc next h hn
    rw [(hin v oc h).2, (hin (v + 1) next hn).2]
    rfl
  · intro v oc h
    obtain ⟨hv, rfl⟩ := hin v oc h
    exact ⟨rfl, hgroup v hv⟩

/-- C23 at a sample input: the mixed stream of 15 corners over the four control points of the
quad. -/
theorem readMesh_stepA_tables_witness :
    ∃ (positions : List (vec3 Int)) (counted : List offset_count) (numFaces : Nat)
      (vertexOffsetCounts : List offset_count) (originalToNewVertex : List Nat),
      expandLoop (fun d : Int => d) quadVertices mixedStream []
          (List.replicate (quadVertices.length / 3) ⟨0, 0⟩) 0
        = Except.ok (positions, counted, numFaces) ∧
      slotLoop mixedStream 0 (offsetLoop counted 0)
          (List.replicate mixedStream.length 0)
        = Except.ok (vertexOffsetCounts, originalToNewVertex) ∧
      vertexOffsetCounts.length = quadVertices.length / 3 ∧
      originalToNewVertex.length = mixedStream.length ∧
      (∀ (oc : offset_count), vertexOffsetCounts[0]? = some oc → oc.offset = 0) ∧
      (∀ (v : Nat) (oc next : offset_count), vertexOffsetCounts[v]? = some oc →
        vertexOffsetCounts[v + 1]? = some next → next.offset = oc.offset + oc.count) ∧
      (∀ (v : Nat) (oc : offset_count), vertexOffsetCounts[v]? = some oc →
        oc.count = (cornersOf mixedStream v).length ∧
        (originalToNewVertex.drop oc.offset).take oc.count = cornersOf mixedStream v) ∧
      originalToNewVertex.Perm (List.range mixedStream.length) :=
  readMesh_stepA_tables (fun d : Int => d) quadVertices mixedStream (by decide) (by decide)

/-- The tables of Step A for the stream `mixedStream` over the quad. -/
theorem mixedStream_tables :
    slotLoop mixedStream 0 (offsetLoop [⟨0, 4⟩, ⟨0, 6⟩, ⟨0, 3⟩, ⟨0, 2⟩] 0)
        (List.replicate mixedStream.length 0)
      = Except.ok ([⟨0, 4⟩, ⟨4, 6⟩, ⟨10, 3⟩, ⟨13, 2⟩],
          [0, 4, 9, 10, 1, 5, 8, 11, 12, 13, 2, 7, 14, 3, 6]) := by
  rfl

/-! ## Attributes of the control points -/

/-- The outer loop of the by-vertex, direct branch, for groups that share no corner index: every
corner index of a group receives the value of its control point, all other entries are left as
they were. -/
theorem byVertexDirectLoop_spec {data_t : Type} (vertexOffsetCounts : List offset_count)
    (originalToNewVertex : List Nat) (hlen : originalToNewVertex.length ≤ 4294967296) :
    ∀ (rest : List data_t) (i : Nat) (result : List data_t),
      (∀ k, k < rest.length → ∃ oc, vertexOffsetCounts[i + k]? = some oc) →
      (∀ k oc j, k < rest.length → vertexOffsetCounts[i + k]? = some oc → j < oc.count →
        ∃ c, originalToNewVertex[oc.offset + j]? = some c ∧ c < result.length) →
      (∀ k k' oc oc' j j', k < rest.length → k' < rest.length → k ≠ k' →
        vertexOffsetCounts[i + k]? = some oc → vertexOffsetCounts[i + k']? = some oc' →
        j < oc.count → j' < oc'.count →
        originalToNewVertex[oc.offset + j]? ≠ originalToNewVertex[oc'.offset + j']?) →
      ∃ r, byVertexDirectLoop vertexOffsetCounts originalToNewVertex rest i result
          = Except.ok r ∧
        r.length = result.length ∧
        (∀ k x oc j c, rest[k]? = some x → vertexOffsetCounts[i + k]? = some oc → j < oc.count →
          originalToNewVertex[oc.offset + j]? = some c → r[c]? = some x) ∧
        (∀ c, (∀ k oc j, k < rest.length → vertexOffsetCounts[i + k]? = some oc → j < oc.count →
          originalToNewVertex[oc.offset + j]? ≠ some c) → r[c]? = result[c]?) := by
  intro rest
  induction rest with
  | nil =>
    intro i result _ _ _
    refine ⟨result, rfl, rfl, ?_, ?_⟩
    · intro k x oc j c hk
      simp at hk
    · intro c _; rfl
  | cons x rest ih =>
    intro i result hvoc hslot hdisj
    obtain ⟨oc0, hoc0⟩ := hvoc 0 (by simp)
    have hoc0' : vertexOffsetCounts[i]? = some oc0 := by simpa using hoc0
    have hslot0 : ∀ t, t < oc0.count →
        ∃ c, originalToNewVertex[oc0.offset + (0 + t)]? = some c ∧ c < result.length := by
      intro t ht
      obtain ⟨c, hc, hclt⟩ := hslot 0 oc0 t (by simp) hoc0 ht
      exact ⟨c, by simpa using hc, hclt⟩
    obtain ⟨r1, hr1, hr1len, hr1in, hr1out⟩ :=
      scatterLoop_spec x originalToNewVertex oc0.offset hlen oc0.count 0 result hslot0
    have e1 : ∀ k, i + 1 + k = i + (k + 1) := by intro k; omega
    obtain ⟨r, hr, hrlen, hrin, hrout⟩ := ih (i + 1) r1
      (by
        intro k hk
        rw [e1]
        exact hvoc (k + 1) (by simpa using hk))
      (by
        intro k oc j hk hoc hj
        rw [e1] at hoc
        rw [hr1len]
        exact hslot (k + 1) oc j (by simpa using hk) hoc hj)
      (by
        intro k k' oc oc' j j' hk hk' hne hoc hoc' hj hj'
        rw [e1] at hoc hoc'
        exact hdisj (k + 1) (k' + 1) oc oc' j j' (by simpa using hk) (by simpa using hk')
          (by omega) hoc hoc' hj hj')
    refine ⟨r, ?_, ?_, ?_, ?_⟩
    · simp only [byVertexDirectLoop]
      rw [vecGet_eq_ok _ _ _ hoc0']
      simp only []
      rw [hr1]
      exact hr
    · rw [hrlen, hr1len]
    · intro k y oc j c hy hoc hj hc
      cases k with
      | zero =>
        simp only [List.getElem?_cons_zero, Option.some.injEq] at hy
        subst hy
        rw [Nat.add_zero, hoc0'] at hoc
        cases hoc
        have hun : r[c]? = r1[c]? := by
          apply hrout
          intro k' oc' j' hk' hoc' hj' hc'
          rw [e1] at hoc'
          apply hdisj 0 (k' + 1) oc0 oc' j j' (by simp) (by simpa using hk') (by omega) hoc0
            hoc' hj hj'
          rw [hc, hc']
        rw [hun]
        exact hr1in j c hj (by simpa using hc)
      | succ k =>
        simp only [List.getElem?_cons_succ] at hy
        rw [← e1] at hoc
        exact hrin k y oc j c hy hoc hj hc
    · intro c hc
      have h1 : r[c]? = r1[c]? := by
        apply hrout
        intro k oc j hk hoc hj
        rw [e1] at hoc
        exact hc (k + 1) oc j (by simpa using hk) hoc hj
      rw [h1]
      apply hr1out
      intro t ht
      have := hc 0 oc0 t (by simp) hoc0 ht
      simpa using this

/-- The positions that `cornersOf` lists for a control point. -/
theorem mem_cornersOf (originalIndices : List Int) (v c : Nat) :
    c ∈ cornersOf originalIndices v ↔
      c < originalIndices.length ∧ (originalIndices[c]?).map decodeIndex = some (v : Int) := by
  simp [cornersOf, List.mem_filter]

/-- The by-vertex, direct mapping on tables that hold for every control point the offset and the
number of its corners and list its corner positions: every corner receives the value of its
control point. -/
theorem mapDataToVertices_stepA {data_t : Type} [Zero data_t] (n : Nat)
    (originalIndices : List Int) (data : List data_t) (dataIndices : List Int)
    (vertexOffsetCounts : List offset_count) (originalToNewVertex : List Nat)
    (hdec : ∀ x, x ∈ originalIndices → (decodeIndex x).toNat < n)
    (hlen : originalIndices.length < 4294967296)
    (hvlen : vertexOffsetCounts.length = n)
    (holen : originalToNewVertex.length = originalIndices.length)
    (hvoc : ∀ v, v < n → vertexOffsetCounts[v]?
      = some ⟨cornerOffset originalIndices v, (cornersOf originalIndices v).length⟩)
    (hgroup : ∀ v, v < n →
      (originalToNewVertex.drop (cornerOffset originalIndices v)).take
          (cornersOf originalIndices v).length
        = cornersOf originalIndices v)
    (hdata : data.length = n) :
    ∃ result, mapDataToVertices data dataIndices mapping_info.by_vertex reference_info.direct
        vertexOffsetCounts originalToNewVertex originalIndices.length = Except.ok result ∧
      result.length = originalIndices.length ∧
      ∀ (c : Nat) (x : Int), originalIndices[c]? = some x →
        result[c]? = data[(decodeIndex x).toNat]? := by
  have hin : ∀ (v : Nat) (oc : offset_count), vertexOffsetCounts[v]? = some oc →
      v < n ∧ oc = ⟨cornerOffset originalIndices v, (cornersOf originalIndices v).length⟩ := by
    intro v oc h
    have hv : v < n := by
      by_contra hc
      rw [List.getElem?_eq_none (by omega)] at h
      cases h
    rw [hvoc v hv] at h
    exact ⟨hv, (Option.some.inj h).symm⟩
  have hslotv : ∀ (v j : Nat), v < n → j < (cornersOf originalIndices v).length →
      originalToNewVertex[cornerOffset originalIndices v + j]?
        = (cornersOf originalIndices v)[j]? := by
    intro v j hv hj
    have := congrArg (fun l => l[j]?) (hgroup v hv)
    simp only [] at this
    rw [List.getElem?_take_of_lt hj, List.getElem?_drop] at this
    exact this
  obtain ⟨r, hr, hrlen, hrin, _⟩ :=
    byVertexDirectLoop_spec vertexOffsetCounts originalToNewVertex (by omega) data 0
      (List.replicate originalIndices.length 0)
      (by
        intro k hk
        rw [Nat.zero_add]
        exact ⟨_, hvoc k (by omega)⟩)
      (by
        intro k oc j hk hoc hj
        rw [Nat.zero_add] at hoc
        obtain ⟨hv, rfl⟩ := hin k oc hoc
        simp only [] at hj ⊢
        rw [hslotv k j hv hj]
        refine ⟨_, List.getElem?_eq_getElem hj, ?_⟩
        rw [List.length_replicate]
        exact ((mem_cornersOf originalIndices k _).1 (List.getElem_mem hj)).1)
      (by
        intro k k' oc oc' j j' hk hk' hne hoc hoc' hj hj' heq
        rw [Nat.zero_add] at hoc hoc'
        obtain ⟨hv, rfl⟩ := hin k oc hoc
        obtain ⟨hv', rfl⟩ := hin k' oc' hoc'
        simp only [] at hj hj' heq
        rw [hslotv k j hv hj, hslotv k' j' hv' hj', List.getElem?_eq_getElem hj,
          List.getElem?_eq_getElem hj', Option.some.injEq] at heq
        have h1 := ((mem_cornersOf originalIndices k _).1 (List.getElem_mem hj)).2
        have h2 := ((mem_cornersOf originalIndices k' _).1 (List.getElem_mem hj')).2
        rw [heq, h2] at h1
        simp only [Option.some.injEq] at h1
        omega)
  refine ⟨r, ?_, ?_, ?_⟩
  · simp only [mapDataToVertices, ASSERT, hdata, hvlen, beq_self_eq_true, if_true]
    exact hr
  · simpa using hrlen
  · intro c x hx
    have hc : c < originalIndices.length := by
      by_contra hcon
      rw [List.getElem?_eq_none (by omega)] at hx
      cases hx
    have hxm : x ∈ originalIndices := List.getElem?_mem hx
    have hv := hdec x hxm
    have hnn := decodeIndex_nonneg x
    have hmem : c ∈ cornersOf originalIndices (decodeIndex x).toNat := by
      rw [mem_cornersOf]
      refine ⟨hc, ?_⟩
      rw [hx]
      simp only [Option.map_some', Option.some.injEq]
      omega
    obtain ⟨j, hj⟩ := List.getElem?_of_mem hmem
    have hjlt : j < (cornersOf originalIndices (decodeIndex x).toNat).length := by
      by_contra hcon
      rw [List.getElem?_eq_none (by omega)] at hj
      cases hj
    have hd : (decodeIndex x).toNat < data.length := by omega
    rw [List.getElem?_eq_getElem hd]
    exact hrin (decodeIndex x).toNat _ _ j c (List.getElem?_eq_getElem hd)
      (by rw [Nat.zero_add]; exact hvoc _ hv) hjlt
      (by
        simp only []
        rw [hslotv _ j hv hjlt]
        exact hj)

/-- C24: on the tables that Step A of `readMesh` builds from an index stream of fewer than `2^32`
corners whose decoded indices are all below the number of control points, `mapDataToVertices`
with by-vertex mapping and direct reference, applied to a data array with one value per control
point, returns for every corner `c` the value `data[decodeIndex(originalIndices[c])]`; for a data
array of another size it fails the assertion. -/
theorem mapDataToVertices_by_vertex_direct {D F data_t : Type} [Zero data_t]
    (toFloat : D → F) (originalPositionsRaw : List D) (originalIndices : List Int)
    (data : List data_t) (dataIndices : List Int)
    (hdec : ∀ x, x ∈ originalIndices →
      decodeIndex x < ((originalPositionsRaw.length / 3 : Nat) : Int))
    (hlen : originalIndices.length < 4294967296) :
    (data.length = originalPositionsRaw.length / 3 →
      ∃ (positions : List (vec3 F)) (counted : List offset_count) (numFaces : Nat)
        (vertexOffsetCounts : List offset_count) (originalToNewVertex : List Nat)
        (result : List data_t),
        expandLoop toFloat originalPositionsRaw originalIndices []
            (List.replicate (originalPositionsRaw.length / 3) ⟨0, 0⟩) 0
          = Except.ok (positions, counted, numFaces) ∧
        slotLoop originalIndices 0 (offsetLoop counted 0)
            (List.replicate originalIndices.length 0)
          = Except.ok (vertexOffsetCounts, originalToNewVertex) ∧
        mapDataToVertices data dataIndices mapping_info.by_vertex
            reference_info.direct vertexOffsetCounts originalToNewVertex positions.length
          = Except.ok result ∧
        result.length = originalIndices.length ∧
        ∀ (c : Nat) (x : Int), originalIndices[c]? = some x →
          result[c]? = data[(decodeIndex x).toNat]?) ∧
    (data.length ≠ originalPositionsRaw.length / 3 →
      ∃ (positions : List (vec3 F)) (counted : List offset_count) (numFaces : Nat)
        (vertexOffsetCounts : List offset_count) (originalToNewVertex : List Nat),
        expandLoop toFloat originalPositionsRaw originalIndices []
            (List.replicate (originalPositionsRaw.length / 3) ⟨0, 0⟩) 0
          = Except.ok (positions, counted, numFaces) ∧
        slotLoop originalIndices 0 (offsetLoop counted 0)
            (List.replicate originalIndices.length 0)
          = Except.ok (vertexOffsetCounts, originalToNewVertex) ∧
        mapDataToVertices data dataIndices mapping_info.by_vertex reference_info.direct
            vertexOffsetCounts originalToNewVertex positions.length
          = Except.error fbx_error.assertion_failed) := by
  have hdec1 : ∀ x, x ∈ originalIndices →
      (decodeIndex x).toNat < originalPositionsRaw.length / 3 := by
    intro x hx
    have := hdec x hx
    have := decodeIndex_nonneg x
    omega
  obtain ⟨positions, counted, numFaces, voc, o2n, h1, h2, hplen, hvlen, holen, hvoc, hgroup,
      _⟩ := stepA_spec toFloat originalPositionsRaw originalIndices hdec1 hlen
  refine ⟨?_, ?_⟩
  · intro hdata
    obtain ⟨result, hr, hrlen, hrval⟩ :=
      mapDataToVertices_stepA (originalPositionsRaw.length / 3) originalIndices data
        dataIndices voc o2n hdec1 hlen hvlen holen hvoc hgroup hdata
    refine ⟨positions, counted, numFaces, voc, o2n, result, h1, h2, ?_, hrlen, hrval⟩
    rw [hplen]
    exact hr
  · intro hne
    refine ⟨positions, counted, numFaces, voc, o2n, h1, h2, ?_⟩
    have : (data.length == voc.length) = false := by
      rw [hvlen]
      simpa using hne
    simp only [mapDataToVertices, ASSERT, this]
    rfl

/-- C24 at sample inputs: the mixed stream over the quad with four values, and with three
values. -/
theorem mapDataToVertices_by_vertex_direct_witness :
    (∃ (positions : List (vec3 Int)) (counted : List offset_count) (numFaces : Nat)
        (vertexOffsetCounts : List offset_count) (originalToNewVertex : List Nat)
        (result : List Int),
        expandLoop (fun d : Int => d) quadVertices mixedStream []
            (List.replicate (quadVertices.length / 3) ⟨0, 0⟩) 0
          = Except.ok (positions, counted, numFaces) ∧
        slotLoop mixedStream 0 (offsetLoop counted 0)
            (List.replicate mixedStream.length 0)
          = Except.ok (vertexOffsetCounts, originalToNewVertex) ∧
        mapDataToVertices ([10, 20, 30, 40] : List Int) [] mapping_info.by_vertex
            reference_info.direct vertexOffsetCounts originalToNewVertex positions.length
          = Except.ok result ∧
        result.length = mixedStream.length ∧
        ∀ (c : Nat) (x : Int), mixedStream[c]? = some x →
          result[c]? = ([10, 20, 30, 40] : List Int)[(decodeIndex x).toNat]?) ∧
    (∃ (positions : List (vec3 Int)) (counted : List offset_count) (numFaces : Nat)
        (vertexOffsetCounts : List offset_count) (originalToNewVertex : List Nat),
        expandLoop (fun d : Int => d) quadVertices mixedStream []
            (List.replicate (quadVertices.length / 3) ⟨0, 0⟩) 0
          = Except.ok (positions, counted, numFaces) ∧
        slotLoop mixedStream 0 (offsetLoop counted 0)
            (List.replicate mixedStream.length 0)
          = Except.ok (vertexOffsetCounts, originalToNewVertex) ∧
        mapDataToVertices ([10, 20, 30] : List Int) [] mapping_info.by_vertex
            reference_info.direct vertexOffsetCounts originalToNewVertex positions.length
          = Except.error fbx_error.assertion_failed) :=
  ⟨(mapDataToVertices_by_vertex_direct (fun d : Int => d) quadVertices mixedStream
      [10, 20, 30, 40] [] (by decide) (by decide)).1 (by decide),
    (mapDataToVertices_by_vertex_direct (fun d : Int => d) quadVertices mixedStream
      [10, 20, 30] [] (by decide) (by decide)).2 (by decide)⟩

/-- The by-vertex, direct mapping of four values on the tables of `mixedStream`. -/
theorem mixedStream_by_vertex_direct :
    mapDataToVertices ([10, 20, 30, 40] : List Int) [] mapping_info.by_vertex
        reference_info.direct [⟨0, 4⟩, ⟨4, 6⟩, ⟨10, 3⟩, ⟨13, 2⟩]
        [0, 4, 9, 10, 1, 5, 8, 11, 12, 13, 2, 7, 14, 3, 6] 15
      = Except.ok [10, 20, 30, 40, 10, 20, 40, 30, 20, 10, 10, 20, 20, 20, 30] := by
  rfl

/-! ## Id and name of an object -/

/-- A loop over `n` properties that lie in the property array is the loop over the list of these
properties. -/
theorem forProperties_eq_foldExcept {σ : Type} (properties : List fbx_property)
    (body : σ → fbx_property → Except fbx_error σ) :
    ∀ (n fuel prop : Nat) (s : σ), prop + n ≤ properties.length → n < fuel →
      forProperties properties body fuel prop (prop + n) s
        = foldExcept body ((properties.drop prop).take n) s := by
  intro n
  induction n with
  | zero =>
    intro fuel prop s _ hf
    cases fuel with
    | zero => omega
    | succ fuel => simp [forProperties, foldExcept]
  | succ n ih =>
    intro fuel prop s hle hf
    cases fuel with
    | zero => omega
    | succ fuel =>
      have hlt : prop < properties.length := by omega
      have hd : properties.drop prop = properties[prop] :: properties.drop (prop + 1) :=
        List.drop_eq_getElem_cons hlt
      rw [hd, List.take_succ_cons]
      simp only [forProperties, foldExcept]
      rw [if_pos (by simp), vecGet_eq_ok _ _ _ (List.getElem?_eq_getElem hlt)]
      simp only []
      cases hb : body s properties[prop] with
      | error e => rfl
      | ok s1 =>
        simp only []
        have := ih fuel (prop + 1) s1 (by omega) (by omega)
        rw [show prop + 1 + n = prop + (n + 1) from by omega] at this
        exact this

/-- The loop of `readObjectIDAndName` over a list of properties whose `int64` values and strings
lie in the buffer and whose strings are not empty, from the state `(id, name)`: the id becomes
the value of the last `int64`-typed property, the name, if it was empty, the first string. -/
theorem readObjectIDAndName_fold (content : List Nat) : ∀ (props : List fbx_property)
    (id : Int) (name : sized_string),
    (∀ p, p ∈ props → p.type = fbx_property_type.int64 → p.data + 8 ≤ content.length) →
    (∀ p, p ∈ props → p.type = fbx_property_type.string →
      p.numElements ≠ 0 ∧ p.data + p.numElements ≤ content.length) →
    foldExcept (readObjectIDAndName_body content) props (id, name)
      = Except.ok
          (((props.filter fun p => p.type == fbx_property_type.int64).getLast?.map
              fun p => toInt64 (leNat ((content.drop p.data).take 8))).getD id,
            if name.str.length = 0 then
              ((props.filter fun p => p.type == fbx_property_type.string).head?.map
                fun p => (⟨(content.drop p.data).take p.numElements⟩ : sized_string)).getD name
            else name) := by
  intro props
  induction props with
  | nil =>
    intro id name _ _
    simp [foldExcept]
  | cons p rest ih =>
    intro id name hint hstr
    have hint1 := fun q hq => hint q (List.mem_cons_of_mem _ hq)
    have hstr1 := fun q hq => hstr q (List.mem_cons_of_mem _ hq)
    simp only [foldExcept, readObjectIDAndName_body]
    by_cases h64 : p.type = fbx_property_type.int64
    · have hns : ¬ p.type = fbx_property_type.string := by rw [h64]; decide
      have hb := hint p (List.mem_cons_self _ _) h64
      simp only [h64, beq_self_eq_true, if_true, readInt64, ASSERT,
        readBytes_eq_ok _ _ _ hb]
      have hf : (fbx_property_type.int64 == fbx_property_type.string) = false := by decide
      simp only [hf, Bool.false_and, Bool.false_eq_true, if_false]
      rw [ih _ _ hint1 hstr1]
      simp only [List.filter_cons, h64, beq_self_eq_true, if_true, hf, Bool.false_eq_true,
        if_false]
      congr 2
      cases hl : rest.filter (fun p => p.type == fbx_property_type.int64) with
      | nil => simp
      | cons a l =>
        rw [List.getLast?_cons_cons, List.getLast?_eq_getLast _ (List.cons_ne_nil a l)]
        rfl
    · have hne : (p.type == fbx_property_type.int64) = false := by simpa using h64
      simp only [hne, Bool.false_eq_true, if_false]
      by_cases hs : p.type = fbx_property_type.string
      · obtain ⟨hnz, hb⟩ := hstr p (List.mem_cons_self _ _) hs
        by_cases hn : name.str.length = 0
        · simp only [hs, beq_self_eq_true, hn, Bool.and_self, if_true, readString, ASSERT,
            readBytes_eq_ok _ _ _ hb]
          rw [ih _ _ hint1 hstr1]
          have hlen : ((content.drop p.data).take p.numElements).length ≠ 0 := by
            rw [List.length_take, List.length_drop]
            omega
          have hsi : (fbx_property_type.string == fbx_property_type.int64) = false := by
            decide
          simp only [List.filter_cons, hsi, Bool.false_eq_true, if_false, hs,
            beq_self_eq_true, if_true, List.head?_cons, Option.map_some', Option.getD_some,
            hlen]
        · have hnb : (name.str.length == 0) = false := by simpa using hn
          simp only [hs, beq_self_eq_true, hnb, Bool.and_false, Bool.false_eq_true, if_false]
          rw [ih _ _ hint1 hstr1]
          simp only [List.filter_cons, hne, Bool.false_eq_true, if_false, hn]
      · have hsb : (p.type == fbx_property_type.string) = false := by simpa using hs
        simp only [hsb, Bool.false_and, Bool.false_eq_true, if_false]
        rw [ih _ _ hint1 hstr1]
        simp only [List.filter_cons, hne, Bool.false_eq_true, if_false, hsb]

/-- C30: for a node whose properties lie in the property array, whose `int64` values and strings
lie in the buffer and whose strings are not empty (the container decoder makes no entry for a
string of length 0), `readObjectIDAndName` returns as id the value of the last `int64`-typed
property (0 when there is none) and as name the first string-typed property (the empty name when
there is none), wherever these properties stand in the property list of the node. -/
theorem readObjectIDAndName_first_string_last_int64 (content : List Nat) (node : fbx_node)
    (properties : List fbx_property)
    (hrange : node.firstProperty + node.numProperties ≤ properties.length)
    (hsize : properties.length < 4294967296)
    (hint : ∀ p, p ∈ nodeProperties node properties → p.type = fbx_property_type.int64 →
      p.data + 8 ≤ content.length)
    (hstr : ∀ p, p ∈ nodeProperties node properties → p.type = fbx_property_type.string →
      p.numElements ≠ 0 ∧ p.data + p.numElements ≤ content.length) :
    readObjectIDAndName content node properties
      = Except.ok (lastInt64 content (nodeProperties node properties),
          firstString content (nodeProperties node properties)) := by
  simp only [readObjectIDAndName]
  rw [Nat.mod_eq_of_lt (by omega),
    forProperties_eq_foldExcept properties _ node.numProperties _ node.firstProperty _ hrange
      (by omega)]
  have := readObjectIDAndName_fold content (nodeProperties node properties) 0 ⟨[]⟩ hint hstr
  simp only [nodeProperties] at this
  rw [this]
  simp only [lastInt64, firstString, nodeProperties, List.length_nil, if_true]
  congr 2
  · cases (List.filter (fun p => p.type == fbx_property_type.int64)
        (List.take node.numProperties (List.drop node.firstProperty properties))).getLast?
      <;> rfl
  · cases (List.filter (fun p => p.type == fbx_property_type.string)
        (List.take node.numProperties (List.drop node.firstProperty properties))).head?
      <;> rfl

/-- C30 at a sample input: a node with two `int64` properties and two strings. -/
theorem readObjectIDAndName_first_string_last_int64_witness :
    readObjectIDAndName objectBytes objectNode objectProperties
      = Except.ok (lastInt64 objectBytes (nodeProperties objectNode objectProperties),
          firstString objectBytes (nodeProperties objectNode objectProperties)) :=
  readObjectIDAndName_first_string_last_int64 objectBytes objectNode objectProperties
    (by decide) (by decide) (by decide) (by decide)

/-- The id and the name of `objectNode`. -/
theorem objectNode_id_name :
    readObjectIDAndName objectBytes objectNode objectProperties = Except.ok (9, ⟨[97, 98]⟩) ∧
    lastInt64 objectBytes (nodeProperties objectNode objectProperties) = 9 ∧
    firstString objectBytes (nodeProperties objectNode objectProperties) = ⟨[97, 98]⟩ := by
  refine ⟨by rfl, by rfl, by rfl⟩

/-- The entries that the body of the loop of `parseProperties` appends keep a property of the
entries of the property array, when the entries of the three kinds have it. -/
theorem parseProperty_invariant (Q : fbx_property → Prop)
    (hscalar : ∀ (type : fbx_property_type) (s data : Nat), Q ⟨type, 0, s, 1, data⟩)
    (harray : ∀ (t : Nat) (type : fbx_property_type) (enc cl al data : Nat),
      (t, type) ∈ arrayTags → Q ⟨type, enc, cl, al, data⟩)
    (hblob : ∀ (type : fbx_property_type) (length data : Nat), length ≠ 0 →
      Q ⟨type, 0, length, length, data⟩)
    (file file1 : entire_file) (out out1 : List fbx_property)
    (h : parseProperty file out = Except.ok (file1, out1))
    (hout : ∀ p, p ∈ out → Q p) : ∀ p, p ∈ out1 → Q p := by
  cases ht : file.content[file.readOffset]? with
  | none =>
    rw [parseProperty_no_tag _ _ (by simpa using ht)] at h
    exact absurd h (by simp)
  | some t =>
    by_cases hmem : t ∈ propertyTags
    · rcases propertyTags_cases t hmem with ⟨type, s, hm⟩ | ⟨type, hm⟩ | ⟨type, hm⟩
      · rw [parseProperty_scalar _ _ _ _ _ hm ht] at h
        simp only [Except.ok.injEq, Prod.mk.injEq] at h
        obtain ⟨_, rfl⟩ := h
        intro p hp
        rcases List.mem_append.1 hp with hp | hp
        · exact hout p hp
        · rw [List.mem_singleton] at hp
          rw [hp]
          exact hscalar _ _ _
      · rw [parseProperty_array _ _ _ _ hm ht] at h
        by_cases hb : file.readOffset + 1 + 12 ≤ file.content.length
        · rw [parseArray_eq _ _ _ hb] at h
          simp only [Except.ok.injEq, Prod.mk.injEq] at h
          obtain ⟨_, rfl⟩ := h
          intro p hp
          rcases List.mem_append.1 hp with hp | hp
          · exact hout p hp
          · rw [List.mem_singleton] at hp
            rw [hp]
            exact harray t _ _ _ _ _ hm
        · rw [parseArray_eq_error _ _ _ (by simpa using hb)] at h
          exact absurd h (by simp)
      · rw [parseProperty_blob _ _ _ _ hm ht] at h
        by_cases hb : file.readOffset + 1 + 4 ≤ file.content.length
        · rw [parseBlob_eq _ _ _ hb] at h
          simp only [Except.ok.injEq, Prod.mk.injEq] at h
          obtain ⟨_, rfl⟩ := h
          intro p hp
          by_cases h0 : leNat ((file.content.drop (file.readOffset + 1)).take 4) = 0
          · simp only [h0, ne_eq, not_true_eq_false, if_false] at hp
            exact hout p hp
          · simp only [h0, ne_eq, not_false_eq_true, if_true] at hp
            rcases List.mem_append.1 hp with hp | hp
            · exact hout p hp
            · rw [List.mem_singleton] at hp
              rw [hp]
              exact hblob _ _ _ h0
        · rw [parseBlob_eq_error _ _ _ (by simpa using hb)] at h
          exact absurd h (by simp)
    · rw [parseProperty_unknown _ _ _ hmem ht] at h
      exact absurd h (by simp)

/-- The loop of `parseProperties` keeps a property of the entries of the property array that
the body of the loop keeps. -/
theorem parsePropertiesLoop_invariant (Q : fbx_property → Prop)
    (hstep : ∀ (file file1 : entire_file) (out out1 : List fbx_property),
      parseProperty file out = Except.ok (file1, out1) →
      (∀ p, p ∈ out → Q p) → ∀ p, p ∈ out1 → Q p) :
    ∀ (n : Nat) (file file1 : entire_file) (out out1 : List fbx_property),
      parsePropertiesLoop n file out = Except.ok (file1, out1) →
      (∀ p, p ∈ out → Q p) → ∀ p, p ∈ out1 → Q p := by
  intro n
  induction n with
  | zero =>
    intro file file1 out out1 h hout
    simp only [parsePropertiesLoop, Except.ok.injEq, Prod.mk.injEq] at h
    obtain ⟨_, rfl⟩ := h
    exact hout
  | succ n ih =>
    intro file file1 out out1 h hout
    simp only [parsePropertiesLoop] at h
    cases h1 : parseProperty file out with
    | error e => rw [h1] at h; exact absurd h (by simp)
    | ok r =>
      obtain ⟨file2, out2⟩ := r
      rw [h1] at h
      simp only at h
      exact ih _ _ _ _ h (hstep _ _ _ _ h1 hout)

/-- The creation of a node keeps a property of the entries of the property array that the body
of the loop of `parseProperties` keeps. -/
theorem parseNodeHead_invariant (Q : fbx_property → Prop)
    (hstep : ∀ (file file1 : entire_file) (out out1 : List fbx_property),
      parseProperty file out = Except.ok (file1, out1) →
      (∀ p, p ∈ out → Q p) → ∀ p, p ∈ out1 → Q p)
    (currentNode : fbx_node_record_header_64) (parent : Nat) (st st1 : parse_state)
    (h : parseNodeHead currentNode parent st = Except.ok st1)
    (hout : ∀ p, p ∈ st.outProperties → Q p) : ∀ p, p ∈ st1.outProperties → Q p := by
  simp only [parseNodeHead] at h
  cases h1 : vecGet st.outNodes parent with
  | error e => rw [h1] at h; exact absurd h (by simp)
  | ok parentNode =>
    rw [h1] at h
    simp only at h
    cases h2 : linkChild st.outNodes parent (st.outNodes.length % 4294967296) with
    | error e => rw [h2] at h; exact absurd h (by simp)
    | ok outNodes1 =>
      rw [h2] at h
      simp only at h
      cases h3 : parseProperties (st.file.consume 1 currentNode.nameLength).2 st.outProperties
          (currentNode.numProperties % 4294967296) with
      | error e => rw [h3] at h; exact absurd h (by simp)
      | ok r =>
        obtain ⟨file2, outProperties2, numProperties⟩ := r
        rw [h3] at h
        simp only [Except.ok.injEq] at h
        subst h
        simp only [parseProperties] at h3
        cases h4 : parsePropertiesLoop (currentNode.numProperties % 4294967296)
            (st.file.consume 1 currentNode.nameLength).2 st.outProperties with
        | error e => rw [h4] at h3; exact absurd h3 (by simp)
        | ok r4 =>
          obtain ⟨file4, out4⟩ := r4
          rw [h4] at h3
          simp only [Except.ok.injEq, Prod.mk.injEq] at h3
          obtain ⟨_, rfl, _⟩ := h3
          exact parsePropertiesLoop_invariant Q hstep _ _ _ _ _ h4 hout

/-- The loop of `parseNodes` keeps a property of the entries of the property array that the
body of the loop of `parseProperties` keeps. -/
theorem parseLoop_invariant (Q : fbx_property → Prop)
    (hstep : ∀ (file file1 : entire_file) (out out1 : List fbx_property),
      parseProperty file out = Except.ok (file1, out1) →
      (∀ p, p ∈ out → Q p) → ∀ p, p ∈ out1 → Q p) (version : Nat) :
    ∀ (fuel : Nat) (currentNode : fbx_node_record_header_64) (parent : Nat)
      (st r : parse_state),
      parseLoop version fuel currentNode parent st = Except.ok r →
      (∀ p, p ∈ st.outProperties → Q p) → ∀ p, p ∈ r.outProperties → Q p := by
  intro fuel
  induction fuel with
  | zero =>
    intro currentNode parent st r h
    simp [parseLoop] at h
  | succ fuel ih =>
    intro currentNode parent st r h hout
    simp only [parseLoop] at h
    by_cases he : currentNode.endOffset = 0
    · simp only [he, bne_self_eq_false, Bool.false_eq_true, if_false, Except.ok.injEq] at h
      subst h
      exact hout
    · have he1 : (currentNode.endOffset != 0) = true := by simp [he]
      simp only [he1, if_true] at h
      cases h1 : parseNodeHead currentNode parent st with
      | error e => rw [h1] at h; exact absurd h (by simp)
      | ok st1 =>
        rw [h1] at h
        simp only at h
        have hout1 := parseNodeHead_invariant Q hstep _ _ _ _ h1 hout
        have common : ∀ (st2 : parse_state), (∀ p, p ∈ st2.outProperties → Q p) →
            (match ASSERT (sub64 currentNode.endOffset st2.file.readOffset == 0) with
              | Except.error e => Except.error e
              | Except.ok _ =>
                match readNodeRecordHeader version st2.file with
                | Except.error e => Except.error e
                | Except.ok (next, file3) =>
                  parseLoop version fuel next parent { st2 with file := file3 })
              = Except.ok r →
            ∀ p, p ∈ r.outProperties → Q p := by
          intro st2 hout2 h5
          cases ha : ASSERT (sub64 currentNode.endOffset st2.file.readOffset == 0) with
          | error e => rw [ha] at h5; exact absurd h5 (by simp)
          | ok u =>
            rw [ha] at h5
            simp only at h5
            cases h6 : readNodeRecordHeader version st2.file with
            | error e => rw [h6] at h5; exact absurd h5 (by simp)
            | ok r6 =>
              obtain ⟨next, file3⟩ := r6
              rw [h6] at h5
              simp only at h5
              exact ih _ _ _ _ h5 hout2
        by_cases hpos : sub64 currentNode.endOffset st1.file.readOffset > 0
        · simp only [hpos, if_true] at h
          cases h2 : readNodeRecordHeader version st1.file with
          | error e => rw [h2] at h; exact absurd h (by simp)
          | ok r2 =>
            obtain ⟨child, file2⟩ := r2
            rw [h2] at h
            simp only at h
            cases h3 : parseLoop version fuel child (st.outNodes.length % 4294967296)
                { st1 with file := file2 } with
            | error e => rw [h3] at h; exact absurd h (by simp)
            | ok st2 =>
              rw [h3] at h
              simp only at h
              exact common st2 (ih _ _ _ _ h3 hout1) h
        · simp only [hpos, if_false] at h
          exact common st1 hout1 h

/-- Every string-typed entry of the property array that the container decoder builds has at
least one byte: a string of length 0 leaves no entry. -/
theorem loadFBX_nodes_strings_not_empty (file : entire_file) (version : Nat)
    (st : parse_state)
    (h : loadFBX_nodes file = load_result.parsed version (Except.ok st)) :
    ∀ p, p ∈ st.outProperties → p.type = fbx_property_type.string → p.numElements ≠ 0 := by
  have hstep := parseProperty_invariant
    (fun p => p.type = fbx_property_type.string → p.numElements ≠ 0)
    (by intro type s data _; simp)
    (by
      intro t type enc cl al data hm hs
      simp only [] at hs
      subst hs
      simp [arrayTags] at hm)
    (by intro type length data h0 _; exact h0)
  simp only [loadFBX_nodes] at h
  split at h
  · cases h
  · split at h
    · cases h
    · simp only [load_result.parsed.injEq] at h
      obtain ⟨_, h⟩ := h
      simp only [parseNodes] at h
      cases h1 : readNodeRecordHeader (leNat (List.take 4 (List.drop 23
          (List.take 27 (List.drop (file.consume 27 1).1 file.content)))))
          (file.consume 27 1).2 with
      | error e => rw [h1] at h; exact absurd h (by simp)
      | ok r1 =>
        obtain ⟨currentNode, file1⟩ := r1
        rw [h1] at h
        simp only at h
        exact parseLoop_invariant _ hstep _ _ _ _ _ _ h (by simp)

/-! ## Loops over the children of a node -/

/-- A loop over the children that collects them, started with some nodes collected, collects
the same children behind these nodes. -/
theorem forChildren_collect_shift (nodes : List fbx_node) : ∀ (fuel child : Nat)
    (visited : List fbx_node),
    forChildren nodes (fun visited node => Except.ok (visited ++ [node])) fuel child visited
      = match forChildren nodes (fun visited node => Except.ok (visited ++ [node])) fuel
          child [] with
        | Except.error e => Except.error e
        | Except.ok children => Except.ok (visited ++ children) := by
  intro fuel
  induction fuel with
  | zero => intro child visited; rfl
  | succ fuel ih =>
    intro child visited
    simp only [forChildren]
    by_cases hc : child = noNode
    · simp [hc]
    · have hc1 : (child != noNode) = true := by simpa using hc
      simp only [hc1, if_true]
      cases hn : vecGet nodes child with
      | error e => rfl
      | ok node =>
        simp only []
        rw [ih node.next (visited ++ [node]), ih node.next ([] ++ [node])]
        cases forChildren nodes (fun visited node => Except.ok (visited ++ [node])) fuel
            node.next [] with
        | error e => rfl
        | ok children => simp

/-- A loop over the children of a node is the loop over the list of the children that the
iterator visits. -/
theorem forChildren_eq_foldExcept (nodes : List fbx_node) : ∀ (fuel child : Nat)
    (children : List fbx_node),
    forChildren nodes (fun visited node => Except.ok (visited ++ [node])) fuel child []
      = Except.ok children →
    ∀ {σ : Type} (body : σ → fbx_node → Except fbx_error σ) (s : σ),
      forChildren nodes body fuel child s = foldExcept body children s := by
  intro fuel
  induction fuel with
  | zero =>
    intro child children h
    simp [forChildren] at h
  | succ fuel ih =>
    intro child children h σ body s
    simp only [forChildren] at h ⊢
    by_cases hc : child = noNode
    · simp only [hc, bne_self_eq_false, Bool.false_eq_true, if_false, Except.ok.injEq] at h ⊢
      subst h
      rfl
    · have hc1 : (child != noNode) = true := by simpa using hc
      simp only [hc1, if_true] at h ⊢
      cases hn : vecGet nodes child with
      | error e => rw [hn] at h; exact absurd h (by simp)
      | ok node =>
        rw [hn] at h
        simp only at h ⊢
        rw [forChildren_collect_shift] at h
        cases hrest : forChildren nodes (fun visited node => Except.ok (visited ++ [node]))
            fuel node.next [] with
        | error e => rw [hrest] at h; exact absurd h (by simp)
        | ok rest =>
          rw [hrest] at h
          simp only [List.nil_append, List.singleton_append, Except.ok.injEq] at h
          subst h
          simp only [foldExcept]
          cases body s node with
          | error e => rfl
          | ok s1 => exact ih node.next rest hrest body s1

/-- A loop over a list keeps a property of the state that its body keeps. -/
theorem foldExcept_invariant {σ α : Type} (body : σ → α → Except fbx_error σ) (Q : σ → Prop)
    (hbody : ∀ (s s1 : σ) (a : α), body s a = Except.ok s1 → Q s → Q s1) :
    ∀ (l : List α) (s r : σ), foldExcept body l s = Except.ok r → Q s → Q r := by
  intro l
  induction l with
  | nil =>
    intro s r h hs
    simp only [foldExcept, Except.ok.injEq] at h
    subst h
    exact hs
  | cons a rest ih =>
    intro s r h hs
    simp only [foldExcept] at h
    cases hb : body s a with
    | error e => rw [hb] at h; exact absurd h (by simp)
    | ok s1 =>
      rw [hb] at h
      exact ih s1 r h (hbody s s1 a hb hs)

/-- A loop over the children of a node keeps a property of the state that its body keeps. -/
theorem forChildren_invariant {σ : Type} (nodes : List fbx_node)
    (body : σ → fbx_node → Except fbx_error σ) (Q : σ → Prop)
    (hbody : ∀ (s s1 : σ) (node : fbx_node), body s node = Except.ok s1 → Q s → Q s1) :
    ∀ (fuel child : Nat) (s r : σ), forChildren nodes body fuel child s = Except.ok r →
      Q s → Q r := by
  intro fuel
  induction fuel with
  | zero =>
    intro child s r h
    simp [forChildren] at h
  | succ fuel ih =>
    intro child s r h hs
    simp only [forChildren] at h
    by_cases hc : child = noNode
    · simp only [hc, bne_self_eq_false, Bool.false_eq_true, if_false, Except.ok.injEq] at h
      subst h
      exact hs
    · have hc1 : (child != noNode) = true := by simpa using hc
      simp only [hc1, if_true] at h
      cases hn : vecGet nodes child with
      | error e => rw [hn] at h; exact absurd h (by simp)
      | ok node =>
        rw [hn] at h
        simp only at h
        cases hb : body s node with
        | error e => rw [hb] at h; exact absurd h (by simp)
        | ok s1 =>
          rw [hb] at h
          exact ih node.next s1 r h (hbody s s1 node hb hs)

/-! ## The links of the node array -/

/-- What a well-formed link is. -/
theorem linkOk_iff (length i link : Nat) :
    linkOk length i link = true ↔ link = noNode ∨ (i < link ∧ link < length) := by
  simp [linkOk]

/-- What `linksIncrease` says of the node at an index. -/
theorem linksIncrease_iff (nodes : List fbx_node) :
    linksIncrease nodes = true ↔
      ∀ (i : Nat) (n : fbx_node), nodes[i]? = some n →
        linkOk nodes.length i n.next = true ∧ linkOk nodes.length i n.firstChild = true := by
  simp only [linksIncrease, List.all_eq_true, List.mem_range]
  constructor
  · intro h i n hn
    have hi : i < nodes.length := by
      rcases Nat.lt_or_ge i nodes.length with hlt | hge
      · exact hlt
      · rw [List.getElem?_eq_none hge] at hn
        cases hn
    have := h i hi
    rw [hn] at this
    simpa using this
  · intro h i hi
    cases hn : nodes[i]? with
    | none => rfl
    | some n =>
      simp only [Bool.and_eq_true]
      exact h i n hn

/-- What linking a child changes: every node keeps its links `next` and `firstChild` or gets
the index of the new node there. -/
theorem linkChild_links (outNodes outNodes1 : List fbx_node) (parent nodeIndex : Nat)
    (h : linkChild outNodes parent nodeIndex = Except.ok outNodes1) :
    ∀ (i : Nat) (n1 : fbx_node), outNodes1[i]? = some n1 →
      ∃ n, outNodes[i]? = some n ∧ (n1.next = n.next ∨ n1.next = nodeIndex) ∧
        (n1.firstChild = n.firstChild ∨ n1.firstChild = nodeIndex) := by
  have hset : ∀ (l l1 : List fbx_node) (k : Nat) (x : fbx_node),
      vecSet l k x = Except.ok l1 →
      (∀ (i : Nat) (n1 : fbx_node), l1[i]? = some n1 → i ≠ k → l[i]? = some n1) ∧
      (∀ n1 : fbx_node, l1[k]? = some n1 → n1 = x) := by
    intro l l1 k x hs
    simp only [vecSet] at hs
    split at hs
    · simp only [Except.ok.injEq] at hs
      subst hs
      constructor
      · intro i n1 hn hik
        rw [List.getElem?_set_ne (Ne.symm hik)] at hn
        exact hn
      · intro n1 hn
        rw [List.getElem?_set_self (by assumption)] at hn
        simp only [Option.some.injEq] at hn
        exact hn.symm
    · exact absurd hs (by simp)
  have hget : ∀ (l : List fbx_node) (k : Nat) (x : fbx_node),
      vecGet l k = Except.ok x → l[k]? = some x := by
    intro l k x hg
    simp only [vecGet] at hg
    split at hg
    · simp only [Except.ok.injEq] at hg
      subst hg
      assumption
    · exact absurd hg (by simp)
  simp only [linkChild] at h
  split at h
  · cases h1 : vecGet outNodes parent with
    | error e => rw [h1] at h; exact absurd h (by simp)
    | ok parentNode =>
      rw [h1] at h
      simp only at h
      split at h
      · exact absurd h (by simp)
      · rename_i outNodes2 h2
        have step1 : ∀ (i : Nat) (n2 : fbx_node), outNodes2[i]? = some n2 →
            ∃ n, outNodes[i]? = some n ∧ (n2.next = n.next ∨ n2.next = nodeIndex) ∧
              (n2.firstChild = n.firstChild ∨ n2.firstChild = nodeIndex) := by
          intro i n2 hn2
          split at h2
          · obtain ⟨ha, hb⟩ := hset _ _ _ _ h2
            by_cases hik : i = parent
            · subst hik
              have := hb n2 hn2
              subst this
              exact ⟨parentNode, hget _ _ _ h1, Or.inl rfl, Or.inr rfl⟩
            · exact ⟨n2, ha i n2 hn2 hik, Or.inl rfl, Or.inl rfl⟩
          · cases h3 : vecGet outNodes parentNode.lastChild with
            | error e => rw [h3] at h2; exact absurd h2 (by simp)
            | ok lastNode =>
              rw [h3] at h2
              simp only at h2
              obtain ⟨ha, hb⟩ := hset _ _ _ _ h2
              by_cases hik : i = parentNode.lastChild
              · subst hik
                have := hb n2 hn2
                subst this
                exact ⟨lastNode, hget _ _ _ h3, Or.inr rfl, Or.inl rfl⟩
              · exact ⟨n2, ha i n2 hn2 hik, Or.inl rfl, Or.inl rfl⟩
        cases h4 : vecGet outNodes2 parent with
        | error e => rw [h4] at h; exact absurd h (by simp)
        | ok parentNode1 =>
          rw [h4] at h
          simp only at h
          obtain ⟨ha, hb⟩ := hset _ _ _ _ h
          intro i n1 hn1
          by_cases hik : i = parent
          · subst hik
            have := hb n1 hn1
            subst this
            exact step1 i parentNode1 (hget _ _ _ h4)
          · exact step1 i n1 (ha i n1 hn1 hik)
  · simp only [Except.ok.injEq] at h
    subst h
    intro i n1 hn1
    exact ⟨n1, hn1, Or.inl rfl, Or.inl rfl⟩

/-- The creation of a node keeps the links well-formed, as long as the index of the new node
fits the type `uint32`. -/
theorem parseNodeHead_linksIncrease (currentNode : fbx_node_record_header_64) (parent : Nat)
    (st st1 : parse_state) (h : parseNodeHead currentNode parent st = Except.ok st1)
    (hlinks : st.outNodes.length < 4294967296 → linksIncrease st.outNodes = true) :
    st1.outNodes.length < 4294967296 → linksIncrease st1.outNodes = true := by
  simp only [parseNodeHead] at h
  cases h1 : vecGet st.outNodes parent with
  | error e => rw [h1] at h; exact absurd h (by simp)
  | ok parentNode =>
    rw [h1] at h
    simp only at h
    cases h2 : linkChild st.outNodes parent (st.outNodes.length % 4294967296) with
    | error e => rw [h2] at h; exact absurd h (by simp)
    | ok outNodes1 =>
      rw [h2] at h
      simp only at h
      cases h3 : parseProperties (st.file.consume 1 currentNode.nameLength).2 st.outProperties
          (currentNode.numProperties % 4294967296) with
      | error e => rw [h3] at h; exact absurd h (by simp)
      | ok r =>
        obtain ⟨file2, outProperties2, numProperties⟩ := r
        rw [h3] at h
        simp only [Except.ok.injEq] at h
        subst h
        have hlen := linkChild_length _ _ _ _ h2
        simp only [List.length_append, List.length_singleton]
        intro hsmall
        have hsmall0 : st.outNodes.length < 4294967296 := by omega
        have hold := (linksIncrease_iff _).1 (hlinks hsmall0)
        have hmod : st.outNodes.length % 4294967296 = st.outNodes.length :=
          Nat.mod_eq_of_lt hsmall0
        rw [hmod] at h2
        have hch := linkChild_links _ _ _ _ h2
        rw [linksIncrease_iff]
        intro i n hn
        simp only [List.length_append, List.length_singleton, linkOk_iff]
        rcases Nat.lt_or_ge i outNodes1.length with hlt | hge
        · rw [List.getElem?_append_left hlt] at hn
          obtain ⟨n0, hn0, hnext, hfirst⟩ := hch i n hn
          obtain ⟨ho1, ho2⟩ := hold i n0 hn0
          rw [linkOk_iff] at ho1 ho2
          constructor
          · rcases hnext with hk | hk
            · rw [hk]
              rcases ho1 with ho | ho
              · exact Or.inl ho
              · exact Or.inr ⟨ho.1, by omega⟩
            · exact Or.inr ⟨by omega, by omega⟩
          · rcases hfirst with hk | hk
            · rw [hk]
              rcases ho2 with ho | ho
              · exact Or.inl ho
              · exact Or.inr ⟨ho.1, by omega⟩
            · exact Or.inr ⟨by omega, by omega⟩
        · rw [List.getElem?_append_right hge] at hn
          have hi : i - outNodes1.length = 0 := by
            rcases Nat.eq_zero_or_pos (i - outNodes1.length) with hz | hp
            · exact hz
            · rw [List.getElem?_eq_none (by simp only [List.length_singleton]; omega)] at hn
              cases hn
          rw [hi] at hn
          simp only [List.getElem?_cons_zero, Option.some.injEq] at hn
          subst hn
          exact ⟨Or.inl rfl, Or.inl rfl⟩

/-- The loop of `parseNodes` keeps a property of the node array that the creation of a node
keeps. -/
theorem parseLoop_nodes_invariant (Q : List fbx_node → Prop)
    (hstep : ∀ (currentNode : fbx_node_record_header_64) (parent : Nat) (st st1 : parse_state),
      parseNodeHead currentNode parent st = Except.ok st1 → Q st.outNodes → Q st1.outNodes)
    (version : Nat) :
    ∀ (fuel : Nat) (currentNode : fbx_node_record_header_64) (parent : Nat)
      (st r : parse_state),
      parseLoop version fuel currentNode parent st = Except.ok r →
      Q st.outNodes → Q r.outNodes := by
  intro fuel
  induction fuel with
  | zero =>
    intro currentNode parent st r h
    simp [parseLoop] at h
  | succ fuel ih =>
    intro currentNode parent st r h hout
    simp only [parseLoop] at h
    by_cases he : currentNode.endOffset = 0
    · simp only [he, bne_self_eq_false, Bool.false_eq_true, if_false, Except.ok.injEq] at h
      subst h
      exact hout
    · have he1 : (currentNode.endOffset != 0) = true := by simp [he]
      simp only [he1, if_true] at h
      cases h1 : parseNodeHead currentNode parent st with
      | error e => rw [h1] at h; exact absurd h (by simp)
      | ok st1 =>
        rw [h1] at h
        simp only at h
        have hout1 := hstep _ _ _ _ h1 hout
        have common : ∀ (st2 : parse_state), Q st2.outNodes →
            (match ASSERT (sub64 currentNode.endOffset st2.file.readOffset == 0) with
              | Except.error e => Except.error e
              | Except.ok _ =>
                match readNodeRecordHeader version st2.file with
                | Except.error e => Except.error e
                | Except.ok (next, file3) =>
                  parseLoop version fuel next parent { st2 with file := file3 })
              = Except.ok r →
            Q r.outNodes := by
          intro st2 hout2 h5
          cases ha : ASSERT (sub64 currentNode.endOffset st2.file.readOffset == 0) with
          | error e => rw [ha] at h5; exact absurd h5 (by simp)
          | ok u =>
            rw [ha] at h5
            simp only at h5
            cases h6 : readNodeRecordHeader version st2.file with
            | error e => rw [h6] at h5; exact absurd h5 (by simp)
            | ok r6 =>
              obtain ⟨next, file3⟩ := r6
              rw [h6] at h5
              simp only at h5
              exact ih _ _ _ _ h5 hout2
        by_cases hpos : sub64 currentNode.endOffset st1.file.readOffset > 0
        · simp only [hpos, if_true] at h
          cases h2 : readNodeRecordHeader version st1.file with
          | error e => rw [h2] at h; exact absurd h (by simp)
          | ok r2 =>
            obtain ⟨child, file2⟩ := r2
            rw [h2] at h
            simp only at h
            cases h3 : parseLoop version fuel child (st.outNodes.length % 4294967296)
                { st1 with file := file2 } with
            | error e => rw [h3] at h; exact absurd h (by simp)
            | ok st2 =>
              rw [h3] at h
              simp only at h
              exact common st2 (ih _ _ _ _ h3 hout1) h
        · simp only [hpos, if_false] at h
          exact common st1 hout1 h

/-- The array that holds the synthetic root node only has well-formed links. -/
theorem linksIncrease_root : linksIncrease [rootNode] = true := by
  decide

/-- The node array that the container decoder builds has well-formed links, as long as the
number of nodes fits the type `uint32`: every sibling chain is finite. -/
theorem loadFBX_nodes_linksIncrease (file : entire_file) (version : Nat)
    (st : parse_state)
    (h : loadFBX_nodes file = load_result.parsed version (Except.ok st))
    (hsmall : st.outNodes.length < 4294967296) : linksIncrease st.outNodes = true := by
  simp only [loadFBX_nodes] at h
  split at h
  · cases h
  · split at h
    · cases h
    · simp only [load_result.parsed.injEq] at h
      obtain ⟨_, h⟩ := h
      simp only [parseNodes] at h
      cases h1 : readNodeRecordHeader (leNat (List.take 4 (List.drop 23
          (List.take 27 (List.drop (file.consume 27 1).1 file.content)))))
          (file.consume 27 1).2 with
      | error e => rw [h1] at h; exact absurd h (by simp)
      | ok r1 =>
        obtain ⟨currentNode, file1⟩ := r1
        rw [h1] at h
        simp only at h
        exact parseLoop_nodes_invariant
          (fun nodes => nodes.length < 4294967296 → linksIncrease nodes = true)
          (fun cur parent st0 st1 hh hq => parseNodeHead_linksIncrease cur parent st0 st1 hh hq)
          _ _ _ _ _ _ h (fun _ => linksIncrease_root) hsmall

/-! ## Fuel of the loops over the nodes -/

/-- A successful read `v[i]` gives the element at the index. -/
theorem vecGet_ok_getElem {α : Type} (v : List α) (i : Nat) (x : α)
    (h : vecGet v i = Except.ok x) : v[i]? = some x := by
  simp only [vecGet] at h
  split at h
  · simp only [Except.ok.injEq] at h
    subst h
    assumption
  · exact absurd h (by simp)

/-- The fuel of a loop over the children is enough when the links are well-formed: the loop
stops for lack of fuel only when its body does. -/
theorem forChildren_fuel {σ : Type} (nodes : List fbx_node)
    (hlinks : linksIncrease nodes = true) (body : σ → fbx_node → Except fbx_error σ)
    (hbody : ∀ s n, body s n ≠ Except.error fbx_error.out_of_fuel) :
    ∀ (fuel child : Nat) (s : σ), 0 < fuel → nodes.length < child + fuel →
      forChildren nodes body fuel child s ≠ Except.error fbx_error.out_of_fuel := by
  intro fuel
  induction fuel with
  | zero => intro child s h0; omega
  | succ fuel ih =>
    intro child s _ hfuel
    simp only [forChildren]
    split
    · cases hn : vecGet nodes child with
      | error e =>
        simp only [ne_eq, Except.error.injEq]
        intro hc
        exact vecGet_fuel _ _ (hc ▸ hn)
      | ok node =>
        simp only []
        cases hb : body s node with
        | error e =>
          simp only [ne_eq, Except.error.injEq]
          intro hc
          exact hbody _ _ (hc ▸ hb)
        | ok s1 =>
          simp only []
          have hget := vecGet_ok_getElem _ _ _ hn
          have hlt : child < nodes.length := by
            rcases Nat.lt_or_ge child nodes.length with hlt | hge
            · exact hlt
            · rw [List.getElem?_eq_none hge] at hget
              cases hget
          have hok := ((linksIncrease_iff _).1 hlinks child node hget).1
          rw [linkOk_iff] at hok
          have hpos : 0 < fuel := by omega
          rcases hok with hk | hk
          · rw [hk]
            obtain ⟨fuel1, rfl⟩ : ∃ fuel1, fuel = fuel1 + 1 := ⟨fuel - 1, by omega⟩
            simp [forChildren]
          · exact ih _ _ hpos (by omega)
    · simp

/-- The fuel of the loop of `findChild` is enough when the links are well-formed. -/
theorem findChildLoop_fuel (nodes : List fbx_node) (hlinks : linksIncrease nodes = true)
    (name : sized_string) :
    ∀ (fuel currentNode : Nat), 0 < fuel → nodes.length < currentNode + fuel →
      findChildLoop nodes name fuel currentNode ≠ Except.error fbx_error.out_of_fuel := by
  intro fuel
  induction fuel with
  | zero => intro currentNode h0; omega
  | succ fuel ih =>
    intro currentNode _ hfuel
    simp only [findChildLoop]
    split
    · cases hn : vecGet nodes currentNode with
      | error e =>
        simp only [ne_eq, Except.error.injEq]
        intro hc
        exact vecGet_fuel _ _ (hc ▸ hn)
      | ok child =>
        simp only []
        split
        · simp
        · have hget := vecGet_ok_getElem _ _ _ hn
          have hlt : currentNode < nodes.length := by
            rcases Nat.lt_or_ge currentNode nodes.length with hlt | hge
            · exact hlt
            · rw [List.getElem?_eq_none hge] at hget
              cases hget
          have hok := ((linksIncrease_iff _).1 hlinks currentNode child hget).1
          rw [linkOk_iff] at hok
          have hpos : 0 < fuel := by omega
          rcases hok with hk | hk
          · rw [hk]
            obtain ⟨fuel1, rfl⟩ : ∃ fuel1, fuel = fuel1 + 1 := ⟨fuel - 1, by omega⟩
            simp [findChildLoop]
          · exact ih _ hpos (by omega)
    · simp

/-- The member `findChild` never stops for lack of fuel when the links are well-formed. -/
theorem findChild_fuel (self : fbx_node) (nodes : List fbx_node)
    (hlinks : linksIncrease nodes = true) (name : sized_string) :
    self.findChild nodes name ≠ Except.error fbx_error.out_of_fuel :=
  findChildLoop_fuel nodes hlinks name _ _ (by omega) (by omega)

/-- The fuel of the loop of `findNode` is enough when the links are well-formed. -/
theorem findNodeLoop_fuel (nodes : List fbx_node) (hlinks : linksIncrease nodes = true) :
    ∀ (fuel currentNode : Nat) (names : List sized_string), 0 < fuel →
      nodes.length < currentNode + fuel →
      findNodeLoop nodes fuel currentNode names ≠ Except.error fbx_error.out_of_fuel := by
  intro fuel
  induction fuel with
  | zero => intro currentNode names h0; omega
  | succ fuel ih =>
    intro currentNode names _ hfuel
    simp only [findNodeLoop]
    split
    · cases hn : vecGet nodes currentNode with
      | error e =>
        simp only [ne_eq, Except.error.injEq]
        intro hc
        exact vecGet_fuel _ _ (hc ▸ hn)
      | ok node =>
        simp only []
        have hget := vecGet_ok_getElem _ _ _ hn
        have hlt : currentNode < nodes.length := by
          rcases Nat.lt_or_ge currentNode nodes.length with hlt | hge
          · exact hlt
          · rw [List.getElem?_eq_none hge] at hget
            cases hget
        obtain ⟨hok1, hok2⟩ := (linksIncrease_iff _).1 hlinks currentNode node hget
        rw [linkOk_iff] at hok1 hok2
        have hpos : 0 < fuel := by omega
        obtain ⟨fuel1, hf1⟩ : ∃ fuel1, fuel = fuel1 + 1 := ⟨fuel - 1, by omega⟩
        cases names with
        | nil => simp
        | cons currentName rest =>
          simp only []
          split
          · split
            · simp
            · rcases hok2 with hk | hk
              · rw [hk, hf1]
                simp [findNodeLoop]
              · exact ih _ _ hpos (by omega)
          · rcases hok1 with hk | hk
            · rw [hk, hf1]
              simp [findNodeLoop]
            · exact ih _ _ hpos (by omega)
    · simp

/-- The function `findNode` never stops for lack of fuel when the links are well-formed. -/
theorem findNode_fuel (nodes : List fbx_node) (hlinks : linksIncrease nodes = true)
    (names : List sized_string) :
    findNode nodes names ≠ Except.error fbx_error.out_of_fuel := by
  unfold findNode
  cases hn : vecGet nodes 0 with
  | error e =>
    simp only [ne_eq, Except.error.injEq]
    intro hc
    exact vecGet_fuel _ _ (hc ▸ hn)
  | ok root =>
    simp only []
    cases names with
    | nil =>
      simp only [List.length_nil, Nat.mul_zero, Nat.zero_add, findNodeLoop]
      split
      · split
        · rename_i e he
          intro hc
          cases hc
          exact vecGet_fuel _ _ he
        · simp
      · simp
    | cons currentName rest =>
      refine findNodeLoop_fuel nodes hlinks _ _ _ (by omega) ?_
      simp only [List.length_cons, Nat.mul_add, Nat.mul_one]
      omega

/-- The fuel of a loop over properties is enough: the loop stops for lack of fuel only when
its body does. -/
theorem forProperties_fuel {σ : Type} (properties : List fbx_property)
    (body : σ → fbx_property → Except fbx_error σ)
    (hbody : ∀ s p, body s p ≠ Except.error fbx_error.out_of_fuel) :
    ∀ (fuel prop end_ : Nat) (s : σ), 0 < fuel → properties.length < prop + fuel →
      forProperties properties body fuel prop end_ s ≠ Except.error fbx_error.out_of_fuel := by
  intro fuel
  induction fuel with
  | zero => intro prop end_ s h0; omega
  | succ fuel ih =>
    intro prop end_ s _ hfuel
    simp only [forProperties]
    split
    · cases hn : vecGet properties prop with
      | error e =>
        simp only [ne_eq, Except.error.injEq]
        intro hc
        exact vecGet_fuel _ _ (hc ▸ hn)
      | ok p =>
        simp only []
        cases hb : body s p with
        | error e =>
          simp only [ne_eq, Except.error.injEq]
          intro hc
          exact hbody _ _ (hc ▸ hb)
        | ok s1 =>
          simp only []
          have hget := vecGet_ok_getElem _ _ _ hn
          have hlt : prop < properties.length := by
            rcases Nat.lt_or_ge prop properties.length with hlt | hge
            · exact hlt
            · rw [List.getElem?_eq_none hge] at hget
              cases hget
          exact ih _ _ _ (by omega) (by omega)
    · simp

/-- The function `readString` never stops for lack of fuel. -/
theorem readString_fuel (content : List Nat) (prop : fbx_property) :
    readString content prop ≠ Except.error fbx_error.out_of_fuel := by
  unfold readString
  split
  · rename_i e he
    intro hc
    cases hc
    exact ASSERT_fuel _ he
  · split
    · rename_i e he
      intro hc
      cases hc
      exact readBytes_fuel _ _ _ he
    · simp

/-- The function `readInt32` never stops for lack of fuel. -/
theorem readInt32_fuel (content : List Nat) (prop : fbx_property) :
    readInt32 content prop ≠ Except.error fbx_error.out_of_fuel := by
  unfold readInt32
  split
  · rename_i e he
    intro hc
    cases hc
    exact ASSERT_fuel _ he
  · split
    · rename_i e he
      intro hc
      cases hc
      exact readBytes_fuel _ _ _ he
    · simp

/-- The function `readInt64` never stops for lack of fuel. -/
theorem readInt64_fuel (content : List Nat) (prop : fbx_property) :
    readInt64 content prop ≠ Except.error fbx_error.out_of_fuel := by
  unfold readInt64
  split
  · rename_i e he
    intro hc
    cases hc
    exact ASSERT_fuel _ he
  · split
    · rename_i e he
      intro hc
      cases hc
      exact readBytes_fuel _ _ _ he
    · simp

/-- The function `readDouble` never stops for lack of fuel. -/
theorem readDouble_fuel (content : List Nat) (prop : fbx_property) :
    readDouble content prop ≠ Except.error fbx_error.out_of_fuel := by
  unfold readDouble
  split
  · rename_i e he
    intro hc
    cases hc
    exact ASSERT_fuel _ he
  · split
    · rename_i e he
      intro hc
      cases hc
      exact readBytes_fuel _ _ _ he
    · simp

/-- The function `readArray` never stops for lack of fuel. -/
theorem readArray_fuel (decompress : List Nat → List Nat) (content : List Nat)
    (prop : fbx_property) (capacity : Nat) :
    readArray decompress content prop capacity ≠ Except.error fbx_error.out_of_fuel := by
  unfold readArray
  split
  · rename_i e he
    intro hc
    cases hc
    exact readBytes_fuel _ _ _ he
  · simp only []
    split
    · split
      · simp
      · simp
    · split
      · simp
      · simp

/-- The function `readInt32Array` never stops for lack of fuel. -/
theorem readInt32Array_fuel (decompress : List Nat → List Nat) (content : List Nat)
    (prop : fbx_property) :
    readInt32Array decompress content prop ≠ Except.error fbx_error.out_of_fuel := by
  unfold readInt32Array
  split
  · rename_i e he
    intro hc
    cases hc
    exact ASSERT_fuel _ he
  · split
    · rename_i e he
      intro hc
      cases hc
      exact readArray_fuel _ _ _ _ he
    · split
      · rename_i e he
        intro hc
        cases hc
        exact ASSERT_fuel _ he
      · simp

/-- The function `readDoubleArray` never stops for lack of fuel. -/
theorem readDoubleArray_fuel (decompress : List Nat → List Nat) (content : List Nat)
    (prop : fbx_property) :
    readDoubleArray decompress content prop ≠ Except.error fbx_error.out_of_fuel := by
  unfold readDoubleArray
  split
  · rename_i e he
    intro hc
    cases hc
    exact ASSERT_fuel _ he
  · split
    · rename_i e he
      intro hc
      cases hc
      exact readArray_fuel _ _ _ _ he
    · split
      · rename_i e he
        intro hc
        cases hc
        exact ASSERT_fuel _ he
      · simp

/-- The read of the first property of a node never stops for lack of fuel. -/
theorem firstPropertyOf_fuel (properties : List fbx_property) (child : fbx_node) :
    firstPropertyOf properties child ≠ Except.error fbx_error.out_of_fuel := by
  unfold firstPropertyOf
  split
  · simp
  · exact vecGet_fuel _ _

/-- The read of the first property through a pointer never stops for lack of fuel. -/
theorem firstPropertyOfPtr_fuel (properties : List fbx_property) (node : Option fbx_node) :
    firstPropertyOfPtr properties node ≠ Except.error fbx_error.out_of_fuel := by
  unfold firstPropertyOfPtr
  split
  · simp
  · exact firstPropertyOf_fuel _ _

/-- The read of a string through the property iterator never stops for lack of fuel. -/
theorem readStringAt_fuel (content : List Nat) (P : fbx_node) (properties : List fbx_property)
    (k : Nat) : readStringAt content P properties k ≠ Except.error fbx_error.out_of_fuel := by
  unfold readStringAt propertyAt
  split
  · rename_i e he
    intro hc
    cases hc
    exact vecGet_fuel _ _ he
  · exact readString_fuel _ _

/-- The read of a double through the property iterator never stops for lack of fuel. -/
theorem readDoubleAt_fuel (content : List Nat) (P : fbx_node) (properties : List fbx_property)
    (k : Nat) : readDoubleAt content P properties k ≠ Except.error fbx_error.out_of_fuel := by
  unfold readDoubleAt propertyAt
  split
  · rename_i e he
    intro hc
    cases hc
    exact vecGet_fuel _ _ he
  · exact readDouble_fuel _ _

/-- The read of three doubles through the property iterator never stops for lack of fuel. -/
theorem readVec3At_fuel {F : Type} (toFloat : Nat → F) (content : List Nat) (P : fbx_node)
    (properties : List fbx_property) (k : Nat) :
    readVec3At toFloat content P properties k ≠ Except.error fbx_error.out_of_fuel := by
  unfold readVec3At
  split
  · rename_i e he
    intro hc
    cases hc
    exact readDoubleAt_fuel _ _ _ _ he
  · split
    · rename_i e he
      intro hc
      cases hc
      exact readDoubleAt_fuel _ _ _ _ he
    · split
      · rename_i e he
        intro hc
        cases hc
        exact readDoubleAt_fuel _ _ _ _ he
      · simp

/-- The function `readObjectIDAndName` never stops for lack of fuel: the fuel of its loop is
enough. -/
theorem readObjectIDAndName_fuel (content : List Nat) (node : fbx_node)
    (properties : List fbx_property) :
    readObjectIDAndName content node properties ≠ Except.error fbx_error.out_of_fuel := by
  unfold readObjectIDAndName
  refine forProperties_fuel properties _ ?_ _ _ _ _ (by omega) (by omega)
  intro s p
  unfold readObjectIDAndName_body
  split
  · rename_i e he
    intro hc
    cases hc
    split at he
    · exact readInt64_fuel _ _ he
    · cases he
  · split
    · rename_i e he
      intro hc
      cases hc
      split at he
      · exact readString_fuel _ _ he
      · cases he
    · simp

/-- The body of the loop of `readGeometryData` never stops for lack of fuel when the reader of
the data does not. -/
theorem readGeometryData_body_fuel {T : Type}
    (readData : fbx_property → Except fbx_error (List T))
    (hread : ∀ prop, readData prop ≠ Except.error fbx_error.out_of_fuel)
    (decompress : List Nat → List Nat) (content : List Nat) (properties : List fbx_property)
    (dataNodeName indexNodeName : sized_string) (s : geometry_data T) (child : fbx_node) :
    readGeometryData_body readData decompress content properties dataNodeName indexNodeName
      s child ≠ Except.error fbx_error.out_of_fuel := by
  unfold readGeometryData_body
  repeat' split
  all_goals first
    | (simp; done)
    | (rename_i e he
       intro hc
       cases hc
       first
         | exact firstPropertyOf_fuel _ _ he
         | exact readString_fuel _ _ he
         | exact hread _ he
         | exact readInt32Array_fuel _ _ _ he)

/-- The function template `readGeometryData` never stops for lack of fuel when the links are
well-formed and the reader of the data does not stop for lack of fuel. -/
theorem readGeometryData_fuel {T : Type} (readData : fbx_property → Except fbx_error (List T))
    (hread : ∀ prop, readData prop ≠ Except.error fbx_error.out_of_fuel)
    (decompress : List Nat → List Nat) (content : List Nat) (node : Option fbx_node)
    (nodes : List fbx_node) (hlinks : linksIncrease nodes = true)
    (properties : List fbx_property) (dataNodeName indexNodeName : sized_string) :
    readGeometryData readData decompress content node nodes properties dataNodeName
      indexNodeName ≠ Except.error fbx_error.out_of_fuel := by
  unfold readGeometryData
  exact forChildren_fuel nodes hlinks _
    (readGeometryData_body_fuel readData hread decompress content properties dataNodeName
      indexNodeName) _ _ _ (by omega) (by omega)

/-- The body of the loop of `readModel` never stops for lack of fuel. -/
theorem readModel_body_fuel {F : Type} (toFloat : Nat → F) (content : List Nat)
    (properties : List fbx_property) (result : fbx_model F) (P : fbx_node) :
    readModel_body toFloat content properties result P
      ≠ Except.error fbx_error.out_of_fuel := by
  unfold readModel_body
  repeat' split
  all_goals first
    | (simp; done)
    | (rename_i e he
       intro hc
       cases hc
       first
         | exact ASSERT_fuel _ he
         | exact readStringAt_fuel _ _ _ _ he
         | exact readVec3At_fuel _ _ _ _ _ he)

/-- The function `readModel` never stops for lack of fuel when the links are well-formed. -/
theorem readModel_fuel {F : Type} [Zero F] [One F] (toFloat : Nat → F) (content : List Nat)
    (node : fbx_node) (nodes : List fbx_node) (hlinks : linksIncrease nodes = true)
    (properties : List fbx_property) (outModels : List (fbx_model F)) :
    readModel toFloat content node nodes properties outModels
      ≠ Except.error fbx_error.out_of_fuel := by
  unfold readModel
  split
  · rename_i e he
    intro hc
    cases hc
    exact readObjectIDAndName_fuel _ _ _ he
  · split
    · rename_i e he
      intro hc
      cases hc
      exact findChild_fuel _ _ hlinks _ he
    · split
      · rename_i e he
        intro hc
        cases hc
        exact forChildren_fuel nodes hlinks _ (readModel_body_fuel toFloat content properties)
          _ _ _ (by omega) (by omega) he
      · simp

/-- The body of the inner loop of `readMaterial` never stops for lack of fuel. -/
theorem readMaterial_property_fuel {F : Type} [Zero F] (toFloat : Nat → F)
    (content : List Nat) (properties : List fbx_property) (result : fbx_material F)
    (P : fbx_node) :
    readMaterial_property toFloat content properties result P
      ≠ Except.error fbx_error.out_of_fuel := by
  unfold readMaterial_property
  split
  · rename_i e he
    intro hc
    cases hc
    exact ASSERT_fuel _ he
  · split
    · rename_i e he
      intro hc
      cases hc
      exact readStringAt_fuel _ _ _ _ he
    · split
      · rename_i e he
        intro hc
        cases hc
        exact readStringAt_fuel _ _ _ _ he
      · split
        · rename_i e he
          intro hc
          cases hc
          exact readStringAt_fuel _ _ _ _ he
        · split
          · rename_i e he
            intro hc
            cases hc
            repeat' split at he
            all_goals first
              | (cases he; done)
              | (simp only [Except.error.injEq] at he
                 subst he
                 rename_i hv
                 first
                   | exact readVec3At_fuel _ _ _ _ _ hv
                   | exact readDoubleAt_fuel _ _ _ _ hv)
          · repeat' split
            all_goals simp

/-- The body of the outer loop of `readMaterial` never stops for lack of fuel when the links
are well-formed. -/
theorem readMaterial_body_fuel {F : Type} [Zero F] (toFloat : Nat → F) (content : List Nat)
    (nodes : List fbx_node) (hlinks : linksIncrease nodes = true)
    (properties : List fbx_property) (result : fbx_material F) (child : fbx_node) :
    readMaterial_body toFloat content nodes properties result child
      ≠ Except.error fbx_error.out_of_fuel := by
  unfold readMaterial_body
  split
  · split
    · rename_i e he
      intro hc
      cases hc
      exact firstPropertyOf_fuel _ _ he
    · split
      · rename_i e he
        intro hc
        cases hc
        exact readString_fuel _ _ he
      · simp
  · split
    · split
      · rename_i e he
        intro hc
        cases hc
        exact firstPropertyOf_fuel _ _ he
      · split
        · rename_i e he
          intro hc
          cases hc
          exact readInt32_fuel _ _ he
        · simp
    · split
      · exact forChildren_fuel nodes hlinks _
          (readMaterial_property_fuel toFloat content properties) _ _ _ (by omega) (by omega)
      · simp

/-- The function `readMaterial` never stops for lack of fuel when the links are well-formed:
a failure is a failed assertion or a read out of range of the source. -/
theorem readMaterial_fuel {F : Type} [Zero F] (toFloat : Nat → F) (content : List Nat)
    (node : fbx_node) (nodes : List fbx_node) (hlinks : linksIncrease nodes = true)
    (properties : List fbx_property) (outMaterials : List (fbx_material F)) :
    readMaterial toFloat content node nodes properties outMaterials
      ≠ Except.error fbx_error.out_of_fuel := by
  unfold readMaterial
  split
  · rename_i e he
    intro hc
    cases hc
    exact readObjectIDAndName_fuel _ _ _ he
  · split
    · rename_i e he
      intro hc
      cases hc
      exact forChildren_fuel nodes hlinks _
        (readMaterial_body_fuel toFloat content nodes hlinks properties) _ _ _ (by omega)
        (by omega) he
    · split
      · rename_i e he
        intro hc
        cases hc
        exact ASSERT_fuel _ he
      · simp

/-- The body of the loop of `readTexture` never stops for lack of fuel. -/
theorem readTexture_body_fuel (content : List Nat) (properties : List fbx_property)
    (result : fbx_texture) (child : fbx_node) :
    readTexture_body content properties result child
      ≠ Except.error fbx_error.out_of_fuel := by
  unfold readTexture_body
  repeat' split
  all_goals first
    | (simp; done)
    | (rename_i e he
       intro hc
       cases hc
       first
         | exact firstPropertyOf_fuel _ _ he
         | exact readString_fuel _ _ he)

/-- The function `readTexture` never stops for lack of fuel when the links are well-formed. -/
theorem readTexture_fuel (content : List Nat) (node : fbx_node) (nodes : List fbx_node)
    (hlinks : linksIncrease nodes = true) (properties : List fbx_property)
    (outTextures : List fbx_texture) :
    readTexture content node nodes properties outTextures
      ≠ Except.error fbx_error.out_of_fuel := by
  unfold readTexture
  split
  · rename_i e he
    intro hc
    cases hc
    exact readObjectIDAndName_fuel _ _ _ he
  · split
    · rename_i e he
      intro hc
      cases hc
      exact forChildren_fuel nodes hlinks _ (readTexture_body_fuel content properties)
        _ _ _ (by omega) (by omega) he
    · simp

set_option maxRecDepth 100000

/-! ## The material reader -/

/-- The body of the inner loop of `readMaterial` keeps the id, the name and the shading model
of the material. -/
theorem readMaterial_property_keeps {F : Type} [Zero F] (toFloat : Nat → F)
    (content : List Nat) (properties : List fbx_property) (result r : fbx_material F)
    (P : fbx_node)
    (h : readMaterial_property toFloat content properties result P = Except.ok r) :
    r.id = result.id ∧ r.name = result.name ∧ r.shadingModel = result.shadingModel := by
  unfold readMaterial_property at h
  repeat' split at h
  all_goals first
    | (simp only [Except.ok.injEq] at h; subst h; exact ⟨rfl, rfl, rfl⟩)
    | exact absurd h (by simp)

/-- The body of the outer loop of `readMaterial` keeps the id and the name of the material; at
a child named `ShadingModel` it sets the shading model to the string of the first property of
the child, at any other child it keeps the shading model. -/
theorem readMaterial_body_spec {F : Type} [Zero F] (toFloat : Nat → F) (content : List Nat)
    (nodes : List fbx_node) (properties : List fbx_property) (result r : fbx_material F)
    (child : fbx_node)
    (h : readMaterial_body toFloat content nodes properties result child = Except.ok r) :
    r.id = result.id ∧ r.name = result.name ∧
    (child.name.eq (sized_string.ofLiteral "ShadingModel") = true →
      ∃ prop, firstPropertyOf properties child = Except.ok prop ∧
        readString content prop = Except.ok r.shadingModel) ∧
    (child.name.eq (sized_string.ofLiteral "ShadingModel") = false →
      r.shadingModel = result.shadingModel) := by
  unfold readMaterial_body at h
  by_cases hs : child.name.eq (sized_string.ofLiteral "ShadingModel") = true
  · rw [if_pos hs] at h
    cases hp : firstPropertyOf properties child with
    | error e => rw [hp] at h; exact absurd h (by simp)
    | ok prop =>
      rw [hp] at h
      simp only at h
      cases hr : readString content prop with
      | error e => rw [hr] at h; exact absurd h (by simp)
      | ok shadingModel =>
        rw [hr] at h
        simp only [Except.ok.injEq] at h
        subst h
        refine ⟨rfl, rfl, fun _ => ⟨prop, rfl, hr⟩, ?_⟩
        intro hf
        rw [hs] at hf
        cases hf
  · rw [if_neg hs] at h
    have hsf : child.name.eq (sized_string.ofLiteral "ShadingModel") = false := by
      simpa using hs
    have hkeep : r.id = result.id ∧ r.name = result.name ∧
        r.shadingModel = result.shadingModel := by
      by_cases hm : child.name.eq (sized_string.ofLiteral "MultiLayer") = true
      · rw [if_pos hm] at h
        cases hp : firstPropertyOf properties child with
        | error e => rw [hp] at h; exact absurd h (by simp)
        | ok prop =>
          rw [hp] at h
          simp only at h
          cases hr : readInt32 content prop with
          | error e => rw [hr] at h; exact absurd h (by simp)
          | ok multiLayer =>
            rw [hr] at h
            simp only [Except.ok.injEq] at h
            subst h
            exact ⟨rfl, rfl, rfl⟩
      · rw [if_neg hm] at h
        by_cases hp70 : child.name.eq (sized_string.ofLiteral "Properties70") = true
        · rw [if_pos hp70] at h
          exact forChildren_invariant nodes (readMaterial_property toFloat content properties)
            (fun s => s.id = result.id ∧ s.name = result.name ∧
              s.shadingModel = result.shadingModel)
            (by
              intro s s1 P hb hq
              obtain ⟨h1, h2, h3⟩ := readMaterial_property_keeps toFloat content properties
                s s1 P hb
              exact ⟨h1.trans hq.1, h2.trans hq.2.1, h3.trans hq.2.2⟩)
            _ _ _ _ h ⟨rfl, rfl, rfl⟩
        · rw [if_neg hp70] at h
          simp only [Except.ok.injEq] at h
          subst h
          exact ⟨rfl, rfl, rfl⟩
    refine ⟨hkeep.1, hkeep.2.1, ?_, fun _ => hkeep.2.2⟩
    intro ht
    rw [hsf] at ht
    cases ht

/-- The decode of the container `materialFile`. -/
theorem materialFile_parse :
    loadFBX_nodes (entire_file.ofBytes materialFile)
      = load_result.parsed 7400
          (Except.ok ⟨⟨materialFile, 251⟩, materialNodes, materialProperties⟩) := by
  rfl

/-- A successful `readMaterial` appends one material, with the id and the name of the node and
the shading model that the loop over the children left, which is `Phong`. -/
theorem readMaterial_ok {F : Type} [Zero F] (toFloat : Nat → F) (content : List Nat)
    (node : fbx_node) (nodes : List fbx_node) (properties : List fbx_property)
    (outMaterials out : List (fbx_material F))
    (h : readMaterial toFloat content node nodes properties outMaterials = Except.ok out) :
    ∃ (id : Int) (name : sized_string) (m : fbx_material F),
      readObjectIDAndName content node properties = Except.ok (id, name) ∧
      forChildren nodes (readMaterial_body toFloat content nodes properties)
          (nodes.length + 1) (iteratorBegin (some node)) (fbx_material.init id name)
        = Except.ok m ∧
      m.id = id ∧ m.name = name ∧ m.shadingModel = sized_string.ofLiteral "Phong" ∧
      out = outMaterials ++ [m] := by
  unfold readMaterial at h
  cases h1 : readObjectIDAndName content node properties with
  | error e => rw [h1] at h; exact absurd h (by simp)
  | ok r1 =>
    obtain ⟨id, name⟩ := r1
    rw [h1] at h
    simp only at h
    cases h2 : forChildren nodes (readMaterial_body toFloat content nodes properties)
        (nodes.length + 1) (iteratorBegin (some node)) (fbx_material.init id name) with
    | error e => rw [h2] at h; exact absurd h (by simp)
    | ok m =>
      rw [h2] at h
      simp only at h
      by_cases hp : m.shadingModel.eq (sized_string.ofLiteral "Phong") = true
      · simp only [ASSERT, hp, if_true, Except.ok.injEq] at h
        have hkeep := forChildren_invariant nodes
          (readMaterial_body toFloat content nodes properties)
          (fun s => s.id = id ∧ s.name = name)
          (by
            intro s s1 child hb hq
            obtain ⟨b1, b2, _, _⟩ := readMaterial_body_spec toFloat content nodes properties
              s s1 child hb
            exact ⟨b1.trans hq.1, b2.trans hq.2⟩)
          _ _ _ _ h2 ⟨rfl, rfl⟩
        exact ⟨id, name, m, rfl, h2, hkeep.1, hkeep.2,
          (sized_string_eq_iff _ _ (by decide)).1 hp, h.symm⟩
      · simp only [ASSERT, hp, Bool.false_eq_true, if_false] at h
        exact absurd h (by simp)

/-- The decode of the container `sceneFile`. -/
theorem sceneFile_parse :
    loadFBX_nodes (entire_file.ofBytes sceneFile)
      = load_result.parsed 7400
          (Except.ok ⟨⟨sceneFile, 664⟩, sceneNodes, sceneProperties⟩) := by
  rfl

/-! ## The objects of a file -/

/-- The array that `readInt32Array` returns has `numElements` elements. -/
theorem readInt32Array_length (decompress : List Nat → List Nat) (content : List Nat)
    (prop : fbx_property) (result : List Int)
    (h : readInt32Array decompress content prop = Except.ok result) :
    result.length = prop.numElements := by
  unfold readInt32Array at h
  repeat' split at h
  all_goals first
    | (simp only [Except.ok.injEq] at h; subst h; simp [chunks_length])
    | exact absurd h (by simp)

/-- The array that `readDoubleArray` returns has `numElements` elements. -/
theorem readDoubleArray_length (decompress : List Nat → List Nat) (content : List Nat)
    (prop : fbx_property) (result : List Nat)
    (h : readDoubleArray decompress content prop = Except.ok result) :
    result.length = prop.numElements := by
  unfold readDoubleArray at h
  repeat' split at h
  all_goals first
    | (simp only [Except.ok.injEq] at h; subst h; simp [chunks_length])
    | exact absurd h (by simp)

/-- A property that is read through a pointer to a node is an entry of the property array. -/
theorem firstPropertyOfPtr_mem (properties : List fbx_property) (node : Option fbx_node)
    (prop : fbx_property) (h : firstPropertyOfPtr properties node = Except.ok prop) :
    prop ∈ properties := by
  unfold firstPropertyOfPtr firstPropertyOf vecGet at h
  repeat' split at h
  all_goals first
    | (simp only [Except.ok.injEq] at h; subst h; exact List.getElem?_mem (by assumption))
    | exact absurd h (by simp)

/-- A successful `readMesh` on the node of a geometry is a successful run of the blocks of
`readMesh` on the id and the name of the node, the two arrays of the node and three layer
elements. -/
theorem readMeshOfNode_ok {F : Type} [DecidableEq F] [Zero F] (toFloat : Nat → F)
    (decompress : List Nat → List Nat) (content : List Nat) (node : fbx_node)
    (nodes : List fbx_node) (properties : List fbx_property) (flags : Nat)
    (outMeshes out : List (fbx_mesh F))
    (hsmall : ∀ p, p ∈ properties → p.numElements < 2147483648)
    (h : readMeshOfNode toFloat decompress content node nodes properties flags outMeshes
      = Except.ok out) :
    ∃ (id : Int) (name : sized_string) (originalPositionsRaw : List Nat)
      (originalIndices : List Int) (uvLayer normalLayer : geometry_data Nat)
      (materialLayer : geometry_data Int),
      readObjectIDAndName content node properties = Except.ok (id, name) ∧
      originalIndices.length < 2147483648 ∧
      readMesh toFloat id name originalPositionsRaw originalIndices uvLayer normalLayer
        materialLayer flags outMeshes = Except.ok out := by
  unfold readMeshOfNode at h
  cases h1 : readObjectIDAndName content node properties with
  | error e => rw [h1] at h; exact absurd h (by simp)
  | ok r1 =>
    obtain ⟨id, name⟩ := r1
    rw [h1] at h
    simp only at h
    cases h2 : node.findChild nodes (sized_string.ofLiteral "Vertices") with
    | error e => rw [h2] at h; exact absurd h (by simp)
    | ok positionsNode =>
      rw [h2] at h
      simp only at h
      cases h3 : firstPropertyOfPtr properties positionsNode with
      | error e => rw [h3] at h; exact absurd h (by simp)
      | ok positionsProp =>
        rw [h3] at h
        simp only at h
        cases h4 : readDoubleArray decompress content positionsProp with
        | error e => rw [h4] at h; exact absurd h (by simp)
        | ok raw =>
          rw [h4] at h
          simp only at h
          cases h5 : node.findChild nodes (sized_string.ofLiteral "PolygonVertexIndex") with
          | error e => rw [h5] at h; exact absurd h (by simp)
          | ok indicesNode =>
            rw [h5] at h
            simp only at h
            cases h6 : firstPropertyOfPtr properties indicesNode with
            | error e => rw [h6] at h; exact absurd h (by simp)
            | ok indicesProp =>
              rw [h6] at h
              simp only at h
              cases h7 : readInt32Array decompress content indicesProp with
              | error e => rw [h7] at h; exact absurd h (by simp)
              | ok indices =>
                rw [h7] at h
                simp only at h
                have hraw : raw.length % 4294967296 = raw.length := by
                  rw [readDoubleArray_length _ _ _ _ h4]
                  have := hsmall _ (firstPropertyOfPtr_mem _ _ _ h3)
                  omega
                have hind : indices.length < 2147483648 := by
                  rw [readInt32Array_length _ _ _ _ h7]
                  exact hsmall _ (firstPropertyOfPtr_mem _ _ _ h6)
                rw [hraw] at h
                cases h8 : expandLoop toFloat raw indices []
                    (List.replicate (raw.length / 3) ⟨0, 0⟩) 0 with
                | error e => rw [h8] at h; exact absurd h (by simp)
                | ok r8 =>
                  obtain ⟨positions, counted, numFaces⟩ := r8
                  rw [h8] at h
                  simp only at h
                  cases h9 : slotLoop indices 0 (offsetLoop counted 0)
                      (List.replicate indices.length 0) with
                  | error e => rw [h9] at h; exact absurd h (by simp)
                  | ok r9 =>
                    obtain ⟨voc, o2n⟩ := r9
                    rw [h9] at h
                    simp only at h
                    split at h
                    · exact absurd h (by simp)
                    · rename_i uvLayer huv
                      split at h
                      · exact absurd h (by simp)
                      · rename_i uvs huvs
                        split at h
                        · exact absurd h (by simp)
                        · rename_i normalLayer hnl
                          split at h
                          · exact absurd h (by simp)
                          · rename_i normals hnormals
                            split at h
                            · exact absurd h (by simp)
                            · rename_i materialLayer hml
                              refine ⟨id, name, raw, indices, uvLayer, normalLayer,
                                materialLayer, rfl, hind, ?_⟩
                              unfold readMesh
                              simp only [h8, h9, huvs, hnormals]
                              exact h

/-- The ids of a list of nodes with one more node at its end. -/
theorem objectIds_append (content : List Nat) (properties : List fbx_property) (kind : String)
    (before : List fbx_node) (node : fbx_node) :
    objectIds content properties kind (before ++ [node])
      = objectIds content properties kind before
        ++ if node.name.eq (sized_string.ofLiteral kind) then
            match readObjectIDAndName content node properties with
            | Except.ok (id, _) => [id]
            | Except.error _ => []
          else [] := by
  simp only [objectIds, List.filter_append, List.filterMap_append]
  congr 1
  by_cases h : node.name.eq (sized_string.ofLiteral kind) = true
  · simp only [List.filter_cons, h, if_true, List.filter_nil, List.filterMap_cons,
      List.filterMap_nil]
    cases readObjectIDAndName content node properties with
    | error e => rfl
    | ok r => rfl
  · simp [List.filter_cons, h]

/-- The meshes that a successful `readMesh` appends carry the id and the name of the geometry
and pairwise different material indices. -/
theorem readMesh_new_meshes {D F : Type} [DecidableEq F] [Zero F] (toFloat : D → F) (id : Int)
    (name : sized_string) (originalPositionsRaw : List D) (originalIndices : List Int)
    (uvLayer normalLayer : geometry_data D) (materialLayer : geometry_data Int) (flags : Nat)
    (outMeshes out : List (fbx_mesh F)) (hlen : originalIndices.length < 2147483648)
    (h : readMesh toFloat id name originalPositionsRaw originalIndices uvLayer normalLayer
      materialLayer flags outMeshes = Except.ok out) :
    ∃ newMeshes : List (fbx_mesh F), out = outMeshes ++ newMeshes ∧
      (∀ mesh, mesh ∈ newMeshes → mesh.id = id) ∧
      (newMeshes.map fun mesh => mesh.materialIndex).Nodup := by
  obtain ⟨positions, uvs, normals, materialIndices, m, _, _, hwalk, hout⟩ :=
    readMesh_ok toFloat id name originalPositionsRaw originalIndices uvLayer normalLayer
      materialLayer flags outMeshes out hlen h
  obtain ⟨_, _, _, hnd, _⟩ :=
    polygonWalk_spec positions uvs normals originalIndices materialIndices _ 0 0 [] m hwalk
  refine ⟨outputMeshes id name m, hout, ?_, ?_⟩
  · intro mesh hmesh
    simp only [outputMeshes, List.mem_map] at hmesh
    obtain ⟨entry, _, rfl⟩ := hmesh
    rfl
  · have hkeys : (outputMeshes id name m).map (fun mesh => mesh.materialIndex)
        = m.map Prod.fst := by
      simp [outputMeshes, Function.comp_def]
    rw [hkeys]
    exact hnd (by simp)

/-- The body of the loop of `readTexture` keeps the id and the name of the texture. -/
theorem readTexture_body_keeps (content : List Nat) (properties : List fbx_property)
    (result r : fbx_texture) (child : fbx_node)
    (h : readTexture_body content properties result child = Except.ok r) :
    r.id = result.id ∧ r.name = result.name := by
  unfold readTexture_body at h
  repeat' split at h
  all_goals first
    | (simp only [Except.ok.injEq] at h; subst h; exact ⟨rfl, rfl⟩)
    | exact absurd h (by simp)

/-- A successful `readTexture` appends one texture, with the id and the name of the node. -/
theorem readTexture_ok (content : List Nat) (node : fbx_node) (nodes : List fbx_node)
    (properties : List fbx_property) (outTextures out : List fbx_texture)
    (h : readTexture content node nodes properties outTextures = Except.ok out) :
    ∃ t : fbx_texture, out = outTextures ++ [t] ∧
      readObjectIDAndName content node properties = Except.ok (t.id, t.name) := by
  unfold readTexture at h
  cases h1 : readObjectIDAndName content node properties with
  | error e => rw [h1] at h; exact absurd h (by simp)
  | ok r1 =>
    obtain ⟨id, name⟩ := r1
    rw [h1] at h
    simp only at h
    cases h2 : forChildren nodes (readTexture_body content properties) (nodes.length + 1)
        (iteratorBegin (some node)) ⟨id, name, ⟨[]⟩, ⟨[]⟩⟩ with
    | error e => rw [h2] at h; exact absurd h (by simp)
    | ok t =>
      rw [h2] at h
      simp only [Except.ok.injEq] at h
      have hkeep := forChildren_invariant nodes (readTexture_body content properties)
        (fun s => s.id = id ∧ s.name = name)
        (by
          intro s s1 child hb hq
          obtain ⟨b1, b2⟩ := readTexture_body_keeps content properties s s1 child hb
          exact ⟨b1.trans hq.1, b2.trans hq.2⟩)
        _ _ _ _ h2 ⟨rfl, rfl⟩
      exact ⟨t, h.symm, by rw [hkeep.1, hkeep.2]⟩

/-- A node whose name is one of `Geometry`, `Material` and `Texture` does not have another of
these names. -/
theorem object_names_exclusive (name : sized_string) :
    (name.eq (sized_string.ofLiteral "Geometry") = true →
      name.eq (sized_string.ofLiteral "Material") = false ∧
      name.eq (sized_string.ofLiteral "Texture") = false) ∧
    (name.eq (sized_string.ofLiteral "Material") = true →
      name.eq (sized_string.ofLiteral "Geometry") = false ∧
      name.eq (sized_string.ofLiteral "Texture") = false) ∧
    (name.eq (sized_string.ofLiteral "Texture") = true →
      name.eq (sized_string.ofLiteral "Geometry") = false ∧
      name.eq (sized_string.ofLiteral "Material") = false) := by
  refine ⟨?_, ?_, ?_⟩
  · intro h
    rw [(sized_string_eq_iff _ _ (by decide)).1 h]
    exact ⟨by decide, by decide⟩
  · intro h
    rw [(sized_string_eq_iff _ _ (by decide)).1 h]
    exact ⟨by decide, by decide⟩
  · intro h
    rw [(sized_string_eq_iff _ _ (by decide)).1 h]
    exact ⟨by decide, by decide⟩

/-- A loop over a list establishes for the whole list a property of the elements worked on
and the state that holds at the start and that its body extends by one element. -/
theorem foldExcept_prefix_invariant {σ α : Type} (body : σ → α → Except fbx_error σ)
    (Q : List α → σ → Prop)
    (hbody : ∀ (before : List α) (a : α) (s s1 : σ), body s a = Except.ok s1 →
      Q before s → Q (before ++ [a]) s1) :
    ∀ (l before : List α) (s r : σ), foldExcept body l s = Except.ok r → Q before s →
      Q (before ++ l) r := by
  intro l
  induction l with
  | nil =>
    intro before s r h hs
    simp only [foldExcept, Except.ok.injEq] at h
    subst h
    simpa using hs
  | cons a rest ih =>
    intro before s r h hs
    simp only [foldExcept] at h
    cases hb : body s a with
    | error e => rw [hb] at h; exact absurd h (by simp)
    | ok s1 =>
      rw [hb] at h
      have := ih (before ++ [a]) s1 r h (hbody before a s s1 hb hs)
      simpa using this

/-- The body of the loop over the children of the node `Objects` keeps the agreement of the
ids of the objects with the ids of the nodes. -/
theorem readObject_idsAgree {F : Type} [DecidableEq F] [Zero F] [One F] (toFloat : Nat → F)
    (decompress : List Nat → List Nat) (content : List Nat) (nodes : List fbx_node)
    (properties : List fbx_property) (flags : Nat)
    (hsmall : ∀ p, p ∈ properties → p.numElements < 2147483648)
    (before : List fbx_node) (objectNode : fbx_node) (scene scene1 : fbx_scene F)
    (h : readObject toFloat decompress content nodes properties flags scene objectNode
      = Except.ok scene1)
    (hinv : idsAgree content properties flags before scene) :
    idsAgree content properties flags (before ++ [objectNode]) scene1 := by
  obtain ⟨hmat, htex, hmesh, hnd⟩ := hinv
  obtain ⟨exG, exM, exT⟩ := object_names_exclusive objectNode.name
  unfold readObject at h
  split at h
  · exact absurd h (by simp)
  · rename_i models _
    by_cases hG : objectNode.name.eq (sized_string.ofLiteral "Geometry") = true
    · obtain ⟨hM, hT⟩ := exG hG
      rw [if_pos hG] at h
      cases hr : readMeshOfNode toFloat decompress content objectNode nodes properties flags
          scene.meshes with
      | error e => rw [hr] at h; exact absurd h (by simp)
      | ok meshes =>
        rw [hr] at h
        simp only [Except.ok.injEq] at h
        subst h
        obtain ⟨id, name, raw, indices, uvLayer, normalLayer, materialLayer, hid, hlen, hrm⟩ :=
          readMeshOfNode_ok toFloat decompress content objectNode nodes properties flags _ _
            hsmall hr
        obtain ⟨newMeshes, hout, hnewid, hnewnd⟩ :=
          readMesh_new_meshes toFloat id name raw indices uvLayer normalLayer materialLayer
            flags _ _ hlen hrm
        have hidsG : objectIds content properties "Geometry" (before ++ [objectNode])
            = objectIds content properties "Geometry" before ++ [id] := by
          rw [objectIds_append, if_pos hG, hid]
        refine ⟨?_, ?_, ?_, ?_⟩
        · simp only [objectIds_append, hM, Bool.false_eq_true, if_false, List.append_nil]
          exact hmat
        · simp only [objectIds_append, hT, Bool.false_eq_true, if_false, List.append_nil]
          exact htex
        · intro mesh hm
          simp only [] at hm
          rw [hidsG, List.mem_append]
          rw [hout, List.mem_append] at hm
          rcases hm with hm | hm
          · exact Or.inl (hmesh mesh hm)
          · exact Or.inr (by rw [hnewid mesh hm]; simp)
        · intro hnodup
          rw [hidsG, List.nodup_append] at hnodup
          obtain ⟨hnd1, _, hdisj⟩ := hnodup
          simp only []
          rw [hout, List.map_append, List.nodup_append]
          refine ⟨hnd hnd1, ?_, ?_⟩
          · apply List.Nodup.of_map Prod.snd
            rw [List.map_map]
            exact hnewnd
          · intro x hx1 hx2
            simp only [List.mem_map] at hx1 hx2
            obtain ⟨mesh1, hm1, rfl⟩ := hx1
            obtain ⟨mesh2, hm2, heq⟩ := hx2
            have h1 := hmesh mesh1 hm1
            have h2 := hnewid mesh2 hm2
            have h3 : mesh1.id = id := by
              rw [← h2]
              exact (congrArg Prod.fst heq).symm
            rw [h3] at h1
            exact hdisj h1 (by simp)
    · have hGf : objectNode.name.eq (sized_string.ofLiteral "Geometry") = false := by
        simpa using hG
      rw [if_neg hG] at h
      have hmeshes : (∀ mesh, mesh ∈ scene.meshes →
            mesh.id ∈ objectIds content properties "Geometry" (before ++ [objectNode])) ∧
          ((objectIds content properties "Geometry" (before ++ [objectNode])).Nodup →
            (scene.meshes.map fun mesh => (mesh.id, mesh.materialIndex)).Nodup) := by
        simp only [objectIds_append, hGf, Bool.false_eq_true, if_false, List.append_nil]
        exact ⟨hmesh, hnd⟩
      by_cases hM : objectNode.name.eq (sized_string.ofLiteral "Material") = true
      · obtain ⟨_, hT⟩ := exM hM
        rw [if_pos hM] at h
        have htex1 : (scene.textures.map fun texture => texture.id)
            = (if flagSet flags mesh_flags.mesh_flag_load_materials then
                objectIds content properties "Texture" (before ++ [objectNode]) else []) := by
          simp only [objectIds_append, hT, Bool.false_eq_true, if_false, List.append_nil]
          exact htex
        by_cases hf : flagSet flags mesh_flags.mesh_flag_load_materials = true
        · rw [if_pos hf] at h
          cases hr : readMaterial toFloat content objectNode nodes properties
              scene.materials with
          | error e => rw [hr] at h; exact absurd h (by simp)
          | ok materials =>
            rw [hr] at h
            simp only [Except.ok.injEq] at h
            subst h
            obtain ⟨id, name, m, hid, _, hmid, _, _, hout⟩ :=
              readMaterial_ok toFloat content objectNode nodes properties _ _ hr
            refine ⟨?_, htex1, hmeshes.1, hmeshes.2⟩
            simp only [hf, if_true] at hmat ⊢
            rw [objectIds_append, if_pos hM, hid, hout, List.map_append, hmat]
            simp [hmid]
        · rw [if_neg hf] at h
          simp only [Except.ok.injEq] at h
          subst h
          refine ⟨?_, htex1, hmeshes.1, hmeshes.2⟩
          simp only [hf, Bool.false_eq_true, if_false] at hmat ⊢
          exact hmat
      · have hMf : objectNode.name.eq (sized_string.ofLiteral "Material") = false := by
          simpa using hM
        rw [if_neg hM] at h
        have hmat1 : (scene.materials.map fun material => material.id)
            = (if flagSet flags mesh_flags.mesh_flag_load_materials then
                objectIds content properties "Material" (before ++ [objectNode])
              else []) := by
          simp only [objectIds_append, hMf, Bool.false_eq_true, if_false, List.append_nil]
          exact hmat
        by_cases hT : objectNode.name.eq (sized_string.ofLiteral "Texture") = true
        · rw [if_pos hT] at h
          by_cases hf : flagSet flags mesh_flags.mesh_flag_load_materials = true
          · rw [if_pos hf] at h
            cases hr : readTexture content objectNode nodes properties scene.textures with
            | error e => rw [hr] at h; exact absurd h (by simp)
            | ok textures =>
              rw [hr] at h
              simp only [Except.ok.injEq] at h
              subst h
              obtain ⟨t, hout, hid⟩ := readTexture_ok content objectNode nodes properties _ _ hr
              refine ⟨hmat1, ?_, hmeshes.1, hmeshes.2⟩
              simp only [hf, if_true] at htex ⊢
              rw [objectIds_append, if_pos hT, hid, hout, List.map_append, htex]
              simp
          · rw [if_neg hf] at h
            simp only [Except.ok.injEq] at h
            subst h
            refine ⟨hmat1, ?_, hmeshes.1, hmeshes.2⟩
            simp only [hf, Bool.false_eq_true, if_false] at htex ⊢
            exact htex
        · have hTf : objectNode.name.eq (sized_string.ofLiteral "Texture") = false := by
            simpa using hT
          rw [if_neg hT] at h
          simp only [Except.ok.injEq] at h
          subst h
          refine ⟨hmat1, ?_, hmeshes.1, hmeshes.2⟩
          simp only [objectIds_append, hTf, Bool.false_eq_true, if_false, List.append_nil]
          exact htex

/-- The extraction of the objects of `sceneFile`. -/
theorem sceneFile_objects :
    findNode sceneNodes [sized_string.ofLiteral "Objects"] = Except.ok (some sceneObjectsNode) ∧
    childrenOf sceneNodes (some sceneObjectsNode) = Except.ok sceneChildren ∧
    loadFBX_objects (fun n : Nat => (n : Int)) (fun bytes => bytes) sceneFile sceneNodes
      sceneProperties loadFBX_flags = Except.ok sceneObjects := by
  refine ⟨by rfl, by rfl, by rfl⟩

/-- The whole loop over the children of the node `Objects` establishes the agreement of the ids
of the objects with the ids of the nodes. -/
theorem loadFBX_objects_idsAgree {F : Type} [DecidableEq F] [Zero F] [One F]
    (toFloat : Nat → F) (decompress : List Nat → List Nat) (content : List Nat)
    (nodes : List fbx_node) (properties : List fbx_property) (flags : Nat)
    (objectsNode : Option fbx_node) (children : List fbx_node) (scene : fbx_scene F)
    (hsmall : ∀ p, p ∈ properties → p.numElements < 2147483648)
    (hfind : findNode nodes [sized_string.ofLiteral "Objects"] = Except.ok objectsNode)
    (hchildren : childrenOf nodes objectsNode = Except.ok children)
    (h : loadFBX_objects toFloat decompress content nodes properties flags
      = Except.ok scene) :
    idsAgree content properties flags children scene := by
  unfold loadFBX_objects at h
  rw [hfind] at h
  simp only at h
  rw [forChildren_eq_foldExcept nodes _ _ children hchildren] at h
  have := foldExcept_prefix_invariant
    (readObject toFloat decompress content nodes properties flags)
    (fun before s => idsAgree content properties flags before s)
    (fun before a s s1 hb hq =>
      readObject_idsAgree toFloat decompress content nodes properties flags hsmall before a
        s s1 hb hq)
    children [] ⟨[], [], [], []⟩ scene h
    (by
      refine ⟨?_, ?_, ?_, ?_⟩
      · simp [objectIds]
      · simp [objectIds]
      · intro mesh hm
        simp at hm
      · intro _
        simp)
  simpa using this

/-- C22, amended: after a successful extraction of the objects of a node tree whose arrays have
fewer than `2^31` elements each, the materials have pairwise different ids when the nodes
`Material` have, the textures have pairwise different ids when the nodes `Texture` have, every
mesh carries the id of a node `Geometry`, and when the nodes `Geometry` have pairwise different
ids, no two meshes have the same id and the same material index (the meshes of one geometry
share its id). -/
theorem loadFBX_objects_distinct_ids {F : Type} [DecidableEq F] [Zero F] [One F]
    (toFloat : Nat → F) (decompress : List Nat → List Nat) (content : List Nat)
    (nodes : List fbx_node) (properties : List fbx_property) (flags : Nat)
    (objectsNode : Option fbx_node) (children : List fbx_node) (scene : fbx_scene F)
    (hsmall : ∀ p, p ∈ properties → p.numElements < 2147483648)
    (hfind : findNode nodes [sized_string.ofLiteral "Objects"] = Except.ok objectsNode)
    (hchildren : childrenOf nodes objectsNode = Except.ok children)
    (h : loadFBX_objects toFloat decompress content nodes properties flags
      = Except.ok scene) :
    ((objectIds content properties "Material" children).Nodup →
      (scene.materials.map fun material => material.id).Nodup) ∧
    ((objectIds content properties "Texture" children).Nodup →
      (scene.textures.map fun texture => texture.id).Nodup) ∧
    (∀ mesh, mesh ∈ scene.meshes →
      mesh.id ∈ objectIds content properties "Geometry" children) ∧
    ((objectIds content properties "Geometry" children).Nodup →
      (scene.meshes.map fun mesh => (mesh.id, mesh.materialIndex)).Nodup) := by
  obtain ⟨hmat, htex, hmesh, hnd⟩ :=
    loadFBX_objects_idsAgree toFloat decompress content nodes properties flags objectsNode
      children scene hsmall hfind hchildren h
  refine ⟨?_, ?_, hmesh, hnd⟩
  · intro hn
    rw [hmat]
    split
    · exact hn
    · exact List.nodup_nil
  · intro hn
    rw [htex]
    split
    · exact hn
    · exact List.nodup_nil

/-- C22, amended, at a sample input: the objects of `sceneFile`. -/
theorem loadFBX_objects_distinct_ids_witness :
    (sceneObjects.materials.map fun material => material.id).Nodup ∧
    (sceneObjects.textures.map fun texture => texture.id).Nodup ∧
    (∀ mesh, mesh ∈ sceneObjects.meshes →
      mesh.id ∈ objectIds sceneFile sceneProperties "Geometry" sceneChildren) ∧
    (sceneObjects.meshes.map fun mesh => (mesh.id, mesh.materialIndex)).Nodup :=
  ⟨(loadFBX_objects_distinct_ids (fun n : Nat => (n : Int)) (fun bytes => bytes) sceneFile
      sceneNodes sceneProperties loadFBX_flags (some sceneObjectsNode) sceneChildren
      sceneObjects (by decide) (by rfl) (by rfl) (by rfl)).1 (by decide),
    (loadFBX_objects_distinct_ids (fun n : Nat => (n : Int)) (fun bytes => bytes) sceneFile
      sceneNodes sceneProperties loadFBX_flags (some sceneObjectsNode) sceneChildren
      sceneObjects (by decide) (by rfl) (by rfl) (by rfl)).2.1 (by decide),
    (loadFBX_objects_distinct_ids (fun n : Nat => (n : Int)) (fun bytes => bytes) sceneFile
      sceneNodes sceneProperties loadFBX_flags (some sceneObjectsNode) sceneChildren
      sceneObjects (by decide) (by rfl) (by rfl) (by rfl)).2.2.1,
    (loadFBX_objects_distinct_ids (fun n : Nat => (n : Int)) (fun bytes => bytes) sceneFile
      sceneNodes sceneProperties loadFBX_flags (some sceneObjectsNode) sceneChildren
      sceneObjects (by decide) (by rfl) (by rfl) (by rfl)).2.2.2 (by decide)⟩

/-- C22, counterexample: `sceneFile` has one node `Geometry`, one node `Material` and one node
`Texture`, so the ids are pairwise different within each kind; the extraction succeeds and the
two meshes of the geometry both carry the id 7. -/
theorem split_geometry_shares_id :
    loadFBX_nodes (entire_file.ofBytes sceneFile)
      = load_result.parsed 7400
          (Except.ok ⟨⟨sceneFile, 664⟩, sceneNodes, sceneProperties⟩) ∧
    loadFBX_objects (fun n : Nat => (n : Int)) (fun bytes => bytes) sceneFile sceneNodes
      sceneProperties loadFBX_flags = Except.ok sceneObjects ∧
    objectIds sceneFile sceneProperties "Geometry" sceneChildren = [7] ∧
    objectIds sceneFile sceneProperties "Material" sceneChildren = [20] ∧
    objectIds sceneFile sceneProperties "Texture" sceneChildren = [30] ∧
    (sceneObjects.meshes.map fun mesh => mesh.id) = [7, 7] ∧
    ¬ (sceneObjects.meshes.map fun mesh => mesh.id).Nodup := by
  refine ⟨by rfl, by rfl, by rfl, by rfl, by rfl, by rfl, by decide⟩

/-! ## Fuel of the object readers -/

/-- A layer element that is read when its flag is set never stops for lack of fuel when the
links are well-formed. -/
theorem readLayer_fuel {T : Type} (readData : fbx_property → Except fbx_error (List T))
    (hread : ∀ prop, readData prop ≠ Except.error fbx_error.out_of_fuel)
    (decompress : List Nat → List Nat) (content : List Nat) (node : fbx_node)
    (nodes : List fbx_node) (hlinks : linksIncrease nodes = true)
    (properties : List fbx_property) (cond : Bool)
    (layerName dataNodeName indexNodeName : sized_string) :
    (if cond then
        match node.findChild nodes layerName with
        | Except.error e => Except.error e
        | Except.ok layerNode =>
          readGeometryData readData decompress content layerNode nodes properties dataNodeName
            indexNodeName
      else Except.ok geometry_data.absent) ≠ Except.error fbx_error.out_of_fuel := by
  split
  · split
    · rename_i e he
      intro hc
      cases hc
      exact findChild_fuel _ _ hlinks _ he
    · exact readGeometryData_fuel readData hread decompress content _ nodes hlinks properties
        _ _
  · simp

/-- The function `readMesh` on the node of a geometry never stops for lack of fuel when the
links are well-formed and the element counts fit the type `int32`: the fuel of every loop is
enough. -/
theorem readMeshOfNode_fuel {F : Type} [DecidableEq F] [Zero F] (toFloat : Nat → F)
    (decompress : List Nat → List Nat) (content : List Nat) (node : fbx_node)
    (nodes : List fbx_node) (hlinks : linksIncrease nodes = true)
    (properties : List fbx_property) (flags : Nat) (outMeshes : List (fbx_mesh F))
    (hsmall : ∀ p, p ∈ properties → p.numElements < 2147483648) :
    readMeshOfNode toFloat decompress content node nodes properties flags outMeshes
      ≠ Except.error fbx_error.out_of_fuel := by
  intro h
  unfold readMeshOfNode at h
  cases h1 : readObjectIDAndName content node properties with
  | error e =>
    rw [h1] at h
    simp only [Except.error.injEq] at h
    exact readObjectIDAndName_fuel _ _ _ (h ▸ h1)
  | ok r1 =>
    obtain ⟨id, name⟩ := r1
    rw [h1] at h
    simp only at h
    cases h2 : node.findChild nodes (sized_string.ofLiteral "Vertices") with
    | error e =>
      rw [h2] at h
      simp only [Except.error.injEq] at h
      exact findChild_fuel _ _ hlinks _ (h ▸ h2)
    | ok positionsNode =>
      rw [h2] at h
      simp only at h
      cases h3 : firstPropertyOfPtr properties positionsNode with
      | error e =>
        rw [h3] at h
        simp only [Except.error.injEq] at h
        exact firstPropertyOfPtr_fuel _ _ (h ▸ h3)
      | ok positionsProp =>
        rw [h3] at h
        simp only at h
        cases h4 : readDoubleArray decompress content positionsProp with
        | error e =>
          rw [h4] at h
          simp only [Except.error.injEq] at h
          exact readDoubleArray_fuel _ _ _ (h ▸ h4)
        | ok raw =>
          rw [h4] at h
          simp only at h
          cases h5 : node.findChild nodes (sized_string.ofLiteral "PolygonVertexIndex") with
          | error e =>
            rw [h5] at h
            simp only [Except.error.injEq] at h
            exact findChild_fuel _ _ hlinks _ (h ▸ h5)
          | ok indicesNode =>
            rw [h5] at h
            simp only at h
            cases h6 : firstPropertyOfPtr properties indicesNode with
            | error e =>
              rw [h6] at h
              simp only [Except.error.injEq] at h
              exact firstPropertyOfPtr_fuel _ _ (h ▸ h6)
            | ok indicesProp =>
              rw [h6] at h
              simp only at h
              cases h7 : readInt32Array decompress content indicesProp with
              | error e =>
                rw [h7] at h
                simp only [Except.error.injEq] at h
                exact readInt32Array_fuel _ _ _ (h ▸ h7)
              | ok indices =>
                rw [h7] at h
                simp only at h
                have hind : indices.length < 2147483648 := by
                  rw [readInt32Array_length _ _ _ _ h7]
                  exact hsmall _ (firstPropertyOfPtr_mem _ _ _ h6)
                have hend : (toInt32 indices.length).toNat = indices.length := by
                  rw [toInt32_of_lt _ hind]
                  simp
                rw [hend] at h
                split at h
                · rename_i e he
                  simp only [Except.error.injEq] at h
                  exact expandLoop_fuel _ _ _ _ _ _ (h ▸ he)
                · split at h
                  · rename_i e he
                    simp only [Except.error.injEq] at h
                    exact slotLoop_fuel _ _ _ _ (h ▸ he)
                  · split at h
                    · rename_i e he
                      simp only [Except.error.injEq] at h
                      exact readLayer_fuel (readDoubleArray decompress content)
                        (readDoubleArray_fuel decompress content) decompress content node
                        nodes hlinks properties _ _ _ _ (h ▸ he)
                    · split at h
                      · rename_i e he
                        rw [readUVs_eq_ok_nil] at he
                        cases he
                      · split at h
                        · rename_i e he
                          simp only [Except.error.injEq] at h
                          exact readLayer_fuel (readDoubleArray decompress content)
                            (readDoubleArray_fuel decompress content) decompress content node
                            nodes hlinks properties _ _ _ _ (h ▸ he)
                        · split at h
                          · rename_i e he
                            simp only [Except.error.injEq] at h
                            exact readNormals_fuel _ _ _ _ _ _ (h ▸ he)
                          · split at h
                            · rename_i e he
                              simp only [Except.error.injEq] at h
                              exact readLayer_fuel (readInt32Array decompress content)
                                (readInt32Array_fuel decompress content) decompress content
                                node nodes hlinks properties _ _ _ _ (h ▸ he)
                            · split at h
                              · rename_i e he
                                simp only [Except.error.injEq] at h
                                exact readMaterialIndices_fuel _ _ _ (h ▸ he)
                              · split at h
                                · rename_i e he
                                  simp only [Except.error.injEq] at h
                                  exact polygonWalk_fuel _ _ _ _ _ _ _ _ _ (by omega) (h ▸ he)
                                · cases h

/-- The body of the loop over the objects never stops for lack of fuel when the links are
well-formed and the element counts fit the type `int32`. -/
theorem readObject_fuel {F : Type} [DecidableEq F] [Zero F] [One F] (toFloat : Nat → F)
    (decompress : List Nat → List Nat) (content : List Nat) (nodes : List fbx_node)
    (hlinks : linksIncrease nodes = true) (properties : List fbx_property) (flags : Nat)
    (hsmall : ∀ p, p ∈ properties → p.numElements < 2147483648) (scene : fbx_scene F)
    (objectNode : fbx_node) :
    readObject toFloat decompress content nodes properties flags scene objectNode
      ≠ Except.error fbx_error.out_of_fuel := by
  unfold readObject
  split
  · rename_i e he
    intro hc
    cases hc
    split at he
    · exact readModel_fuel _ _ _ _ hlinks _ _ he
    · cases he
  · repeat' split
    all_goals first
      | (simp; done)
      | (rename_i e he
         intro hc
         cases hc
         first
           | exact readMeshOfNode_fuel _ _ _ _ _ hlinks _ _ _ hsmall he
           | exact readMaterial_fuel _ _ _ _ hlinks _ _ he
           | exact readTexture_fuel _ _ _ hlinks _ _ he)

/-- The extraction of the objects never stops for lack of fuel when the links are well-formed
and the element counts fit the type `int32`: the fuel of every loop is enough, and a failure is
a failed assertion or a read out of range of the source. -/
theorem loadFBX_objects_fuel {F : Type} [DecidableEq F] [Zero F] [One F] (toFloat : Nat → F)
    (decompress : List Nat → List Nat) (content : List Nat) (nodes : List fbx_node)
    (hlinks : linksIncrease nodes = true) (properties : List fbx_property) (flags : Nat)
    (hsmall : ∀ p, p ∈ properties → p.numElements < 2147483648) :
    (loadFBX_objects toFloat decompress content nodes properties flags
      : Except fbx_error (fbx_scene F)) ≠ Except.error fbx_error.out_of_fuel := by
  unfold loadFBX_objects
  split
  · rename_i e he
    intro hc
    cases hc
    exact findNode_fuel _ hlinks _ he
  · exact forChildren_fuel nodes hlinks _
      (readObject_fuel toFloat decompress content nodes hlinks properties flags hsmall)
      _ _ _ (by omega) (by omega)

/-- The walk over a sibling chain that starts at a missing node or at a node of the array
visits a list of children when the links are well-formed. -/
theorem forChildren_collect_ok (nodes : List fbx_node) (hlinks : linksIncrease nodes = true) :
    ∀ (fuel child : Nat) (visited : List fbx_node), 0 < fuel →
      nodes.length < child + fuel → child = noNode ∨ child < nodes.length →
      ∃ children, forChildren nodes (fun visited node => Except.ok (visited ++ [node])) fuel
        child visited = Except.ok children := by
  intro fuel
  induction fuel with
  | zero => intro child visited h0; omega
  | succ fuel ih =>
    intro child visited _ hfuel hchild
    simp only [forChildren]
    by_cases hc : child = noNode
    · exact ⟨visited, by simp [hc]⟩
    · have hc1 : (child != noNode) = true := by simpa using hc
      have hlt : child < nodes.length := by
        rcases hchild with hk | hk
        · exact absurd hk hc
        · exact hk
      simp only [hc1, if_true]
      obtain ⟨node, hnode⟩ : ∃ node, nodes[child]? = some node :=
        ⟨nodes[child], List.getElem?_eq_getElem hlt⟩
      rw [vecGet_eq_ok _ _ _ hnode]
      simp only []
      have hok := ((linksIncrease_iff _).1 hlinks child node hnode).1
      rw [linkOk_iff] at hok
      rcases hok with hk | hk
      · rw [hk]
        obtain ⟨fuel1, rfl⟩ : ∃ fuel1, fuel = fuel1 + 1 := ⟨fuel - 1, by omega⟩
        exact ⟨visited ++ [node], by simp [forChildren]⟩
      · exact ih _ _ (by omega) (by omega) (Or.inr hk.2)

/-- When the links are well-formed, every node of the array has a list of children that the
iterator visits, and so has the null pointer. -/
theorem childrenOf_ok (nodes : List fbx_node) (hlinks : linksIncrease nodes = true)
    (node : Option fbx_node) (hnode : ∀ n, node = some n → n ∈ nodes) :
    ∃ children, childrenOf nodes node = Except.ok children := by
  unfold childrenOf childrenFrom
  refine forChildren_collect_ok nodes hlinks _ _ _ (by omega) (by omega) ?_
  cases node with
  | none => exact Or.inl rfl
  | some n =>
    obtain ⟨i, hi, hget⟩ := List.getElem_of_mem (hnode n rfl)
    have hn : nodes[i]? = some n := by
      rw [List.getElem?_eq_getElem hi, hget]
    have hok := ((linksIncrease_iff _).1 hlinks i n hn).2
    rw [linkOk_iff] at hok
    simp only [iteratorBegin]
    rcases hok with hk | hk
    · exact Or.inl hk
    · exact Or.inr hk.2

/-- On the arrays that the container decoder has built from a file, the extraction of the
objects never stops for lack of fuel, as long as the number of nodes fits the type `uint32` and
the element counts fit the type `int32`: every loop over nodes and properties ends. -/
theorem loadFBX_objects_parsed_fuel {F : Type} [DecidableEq F] [Zero F] [One F]
    (toFloat : Nat → F) (decompress : List Nat → List Nat) (file : entire_file)
    (version : Nat) (st : parse_state) (flags : Nat)
    (h : loadFBX_nodes file = load_result.parsed version (Except.ok st))
    (hnodes : st.outNodes.length < 4294967296)
    (hsmall : ∀ p, p ∈ st.outProperties → p.numElements < 2147483648) :
    (loadFBX_objects toFloat decompress file.content st.outNodes st.outProperties flags
      : Except fbx_error (fbx_scene F)) ≠ Except.error fbx_error.out_of_fuel :=
  loadFBX_objects_fuel toFloat decompress file.content st.outNodes
    (loadFBX_nodes_linksIncrease file version st h hnodes) st.outProperties flags hsmall

/-- The node array of `sceneFile` has well-formed links, and the extraction of its objects
does not stop for lack of fuel. -/
theorem sceneFile_objects_fuel :
    linksIncrease sceneNodes = true ∧
    (loadFBX_objects (fun n : Nat => (n : Int)) (fun bytes => bytes) sceneFile sceneNodes
      sceneProperties loadFBX_flags : Except fbx_error (fbx_scene Int))
      ≠ Except.error fbx_error.out_of_fuel :=
  ⟨by decide,
    loadFBX_objects_parsed_fuel (fun n : Nat => (n : Int)) (fun bytes => bytes)
      (entire_file.ofBytes sceneFile) 7400 ⟨⟨sceneFile, 664⟩, sceneNodes, sceneProperties⟩
      loadFBX_flags
      sceneFile_parse (by decide) (by decide)⟩

/-! ## Sample containers -/

/-- The decode of the container `twinFile`. -/
theorem twinFile_parse :
    loadFBX_nodes (entire_file.ofBytes twinFile)
      = load_result.parsed 7400
          (Except.ok ⟨⟨twinFile, 114⟩, twinNodes, twinProperties⟩) := by
  rfl

/-- The decode of the container `modelFile`. -/
theorem modelFile_parse :
    loadFBX_nodes (entire_file.ofBytes modelFile)
      = load_result.parsed 7400
          (Except.ok ⟨⟨modelFile, 436⟩, modelNodes, modelProperties⟩) := by
  rfl

/-- The decode of the container `geometryFile`. -/
theorem geometryFile_parse :
    loadFBX_nodes (entire_file.ofBytes geometryFile)
      = load_result.parsed 7400
          (Except.ok ⟨⟨geometryFile, 286⟩, geometryNodes, geometryProperties⟩) := by
  rfl

/-- The decode of the container `badModelFile`. -/
theorem badModelFile_parse :
    loadFBX_nodes (entire_file.ofBytes badModelFile)
      = load_result.parsed 7400
          (Except.ok ⟨⟨badModelFile, 247⟩, badModelNodes, badModelProperties⟩) := by
  rfl

/-- The decode of the container `layerFile`. -/
theorem layerFile_parse :
    loadFBX_nodes (entire_file.ofBytes layerFile)
      = load_result.parsed 7400
          (Except.ok ⟨⟨layerFile, 486⟩, layerNodes, layerProperties⟩) := by
  rfl

/-! ## Equality of sized strings -/

/-- The comparison `strncmp` of two byte sequences of equal length succeeds exactly when they
agree up to and including the first NUL byte. -/
theorem strncmpEq_iff_upToNul : ∀ (xs ys : List Nat), xs.length = ys.length →
    (strncmpEq xs ys = true ↔ upToNul xs = upToNul ys) := by
  intro xs
  induction xs with
  | nil =>
    intro ys hl
    have hys : ys = [] := List.length_eq_zero.mp hl.symm
    subst hys
    simp [strncmpEq, upToNul]
  | cons x xs ih =>
    intro ys hl
    cases ys with
    | nil => simp at hl
    | cons y ys =>
      have hl1 : xs.length = ys.length := by simpa using hl
      simp only [strncmpEq, upToNul, bne_iff_ne, ne_eq, ite_not, beq_iff_eq]
      by_cases hxy : x = y
      · subst hxy
        by_cases hx : x = 0
        · simp [hx]
        · simp only [if_true, hx, if_false, List.cons.injEq, true_and]
          exact ih ys hl1
      · simp only [hxy, if_false, Bool.false_eq_true, false_iff]
        intro hc
        by_cases hx : x = 0
        · by_cases hy : y = 0
          · exact hxy (hx.trans hy.symm)
          · simp only [hx, if_true, hy, if_false, List.cons.injEq] at hc
            exact hy hc.1.symm
        · by_cases hy : y = 0
          · simp only [hx, if_false, hy, if_true, List.cons.injEq] at hc
            exact hc.1.elim
          · simp only [hx, if_false, hy, List.cons.injEq] at hc
            exact hxy hc.1

/-- The bytes behind the first NUL byte do not count for `upToNul`. -/
theorem upToNul_append_nul (pre s : List Nat) :
    upToNul (pre ++ 0 :: s) = upToNul (pre ++ [0]) := by
  induction pre with
  | nil => simp [upToNul]
  | cons x pre ih =>
    rw [List.cons_append, List.cons_append, upToNul, upToNul, ih]

/-- C39: `operator==` on `sized_string` holds exactly when the lengths are equal and the bytes
agree up to and including the first NUL byte (over the whole length when there is none); it is
reflexive, symmetric and transitive; and it is coarser than the byte-wise equality: two names
of equal length that agree up to an embedded NUL byte compare equal whatever follows, as the
names `a\0b` and `a\0c` do. -/
theorem sized_string_eq_up_to_nul :
    (∀ a b : sized_string,
      a.eq b = true ↔ a.str.length = b.str.length ∧ upToNul a.str = upToNul b.str) ∧
    (∀ a : sized_string, a.eq a = true) ∧
    (∀ a b : sized_string, a.eq b = true → b.eq a = true) ∧
    (∀ a b c : sized_string, a.eq b = true → b.eq c = true → a.eq c = true) ∧
    (∀ pre s t : List Nat, s.length = t.length →
      sized_string.eq ⟨pre ++ 0 :: s⟩ ⟨pre ++ 0 :: t⟩ = true) ∧
    (sized_string.eq ⟨[97, 0, 98]⟩ ⟨[97, 0, 99]⟩ = true ∧
      (⟨[97, 0, 98]⟩ : sized_string) ≠ ⟨[97, 0, 99]⟩) := by
  have hiff : ∀ a b : sized_string,
      a.eq b = true ↔ a.str.length = b.str.length ∧ upToNul a.str = upToNul b.str := by
    intro a b
    simp only [sized_string.eq, Bool.and_eq_true, beq_iff_eq]
    constructor
    · intro h
      exact ⟨h.1, (strncmpEq_iff_upToNul _ _ h.1).1 h.2⟩
    · intro h
      exact ⟨h.1, (strncmpEq_iff_upToNul _ _ h.1).2 h.2⟩
  refine ⟨hiff, ?_, ?_, ?_, ?_, by decide, by decide⟩
  · intro a
    exact (hiff a a).2 ⟨rfl, rfl⟩
  · intro a b h
    obtain ⟨h1, h2⟩ := (hiff a b).1 h
    exact (hiff b a).2 ⟨h1.symm, h2.symm⟩
  · intro a b c hab hbc
    obtain ⟨h1, h2⟩ := (hiff a b).1 hab
    obtain ⟨h3, h4⟩ := (hiff b c).1 hbc
    exact (hiff a c).2 ⟨h1.trans h3, h2.trans h4⟩
  · intro pre s t hst
    refine (hiff _ _).2 ⟨?_, ?_⟩
    · simp [hst]
    · simp only []
      rw [upToNul_append_nul pre s, upToNul_append_nul pre t]

/-- C39 at sample names: the names `Model` and `Modem` differ, the name `ab\0cd` equals the
name `ab\0xy`, and the relation passes from `ab\0cd` over `ab\0xy` to `ab\0zz`. -/
theorem sized_string_eq_up_to_nul_witness :
    (sized_string.eq (sized_string.ofLiteral "Model") (sized_string.ofLiteral "Modem") = true ↔
      (sized_string.ofLiteral "Model").str.length = (sized_string.ofLiteral "Modem").str.length ∧
        upToNul (sized_string.ofLiteral "Model").str
          = upToNul (sized_string.ofLiteral "Modem").str) ∧
    sized_string.eq ⟨[97, 98, 0, 120, 121]⟩ ⟨[97, 98, 0, 99, 100]⟩ = true ∧
    sized_string.eq ⟨[97, 98, 0, 99, 100]⟩ ⟨[97, 98, 0, 122, 122]⟩ = true ∧
    sized_string.eq ⟨[97, 98] ++ 0 :: [99, 100]⟩ ⟨[97, 98] ++ 0 :: [120, 121]⟩ = true :=
  ⟨sized_string_eq_up_to_nul.1 _ _,
    sized_string_eq_up_to_nul.2.2.1 ⟨[97, 98, 0, 99, 100]⟩ ⟨[97, 98, 0, 120, 121]⟩ (by decide),
    sized_string_eq_up_to_nul.2.2.2.1 ⟨[97, 98, 0, 99, 100]⟩ ⟨[97, 98, 0, 120, 121]⟩
      ⟨[97, 98, 0, 122, 122]⟩ (by decide) (by decide),
    sized_string_eq_up_to_nul.2.2.2.2.1 [97, 98] [99, 100] [120, 121] (by decide)⟩

/-! ## Lookup of a node by its name -/

/-- For a path of one name the loop of `findNode` is the loop of `findChild`. -/
theorem findNodeLoop_single (nodes : List fbx_node) (name : sized_string) :
    ∀ (fuel currentNode : Nat),
      findNodeLoop nodes fuel currentNode [name] = findChildLoop nodes name fuel currentNode := by
  intro fuel
  induction fuel with
  | zero => intro currentNode; rfl
  | succ fuel ih =>
    intro currentNode
    simp only [findNodeLoop, findChildLoop]
    split
    · cases vecGet nodes currentNode with
      | error e => rfl
      | ok node =>
        simp only [List.isEmpty_nil, if_true]
        split
        · rfl
        · exact ih _
    · rfl

/-- With well-formed links the loop of `findChild` gives the same result for every fuel that
covers the nodes behind the start. -/
theorem findChildLoop_fuel_irrelevant (nodes : List fbx_node)
    (hlinks : linksIncrease nodes = true) (name : sized_string) :
    ∀ (fuel1 fuel2 currentNode : Nat), 0 < fuel1 → 0 < fuel2 →
      nodes.length < currentNode + fuel1 → nodes.length < currentNode + fuel2 →
      findChildLoop nodes name fuel1 currentNode = findChildLoop nodes name fuel2 currentNode := by
  intro fuel1
  induction fuel1 with
  | zero => intro fuel2 currentNode h0; omega
  | succ fuel1 ih =>
    intro fuel2 currentNode _ h2 hf1 hf2
    obtain ⟨fuel3, rfl⟩ : ∃ fuel3, fuel2 = fuel3 + 1 := ⟨fuel2 - 1, by omega⟩
    simp only [findChildLoop]
    split
    · cases hn : vecGet nodes currentNode with
      | error e => rfl
      | ok child =>
        simp only []
        split
        · rfl
        · have hget := vecGet_ok_getElem _ _ _ hn
          have hlt : currentNode < nodes.length := by
            rcases Nat.lt_or_ge currentNode nodes.length with hlt | hge
            · exact hlt
            · rw [List.getElem?_eq_none hge] at hget
              cases hget
          have hok := ((linksIncrease_iff _).1 hlinks currentNode child hget).1
          rw [linkOk_iff] at hok
          rcases hok with hk | hk
          · rw [hk]
            obtain ⟨a, rfl⟩ : ∃ a, fuel1 = a + 1 := ⟨fuel1 - 1, by omega⟩
            obtain ⟨b, rfl⟩ : ∃ b, fuel3 = b + 1 := ⟨fuel3 - 1, by omega⟩
            simp [findChildLoop]
          · exact ih _ _ (by omega) (by omega) (by omega) (by omega)
    · rfl

/-- For a path of two names and well-formed links, the loop of `findNode` is the loop of
`findChild` for the first name, followed by `findChild` for the second name on the node
found. -/
theorem findNodeLoop_pair (nodes : List fbx_node) (hlinks : linksIncrease nodes = true)
    (name1 name2 : sized_string) :
    ∀ (fuel currentNode : Nat), 0 < fuel → nodes.length < currentNode + fuel →
      findNodeLoop nodes fuel currentNode [name1, name2]
        = match findChildLoop nodes name1 fuel currentNode with
          | Except.error e => Except.error e
          | Except.ok none => Except.ok none
          | Except.ok (some first) => first.findChild nodes name2 := by
  intro fuel
  induction fuel with
  | zero => intro currentNode h0; omega
  | succ fuel ih =>
    intro currentNode _ hfuel
    simp only [findNodeLoop, findChildLoop]
    split
    · cases hn : vecGet nodes currentNode with
      | error e => rfl
      | ok node =>
        simp only []
        have hget := vecGet_ok_getElem _ _ _ hn
        have hlt : currentNode < nodes.length := by
          rcases Nat.lt_or_ge currentNode nodes.length with hlt | hge
          · exact hlt
          · rw [List.getElem?_eq_none hge] at hget
            cases hget
        obtain ⟨hok1, hok2⟩ := (linksIncrease_iff _).1 hlinks currentNode node hget
        rw [linkOk_iff] at hok1 hok2
        obtain ⟨fuel1, hf1⟩ : ∃ fuel1, fuel = fuel1 + 1 := ⟨fuel - 1, by omega⟩
        by_cases hname : node.name.eq name1 = true
        · simp only [hname, if_true, List.isEmpty_cons, Bool.false_eq_true, if_false]
          rw [findNodeLoop_single]
          unfold fbx_node.findChild
          rcases hok2 with hk | hk
          · rw [hk, hf1]
            simp [findChildLoop]
          · exact findChildLoop_fuel_irrelevant nodes hlinks name2 _ _ _ (by omega) (by omega)
              (by omega) (by omega)
        · simp only [hname, Bool.false_eq_true, if_false]
          rcases hok1 with hk | hk
          · rw [hk, hf1]
            simp [findNodeLoop, findChildLoop]
          · exact ih _ (by omega) (by omega)
    · rfl

/-- The loop of `findChild` returns the first node with the name among the children that the
iterator visits. -/
theorem findChildLoop_find (nodes : List fbx_node) (name : sized_string) :
    ∀ (fuel child : Nat) (children : List fbx_node),
      forChildren nodes (fun visited node => Except.ok (visited ++ [node])) fuel child []
        = Except.ok children →
      findChildLoop nodes name fuel child
        = Except.ok (children.find? fun c => c.name.eq name) := by
  intro fuel
  induction fuel with
  | zero =>
    intro child children h
    simp [forChildren] at h
  | succ fuel ih =>
    intro child children h
    simp only [forChildren] at h
    simp only [findChildLoop]
    by_cases hc : child = noNode
    · simp only [hc, bne_self_eq_false, Bool.false_eq_true, if_false, Except.ok.injEq] at h ⊢
      subst h
      rfl
    · have hc1 : (child != noNode) = true := by simpa using hc
      simp only [hc1, if_true] at h ⊢
      cases hn : vecGet nodes child with
      | error e => rw [hn] at h; exact absurd h (by simp)
      | ok node =>
        rw [hn] at h
        simp only [] at h ⊢
        rw [forChildren_collect_shift] at h
        cases hrest : forChildren nodes (fun visited node => Except.ok (visited ++ [node])) fuel
            node.next [] with
        | error e => rw [hrest] at h; exact absurd h (by simp)
        | ok rest =>
          rw [hrest] at h
          simp only [List.nil_append, List.singleton_append, Except.ok.injEq] at h
          subst h
          by_cases hname : node.name.eq name = true
          · simp [hname]
          · simp only [hname, Bool.false_eq_true, if_false]
            rw [ih _ _ hrest]
            simp [List.find?_cons, hname]

/-- C40: `findNode` descends by the first match.  For a path of one name it is `findChild` on
the root: the first child of the root with the name, or the null pointer.  For a path of two
names on a node array with well-formed links it is `findChild` for the second name on the first
top-level node with the first name: the first child of that node with the second name, and the
null pointer when that node has no such child, whatever the later top-level nodes hold. -/
theorem findNode_first_match (nodes : List fbx_node) (root : fbx_node)
    (top : List fbx_node) (name1 name2 : sized_string)
    (hroot : vecGet nodes 0 = Except.ok root)
    (htop : childrenOf nodes (some root) = Except.ok top) :
    findNode nodes [name1] = root.findChild nodes name1 ∧
    root.findChild nodes name1 = Except.ok (top.find? fun c => c.name.eq name1) ∧
    (linksIncrease nodes = true →
      findNode nodes [name1, name2]
        = match top.find? fun c => c.name.eq name1 with
          | none => Except.ok none
          | some first => first.findChild nodes name2) ∧
    (∀ (first : fbx_node) (children : List fbx_node),
      (top.find? fun c => c.name.eq name1) = some first →
      childrenOf nodes (some first) = Except.ok children →
      first.findChild nodes name2 = Except.ok (children.find? fun c => c.name.eq name2) ∧
      (linksIncrease nodes = true →
        (∀ c, c ∈ children → c.name.eq name2 = false) →
        findNode nodes [name1, name2] = Except.ok none)) := by
  have hfind : root.findChild nodes name1
      = Except.ok (top.find? fun c => c.name.eq name1) :=
    findChildLoop_find nodes name1 _ _ _ htop
  have hpair : linksIncrease nodes = true →
      findNode nodes [name1, name2]
        = match top.find? fun c => c.name.eq name1 with
          | none => Except.ok none
          | some first => first.findChild nodes name2 := by
    intro hlinks
    unfold findNode
    rw [hroot]
    simp only [List.length_cons, List.length_nil]
    rw [findNodeLoop_pair nodes hlinks name1 name2 _ _ (by omega) (by omega)]
    have hirr : findChildLoop nodes name1 (nodes.length * (0 + 1 + 1) + 1) root.firstChild
        = findChildLoop nodes name1 (nodes.length + 1) root.firstChild := by
      have hget := vecGet_ok_getElem _ _ _ hroot
      have hok := ((linksIncrease_iff _).1 hlinks 0 root hget).2
      rw [linkOk_iff] at hok
      rcases hok with hk | hk
      · rw [hk]
        simp [findChildLoop]
      · exact findChildLoop_fuel_irrelevant nodes hlinks name1 _ _ _ (by omega) (by omega)
          (by omega) (by omega)
    rw [hirr]
    have hfind1 : findChildLoop nodes name1 (nodes.length + 1) root.firstChild
        = Except.ok (top.find? fun c => c.name.eq name1) := hfind
    rw [hfind1]
    cases top.find? fun c => c.name.eq name1 with
    | none => rfl
    | some first => rfl
  refine ⟨?_, hfind, hpair, ?_⟩
  · unfold findNode fbx_node.findChild
    rw [hroot]
    simp only [List.length_cons, List.length_nil, Nat.zero_add, Nat.mul_one]
    exact findNodeLoop_single nodes name1 _ _
  · intro first children hfirst hchildren
    have hsecond : first.findChild nodes name2
        = Except.ok (children.find? fun c => c.name.eq name2) :=
      findChildLoop_find nodes name2 _ _ _ hchildren
    refine ⟨hsecond, ?_⟩
    intro hlinks hnone
    rw [hpair hlinks, hfirst]
    simp only []
    rw [hsecond]
    have : (children.find? fun c => c.name.eq name2) = none := by
      rw [List.find?_eq_none]
      intro c hc
      simp [hnone c hc]
    rw [this]

/-- C40 at the node array of `twinFile`: the path `A` leads to the first node `A`, as
`findChild` on the root does; the path `A`, `B` leads to the null pointer, because the first
node `A` has no children, although the second node `A` has the child `B`. -/
theorem findNode_first_match_witness :
    findNode twinNodes [sized_string.ofLiteral "A"]
      = fbx_node.findChild { rootNode with firstChild := 1, lastChild := 4 } twinNodes
          (sized_string.ofLiteral "A") ∧
    fbx_node.findChild { rootNode with firstChild := 1, lastChild := 4 } twinNodes
        (sized_string.ofLiteral "A")
      = Except.ok (some ⟨sized_string.ofLiteral "A", 0, 2, noNode, noNode, 0, 0, 0⟩) ∧
    findNode twinNodes [sized_string.ofLiteral "A", sized_string.ofLiteral "B"]
      = fbx_node.findChild ⟨sized_string.ofLiteral "A", 0, 2, noNode, noNode, 0, 0, 0⟩ twinNodes
          (sized_string.ofLiteral "B") ∧
    findNode twinNodes [sized_string.ofLiteral "A", sized_string.ofLiteral "B"]
      = Except.ok none ∧
    fbx_node.findChild ⟨sized_string.ofLiteral "A", 0, 4, 3, 3, 0, 0, 0⟩ twinNodes
        (sized_string.ofLiteral "B")
      = Except.ok (some ⟨sized_string.ofLiteral "B", 2, noNode, noNode, noNode, 1, 0, 0⟩) :=
  have h := findNode_first_match twinNodes { rootNode with firstChild := 1, lastChild := 4 }
    [⟨sized_string.ofLiteral "A", 0, 2, noNode, noNode, 0, 0, 0⟩,
      ⟨sized_string.ofLiteral "A", 0, 4, 3, 3, 0, 0, 0⟩,
      ⟨sized_string.ofLiteral "C", 0, noNode, noNode, noNode, 0, 0, 1⟩]
    (sized_string.ofLiteral "A") (sized_string.ofLiteral "B") (by rfl) (by rfl)
  ⟨h.1, h.2.1, h.2.2.1 (by decide),
    (h.2.2.2 ⟨sized_string.ofLiteral "A", 0, 2, noNode, noNode, 0, 0, 0⟩ [] (by rfl)
      (by rfl)).2 (by decide) (by simp),
    by rfl⟩

/-! ## The model reader -/

/-- A successful `readString` through the property iterator is the string that the stored
property holds. -/
theorem readStringAt_iff (content : List Nat) (P : fbx_node) (properties : List fbx_property)
    (k : Nat) (s : sized_string) :
    readStringAt content P properties k = Except.ok s ↔
      (storedProperty P properties k).bind (storedString content) = some s := by
  unfold readStringAt propertyAt vecGet storedProperty
  cases hp : properties[P.firstProperty + k]? with
  | none => simp
  | some prop =>
    simp only [Option.some_bind]
    unfold readString storedString ASSERT readBytes
    by_cases ht : prop.type = fbx_property_type.string
    · by_cases hr : prop.data + prop.numElements ≤ content.length
      · simp [ht, hr]
      · simp [ht, hr]
    · have ht1 : (prop.type == fbx_property_type.string) = false := by simpa using ht
      simp [ht, ht1]

/-- A successful `readDouble` through the property iterator is the double that the stored
property holds. -/
theorem readDoubleAt_iff (content : List Nat) (P : fbx_node) (properties : List fbx_property)
    (k : Nat) (x : Nat) :
    readDoubleAt content P properties k = Except.ok x ↔
      (storedProperty P properties k).bind (storedDouble content) = some x := by
  unfold readDoubleAt propertyAt vecGet storedProperty
  cases hp : properties[P.firstProperty + k]? with
  | none => simp
  | some prop =>
    simp only [Option.some_bind]
    unfold readDouble storedDouble ASSERT readBytes
    by_cases ht : prop.type = fbx_property_type.double
    · by_cases hr : prop.data + 8 ≤ content.length
      · simp [ht, hr]
      · simp [ht, hr]
    · have ht1 : (prop.type == fbx_property_type.double) = false := by simpa using ht
      simp [ht, ht1]

/-- A successful read of three doubles through the property iterator is the vector of the
record. -/
theorem readVec3At_iff {F : Type} (toFloat : Nat → F) (content : List Nat) (P : fbx_node)
    (properties : List fbx_property) (v : vec3 F) :
    readVec3At toFloat content P properties 3 = Except.ok v ↔
      recordTranslation toFloat content properties P = some v := by
  unfold readVec3At recordTranslation
  cases hx : readDoubleAt content P properties 3 with
  | error e =>
    have h3 : (storedProperty P properties 3).bind (storedDouble content) = none := by
      cases hb : (storedProperty P properties 3).bind (storedDouble content) with
      | none => rfl
      | some x =>
        rw [(readDoubleAt_iff content P properties 3 x).2 hb] at hx
        cases hx
    rw [h3]
    simp
  | ok x =>
    rw [(readDoubleAt_iff content P properties 3 x).1 hx]
    simp only []
    cases hy : readDoubleAt content P properties (3 + 1) with
    | error e =>
      have h4 : (storedProperty P properties 4).bind (storedDouble content) = none := by
        cases hb : (storedProperty P properties 4).bind (storedDouble content) with
        | none => rfl
        | some y =>
          rw [(readDoubleAt_iff content P properties 4 y).2 hb] at hy
          cases hy
      rw [h4]
      simp
    | ok y =>
      rw [(readDoubleAt_iff content P properties 4 y).1 hy]
      simp only []
      cases hz : readDoubleAt content P properties (3 + 2) with
      | error e =>
        have h5 : (storedProperty P properties 5).bind (storedDouble content) = none := by
          cases hb : (storedProperty P properties 5).bind (storedDouble content) with
          | none => rfl
          | some z =>
            rw [(readDoubleAt_iff content P properties 5 z).2 hb] at hz
            cases hz
        rw [h5]
        simp
      | ok z =>
        rw [(readDoubleAt_iff content P properties 5 z).1 hz]
        simp

/-- What a successful run of the body of the loop of `readModel` does for a record: it keeps
the id, the name, the rotation and the lists of the model; for a record `Lcl Translation` it
sets the translation to the vector of the record, for another record it keeps it. -/
theorem readModel_body_spec {F : Type} (toFloat : Nat → F) (content : List Nat)
    (properties : List fbx_property) (result r : fbx_model F) (P : fbx_node)
    (h : readModel_body toFloat content properties result P = Except.ok r) :
    r.id = result.id ∧ r.name = result.name ∧ r.localRotation = result.localRotation ∧
    r.meshes = result.meshes ∧ r.materials = result.materials ∧
    P.name.eq (sized_string.ofLiteral "P") = true ∧
    (isTranslationRecord content properties P = true →
      recordTranslation toFloat content properties P = some r.localTranslation) ∧
    (isTranslationRecord content properties P = false →
      r.localTranslation = result.localTranslation) := by
  unfold readModel_body at h
  by_cases hP : P.name.eq (sized_string.ofLiteral "P") = true
  · simp only [ASSERT, hP, if_true] at h
    cases hs : readStringAt content P properties 0 with
    | error e => rw [hs] at h; exact absurd h (by simp)
    | ok type =>
      rw [hs] at h
      simp only at h
      have hstored := (readStringAt_iff content P properties 0 type).1 hs
      have hrec : isTranslationRecord content properties P
          = type.eq (sized_string.ofLiteral "Lcl Translation") := by
        unfold isTranslationRecord
        rw [hstored]
        by_cases ht : type = sized_string.ofLiteral "Lcl Translation"
        · rw [(sized_string_eq_iff type _ (by decide)).2 ht]
          simp [ht]
        · have hne : type.eq (sized_string.ofLiteral "Lcl Translation") = false := by
            cases hb : type.eq (sized_string.ofLiteral "Lcl Translation") with
            | false => rfl
            | true => exact absurd ((sized_string_eq_iff type _ (by decide)).1 hb) ht
          rw [hne]
          simpa using ht
      rw [hrec]
      by_cases ht : type.eq (sized_string.ofLiteral "Lcl Translation") = true
      · simp only [ht, if_true] at h
        cases hv : readVec3At toFloat content P properties 3 with
        | error e => rw [hv] at h; exact absurd h (by simp)
        | ok translation =>
          rw [hv] at h
          simp only [Except.ok.injEq] at h
          subst h
          refine ⟨rfl, rfl, rfl, rfl, rfl, hP, ?_, ?_⟩
          · intro _
            exact (readVec3At_iff toFloat content P properties translation).1 hv
          · intro hc
            rw [ht] at hc
            cases hc
      · simp only [ht, Bool.false_eq_true, if_false] at h
        have hkeep : r = result := by
          split at h
          · split at h
            · exact absurd h (by simp)
            · simp only [Except.ok.injEq] at h
              exact h.symm
          · simp only [Except.ok.injEq] at h
            exact h.symm
        subst hkeep
        refine ⟨rfl, rfl, rfl, rfl, rfl, hP, ?_, ?_⟩
        · intro hc
          exact absurd hc ht
        · intro _
          rfl
  · simp only [ASSERT, hP, Bool.false_eq_true, if_false] at h
    exact absurd h (by simp)

/-- A successful `readModel` reads the id and the name of the node, finds the node
`Properties70`, runs the loop over its records from the default model and appends the result
to the array of the models. -/
theorem readModel_ok {F : Type} [Zero F] [One F] (toFloat : Nat → F) (content : List Nat)
    (node : fbx_node) (nodes : List fbx_node) (properties : List fbx_property)
    (outModels out : List (fbx_model F))
    (h : readModel toFloat content node nodes properties outModels = Except.ok out) :
    ∃ (id : Int) (name : sized_string) (propertiesNode : Option fbx_node) (m : fbx_model F),
      readObjectIDAndName content node properties = Except.ok (id, name) ∧
      node.findChild nodes (sized_string.ofLiteral "Properties70") = Except.ok propertiesNode ∧
      forChildren nodes (readModel_body toFloat content properties) (nodes.length + 1)
          (iteratorBegin propertiesNode) ⟨id, name, ⟨0, 0, 0, 1⟩, 0, [], []⟩ = Except.ok m ∧
      out = outModels ++ [m] := by
  unfold readModel at h
  cases h1 : readObjectIDAndName content node properties with
  | error e => rw [h1] at h; exact absurd h (by simp)
  | ok r1 =>
    obtain ⟨id, name⟩ := r1
    rw [h1] at h
    simp only at h
    cases h2 : node.findChild nodes (sized_string.ofLiteral "Properties70") with
    | error e => rw [h2] at h; exact absurd h (by simp)
    | ok propertiesNode =>
      rw [h2] at h
      simp only at h
      cases h3 : forChildren nodes (readModel_body toFloat content properties)
          (nodes.length + 1) (iteratorBegin propertiesNode)
          ⟨id, name, ⟨0, 0, 0, 1⟩, 0, [], []⟩ with
      | error e => rw [h3] at h; exact absurd h (by simp)
      | ok m =>
        rw [h3] at h
        simp only [Except.ok.injEq] at h
        exact ⟨id, name, propertiesNode, m, rfl, rfl, h3, h.symm⟩

/-- C37: the model that `readModel` produces has the identity rotation, and the id and the
name of its node, whatever the records of its node `Properties70` hold: the three values of a
record `Lcl Rotation` are read and dropped. -/
theorem readModel_rotation_identity {F : Type} [Zero F] [One F] (toFloat : Nat → F)
    (content : List Nat) (node : fbx_node) (nodes : List fbx_node)
    (properties : List fbx_property) (outModels out : List (fbx_model F))
    (h : readModel toFloat content node nodes properties outModels = Except.ok out) :
    ∃ m, out = outModels ++ [m] ∧ m.localRotation = quat.identity ∧
      readObjectIDAndName content node properties = Except.ok (m.id, m.name) := by
  obtain ⟨id, name, propertiesNode, m, hid, _, hloop, hout⟩ :=
    readModel_ok toFloat content node nodes properties outModels out h
  have hkeep := forChildren_invariant nodes (readModel_body toFloat content properties)
    (fun s => s.id = id ∧ s.name = name ∧ s.localRotation = ⟨0, 0, 0, 1⟩)
    (by
      intro s s1 P hb hq
      obtain ⟨b1, b2, b3, _⟩ := readModel_body_spec toFloat content properties s s1 P hb
      exact ⟨b1.trans hq.1, b2.trans hq.2.1, b3.trans hq.2.2⟩)
    _ _ _ _ hloop ⟨rfl, rfl, rfl⟩
  refine ⟨m, hout, hkeep.2.2, ?_⟩
  rw [hkeep.1, hkeep.2.1]
  exact hid

/-- C37 at the first model of `modelFile`, whose node `Properties70` holds the record
`Lcl Rotation` with the values 4, 5 and 6: the rotation of the model is the identity. -/
theorem readModel_rotation_identity_witness :
    ∃ m : fbx_model Int,
      [(⟨5, sized_string.ofLiteral "Mdl", ⟨0, 0, 0, 1⟩,
          ⟨4607182418800017408, 4611686018427387904, 4613937818241073152⟩, [], []⟩
          : fbx_model Int)] = [] ++ [m] ∧
      m.localRotation = quat.identity ∧
      readObjectIDAndName modelFile ⟨sized_string.ofLiteral "Model", 1, 7, 3, 3, 1, 0, 2⟩
        modelProperties = Except.ok (m.id, m.name) :=
  readModel_rotation_identity (fun n : Nat => (n : Int)) modelFile
    ⟨sized_string.ofLiteral "Model", 1, 7, 3, 3, 1, 0, 2⟩ modelNodes modelProperties [] _
    (by rfl)

/-- The body of the loop of `readGeometryData` keeps a mapping that is by polygon vertex or by
vertex, when the string of a child `MappingInformationType` is neither `ByPolygon` nor
`AllSame`. -/
theorem readGeometryData_body_unmapped {T : Type}
    (readData : fbx_property → Except fbx_error (List T)) (decompress : List Nat → List Nat)
    (content : List Nat) (properties : List fbx_property)
    (dataNodeName indexNodeName : sized_string) (s r : geometry_data T) (child : fbx_node)
    (h : readGeometryData_body readData decompress content properties dataNodeName
      indexNodeName s child = Except.ok r)
    (hq : s.mapping = mapping_info.by_polygon_vertex ∨ s.mapping = mapping_info.by_vertex)
    (hcond : child.name.eq (sized_string.ofLiteral "MappingInformationType") = true →
      ∀ prop str, firstPropertyOf properties child = Except.ok prop →
        readString content prop = Except.ok str →
        str.eq (sized_string.ofLiteral "ByPolygon") = false ∧
          str.eq (sized_string.ofLiteral "AllSame") = false) :
    r.mapping = mapping_info.by_polygon_vertex ∨ r.mapping = mapping_info.by_vertex := by
  unfold readGeometryData_body at h
  by_cases hname : child.name.eq (sized_string.ofLiteral "MappingInformationType") = true
  · simp only [hname, if_true] at h
    cases hp : firstPropertyOf properties child with
    | error e => rw [hp] at h; exact absurd h (by simp)
    | ok prop =>
      rw [hp] at h
      simp only at h
      cases hs : readString content prop with
      | error e => rw [hs] at h; exact absurd h (by simp)
      | ok str =>
        rw [hs] at h
        simp only at h
        obtain ⟨hbp, has⟩ := hcond hname prop str hp hs
        simp only [hbp, has, Bool.false_eq_true, if_false] at h
        split at h
        · simp only [Except.ok.injEq] at h
          subst h
          exact Or.inl rfl
        · split at h
          · simp only [Except.ok.injEq] at h
            subst h
            exact Or.inr rfl
          · simp only [Except.ok.injEq] at h
            subst h
            exact hq
  · simp only [hname, Bool.false_eq_true, if_false] at h
    repeat' split at h
    all_goals first
      | (simp only [Except.ok.injEq] at h; subst h; exact hq)
      | exact absurd h (by simp)

/-- The layer element that `readGeometryData` returns has the mapping by polygon vertex or by
vertex, when the node is missing, has no child `MappingInformationType`, or the strings of
these children are neither `ByPolygon` nor `AllSame`. -/
theorem readGeometryData_unmapped {T : Type}
    (readData : fbx_property → Except fbx_error (List T)) (decompress : List Nat → List Nat)
    (content : List Nat) (node : Option fbx_node) (nodes : List fbx_node)
    (properties : List fbx_property) (dataNodeName indexNodeName : sized_string)
    (layer : List fbx_node) (r : geometry_data T)
    (hlayer : childrenOf nodes node = Except.ok layer)
    (hmap : ∀ c, c ∈ layer →
      c.name.eq (sized_string.ofLiteral "MappingInformationType") = true →
      ∀ prop str, firstPropertyOf properties c = Except.ok prop →
        readString content prop = Except.ok str →
        str.eq (sized_string.ofLiteral "ByPolygon") = false ∧
          str.eq (sized_string.ofLiteral "AllSame") = false)
    (h : readGeometryData readData decompress content node nodes properties dataNodeName
      indexNodeName = Except.ok r) :
    r.mapping = mapping_info.by_polygon_vertex ∨ r.mapping = mapping_info.by_vertex := by
  unfold readGeometryData at h
  rw [forChildren_eq_foldExcept nodes _ _ layer hlayer] at h
  have hfold := foldExcept_prefix_invariant
    (readGeometryData_body readData decompress content properties dataNodeName indexNodeName)
    (fun before s => (∀ c, c ∈ before →
        c.name.eq (sized_string.ofLiteral "MappingInformationType") = true →
        ∀ prop str, firstPropertyOf properties c = Except.ok prop →
          readString content prop = Except.ok str →
          str.eq (sized_string.ofLiteral "ByPolygon") = false ∧
            str.eq (sized_string.ofLiteral "AllSame") = false) →
      (s.mapping = mapping_info.by_polygon_vertex ∨ s.mapping = mapping_info.by_vertex))
    (by
      intro before a s s1 hb hq hall
      exact readGeometryData_body_unmapped readData decompress content properties
        dataNodeName indexNodeName s s1 a hb
        (hq (fun c hc => hall c (List.mem_append_left _ hc)))
        (hall a (List.mem_append_right _ (List.mem_singleton_self a))))
    layer [] geometry_data.absent r h (fun _ => Or.inl rfl)
  exact hfold (by simpa using hmap)

/-- A successful `readMesh` on the node of a geometry with the materials requested has read
the material layer from the child `LayerElementMaterial`, and the material block has accepted
it. -/
theorem readMeshOfNode_material_layer {F : Type} [DecidableEq F] [Zero F] (toFloat : Nat → F)
    (decompress : List Nat → List Nat) (content : List Nat) (node : fbx_node)
    (nodes : List fbx_node) (properties : List fbx_property) (flags : Nat)
    (outMeshes out : List (fbx_mesh F))
    (hflag : flagSet flags mesh_flags.mesh_flag_load_materials = true)
    (h : readMeshOfNode toFloat decompress content node nodes properties flags outMeshes
      = Except.ok out) :
    ∃ (materialsNode : Option fbx_node) (materialLayer : geometry_data Int) (numFaces : Nat)
      (materialIndices : List Int),
      node.findChild nodes (sized_string.ofLiteral "LayerElementMaterial")
        = Except.ok materialsNode ∧
      readGeometryData (readInt32Array decompress content) decompress content materialsNode
        nodes properties (sized_string.ofLiteral "Materials") (sized_string.ofLiteral "")
        = Except.ok materialLayer ∧
      readMaterialIndices flags materialLayer numFaces = Except.ok materialIndices := by
  unfold readMeshOfNode at h
  simp only [hflag, if_true] at h
  cases hL : node.findChild nodes (sized_string.ofLiteral "LayerElementMaterial") with
  | error e =>
    rw [hL] at h
    simp only at h
    repeat' split at h
    all_goals exact absurd h (by simp)
  | ok materialsNode =>
    rw [hL] at h
    simp only at h
    cases hG : readGeometryData (readInt32Array decompress content) decompress content
        materialsNode nodes properties (sized_string.ofLiteral "Materials")
        (sized_string.ofLiteral "") with
    | error e =>
      rw [hG] at h
      simp only at h
      repeat' split at h
      all_goals exact absurd h (by simp)
    | ok materialLayer =>
      rw [hG] at h
      simp only at h
      repeat' split at h
      all_goals first
        | exact ⟨_, _, _, _, rfl, hG, by assumption⟩
        | exact absurd h (by simp)

/-- With the materials requested, the material block accepts a layer only when its mapping is
by polygon or all same. -/
theorem readMaterialIndices_mapping (flags : Nat) (materialLayer : geometry_data Int)
    (numFaces : Nat) (materialIndices : List Int)
    (hflag : flagSet flags mesh_flags.mesh_flag_load_materials = true)
    (h : readMaterialIndices flags materialLayer numFaces = Except.ok materialIndices) :
    materialLayer.mapping = mapping_info.by_polygon ∨
      materialLayer.mapping = mapping_info.all_same := by
  unfold readMaterialIndices at h
  simp only [hflag, if_true] at h
  cases hm : materialLayer.mapping with
  | by_polygon => exact Or.inl rfl
  | all_same => exact Or.inr rfl
  | by_polygon_vertex => rw [hm] at h; exact absurd h (by simp)
  | by_vertex => rw [hm] at h; exact absurd h (by simp)

/-- C38: with the materials requested, `readMesh` fails and appends no mesh when the children
`layer` of the child `LayerElementMaterial` of the geometry node give no mapping by polygon
and none all same: when there is no child `LayerElementMaterial` (the pointer is null and
`layer` is empty), when no child of it is named `MappingInformationType`, and when the string
of every such child is neither `ByPolygon` nor `AllSame` (an unrecognised string,
`ByPolygonVertex`, `ByVertex`).  On a node array with well-formed links the failure is a
failed assertion or a read out of range. -/
theorem readMesh_requires_material_mapping {F : Type} [DecidableEq F] [Zero F]
    (toFloat : Nat → F) (decompress : List Nat → List Nat) (content : List Nat)
    (node : fbx_node) (nodes : List fbx_node) (properties : List fbx_property) (flags : Nat)
    (outMeshes : List (fbx_mesh F)) (materialsNode : Option fbx_node)
    (layer : List fbx_node)
    (hflag : flagSet flags mesh_flags.mesh_flag_load_materials = true)
    (hnode : node.findChild nodes (sized_string.ofLiteral "LayerElementMaterial")
      = Except.ok materialsNode)
    (hlayer : childrenOf nodes materialsNode = Except.ok layer)
    (hmap : ∀ c, c ∈ layer →
      c.name.eq (sized_string.ofLiteral "MappingInformationType") = true →
      ∀ prop str, firstPropertyOf properties c = Except.ok prop →
        readString content prop = Except.ok str →
        str.eq (sized_string.ofLiteral "ByPolygon") = false ∧
          str.eq (sized_string.ofLiteral "AllSame") = false) :
    (∀ out, readMeshOfNode toFloat decompress content node nodes properties flags outMeshes
      ≠ Except.ok out) ∧
    (linksIncrease nodes = true → (∀ p, p ∈ properties → p.numElements < 2147483648) →
      ∃ e, readMeshOfNode toFloat decompress content node nodes properties flags outMeshes
        = Except.error e ∧ e ≠ fbx_error.out_of_fuel) := by
  have hno : ∀ out, readMeshOfNode toFloat decompress content node nodes properties flags
      outMeshes ≠ Except.ok out := by
    intro out h
    obtain ⟨materialsNode1, materialLayer, numFaces, materialIndices, h1, h2, h3⟩ :=
      readMeshOfNode_material_layer toFloat decompress content node nodes properties flags
        outMeshes out hflag h
    rw [hnode] at h1
    cases h1
    have hun := readGeometryData_unmapped (readInt32Array decompress content) decompress
      content materialsNode nodes properties _ _ layer materialLayer hlayer hmap h2
    have hacc := readMaterialIndices_mapping flags materialLayer numFaces materialIndices
      hflag h3
    rcases hun with hu | hu
    · rcases hacc with ha | ha
      · rw [hu] at ha
        cases ha
      · rw [hu] at ha
        cases ha
    · rcases hacc with ha | ha
      · rw [hu] at ha
        cases ha
      · rw [hu] at ha
        cases ha
  refine ⟨hno, ?_⟩
  intro hlinks hsmall
  cases hres : readMeshOfNode toFloat decompress content node nodes properties flags
      outMeshes with
  | ok out => exact absurd hres (hno out)
  | error e =>
    refine ⟨e, rfl, ?_⟩
    intro he
    exact readMeshOfNode_fuel toFloat decompress content node nodes hlinks properties flags
      outMeshes hsmall (he ▸ hres)

/-- C38 at sample geometries, with the flag word of `loadFBX`: the geometry of `geometryFile`
has no child `LayerElementMaterial`, the material layer of the geometry of `layerFile` has the
`MappingInformationType` `ByPolygonVertex`; neither is read.  Without the materials requested
the geometry of `geometryFile` yields one mesh with the material index 0. -/
theorem readMesh_requires_material_mapping_witness :
    (∃ e, readMeshOfNode (fun n : Nat => (n : Int)) (fun bytes => bytes) geometryFile
        ⟨sized_string.ofLiteral "Geometry", 1, noNode, 3, 4, 1, 0, 2⟩ geometryNodes
        geometryProperties loadFBX_flags [] = Except.error e ∧ e ≠ fbx_error.out_of_fuel) ∧
    (∀ out, readMeshOfNode (fun n : Nat => (n : Int)) (fun bytes => bytes) layerFile
        ⟨sized_string.ofLiteral "Geometry", 1, noNode, 3, 5, 1, 0, 2⟩ layerNodes
        layerProperties loadFBX_flags [] ≠ Except.ok out) ∧
    readMeshOfNode (fun n : Nat => (n : Int)) (fun bytes => bytes) geometryFile
        ⟨sized_string.ofLiteral "Geometry", 1, noNode, 3, 4, 1, 0, 2⟩ geometryNodes
        geometryProperties 0 []
      = Except.ok [⟨7, sized_string.ofLiteral "Geo",
          ⟨[⟨0, 0, 0⟩, ⟨4607182418800017408, 0, 0⟩, ⟨0, 4607182418800017408, 0⟩], [], [],
            [0, 1, 2]⟩, 0⟩] :=
  ⟨(readMesh_requires_material_mapping (fun n : Nat => (n : Int)) (fun bytes => bytes)
      geometryFile ⟨sized_string.ofLiteral "Geometry", 1, noNode, 3, 4, 1, 0, 2⟩ geometryNodes
      geometryProperties loadFBX_flags [] none [] (by decide) (by rfl) (by rfl)
      (by simp)).2 (by decide) (by decide),
    (readMesh_requires_material_mapping (fun n : Nat => (n : Int)) (fun bytes => bytes)
      layerFile ⟨sized_string.ofLiteral "Geometry", 1, noNode, 3, 5, 1, 0, 2⟩ layerNodes
      layerProperties loadFBX_flags []
      (some ⟨sized_string.ofLiteral "LayerElementMaterial", 2, noNode, 6, 8, 2, 4, 1⟩)
      [⟨sized_string.ofLiteral "MappingInformationType", 5, 7, noNode, noNode, 3, 5, 1⟩,
        ⟨sized_string.ofLiteral "ReferenceInformationType", 5, 8, noNode, noNode, 3, 6, 1⟩,
        ⟨sized_string.ofLiteral "Materials", 5, noNode, noNode, noNode, 3, 7, 1⟩]
      (by decide) (by rfl) (by rfl)
      (by
        intro c hc hname prop str hp hs
        simp only [List.mem_cons, List.mem_singleton, List.not_mem_nil, or_false] at hc
        rcases hc with hc | hc | hc
        · subst hc
          have hprop : prop = ⟨fbx_property_type.string, 0, 15, 15, 325⟩ :=
            (Except.ok.inj (hp.symm.trans (by rfl)))
          subst hprop
          have hstr : str = sized_string.ofLiteral "ByPolygonVertex" :=
            Except.ok.inj (hs.symm.trans (by rfl))
          subst hstr
          exact ⟨by decide, by decide⟩
        · subst hc
          exact absurd hname (by decide)
        · subst hc
          exact absurd hname (by decide))).1,
    by rfl⟩

/-! ## Iterations of the polygon walk -/

/-- The number of polygons of a stream: one per negative entry, and one more for the entries
behind the last negative one. -/
theorem faceSizes_length : ∀ (stream : List Int),
    (faceSizes stream).length
      = numFacesOf stream
        + (match stream.getLast? with
          | some x => if x < 0 then 0 else 1
          | none => 0) := by
  intro stream
  induction stream with
  | nil => rfl
  | cons x rest ih =>
    cases rest with
    | nil =>
      by_cases hx : x < 0
      · simp [faceSizes, numFacesOf, hx]
      · simp [faceSizes, numFacesOf, hx]
    | cons y rest =>
      have hlast : (x :: y :: rest).getLast? = (y :: rest).getLast? := by
        simp [List.getLast?_cons_cons]
      rw [hlast]
      by_cases hx : x < 0
      · have hn : numFacesOf (x :: y :: rest) = numFacesOf (y :: rest) + 1 := by
          simp [numFacesOf, List.filter_cons, hx]
        have hf : faceSizes (x :: y :: rest) = 1 :: faceSizes (y :: rest) := by
          rw [faceSizes]
          simp only [hx, if_true]
        rw [hf, hn, List.length_cons, ih]
        omega
      · have hn : numFacesOf (x :: y :: rest) = numFacesOf (y :: rest) := by
          simp [numFacesOf, List.filter_cons, hx]
        rw [hn, ← ih]
        have hne : faceSizes (y :: rest) ≠ [] := by
          rw [faceSizes_cons]
          simp
        cases hf : faceSizes (y :: rest) with
        | nil => exact absurd hf hne
        | cons n sizes =>
          have : faceSizes (x :: y :: rest) = (n + 1) :: sizes := by
            rw [faceSizes]
            simp only [hx, if_false]
            rw [hf]
          rw [this]
          rfl

/-! ## Termination of the container decoder -/

/-- A successful read of a record header moves the read offset by the size of the header in
the layout of the version, 13 or 25 bytes, and stays inside the buffer. -/
theorem readNodeRecordHeader_size (version : Nat) (file file1 : entire_file)
    (header : fbx_node_record_header_64)
    (h : readNodeRecordHeader version file = Except.ok (header, file1)) :
    file1.readOffset = file.readOffset + recordSize version ∧
      file1.readOffset ≤ file.content.length := by
  unfold readNodeRecordHeader readBytes entire_file.consume at h
  unfold recordSize
  by_cases hv : version ≥ 7500
  · simp only [hv, if_true] at h ⊢
    split at h
    · exact absurd h (by simp)
    · rename_i node hnode
      simp only [Except.ok.injEq, Prod.mk.injEq] at h
      obtain ⟨_, h2⟩ := h
      subst h2
      simp only [Nat.mul_one]
      split at hnode
      · refine ⟨by simp, ?_⟩
        omega
      · exact absurd hnode (by simp)
  · simp only [hv, if_false] at h ⊢
    split at h
    · exact absurd h (by simp)
    · rename_i node hnode
      simp only [Except.ok.injEq, Prod.mk.injEq] at h
      obtain ⟨_, h2⟩ := h
      subst h2
      simp only [Nat.mul_one]
      split at hnode
      · refine ⟨by simp, ?_⟩
        omega
      · exact absurd hnode (by simp)

/-- Every node that the loop of `parseNodes` creates is paid for by a record header of at
least 13 bytes that the loop reads behind it: 13 bytes of read offset for each new node. -/
theorem parseLoop_node_count (version : Nat) : ∀ (fuel : Nat)
    (currentNode : fbx_node_record_header_64) (parent : Nat) (st r : parse_state),
    st.file.readOffset ≤ st.file.content.length →
    parseLoop version fuel currentNode parent st = Except.ok r →
    13 * r.outNodes.length + st.file.readOffset
      ≤ 13 * st.outNodes.length + r.file.readOffset := by
  intro fuel
  induction fuel with
  | zero =>
    intro currentNode parent st r _ h
    simp [parseLoop] at h
  | succ fuel ih =>
    intro currentNode parent st r hoff h
    simp only [parseLoop] at h
    by_cases he : currentNode.endOffset = 0
    · simp only [he, bne_self_eq_false, Bool.false_eq_true, if_false, Except.ok.injEq] at h
      subst h
      omega
    · have he1 : (currentNode.endOffset != 0) = true := by simp [he]
      simp only [he1, if_true] at h
      cases h1 : parseNodeHead currentNode parent st with
      | error e => rw [h1] at h; exact absurd h (by simp)
      | ok st1 =>
        rw [h1] at h
        simp only at h
        obtain ⟨hc1, hle1, nodes1, node1, hn1, hlen1, _⟩ := parseNodeHead_spec _ _ _ _ h1
        have hcount1 : st1.outNodes.length = st.outNodes.length + 1 := by
          rw [hn1, List.length_append, List.length_singleton, hlen1]
        have common : ∀ (st2 : parse_state), st2.file.content = st.file.content →
            st2.file.readOffset ≤ st.file.content.length →
            13 * st2.outNodes.length + st.file.readOffset
              ≤ 13 * st.outNodes.length + st2.file.readOffset + 13 →
            (match ASSERT (sub64 currentNode.endOffset st2.file.readOffset == 0) with
              | Except.error e => Except.error e
              | Except.ok _ =>
                match readNodeRecordHeader version st2.file with
                | Except.error e => Except.error e
                | Except.ok (next, file3) =>
                  parseLoop version fuel next parent { st2 with file := file3 })
              = Except.ok r →
            13 * r.outNodes.length + st.file.readOffset
              ≤ 13 * st.outNodes.length + r.file.readOffset := by
          intro st2 k1 k2 k3 h5
          cases ha : ASSERT (sub64 currentNode.endOffset st2.file.readOffset == 0) with
          | error e => rw [ha] at h5; exact absurd h5 (by simp)
          | ok u =>
            rw [ha] at h5
            simp only at h5
            cases h6 : readNodeRecordHeader version st2.file with
            | error e => rw [h6] at h5; exact absurd h5 (by simp)
            | ok r6 =>
              obtain ⟨next, file3⟩ := r6
              rw [h6] at h5
              simp only at h5
              obtain ⟨g1, g2, g3, _⟩ := readNodeRecordHeader_ok _ _ _ _ h6
              have := ih next parent { st2 with file := file3 } r
                (by simp only [g1]; exact g3) h5
              simp only at this
              omega
        by_cases hpos : sub64 currentNode.endOffset st1.file.readOffset > 0
        · simp only [hpos, if_true] at h
          cases h2 : readNodeRecordHeader version st1.file with
          | error e => rw [h2] at h; exact absurd h (by simp)
          | ok r2 =>
            obtain ⟨child, file2⟩ := r2
            rw [h2] at h
            simp only at h
            obtain ⟨g1, g2, g3, _⟩ := readNodeRecordHeader_ok _ _ _ _ h2
            cases h3 : parseLoop version fuel child (st.outNodes.length % 4294967296)
                { st1 with file := file2 } with
            | error e => rw [h3] at h; exact absurd h (by simp)
            | ok st2 =>
              rw [h3] at h
              simp only at h
              obtain ⟨k1, k2, k3, _⟩ := parseLoop_spec version fuel child _ _ _
                (by simp only [g1]; exact g3) h3
              have hcnt := ih child _ { st1 with file := file2 } st2
                (by simp only [g1]; exact g3) h3
              simp only [g1, hc1] at k1 k3 hcnt
              simp only at hcnt k2
              exact common st2 k1 k3 (by omega) h
        · simp only [hpos, if_false] at h
          have hst1 : st1.file.readOffset ≤ st.file.content.length := by
            cases ha : ASSERT (sub64 currentNode.endOffset st1.file.readOffset == 0) with
            | error e => rw [ha] at h; exact absurd h (by simp)
            | ok u =>
              rw [ha] at h
              simp only at h
              cases h6 : readNodeRecordHeader version st1.file with
              | error e => rw [h6] at h; exact absurd h (by simp)
              | ok r6 =>
                obtain ⟨next, file3⟩ := r6
                obtain ⟨g1, g2, g3, _⟩ := readNodeRecordHeader_ok _ _ _ _ h6
                rw [hc1] at g3
                omega
          exact common st1 hc1 hst1 (by omega) h

/-- The function `parseNodes` never stops for lack of fuel when the fuel exceeds the number of
bytes left. -/
theorem parseNodes_fuel (fuel version : Nat) (st : parse_state) (level parent : Nat)
    (hfuel : st.file.content.length < st.file.readOffset + fuel) :
    parseNodes fuel version st level parent ≠ Except.error fbx_error.out_of_fuel := by
  intro h
  simp only [parseNodes] at h
  cases h1 : readNodeRecordHeader version st.file with
  | error e =>
    rw [h1] at h
    simp only [Except.error.injEq] at h
    exact readNodeRecordHeader_fuel _ _ (h ▸ h1)
  | ok r1 =>
    obtain ⟨currentNode, file1⟩ := r1
    rw [h1] at h
    obtain ⟨g1, g2, g3, _⟩ := readNodeRecordHeader_ok _ _ _ _ h1
    exact parseLoop_fuel _ _ _ _ _ (by simp only [g1]; exact g3)
      (by simp only [g1]; omega) h

/-- A successful `parseNodes` has read 13 bytes for its first record header and 13 bytes more
for every node that it has created, and has stayed inside the buffer. -/
theorem parseNodes_node_count (fuel version : Nat) (st r : parse_state) (level parent : Nat)
    (h : parseNodes fuel version st level parent = Except.ok r) :
    13 * r.outNodes.length + st.file.readOffset + 13
      ≤ 13 * st.outNodes.length + r.file.readOffset ∧
    r.file.readOffset ≤ st.file.content.length := by
  simp only [parseNodes] at h
  cases h1 : readNodeRecordHeader version st.file with
  | error e => rw [h1] at h; exact absurd h (by simp)
  | ok r1 =>
    obtain ⟨currentNode, file1⟩ := r1
    rw [h1] at h
    simp only at h
    obtain ⟨g1, g2, g3, _⟩ := readNodeRecordHeader_ok _ _ _ _ h1
    have hcnt := parseLoop_node_count version fuel currentNode parent _ r
      (by simp only [g1]; exact g3) h
    obtain ⟨_, _, k3, _⟩ := parseLoop_spec version fuel currentNode parent _ r
      (by simp only [g1]; exact g3) h
    simp only at hcnt k3
    rw [g1] at k3
    exact ⟨by omega, k3⟩

/-- C36: with bounds-checked reads `parseNodes` terminates on every buffer and every version:
the fuel of one unit for every byte left is never used up, and so the parse that `loadFBX`
starts never stops for lack of fuel.  A read of a record header moves the read offset by 13
bytes (version below 7500) or 25 bytes and stays inside the buffer.  A successful `parseNodes`
has moved the read offset forward, by its first record header and by at least 13 bytes more
for every node created; so the parse of a file creates at most `(size - 27) / 13` nodes behind
the root. -/
theorem parseNodes_terminates :
    (∀ (fuel version : Nat) (st : parse_state) (level parent : Nat),
      st.file.content.length < st.file.readOffset + fuel →
      parseNodes fuel version st level parent ≠ Except.error fbx_error.out_of_fuel) ∧
    (∀ (bytes : List Nat) (version : Nat),
      loadFBX_nodes (entire_file.ofBytes bytes)
        ≠ load_result.parsed version (Except.error fbx_error.out_of_fuel)) ∧
    (∀ (version : Nat) (file file1 : entire_file) (header : fbx_node_record_header_64),
      readNodeRecordHeader version file = Except.ok (header, file1) →
      file1.readOffset = file.readOffset + (if version < 7500 then 13 else 25) ∧
        file1.readOffset ≤ file.content.length) ∧
    (∀ (fuel version : Nat) (st r : parse_state) (level parent : Nat),
      parseNodes fuel version st level parent = Except.ok r →
      st.file.readOffset < r.file.readOffset ∧ r.file.readOffset ≤ st.file.content.length ∧
        st.outNodes.length ≤ r.outNodes.length ∧
        13 * (r.outNodes.length - st.outNodes.length) + 13
          ≤ r.file.readOffset - st.file.readOffset) ∧
    (∀ (bytes : List Nat) (version : Nat) (r : parse_state),
      loadFBX_nodes (entire_file.ofBytes bytes) = load_result.parsed version (Except.ok r) →
      r.outNodes.length - 1 ≤ (bytes.length - 27) / 13) := by
  refine ⟨?_, loadFBX_nodes_fuel, ?_, ?_, ?_⟩
  · intro fuel version st level parent hfuel
    exact parseNodes_fuel fuel version st level parent hfuel
  · intro version file file1 header h
    obtain ⟨h1, h2⟩ := readNodeRecordHeader_size version file file1 header h
    refine ⟨?_, h2⟩
    rw [h1]
    unfold recordSize
    by_cases hv : version < 7500
    · have hn : ¬ version ≥ 7500 := by omega
      rw [if_pos hv, if_neg hn]
    · have hn : version ≥ 7500 := by omega
      rw [if_neg hv, if_pos hn]
  · intro fuel version st r level parent h
    obtain ⟨h1, h2⟩ := parseNodes_node_count fuel version st r level parent h
    have hmono : st.outNodes.length ≤ r.outNodes.length := by
      simp only [parseNodes] at h
      cases h3 : readNodeRecordHeader version st.file with
      | error e => rw [h3] at h; exact absurd h (by simp)
      | ok r3 =>
        obtain ⟨currentNode, file1⟩ := r3
        rw [h3] at h
        simp only at h
        obtain ⟨g1, _, g3, _⟩ := readNodeRecordHeader_ok _ _ _ _ h3
        obtain ⟨_, _, _, _, hlen⟩ := parseLoop_spec version fuel currentNode parent _ r
          (by simp only [g1]; exact g3) h
        simp only at hlen
        omega
    refine ⟨by omega, h2, hmono, by omega⟩
  · intro bytes version r h
    have hcond := ((loadFBX_nodes_cases bytes).1).1 ⟨version, Except.ok r, h⟩
    rw [(loadFBX_nodes_cases bytes).2.2 hcond] at h
    simp only [load_result.parsed.injEq] at h
    obtain ⟨h1, h2⟩ := parseNodes_node_count _ _ _ r _ _ h.2
    simp only [List.length_singleton] at h1 h2
    omega

/-- C36 at the file `sceneFile` of 664 bytes: its parse does not stop for lack of fuel, and
the 12 nodes behind the root are fewer than `(664 - 27) / 13 = 49`. -/
theorem parseNodes_terminates_witness :
    parseNodes 665 7400 ⟨⟨sceneFile, 27⟩, [rootNode], []⟩ 0 0
      ≠ Except.error fbx_error.out_of_fuel ∧
    sceneNodes.length - 1 ≤ (sceneFile.length - 27) / 13 ∧
    sceneNodes.length = 13 ∧ sceneFile.length = 664 :=
  ⟨parseNodes_terminates.1 665 7400 ⟨⟨sceneFile, 27⟩, [rootNode], []⟩ 0 0 (by decide),
    parseNodes_terminates.2.2.2.2 sceneFile 7400 ⟨⟨sceneFile, 664⟩, sceneNodes, sceneProperties⟩
      sceneFile_parse,
    by rfl, by rfl⟩

/-! ## Property ranges of the nodes -/

/-- The element at a position of a vector after a successful write. -/
theorem vecSet_getElem {α : Type} (v v1 : List α) (k : Nat) (x : α)
    (h : vecSet v k x = Except.ok v1) (i : Nat) :
    v1[i]? = if i = k then some x else v[i]? := by
  simp only [vecSet] at h
  split at h
  · rename_i hk
    simp only [Except.ok.injEq] at h
    subst h
    by_cases hik : i = k
    · subst hik
      rw [if_pos rfl, List.getElem?_set_self hk]
    · rw [if_neg hik, List.getElem?_set_ne (Ne.symm hik)]
  · exact absurd h (by simp)

/-- What linking the new node `nodeIndex` as the last child of `parent` changes: the link
`next` of the node that was the last child, the link `firstChild` of a parent without
children, and the link `lastChild` of the parent; every other field of every node is kept. -/
theorem linkChild_get (outNodes outNodes1 : List fbx_node) (parent nodeIndex : Nat)
    (parentNode : fbx_node) (hp : outNodes[parent]? = some parentNode)
    (hpn : parent ≠ noNode)
    (h : linkChild outNodes parent nodeIndex = Except.ok outNodes1) (i : Nat) :
    outNodes1[i]? = (outNodes[i]?).map fun n =>
      { n with
        next := if i = parentNode.lastChild ∧ parentNode.firstChild ≠ noNode then nodeIndex
          else n.next,
        firstChild := if i = parent ∧ parentNode.firstChild = noNode then nodeIndex
          else n.firstChild,
        lastChild := if i = parent then nodeIndex else n.lastChild } := by
  simp only [linkChild] at h
  have hb : (parent != noNode) = true := by simpa using hpn
  simp only [hb, if_true, vecGet_eq_ok _ _ _ hp] at h
  by_cases hfc : parentNode.firstChild = noNode
  · simp only [hfc, beq_self_eq_true, if_true] at h
    cases h2 : vecSet outNodes parent { parentNode with firstChild := nodeIndex } with
    | error e => rw [h2] at h; exact absurd h (by simp)
    | ok o2 =>
      rw [h2] at h
      simp only at h
      have g2 := vecSet_getElem _ _ _ _ h2
      have hp2 : o2[parent]? = some { parentNode with firstChild := nodeIndex } := by
        rw [g2 parent, if_pos rfl]
      rw [vecGet_eq_ok _ _ _ hp2] at h
      simp only at h
      have g3 := vecSet_getElem _ _ _ _ h
      rw [g3 i, g2 i]
      by_cases hi : i = parent
      · subst hi
        rw [if_pos rfl, hp]
        simp [hfc]
      · rw [if_neg hi, if_neg hi]
        cases hn : outNodes[i]? with
        | none => rfl
        | some n =>
          simp only [Option.map_some', hi, false_and, if_false, hfc, ne_eq, not_true_eq_false,
            and_false]
  · have hfc1 : (parentNode.firstChild == noNode) = false := by simpa using hfc
    simp only [hfc1, Bool.false_eq_true, if_false] at h
    cases h3 : vecGet outNodes parentNode.lastChild with
    | error e => rw [h3] at h; exact absurd h (by simp)
    | ok lastNode =>
      rw [h3] at h
      simp only at h
      have hl := vecGet_ok_getElem _ _ _ h3
      cases h2 : vecSet outNodes parentNode.lastChild { lastNode with next := nodeIndex } with
      | error e => rw [h2] at h; exact absurd h (by simp)
      | ok o2 =>
        rw [h2] at h
        simp only at h
        have g2 := vecSet_getElem _ _ _ _ h2
        by_cases hpl : parent = parentNode.lastChild
        · have hsame : lastNode = parentNode := by
            rw [← hpl, hp] at hl
            exact (Option.some.inj hl).symm
          subst hsame
          have hp2 : o2[parent]? = some { lastNode with next := nodeIndex } := by
            rw [g2 parent, if_pos hpl]
          rw [vecGet_eq_ok _ _ _ hp2] at h
          simp only at h
          have g3 := vecSet_getElem _ _ _ _ h
          rw [g3 i, g2 i]
          by_cases hi : i = parent
          · subst hi
            rw [if_pos rfl, hp]
            simp [hfc, ← hpl]
          · have hi2 : i ≠ lastNode.lastChild := by rw [← hpl]; exact hi
            rw [if_neg hi, if_neg hi2]
            cases hn : outNodes[i]? with
            | none => rfl
            | some n =>
              simp only [Option.map_some', hi, hi2, false_and, if_false]
        · have hp2 : o2[parent]? = some parentNode := by
            rw [g2 parent, if_neg hpl, hp]
          rw [vecGet_eq_ok _ _ _ hp2] at h
          simp only at h
          have g3 := vecSet_getElem _ _ _ _ h
          rw [g3 i, g2 i]
          by_cases hi : i = parent
          · subst hi
            rw [if_pos rfl, hp]
            simp [hfc, hpl]
          · rw [if_neg hi]
            by_cases hi2 : i = parentNode.lastChild
            · subst hi2
              rw [if_pos rfl, hl]
              simp [hfc, hi]
            · rw [if_neg hi2]
              cases hn : outNodes[i]? with
              | none => rfl
              | some n =>
                simp only [Option.map_some', hi, hi2, false_and, if_false]

/-- The body of the loop of `parseProperties` only appends to the property array. -/
theorem parseProperty_append (file file1 : entire_file) (out out1 : List fbx_property)
    (h : parseProperty file out = Except.ok (file1, out1)) :
    ∃ appended, out1 = out ++ appended := by
  cases ht : file.content[file.readOffset]? with
  | none =>
    rw [parseProperty_no_tag _ _ (by simpa using ht)] at h
    exact absurd h (by simp)
  | some t =>
    by_cases hmem : t ∈ propertyTags
    · rcases propertyTags_cases t hmem with ⟨type, s, hm⟩ | ⟨type, hm⟩ | ⟨type, hm⟩
      · rw [parseProperty_scalar _ _ _ _ _ hm ht] at h
        simp only [Except.ok.injEq, Prod.mk.injEq] at h
        exact ⟨_, h.2.symm⟩
      · rw [parseProperty_array _ _ _ _ hm ht] at h
        by_cases hb : file.readOffset + 1 + 12 ≤ file.content.length
        · rw [parseArray_eq _ _ _ hb] at h
          simp only [Except.ok.injEq, Prod.mk.injEq] at h
          exact ⟨_, h.2.symm⟩
        · rw [parseArray_eq_error _ _ _ (by simpa using hb)] at h
          exact absurd h (by simp)
      · rw [parseProperty_blob _ _ _ _ hm ht] at h
        by_cases hb : file.readOffset + 1 + 4 ≤ file.content.length
        · rw [parseBlob_eq _ _ _ hb] at h
          simp only [Except.ok.injEq, Prod.mk.injEq] at h
          obtain ⟨_, h2⟩ := h
          by_cases h0 : leNat ((file.content.drop (file.readOffset + 1)).take 4) = 0
          · simp only [h0, ne_eq, not_true_eq_false, if_false] at h2
            exact ⟨[], by rw [← h2, List.append_nil]⟩
          · simp only [h0, ne_eq, not_false_eq_true, if_true] at h2
            exact ⟨_, h2.symm⟩
        · rw [parseBlob_eq_error _ _ _ (by simpa using hb)] at h
          exact absurd h (by simp)
    · rw [parseProperty_unknown _ _ _ hmem ht] at h
      exact absurd h (by simp)

/-- The loop of `parseProperties` only appends to the property array. -/
theorem parsePropertiesLoop_append : ∀ (n : Nat) (file file1 : entire_file)
    (out out1 : List fbx_property),
    parsePropertiesLoop n file out = Except.ok (file1, out1) →
    ∃ appended, out1 = out ++ appended := by
  intro n
  induction n with
  | zero =>
    intro file file1 out out1 h
    simp only [parsePropertiesLoop, Except.ok.injEq, Prod.mk.injEq] at h
    exact ⟨[], by rw [← h.2, List.append_nil]⟩
  | succ n ih =>
    intro file file1 out out1 h
    simp only [parsePropertiesLoop] at h
    cases h1 : parseProperty file out with
    | error e => rw [h1] at h; exact absurd h (by simp)
    | ok r1 =>
      obtain ⟨file2, out2⟩ := r1
      rw [h1] at h
      simp only at h
      obtain ⟨a1, ha1⟩ := parseProperty_append _ _ _ _ h1
      obtain ⟨a2, ha2⟩ := ih _ _ _ _ h
      exact ⟨a1 ++ a2, by rw [ha2, ha1, List.append_assoc]⟩

/-- What a successful creation of a node does to the two arrays: the new node is linked to its
parent and appended, with the parent index, the level of the parent plus 1, no links, and the
range of the properties that are appended for it. -/
theorem parseNodeHead_nodes (currentNode : fbx_node_record_header_64) (parent : Nat)
    (st st1 : parse_state) (h : parseNodeHead currentNode parent st = Except.ok st1) :
    ∃ (parentNode : fbx_node) (linked : List fbx_node) (node : fbx_node)
      (appended : List fbx_property),
      st.outNodes[parent]? = some parentNode ∧
      linkChild st.outNodes parent (st.outNodes.length % 4294967296) = Except.ok linked ∧
      linked.length = st.outNodes.length ∧
      st1.outNodes = linked ++ [node] ∧
      node.parent = parent ∧ node.next = noNode ∧ node.firstChild = noNode ∧
      node.lastChild = noNode ∧ node.level = (parentNode.level + 1) % 4294967296 ∧
      node.firstProperty = st.outProperties.length % 4294967296 ∧
      node.numProperties = appended.length ∧
      st1.outProperties = st.outProperties ++ appended := by
  have hspec := parseNodeHead_spec _ _ _ _ h
  simp only [parseNodeHead] at h
  cases h1 : vecGet st.outNodes parent with
  | error e => rw [h1] at h; exact absurd h (by simp)
  | ok parentNode =>
    rw [h1] at h
    simp only at h
    cases h2 : linkChild st.outNodes parent (st.outNodes.length % 4294967296) with
    | error e => rw [h2] at h; exact absurd h (by simp)
    | ok linked =>
      rw [h2] at h
      simp only at h
      cases h3 : parseProperties (st.file.consume 1 currentNode.nameLength).2 st.outProperties
          (currentNode.numProperties % 4294967296) with
      | error e => rw [h3] at h; exact absurd h (by simp)
      | ok r =>
        obtain ⟨file2, outProperties2, numProperties⟩ := r
        rw [h3] at h
        simp only [Except.ok.injEq] at h
        subst h
        have happ : ∃ appended, outProperties2 = st.outProperties ++ appended := by
          simp only [parseProperties] at h3
          cases h4 : parsePropertiesLoop (currentNode.numProperties % 4294967296)
              (st.file.consume 1 currentNode.nameLength).2 st.outProperties with
          | error e => rw [h4] at h3; exact absurd h3 (by simp)
          | ok r4 =>
            obtain ⟨file4, out4⟩ := r4
            rw [h4] at h3
            simp only [Except.ok.injEq, Prod.mk.injEq] at h3
            obtain ⟨_, rfl, _⟩ := h3
            exact parsePropertiesLoop_append _ _ _ _ _ h4
        obtain ⟨appended, happ⟩ := happ
        obtain ⟨_, _, nodes0, node0, hn0, _, hcount, _⟩ := hspec
        simp only at hn0 hcount
        have hlast := List.append_inj' hn0 rfl
        have hnum : numProperties = appended.length := by
          have : node0.numProperties = numProperties := by
            have h2 := hlast.2
            simp only [List.cons.injEq, and_true] at h2
            rw [← h2]
          rw [this, happ, List.length_append] at hcount
          omega
        exact ⟨parentNode, linked, _, appended, vecGet_ok_getElem _ _ _ h1, rfl,
          linkChild_length _ _ _ _ h2, rfl, rfl, rfl, rfl, rfl, rfl, rfl, hnum, happ⟩

/-- The loop of `parseNodes` keeps a property of the two arrays that the creation of a node
keeps. -/
theorem parseLoop_state_invariant (Q : List fbx_node → List fbx_property → Prop)
    (hstep : ∀ (currentNode : fbx_node_record_header_64) (parent : Nat) (st st1 : parse_state),
      parseNodeHead currentNode parent st = Except.ok st1 →
      Q st.outNodes st.outProperties → Q st1.outNodes st1.outProperties)
    (version : Nat) :
    ∀ (fuel : Nat) (currentNode : fbx_node_record_header_64) (parent : Nat)
      (st r : parse_state),
      parseLoop version fuel currentNode parent st = Except.ok r →
      Q st.outNodes st.outProperties → Q r.outNodes r.outProperties := by
  intro fuel
  induction fuel with
  | zero =>
    intro currentNode parent st r h
    simp [parseLoop] at h
  | succ fuel ih =>
    intro currentNode parent st r h hout
    simp only [parseLoop] at h
    by_cases he : currentNode.endOffset = 0
    · simp only [he, bne_self_eq_false, Bool.false_eq_true, if_false, Except.ok.injEq] at h
      subst h
      exact hout
    · have he1 : (currentNode.endOffset != 0) = true := by simp [he]
      simp only [he1, if_true] at h
      cases h1 : parseNodeHead currentNode parent st with
      | error e => rw [h1] at h; exact absurd h (by simp)
      | ok st1 =>
        rw [h1] at h
        simp only at h
        have hout1 := hstep _ _ _ _ h1 hout
        have common : ∀ (st2 : parse_state), Q st2.outNodes st2.outProperties →
            (match ASSERT (sub64 currentNode.endOffset st2.file.readOffset == 0) with
              | Except.error e => Except.error e
              | Except.ok _ =>
                match readNodeRecordHeader version st2.file with
                | Except.error e => Except.error e
                | Except.ok (next, file3) =>
                  parseLoop version fuel next parent { st2 with file := file3 })
              = Except.ok r →
            Q r.outNodes r.outProperties := by
          intro st2 hout2 h5
          cases ha : ASSERT (sub64 currentNode.endOffset st2.file.readOffset == 0) with
          | error e => rw [ha] at h5; exact absurd h5 (by simp)
          | ok u =>
            rw [ha] at h5
            simp only at h5
            cases h6 : readNodeRecordHeader version st2.file with
            | error e => rw [h6] at h5; exact absurd h5 (by simp)
            | ok r6 =>
              obtain ⟨next, file3⟩ := r6
              rw [h6] at h5
              simp only at h5
              exact ih _ _ _ _ h5 hout2
        by_cases hpos : sub64 currentNode.endOffset st1.file.readOffset > 0
        · simp only [hpos, if_true] at h
          cases h2 : readNodeRecordHeader version st1.file with
          | error e => rw [h2] at h; exact absurd h (by simp)
          | ok r2 =>
            obtain ⟨child, file2⟩ := r2
            rw [h2] at h
            simp only at h
            cases h3 : parseLoop version fuel child (st.outNodes.length % 4294967296)
                { st1 with file := file2 } with
            | error e => rw [h3] at h; exact absurd h (by simp)
            | ok st2 =>
              rw [h3] at h
              simp only at h
              exact common st2 (ih _ _ _ _ h3 hout1) h
        · simp only [hpos, if_false] at h
          exact common st1 hout1 h

/-- The arrays that the container decoder builds have every property that the array of the
root node alone has and that the creation of a node keeps. -/
theorem loadFBX_nodes_state_invariant (Q : List fbx_node → List fbx_property → Prop)
    (hstep : ∀ (currentNode : fbx_node_record_header_64) (parent : Nat) (st st1 : parse_state),
      parseNodeHead currentNode parent st = Except.ok st1 →
      Q st.outNodes st.outProperties → Q st1.outNodes st1.outProperties)
    (hroot : Q [rootNode] []) (file : entire_file) (version : Nat) (st : parse_state)
    (h : loadFBX_nodes file = load_result.parsed version (Except.ok st)) :
    Q st.outNodes st.outProperties := by
  simp only [loadFBX_nodes] at h
  split at h
  · cases h
  · split at h
    · cases h
    · simp only [load_result.parsed.injEq] at h
      obtain ⟨_, h⟩ := h
      simp only [parseNodes] at h
      cases h1 : readNodeRecordHeader (leNat (List.take 4 (List.drop 23
          (List.take 27 (List.drop (file.consume 27 1).1 file.content)))))
          (file.consume 27 1).2 with
      | error e => rw [h1] at h; exact absurd h (by simp)
      | ok r1 =>
        obtain ⟨currentNode, file1⟩ := r1
        rw [h1] at h
        simp only at h
        exact parseLoop_state_invariant Q hstep _ _ _ _ _ _ h hroot

/-- Adjoining ranges with one more node at the end. -/
theorem rangesPartition_append (n : fbx_node) (total : Nat) : ∀ (l : List fbx_node)
    (start : Nat),
    rangesPartition start (l ++ [n]) total = true ↔
      rangesPartition start l n.firstProperty = true ∧
        n.firstProperty + n.numProperties = total := by
  intro l
  induction l with
  | nil =>
    intro start
    simp only [List.nil_append, rangesPartition, Bool.and_eq_true, beq_iff_eq]
    constructor
    · rintro ⟨h1, h2⟩
      exact ⟨h1.symm, by omega⟩
    · rintro ⟨h1, h2⟩
      exact ⟨h1.symm, by omega⟩
  | cons a l ih =>
    intro start
    rw [List.cons_append, rangesPartition, rangesPartition, Bool.and_eq_true,
      Bool.and_eq_true, ih, and_assoc]

/-- Whether ranges adjoin depends on the ranges of the nodes only. -/
theorem rangesPartition_congr (total : Nat) : ∀ (l l1 : List fbx_node) (start : Nat),
    l.map propertyRange = l1.map propertyRange →
    rangesPartition start l total = rangesPartition start l1 total := by
  intro l
  induction l with
  | nil =>
    intro l1 start h
    cases l1 with
    | nil => rfl
    | cons b l1 => simp at h
  | cons a l ih =>
    intro l1 start h
    cases l1 with
    | nil => simp at h
    | cons b l1 =>
      simp only [List.map_cons, List.cons.injEq, propertyRange, Prod.mk.injEq] at h
      obtain ⟨⟨h1, h2⟩, h3⟩ := h
      simp only [rangesPartition, h1, h2, ih l1 _ h3]

/-- Linking a new child changes no property range. -/
theorem linkChild_ranges (outNodes outNodes1 : List fbx_node) (parent nodeIndex : Nat)
    (h : linkChild outNodes parent nodeIndex = Except.ok outNodes1) :
    outNodes1.map propertyRange = outNodes.map propertyRange := by
  by_cases hpn : parent = noNode
  · simp only [linkChild, hpn, bne_self_eq_false, Bool.false_eq_true, if_false,
      Except.ok.injEq] at h
    rw [h]
  · have hp : ∃ parentNode, outNodes[parent]? = some parentNode := by
      simp only [linkChild] at h
      rw [if_pos (by simp [hpn])] at h
      cases h1 : vecGet outNodes parent with
      | error e => rw [h1] at h; exact absurd h (by simp)
      | ok parentNode => exact ⟨parentNode, vecGet_ok_getElem _ _ _ h1⟩
    obtain ⟨parentNode, hp⟩ := hp
    apply List.ext_getElem?
    intro i
    rw [List.getElem?_map, List.getElem?_map, linkChild_get _ _ _ _ _ hp hpn h i]
    cases outNodes[i]? with
    | none => rfl
    | some n => rfl

/-- Adjoining ranges from 0 to `total` put the properties of the nodes, one after the other,
together to the first `total` properties. -/
theorem rangesPartition_flatten (properties : List fbx_property) : ∀ (l : List fbx_node)
    (start : Nat), rangesPartition start l properties.length = true →
    (l.map fun n => nodeProperties n properties).flatten = properties.drop start := by
  intro l
  induction l with
  | nil =>
    intro start h
    simp only [rangesPartition, beq_iff_eq] at h
    simp [h]
  | cons a l ih =>
    intro start h
    simp only [rangesPartition, Bool.and_eq_true, beq_iff_eq] at h
    obtain ⟨h1, h2⟩ := h
    rw [List.map_cons, List.flatten_cons, ih _ h2, nodeProperties, h1,
      ← List.drop_drop]
    exact List.take_append_drop _ _

/-- In adjoining ranges the range of a node starts where the range of the node before it
ends. -/
theorem rangesPartition_consecutive (total : Nat) : ∀ (l : List fbx_node) (start k : Nat)
    (a b : fbx_node), rangesPartition start l total = true →
    l[k]? = some a → l[k + 1]? = some b → b.firstProperty = a.firstProperty + a.numProperties := by
  intro l
  induction l with
  | nil =>
    intro start k a b _ ha
    simp at ha
  | cons x l ih =>
    intro start k a b h ha hb
    simp only [rangesPartition, Bool.and_eq_true, beq_iff_eq] at h
    obtain ⟨h1, h2⟩ := h
    cases k with
    | zero =>
      simp only [List.getElem?_cons_zero, Option.some.injEq] at ha
      simp only [List.getElem?_cons_succ] at hb
      cases l with
      | nil => simp at hb
      | cons y l =>
        simp only [List.getElem?_cons_zero, Option.some.injEq] at hb
        simp only [rangesPartition, Bool.and_eq_true, beq_iff_eq] at h2
        rw [← ha, ← hb, h2.1, h1]
    | succ k =>
      simp only [List.getElem?_cons_succ] at ha hb
      exact ih _ k a b h2 ha hb

/-- In adjoining ranges every range lies inside the first `total` properties. -/
theorem rangesPartition_bounds (total : Nat) : ∀ (l : List fbx_node) (start : Nat),
    rangesPartition start l total = true →
    start ≤ total ∧ ∀ n, n ∈ l → start ≤ n.firstProperty ∧
      n.firstProperty + n.numProperties ≤ total := by
  intro l
  induction l with
  | nil =>
    intro start h
    simp only [rangesPartition, beq_iff_eq] at h
    exact ⟨by omega, by simp⟩
  | cons x l ih =>
    intro start h
    simp only [rangesPartition, Bool.and_eq_true, beq_iff_eq] at h
    obtain ⟨h1, h2⟩ := h
    obtain ⟨g1, g2⟩ := ih _ h2
    refine ⟨by omega, ?_⟩
    intro n hn
    rcases List.mem_cons.1 hn with rfl | hn
    · exact ⟨by omega, by omega⟩
    · have := g2 n hn
      exact ⟨by omega, this.2⟩

/-- The creation of a node keeps the ranges adjoining, while the property array has fewer than
`2^32` entries. -/
theorem parseNodeHead_ranges (currentNode : fbx_node_record_header_64) (parent : Nat)
    (st st1 : parse_state) (h : parseNodeHead currentNode parent st = Except.ok st1)
    (hq : st.outProperties.length < 4294967296 →
      rangesPartition 0 st.outNodes st.outProperties.length = true) :
    st1.outProperties.length < 4294967296 →
      rangesPartition 0 st1.outNodes st1.outProperties.length = true := by
  intro hsmall
  obtain ⟨parentNode, linked, node, appended, _, hlink, _, hnodes, _, _, _, _, _, hfirst,
    hnum, hprops⟩ := parseNodeHead_nodes _ _ _ _ h
  rw [hprops, List.length_append] at hsmall
  rw [hnodes, hprops, List.length_append, rangesPartition_append, hfirst, hnum,
    Nat.mod_eq_of_lt (by omega),
    rangesPartition_congr _ _ _ _ (linkChild_ranges _ _ _ _ hlink)]
  exact ⟨hq (by omega), rfl⟩

/-- The ranges of the nodes of a parsed file adjoin, from 0 to the number of properties. -/
theorem loadFBX_nodes_ranges (file : entire_file) (version : Nat) (st : parse_state)
    (h : loadFBX_nodes file = load_result.parsed version (Except.ok st))
    (hsmall : st.outProperties.length < 4294967296) :
    rangesPartition 0 st.outNodes st.outProperties.length = true :=
  loadFBX_nodes_state_invariant
    (fun nodes props => props.length < 4294967296 →
      rangesPartition 0 nodes props.length = true)
    parseNodeHead_ranges (fun _ => rfl) file version st h hsmall

/-- A call of `parseNodes` only appends to the property array and changes the property range
of no node that was there before. -/
theorem parseNodes_grows (fuel version : Nat) (st r : parse_state) (level parent : Nat)
    (h : parseNodes fuel version st level parent = Except.ok r) :
    (∃ appended, r.outProperties = st.outProperties ++ appended) ∧
    (r.outNodes.take st.outNodes.length).map propertyRange = st.outNodes.map propertyRange ∧
    st.outNodes.length ≤ r.outNodes.length := by
  simp only [parseNodes] at h
  cases h1 : readNodeRecordHeader version st.file with
  | error e => rw [h1] at h; exact absurd h (by simp)
  | ok r1 =>
    obtain ⟨currentNode, file1⟩ := r1
    rw [h1] at h
    simp only at h
    refine parseLoop_state_invariant
      (fun nodes props => (∃ appended, props = st.outProperties ++ appended) ∧
        (nodes.take st.outNodes.length).map propertyRange = st.outNodes.map propertyRange ∧
        st.outNodes.length ≤ nodes.length)
      ?_ version fuel currentNode parent _ r h ⟨⟨[], by simp⟩, by simp, by simp⟩
    rintro c p s s1 hs ⟨⟨a, ha⟩, hr, hl⟩
    obtain ⟨_, linked, node, appended, _, hlink, hlen, hnodes, _, _, _, _, _, _, _, hprops⟩ :=
      parseNodeHead_nodes _ _ _ _ hs
    refine ⟨⟨a ++ appended, by rw [hprops, ha, List.append_assoc]⟩, ?_, ?_⟩
    · rw [hnodes, List.take_append_of_le_length (by omega), List.map_take,
        linkChild_ranges _ _ _ _ hlink, ← List.map_take]
      exact hr
    · rw [hnodes, List.length_append, hlen]
      simp only [List.length_singleton]
      omega

/-- The properties that the creation of a node appends are the properties of the range of the
new node, also after the array has grown further. -/
theorem parseNodeHead_appended (currentNode : fbx_node_record_header_64) (parent : Nat)
    (st st1 : parse_state) (h : parseNodeHead currentNode parent st = Except.ok st1)
    (hsmall : st1.outProperties.length < 4294967296) :
    ∃ node, st1.outNodes.getLast? = some node ∧
      st1.outProperties = st.outProperties ++ nodeProperties node st1.outProperties ∧
      ∀ later, nodeProperties node (st1.outProperties ++ later)
        = nodeProperties node st1.outProperties := by
  obtain ⟨_, linked, node, appended, _, _, _, hnodes, _, _, _, _, _, hfirst, hnum, hprops⟩ :=
    parseNodeHead_nodes _ _ _ _ h
  rw [hprops, List.length_append] at hsmall
  have hf : node.firstProperty = st.outProperties.length := by
    rw [hfirst, Nat.mod_eq_of_lt (by omega)]
  have key : ∀ later, nodeProperties node (st.outProperties ++ appended ++ later)
      = appended := by
    intro later
    rw [nodeProperties, hf, hnum, List.append_assoc, List.drop_left, List.take_left]
  refine ⟨node, by rw [hnodes]; simp, ?_, ?_⟩
  · have := key []
    rw [List.append_nil] at this
    rw [hprops, this]
  · intro later
    have := key []
    rw [List.append_nil] at this
    rw [hprops, key later, this]

/-- C35: after `parseNodes` has run from the synthetic root, on a property array of fewer than
`2^32` entries, the nodes taken in array order cut the property array into adjoining ranges:
node 0 starts at property 0, the range of node `k + 1` starts where the range of node `k` ends,
and the range of the last node ends at the number of properties, so that the ranges of the
nodes, one after the other, are the property array.  The loop over the range of a node visits
the entries of that range in order; these are the entries that the creation of the node has
appended, and later calls only append to the array and leave the ranges as they are. -/
theorem parseNodes_property_ranges (file : entire_file) (version : Nat) (st : parse_state)
    (h : loadFBX_nodes file = load_result.parsed version (Except.ok st))
    (hsmall : st.outProperties.length < 4294967296) :
    rangesPartition 0 st.outNodes st.outProperties.length = true ∧
    (st.outNodes[0]?.map fun n => n.firstProperty) = some 0 ∧
    (∀ (k : Nat) (a b : fbx_node), st.outNodes[k]? = some a → st.outNodes[k + 1]? = some b →
      b.firstProperty = a.firstProperty + a.numProperties) ∧
    (∃ last, st.outNodes.getLast? = some last ∧
      last.firstProperty + last.numProperties = st.outProperties.length) ∧
    (st.outNodes.map fun n => nodeProperties n st.outProperties).flatten = st.outProperties ∧
    (∀ (σ : Type) (body : σ → fbx_property → Except fbx_error σ) (s : σ) (node : fbx_node),
      node ∈ st.outNodes →
      forProperties st.outProperties body (node.numProperties + 1) node.firstProperty
          (node.firstProperty + node.numProperties) s
        = foldExcept body (nodeProperties node st.outProperties) s) ∧
    (∀ (currentNode : fbx_node_record_header_64) (parent : Nat) (st0 st1 : parse_state),
      parseNodeHead currentNode parent st0 = Except.ok st1 →
      st1.outProperties.length < 4294967296 →
      ∃ node, st1.outNodes.getLast? = some node ∧
        st1.outProperties = st0.outProperties ++ nodeProperties node st1.outProperties ∧
        ∀ later, nodeProperties node (st1.outProperties ++ later)
          = nodeProperties node st1.outProperties) ∧
    (∀ (fuel version1 : Nat) (st0 r : parse_state) (level parent : Nat),
      parseNodes fuel version1 st0 level parent = Except.ok r →
      (∃ appended, r.outProperties = st0.outProperties ++ appended) ∧
      (r.outNodes.take st0.outNodes.length).map (fun n => (n.firstProperty, n.numProperties))
        = st0.outNodes.map (fun n => (n.firstProperty, n.numProperties))) := by
  have hr := loadFBX_nodes_ranges file version st h hsmall
  have hne : ∃ first rest, st.outNodes = first :: rest := by
    have hg : st.outNodes ≠ [] := by
      refine loadFBX_nodes_state_invariant (fun nodes _ => nodes ≠ []) ?_ (by simp)
        file version st h
      intro c p s s1 hs _
      obtain ⟨_, linked, node, _, _, _, _, hnodes, _⟩ := parseNodeHead_nodes _ _ _ _ hs
      rw [hnodes]
      simp
    cases hn : st.outNodes with
    | nil => exact absurd hn hg
    | cons first rest => exact ⟨first, rest, rfl⟩
  obtain ⟨first, rest, hne⟩ := hne
  refine ⟨hr, ?_, ?_, ?_, ?_, ?_, parseNodeHead_appended, ?_⟩
  · rw [hne] at hr ⊢
    simp only [rangesPartition, Bool.and_eq_true, beq_iff_eq] at hr
    simp [hr.1]
  · intro k a b ha hb
    exact rangesPartition_consecutive _ _ _ k a b hr ha hb
  · have hl : st.outNodes = st.outNodes.dropLast ++ [(first :: rest).getLast (by simp)] := by
      rw [hne]
      exact (List.dropLast_append_getLast _).symm
    refine ⟨(first :: rest).getLast (by simp), ?_, ?_⟩
    · rw [hne]
      exact List.getLast?_eq_getLast _ _
    · rw [hl, rangesPartition_append] at hr
      exact hr.2
  · rw [rangesPartition_flatten _ _ _ hr, List.drop_zero]
  · intro σ body s node hmem
    have hb := (rangesPartition_bounds _ _ _ hr).2 node hmem
    exact forProperties_eq_foldExcept _ body node.numProperties _ node.firstProperty s
      hb.2 (by omega)
  · intro fuel version1 st0 r level parent hp
    have hg := parseNodes_grows fuel version1 st0 r level parent hp
    exact ⟨hg.1, hg.2.1⟩

/-- C35 at the file `sceneFile`: the ranges of its 13 nodes adjoin from 0 to the number of its
properties, the range of the node `Objects` (node 1, without properties) and of the geometry
(node 2) start where the ranges before them end, and the ranges together are the property
array; and at the creation of a node `C` with one `int32` property behind the root. -/
theorem parseNodes_property_ranges_witness :
    rangesPartition 0 sceneNodes sceneProperties.length = true ∧
    (sceneNodes[0]?.map fun n => n.firstProperty) = some 0 ∧
    (∀ (a b : fbx_node), sceneNodes[1]? = some a → sceneNodes[2]? = some b →
      b.firstProperty = a.firstProperty + a.numProperties) ∧
    (∃ last, sceneNodes.getLast? = some last ∧
      last.firstProperty + last.numProperties = sceneProperties.length) ∧
    (sceneNodes.map fun n => nodeProperties n sceneProperties).flatten = sceneProperties ∧
    (∃ node, ([{ rootNode with firstChild := 1, lastChild := 1 },
          ⟨⟨[67]⟩, 0, noNode, noNode, noNode, 0, 0, 1⟩] : List fbx_node).getLast? = some node ∧
      [(⟨fbx_property_type.int32, 0, 4, 1, 2⟩ : fbx_property)]
        = [] ++ nodeProperties node [⟨fbx_property_type.int32, 0, 4, 1, 2⟩] ∧
      ∀ later, nodeProperties node ([⟨fbx_property_type.int32, 0, 4, 1, 2⟩] ++ later)
        = nodeProperties node [⟨fbx_property_type.int32, 0, 4, 1, 2⟩]) ∧
    ((∃ appended, sceneProperties = [] ++ appended) ∧
      (sceneNodes.take 1).map (fun n => (n.firstProperty, n.numProperties)) = [(0, 0)]) :=
  ⟨(parseNodes_property_ranges (entire_file.ofBytes sceneFile) 7400
      ⟨⟨sceneFile, 664⟩, sceneNodes, sceneProperties⟩ sceneFile_parse (by decide)).1,
    (parseNodes_property_ranges (entire_file.ofBytes sceneFile) 7400
      ⟨⟨sceneFile, 664⟩, sceneNodes, sceneProperties⟩ sceneFile_parse (by decide)).2.1,
    (parseNodes_property_ranges (entire_file.ofBytes sceneFile) 7400
      ⟨⟨sceneFile, 664⟩, sceneNodes, sceneProperties⟩ sceneFile_parse (by decide)).2.2.1 1,
    (parseNodes_property_ranges (entire_file.ofBytes sceneFile) 7400
      ⟨⟨sceneFile, 664⟩, sceneNodes, sceneProperties⟩ sceneFile_parse (by decide)).2.2.2.1,
    (parseNodes_property_ranges (entire_file.ofBytes sceneFile) 7400
      ⟨⟨sceneFile, 664⟩, sceneNodes, sceneProperties⟩ sceneFile_parse (by decide)).2.2.2.2.1,
    ((parseNodes_property_ranges (entire_file.ofBytes sceneFile) 7400
        ⟨⟨sceneFile, 664⟩, sceneNodes, sceneProperties⟩ sceneFile_parse
        (by decide)).2.2.2.2.2.2.1 ⟨0, 1, 5, 1⟩ 0 ⟨⟨[67, 73, 5, 0, 0, 0], 0⟩, [rootNode], []⟩
        ⟨⟨[67, 73, 5, 0, 0, 0], 6⟩,
          [{ rootNode with firstChild := 1, lastChild := 1 },
            ⟨⟨[67]⟩, 0, noNode, noNode, noNode, 0, 0, 1⟩],
          [⟨fbx_property_type.int32, 0, 4, 1, 2⟩]⟩ (by rfl) (by decide)),
    (parseNodes_property_ranges (entire_file.ofBytes sceneFile) 7400
      ⟨⟨sceneFile, 664⟩, sceneNodes, sceneProperties⟩ sceneFile_parse
      (by decide)).2.2.2.2.2.2.2 665 7400 ⟨⟨sceneFile, 27⟩, [rootNode], []⟩
      ⟨⟨sceneFile, 664⟩, sceneNodes, sceneProperties⟩ 0 0 (by rfl)⟩

/-! ## The tree of the nodes -/

/-- The members of `childIndices nodes p` are the indices of the nodes with the parent `p`. -/
theorem childIndices_mem (nodes : List fbx_node) (p i : Nat) :
    i ∈ childIndices nodes p ↔ ∃ n, nodes[i]? = some n ∧ n.parent = p := by
  simp only [childIndices, List.mem_filter, List.mem_range, List.getElem?_map, beq_iff_eq]
  constructor
  · rintro ⟨_, h⟩
    cases hn : nodes[i]? with
    | none => rw [hn] at h; simp at h
    | some n =>
      rw [hn] at h
      simp only [Option.map_some', Option.some.injEq] at h
      exact ⟨n, rfl, h⟩
  · rintro ⟨n, hn, hp⟩
    refine ⟨?_, by rw [hn]; simp [hp]⟩
    by_contra hlt
    rw [List.getElem?_eq_none (by omega)] at hn
    cases hn

/-- The list `childIndices nodes p` is strictly increasing. -/
theorem childIndices_pairwise (nodes : List fbx_node) (p : Nat) :
    (childIndices nodes p).Pairwise (fun a b => a < b) :=
  List.Pairwise.filter _ (List.pairwise_lt_range _)

/-- The child indices after a node is appended to an array with the same parent indices. -/
theorem childIndices_push (l l1 : List fbx_node) (n : fbx_node)
    (h : (l1.map fun m => m.parent) = l.map fun m => m.parent) (q : Nat) :
    childIndices (l1 ++ [n]) q = childIndices l q ++ if n.parent = q then [l.length] else [] := by
  have hlen : l1.length = l.length := by
    have := congrArg List.length h
    simpa using this
  simp only [childIndices, List.length_append, List.length_singleton, hlen, List.range_succ,
    List.filter_append, List.map_append, h, List.map_cons, List.map_nil]
  congr 1
  · apply List.filter_congr
    intro i hi
    rw [List.getElem?_append_left (by simpa using hi)]
  · have : (List.map (fun m => m.parent) l ++ [n.parent])[l.length]? = some n.parent := by
      rw [List.getElem?_append_right (by simp)]
      simp
    simp only [List.filter_cons, this, List.filter_nil, beq_iff_eq, Option.some.injEq]

/-- A chain depends on the links `next` of the visited nodes only. -/
theorem chainVisits_congr (nodes nodes1 : List fbx_node) : ∀ (c : List Nat) (link : Nat),
    (∀ i, i ∈ c → (nodes1[i]?.map fun n => n.next) = nodes[i]?.map fun n => n.next) →
    chainVisits nodes1 link c = chainVisits nodes link c := by
  intro c
  induction c with
  | nil => intro link _; rfl
  | cons i rest ih =>
    intro link h
    have hi := h i (List.mem_cons_self _ _)
    simp only [chainVisits]
    congr 1
    cases h1 : nodes1[i]? with
    | none =>
      rw [h1] at hi
      cases h0 : nodes[i]? with
      | none => rfl
      | some n => rw [h0] at hi; simp at hi
    | some n1 =>
      rw [h1] at hi
      cases h0 : nodes[i]? with
      | none => rw [h0] at hi; simp at hi
      | some n =>
        rw [h0] at hi
        simp only [Option.map_some', Option.some.injEq] at hi
        simp only [hi]
        exact ih _ fun j hj => h j (List.mem_cons_of_mem _ hj)

/-- A chain grows by the node `k` when the last node of the chain gets the link `next := k`
and the node `k` has no next node. -/
theorem chainVisits_push (nodes nodes1 : List fbx_node) (k : Nat) (node : fbx_node)
    (hk : nodes1[k]? = some node) (hnext : node.next = noNode) :
    ∀ (c : List Nat) (link : Nat), c.Nodup →
    (∀ (i : Nat) (n : fbx_node), i ∈ c → nodes[i]? = some n →
      ∃ n1, nodes1[i]? = some n1 ∧
        n1.next = if i = c.getLast?.getD noNode then k else n.next) →
    chainVisits nodes link c = true →
    chainVisits nodes1 (if c = [] then k else link) (c ++ [k]) = true := by
  have hend : chainVisits nodes1 k [k] = true := by
    simp only [chainVisits, hk, hnext, beq_self_eq_true, Bool.and_self]
  intro c
  induction c with
  | nil =>
    intro link _ _ _
    exact hend
  | cons i rest ih =>
    intro link hnd hupd h
    simp only [chainVisits, Bool.and_eq_true, beq_iff_eq] at h
    obtain ⟨hl, h⟩ := h
    cases hn : nodes[i]? with
    | none => rw [hn] at h; simp at h
    | some n =>
      rw [hn] at h
      simp only at h
      obtain ⟨n1, hn1, hnx⟩ := hupd i n (List.mem_cons_self _ _) hn
      rw [if_neg (by simp), List.cons_append]
      simp only [chainVisits, hl, beq_self_eq_true, Bool.true_and, hn1]
      cases rest with
      | nil =>
        simp only [List.getLast?_singleton, Option.getD_some, if_true] at hnx
        rw [hnx]
        exact hend
      | cons j r =>
        have hlast : (i :: j :: r).getLast?.getD noNode = (j :: r).getLast?.getD noNode := by
          rw [List.getLast?_cons_cons]
        have hmem : (j :: r).getLast?.getD noNode ∈ j :: r := by
          rw [List.getLast?_eq_getLast _ (by simp)]
          exact List.getLast_mem _
        have hne : i ≠ (j :: r).getLast?.getD noNode := by
          intro he
          rw [← he] at hmem
          exact (List.nodup_cons.1 hnd).1 hmem
        rw [hlast, if_neg hne] at hnx
        rw [hnx]
        have := ih n.next (List.nodup_cons.1 hnd).2
          (fun i1 m hi1 hm => by
            obtain ⟨m1, hm1, hmx⟩ := hupd i1 m (List.mem_cons_of_mem _ hi1) hm
            exact ⟨m1, hm1, by rw [hmx, hlast]⟩) h
        rw [if_neg (by simp)] at this
        exact this

/-- The last node of a chain has no next node. -/
theorem chainVisits_last (nodes : List fbx_node) : ∀ (c : List Nat) (link : Nat)
    (hc : c ≠ []), chainVisits nodes link c = true →
    ∃ n, nodes[c.getLast hc]? = some n ∧ n.next = noNode := by
  intro c
  induction c with
  | nil => intro _ hc; exact absurd rfl hc
  | cons i rest ih =>
    intro link hc h
    simp only [chainVisits, Bool.and_eq_true, beq_iff_eq] at h
    obtain ⟨_, h⟩ := h
    cases hn : nodes[i]? with
    | none => rw [hn] at h; simp at h
    | some n =>
      rw [hn] at h
      simp only at h
      cases rest with
      | nil =>
        simp only [chainVisits, beq_iff_eq] at h
        exact ⟨n, by simpa using hn, h⟩
      | cons j r =>
        obtain ⟨m, hm, hmx⟩ := ih n.next (by simp) h
        exact ⟨m, by simpa using hm, hmx⟩

/-- The node iterator that starts at the first link of a chain visits the nodes of the
chain. -/
theorem chainVisits_forChildren (nodes : List fbx_node) : ∀ (c : List Nat) (link fuel : Nat)
    (visited : List fbx_node), chainVisits nodes link c = true → c.length < fuel →
    (∀ i, i ∈ c → i ≠ noNode) →
    forChildren nodes (fun visited node => Except.ok (visited ++ [node])) fuel link visited
      = Except.ok (visited ++ c.filterMap fun i => nodes[i]?) := by
  intro c
  induction c with
  | nil =>
    intro link fuel visited h hf _
    simp only [chainVisits, beq_iff_eq] at h
    cases fuel with
    | zero => simp at hf
    | succ fuel => simp [forChildren, h]
  | cons i rest ih =>
    intro link fuel visited h hf hno
    simp only [chainVisits, Bool.and_eq_true, beq_iff_eq] at h
    obtain ⟨hl, h⟩ := h
    cases hn : nodes[i]? with
    | none => rw [hn] at h; simp at h
    | some n =>
      rw [hn] at h
      simp only at h
      cases fuel with
      | zero => simp at hf
      | succ fuel =>
        have hne : (link != noNode) = true := by
          rw [hl]
          simpa using hno i (List.mem_cons_self _ _)
        simp only [forChildren, hne, if_true]
        rw [hl, vecGet_eq_ok _ _ _ hn]
        simp only
        rw [ih n.next fuel _ h (by simpa using hf)
          (fun j hj => hno j (List.mem_cons_of_mem _ hj))]
        simp only [List.filterMap_cons, hn, List.append_assoc, List.singleton_append]

/-- A chain starts at the marker of a missing node exactly when it visits nothing. -/
theorem chainVisits_nil_iff (nodes : List fbx_node) (c : List Nat) (link : Nat)
    (h : chainVisits nodes link c = true) (hno : ∀ i, i ∈ c → i ≠ noNode) :
    link = noNode ↔ c = [] := by
  cases c with
  | nil =>
    simp only [chainVisits, beq_iff_eq] at h
    simp [h]
  | cons i rest =>
    simp only [chainVisits, Bool.and_eq_true, beq_iff_eq] at h
    have := hno i (List.mem_cons_self _ _)
    constructor
    · intro hl
      rw [h.1] at hl
      exact absurd hl this
    · intro hc
      cases hc

/-- The creation of a node keeps the node array a well-formed tree, while the array has fewer
than `2^32` nodes. -/
theorem parseNodeHead_tree (currentNode : fbx_node_record_header_64) (parent : Nat)
    (st st1 : parse_state) (h : parseNodeHead currentNode parent st = Except.ok st1)
    (hq : st.outNodes.length < 4294967296 → wellFormedTree st.outNodes) :
    st1.outNodes.length < 4294967296 → wellFormedTree st1.outNodes := by
  intro hsmall
  obtain ⟨parentNode, linked, node, appended, hp, hlink, hlen, hnodes, hparent, hnext, hfc, hlc,
    hlevel, _, _, _⟩ := parseNodeHead_nodes _ _ _ _ h
  rw [hnodes, List.length_append, hlen] at hsmall
  simp only [List.length_singleton] at hsmall
  have hno : noNode = 4294967295 := rfl
  rw [Nat.mod_eq_of_lt (by omega)] at hlink
  have hpk : parent < st.outNodes.length := by
    by_contra hc
    rw [List.getElem?_eq_none (by omega)] at hp
    cases hp
  have hpn : parent ≠ noNode := by omega
  have hget := linkChild_get _ _ _ _ _ hp hpn hlink
  obtain ⟨⟨root, hroot, hrp, hrl⟩, hT1, hT3⟩ := hq (by omega)
  have hlow : ∀ i, i < st.outNodes.length → st1.outNodes[i]? = linked[i]? := by
    intro i hi
    rw [hnodes, List.getElem?_append_left (by omega)]
  have hk : st1.outNodes[st.outNodes.length]? = some node := by
    rw [hnodes, List.getElem?_append_right (by omega), hlen]
    simp
  have hle : ∀ (i : Nat) (n : fbx_node), st1.outNodes[i]? = some n →
      i < st.outNodes.length ∨ i = st.outNodes.length := by
    intro i n hi
    by_contra hc
    rw [hnodes, List.getElem?_eq_none (by simp; omega)] at hi
    cases hi
  have hparents : (linked.map fun m => m.parent) = st.outNodes.map fun m => m.parent := by
    apply List.ext_getElem?
    intro i
    rw [List.getElem?_map, List.getElem?_map, hget i]
    cases st.outNodes[i]? with
    | none => rfl
    | some n => rfl
  have hmemlt : ∀ q i, i ∈ childIndices st.outNodes q → i < st.outNodes.length := by
    intro q i hi
    obtain ⟨n, hn, _⟩ := (childIndices_mem _ _ _).1 hi
    by_contra hc
    rw [List.getElem?_eq_none (by omega)] at hn
    cases hn
  have hmemno : ∀ q i, i ∈ childIndices st.outNodes q → i ≠ noNode := by
    intro q i hi
    have := hmemlt q i hi
    omega
  have hupd : ∀ (i : Nat) (n : fbx_node), i < st.outNodes.length → st.outNodes[i]? = some n →
      ∃ n1, st1.outNodes[i]? = some n1 ∧ n1.parent = n.parent ∧ n1.level = n.level := by
    intro i n hi hn
    rw [hlow i hi, hget i, hn]
    exact ⟨_, rfl, rfl, rfl⟩
  refine ⟨?_, ?_, ?_⟩
  · have h0 : 0 < st.outNodes.length := by omega
    obtain ⟨root1, g1, g2, g3⟩ := hupd 0 root h0 hroot
    exact ⟨root1, g1, by rw [g2, hrp], by rw [g3, hrl]⟩
  · intro i n1 hi hpos
    rcases hle i n1 hi with hlt | heq
    · rw [hlow i hlt, hget i] at hi
      cases hn : st.outNodes[i]? with
      | none => rw [hn] at hi; cases hi
      | some n =>
        rw [hn] at hi
        simp only [Option.map_some', Option.some.injEq] at hi
        obtain ⟨g1, p, hp1, g2⟩ := hT1 i n hn hpos
        subst hi
        obtain ⟨p1, e1, _, e3⟩ := hupd n.parent p (by omega) hp1
        exact ⟨g1, p1, e1, by rw [e3]; exact g2⟩
    · rw [heq, hk] at hi
      simp only [Option.some.injEq] at hi
      subst hi
      rw [hparent, heq]
      obtain ⟨p1, e1, _, e3⟩ := hupd parent parentNode hpk hp
      exact ⟨hpk, p1, e1, by rw [e3]; exact hlevel⟩
  · intro q n1 hq1
    rw [hnodes, childIndices_push st.outNodes linked node hparents q, hparent]
    rw [← hnodes]
    rcases hle q n1 hq1 with hlt | heq
    · rw [hlow q hlt, hget q] at hq1
      cases hn : st.outNodes[q]? with
      | none => rw [hn] at hq1; cases hq1
      | some n =>
        rw [hn] at hq1
        simp only [Option.map_some', Option.some.injEq] at hq1
        obtain ⟨hchain, hlast⟩ := hT3 q n hn
        by_cases hqp : parent = q
        · subst hqp
          rw [hp] at hn
          simp only [Option.some.injEq] at hn
          subst hn
          have hnil := chainVisits_nil_iff _ _ _ hchain (hmemno parent)
          rw [if_pos rfl]
          have hpush := chainVisits_push st.outNodes st1.outNodes st.outNodes.length node hk
            hnext (childIndices st.outNodes parent) parentNode.firstChild
            (List.Pairwise.imp (fun hab => Nat.ne_of_lt hab) (childIndices_pairwise _ _))
            (by
              intro i m hi hm
              refine ⟨_, by rw [hlow i (hmemlt _ i hi), hget i, hm]; rfl, ?_⟩
              have hne : childIndices st.outNodes parent ≠ [] := by
                intro hc
                rw [hc] at hi
                cases hi
              have hfne : parentNode.firstChild ≠ noNode := fun hc => hne (hnil.1 hc)
              simp only [hlast, hfne, ne_eq, not_false_eq_true, and_true])
            hchain
          subst hq1
          refine ⟨?_, ?_⟩
          · simp only [true_and]
            by_cases hc : childIndices st.outNodes parent = []
            · rw [if_pos hc] at hpush
              rw [if_pos (hnil.2 hc)]
              exact hpush
            · rw [if_neg hc] at hpush
              rw [if_neg (fun hx => hc (hnil.1 hx))]
              exact hpush
          · simp only [if_true, List.getLast?_append, List.getLast?_singleton, Option.or,
              Option.getD_some]
        · rw [if_neg hqp, List.append_nil]
          subst hq1
          have hqp1 : ¬ q = parent := fun hc => hqp hc.symm
          simp only [hqp1, false_and, if_false]
          refine ⟨?_, hlast⟩
          rw [chainVisits_congr st.outNodes st1.outNodes _ _ ?_]
          · exact hchain
          · intro i hi
            obtain ⟨m, hm, hmp⟩ := (childIndices_mem _ _ _).1 hi
            rw [hlow i (hmemlt _ i hi), hget i, hm]
            simp only [Option.map_some', Option.some.injEq]
            rw [if_neg]
            rintro ⟨hil, hfne⟩
            obtain ⟨hchainP, hlastP⟩ := hT3 parent parentNode hp
            have hnilP := chainVisits_nil_iff _ _ _ hchainP (hmemno parent)
            have hne : childIndices st.outNodes parent ≠ [] := fun hc => hfne (hnilP.2 hc)
            rw [List.getLast?_eq_getLast _ hne, Option.getD_some] at hlastP
            have hmemP : i ∈ childIndices st.outNodes parent := by
              rw [hil, hlastP]
              exact List.getLast_mem _
            obtain ⟨m1, hm1, hmp1⟩ := (childIndices_mem _ _ _).1 hmemP
            rw [hm] at hm1
            simp only [Option.some.injEq] at hm1
            rw [← hm1, hmp] at hmp1
            exact hqp hmp1.symm
    · rw [heq, hk] at hq1
      simp only [Option.some.injEq] at hq1
      subst hq1
      have hc : childIndices st.outNodes q = [] := by
        apply List.eq_nil_iff_forall_not_mem.2
        intro i hi
        obtain ⟨m, hm, hmp⟩ := (childIndices_mem _ _ _).1 hi
        have hilt := hmemlt _ i hi
        by_cases hi0 : i = 0
        · rw [hi0, hroot] at hm
          simp only [Option.some.injEq] at hm
          rw [← hm, hrp] at hmp
          omega
        · have := (hT1 i m hm (by omega)).1
          omega
      rw [hc, if_neg (by omega), List.append_nil, hfc, hlc]
      exact ⟨rfl, rfl⟩

/-- The array of the root node alone: it has no other node, and the root has no child. -/
theorem wellFormedTree_root :
    (∀ (i : Nat) (n : fbx_node), [rootNode][i]? = some n → 0 < i →
      n.parent < i ∧ ∃ p, [rootNode][n.parent]? = some p ∧
        n.level = (p.level + 1) % 4294967296) ∧
    (∀ (q : Nat) (n : fbx_node), [rootNode][q]? = some n →
      chainVisits [rootNode] n.firstChild (childIndices [rootNode] q) = true ∧
      n.lastChild = (childIndices [rootNode] q).getLast?.getD noNode) := by
  constructor
  · intro i n hi hpos
    rw [List.getElem?_eq_none (by simpa using hpos)] at hi
    cases hi
  · intro q n hq
    cases q with
    | zero =>
      simp only [List.getElem?_cons_zero, Option.some.injEq] at hq
      subst hq
      exact ⟨by rfl, by rfl⟩
    | succ q =>
      rw [List.getElem?_eq_none (by simp)] at hq
      cases hq

/-- The node array of a parsed file with fewer than `2^32` nodes is a well-formed tree. -/
theorem loadFBX_nodes_tree (file : entire_file) (version : Nat) (st : parse_state)
    (h : loadFBX_nodes file = load_result.parsed version (Except.ok st))
    (hsmall : st.outNodes.length < 4294967296) : wellFormedTree st.outNodes :=
  loadFBX_nodes_state_invariant
    (fun nodes _ => nodes.length < 4294967296 → wellFormedTree nodes)
    parseNodeHead_tree
    (fun _ => ⟨⟨rootNode, rfl, rfl, rfl⟩,
      wellFormedTree_root.1, wellFormedTree_root.2⟩)
    file version st h hsmall

/-- C34: after `parseNodes` has run from the synthetic root, a node array of fewer than `2^32`
nodes is a well-formed tree.  The node 0 is the root, without parent and of level `2^32 - 1`;
every other node has a parent of smaller index and the level of its parent plus 1 modulo
`2^32`, so the children of the root have level 0.  For every node `p`, following `firstChild`
and then `next` visits the indices `childIndices nodes p`, which are the indices of the nodes
with the parent `p` in increasing order; the node iterator visits these nodes; `firstChild` is
the first and `lastChild` the last of them, and the last one has no next node. -/
theorem parseNodes_tree (file : entire_file) (version : Nat) (st : parse_state)
    (h : loadFBX_nodes file = load_result.parsed version (Except.ok st))
    (hsmall : st.outNodes.length < 4294967296) :
    (∃ root, st.outNodes[0]? = some root ∧ root.parent = noNode ∧ root.level = 4294967295) ∧
    (∀ (i : Nat) (n : fbx_node), st.outNodes[i]? = some n → 0 < i →
      n.parent < i ∧ ∃ p, st.outNodes[n.parent]? = some p ∧
        n.level = (p.level + 1) % 4294967296) ∧
    (∀ (i : Nat) (n : fbx_node), st.outNodes[i]? = some n → n.parent = 0 → n.level = 0) ∧
    (∀ (p : Nat) (node : fbx_node), st.outNodes[p]? = some node →
      chainVisits st.outNodes node.firstChild (childIndices st.outNodes p) = true ∧
      childrenOf st.outNodes (some node)
        = Except.ok ((childIndices st.outNodes p).filterMap fun i => st.outNodes[i]?) ∧
      node.firstChild = (childIndices st.outNodes p).head?.getD noNode ∧
      node.lastChild = (childIndices st.outNodes p).getLast?.getD noNode ∧
      (node.firstChild ≠ noNode →
        ∃ last, st.outNodes[node.lastChild]? = some last ∧ last.parent = p ∧
          last.next = noNode)) ∧
    (∀ (p i : Nat), i ∈ childIndices st.outNodes p ↔
      ∃ n, st.outNodes[i]? = some n ∧ n.parent = p) ∧
    (∀ (p : Nat), (childIndices st.outNodes p).Pairwise fun a b => a < b) := by
  obtain ⟨⟨root, hroot, hrp, hrl⟩, hT1, hT3⟩ := loadFBX_nodes_tree file version st h hsmall
  have hno : noNode = 4294967295 := rfl
  have hmemno : ∀ q i, i ∈ childIndices st.outNodes q → i ≠ noNode := by
    intro q i hi
    obtain ⟨n, hn, _⟩ := (childIndices_mem _ _ _).1 hi
    have : i < st.outNodes.length := by
      by_contra hc
      rw [List.getElem?_eq_none (by omega)] at hn
      cases hn
    omega
  refine ⟨⟨root, hroot, hrp, hrl⟩, hT1, ?_, ?_, fun p i => childIndices_mem _ p i,
    fun p => childIndices_pairwise _ p⟩
  · intro i n hn hp0
    by_cases hi : i = 0
    · rw [hi, hroot] at hn
      simp only [Option.some.injEq] at hn
      rw [← hn, hrp] at hp0
      omega
    · obtain ⟨_, p, hp, hl⟩ := hT1 i n hn (by omega)
      rw [hp0, hroot] at hp
      simp only [Option.some.injEq] at hp
      rw [hl, ← hp, hrl, hno]
  · intro p node hp
    obtain ⟨hchain, hlast⟩ := hT3 p node hp
    have hnil := chainVisits_nil_iff _ _ _ hchain (hmemno p)
    refine ⟨hchain, ?_, ?_, hlast, ?_⟩
    · have hlen : (childIndices st.outNodes p).length < st.outNodes.length + 1 := by
        have := List.length_filter_le
          (fun i => (st.outNodes.map fun n => n.parent)[i]? == some p)
          (List.range st.outNodes.length)
        simp only [List.length_range] at this
        exact Nat.lt_succ_of_le this
      have := chainVisits_forChildren st.outNodes _ node.firstChild _ [] hchain hlen
        (hmemno p)
      simpa [childrenOf, childrenFrom, iteratorBegin] using this
    · cases hc : childIndices st.outNodes p with
      | nil => simpa using hnil.2 hc
      | cons i rest =>
        rw [hc] at hchain
        simp only [chainVisits, Bool.and_eq_true, beq_iff_eq] at hchain
        simpa using hchain.1
    · intro hfne
      have hne : childIndices st.outNodes p ≠ [] := fun hc => hfne (hnil.2 hc)
      obtain ⟨last, g1, g2⟩ := chainVisits_last _ _ _ hne hchain
      rw [List.getLast?_eq_getLast _ hne, Option.getD_some] at hlast
      obtain ⟨m, hm, hmp⟩ := (childIndices_mem _ p _).1 (List.getLast_mem hne)
      rw [g1] at hm
      simp only [Option.some.injEq] at hm
      exact ⟨last, by rw [hlast]; exact g1, by rw [hm]; exact hmp, g2⟩

/-- C34 at the file `twinFile`: the root has the children 1, 2 and 4, the node 2 has the child
3 of level 1, and the children of the root have level 0. -/
theorem parseNodes_tree_witness :
    childIndices twinNodes 0 = [1, 2, 4] ∧ childIndices twinNodes 2 = [3] ∧
    (∃ root, twinNodes[0]? = some root ∧ root.parent = noNode ∧ root.level = 4294967295) ∧
    (∀ (n : fbx_node), twinNodes[3]? = some n → 0 < 3 →
      n.parent < 3 ∧ ∃ p, twinNodes[n.parent]? = some p ∧
        n.level = (p.level + 1) % 4294967296) ∧
    (∀ (n : fbx_node), twinNodes[4]? = some n → n.parent = 0 → n.level = 0) ∧
    (∀ (node : fbx_node), twinNodes[0]? = some node →
      chainVisits twinNodes node.firstChild (childIndices twinNodes 0) = true ∧
      childrenOf twinNodes (some node)
        = Except.ok ((childIndices twinNodes 0).filterMap fun i => twinNodes[i]?) ∧
      node.firstChild = (childIndices twinNodes 0).head?.getD noNode ∧
      node.lastChild = (childIndices twinNodes 0).getLast?.getD noNode ∧
      (node.firstChild ≠ noNode →
        ∃ last, twinNodes[node.lastChild]? = some last ∧ last.parent = 0 ∧
          last.next = noNode)) :=
  ⟨by decide, by decide,
    (parseNodes_tree (entire_file.ofBytes twinFile) 7400
      ⟨⟨twinFile, 114⟩, twinNodes, twinProperties⟩ twinFile_parse (by decide)).1,
    (parseNodes_tree (entire_file.ofBytes twinFile) 7400
      ⟨⟨twinFile, 114⟩, twinNodes, twinProperties⟩ twinFile_parse (by decide)).2.1 3,
    (parseNodes_tree (entire_file.ofBytes twinFile) 7400
      ⟨⟨twinFile, 114⟩, twinNodes, twinProperties⟩ twinFile_parse (by decide)).2.2.1 4,
    (parseNodes_tree (entire_file.ofBytes twinFile) 7400
      ⟨⟨twinFile, 114⟩, twinNodes, twinProperties⟩ twinFile_parse (by decide)).2.2.2.1 0⟩

/-! ## Invariants of the output meshes -/

/-- A bucket in the state of `bucketGood` holds a well-formed mesh. -/
theorem bucketGood_meshWellFormed {F : Type} [Zero F] (uvs : List (vec2 F))
    (normals : List (vec3 F)) (n : Nat) (perMat : per_material F)
    (h : bucketGood uvs normals n perMat) : meshWellFormed perMat.geometry := by
  obtain ⟨K, ⟨_, _, hpos, huv, hno, _, _⟩, _, h3, hrange, hcov⟩ := h
  have hlen : perMat.geometry.positions.length = K.length := by rw [hpos, List.length_map]
  refine ⟨h3, ?_, ?_, ?_, ?_⟩
  · intro w hw
    rw [hlen]
    exact hrange w hw
  · rw [huv, hlen]
    by_cases he : uvs.isEmpty = true
    · left; simp [he]
    · right; simp [he]
  · rw [hno, hlen]
    by_cases he : normals.isEmpty = true
    · left; simp [he]
    · right; simp [he]
  · intro k hk
    exact hcov k (by omega)

/-- One `addVertex` call on a bucket with the distinct vertices `K`: at most one vertex is
added, the index buffer is untouched, the returned index points to a vertex, and it is the
index of the added vertex when there is one. -/
theorem addVertex_place {F : Type} [DecidableEq F] [Zero F] (positions : List (vec3 F))
    (uvs : List (vec2 F)) (normals : List (vec3 F)) (perMat perMat1 : per_material F)
    (K : List (full_vertex F)) (index : Nat) (w : Int)
    (hinv : bucketInv uvs normals perMat K) (hK : K.length < 2147483648)
    (h : perMat.addVertex positions uvs normals index = Except.ok (w, perMat1)) :
    ∃ K1, bucketInv uvs normals perMat1 K1 ∧ K.length ≤ K1.length ∧
      K1.length ≤ K.length + 1 ∧
      perMat1.geometry.indices = perMat.geometry.indices ∧
      0 ≤ w ∧ w < (K1.length : Int) ∧
      ∀ k : Nat, k < K1.length → k < K.length ∨ (k : Int) = w := by
  obtain ⟨v, K1, _, hinv1, hK1, hidx, k, hk, hw⟩ :=
    addVertex_inv positions uvs normals perMat perMat1 K index w hinv hK h
  have hklt : k < K1.length := by
    by_contra hc
    rw [List.getElem?_eq_none (by omega)] at hk
    cases hk
  rcases hK1 with rfl | rfl
  · exact ⟨K1, hinv1, Nat.le_refl _, by omega, hidx, by omega, by omega,
      fun j hj => Or.inl hj⟩
  · refine ⟨K ++ [v], hinv1, by simp, by simp, hidx, by omega, by omega, ?_⟩
    intro j hj
    simp only [List.length_append, List.length_singleton] at hj hklt
    by_cases hjk : j < K.length
    · exact Or.inl hjk
    · right
      have hj1 : j = K.length := by omega
      have hk1 : k = K.length := by
        by_contra hne
        have hlt : k < K.length := by omega
        rw [List.getElem?_append_left hlt] at hk
        have hmem : v ∈ K := List.getElem?_mem hk
        have hnd := hinv1.1
        rw [List.nodup_append] at hnd
        exact hnd.2.2 hmem (List.mem_singleton_self v)
      rw [hw, hj1, hk1]

/-- An entry of a table after an assignment is an entry from before or the assigned one. -/
theorem mem_mapSet {κ ν : Type} [DecidableEq κ] (key : κ) (value : ν) (e : κ × ν) :
    ∀ (m : List (κ × ν)), e ∈ mapSet key value m → e ∈ m ∨ e = (key, value) := by
  intro m
  induction m with
  | nil =>
    intro h
    simp only [mapSet, List.mem_singleton] at h
    exact Or.inr h
  | cons p m ih =>
    obtain ⟨k, v⟩ := p
    intro h
    simp only [mapSet] at h
    by_cases hk : k = key
    · simp only [hk, if_true, List.mem_cons] at h
      rcases h with h | h
      · exact Or.inr h
      · exact Or.inl (List.mem_cons_of_mem _ h)
    · simp only [hk, if_false, List.mem_cons] at h
      rcases h with h | h
      · exact Or.inl (by rw [h]; exact List.mem_cons_self _ _)
      · rcases ih h with h1 | h1
        · exact Or.inl (List.mem_cons_of_mem _ h1)
        · exact Or.inr h1

/-- A value found in a table is the value of an entry. -/
theorem mem_of_mapFind {κ ν : Type} [DecidableEq κ] (key : κ) (value : ν) :
    ∀ (m : List (κ × ν)), mapFind key m = some value → ∃ k, (k, value) ∈ m := by
  intro m
  induction m with
  | nil => intro h; simp [mapFind] at h
  | cons p m ih =>
    obtain ⟨k, v⟩ := p
    intro h
    simp only [mapFind] at h
    by_cases hk : k = key
    · simp only [hk, if_true, Option.some.injEq] at h
      exact ⟨k, by rw [h]; exact List.mem_cons_self _ _⟩
    · simp only [hk, if_false] at h
      obtain ⟨k1, h1⟩ := ih h
      exact ⟨k1, List.mem_cons_of_mem _ h1⟩

/-- One iteration of the fan loop, on a bucket whose vertices are all referenced by its indices
or are one of the fan corners `a` and `b`: after the triangle `(a, b, c)` is pushed, the indices
come in triangles, point to vertices and reference all vertices. -/
theorem fanLoop_iteration {F : Type} [DecidableEq F] [Zero F] (positions : List (vec3 F))
    (uvs : List (vec2 F)) (normals : List (vec3 F)) (a b c : Int) (firstIndex : Nat)
    (perMat perMat1 : per_material F) (K : List (full_vertex F))
    (hinv : bucketInv uvs normals perMat K) (hK : K.length < 2147483648)
    (ha0 : 0 ≤ a) (ha1 : a < (K.length : Int)) (hb0 : 0 ≤ b) (hb1 : b < (K.length : Int))
    (h3 : perMat.geometry.indices.length % 3 = 0)
    (hrange : ∀ w, w ∈ perMat.geometry.indices → 0 ≤ w ∧ w < (K.length : Int))
    (hcov : ∀ k : Nat, k < K.length →
      (k : Int) ∈ perMat.geometry.indices ∨ (k : Int) = a ∨ (k : Int) = b)
    (h1 : perMat.addVertex positions uvs normals firstIndex = Except.ok (c, perMat1)) :
    ∃ K1, bucketInv uvs normals
        (perMat1.withIndices (perMat1.geometry.indices ++ [a, b, c])) K1 ∧
      K1.length ≤ K.length + 1 ∧ 0 ≤ c ∧ c < (K1.length : Int) ∧ a < (K1.length : Int) ∧
      (perMat1.geometry.indices ++ [a, b, c]).length % 3 = 0 ∧
      (∀ w, w ∈ perMat1.geometry.indices ++ [a, b, c] → 0 ≤ w ∧ w < (K1.length : Int)) ∧
      (∀ k : Nat, k < K1.length → (k : Int) ∈ perMat1.geometry.indices ++ [a, b, c]) := by
  obtain ⟨K1, hinv1, hle, hle1, hidx, hc0, hc1, hnew⟩ :=
    addVertex_place positions uvs normals perMat perMat1 K firstIndex c hinv hK h1
  refine ⟨K1, hinv1, hle1, hc0, hc1, by omega, ?_, ?_, ?_⟩
  · simp only [hidx, List.length_append, List.length_cons, List.length_nil]
    omega
  · intro w hw
    simp only [hidx, List.mem_append, List.mem_cons, List.mem_singleton,
      List.not_mem_nil, or_false] at hw
    rcases hw with hw | hw | hw | hw
    · have := hrange w hw
      exact ⟨this.1, by omega⟩
    · rw [hw]; exact ⟨ha0, by omega⟩
    · rw [hw]; exact ⟨hb0, by omega⟩
    · rw [hw]; exact ⟨hc0, hc1⟩
  · intro k hk
    simp only [hidx, List.mem_append, List.mem_cons, List.mem_singleton,
      List.not_mem_nil, or_false]
    rcases hnew k hk with hlt | heq
    · rcases hcov k hlt with g | g | g
      · exact Or.inl g
      · exact Or.inr (Or.inl g)
      · exact Or.inr (Or.inr (Or.inl g))
    · exact Or.inr (Or.inr (Or.inr heq))

/-- The fan loop with at least one iteration, on a bucket whose vertices are all referenced by
its indices or are one of the fan corners `a` and `b`: afterwards the indices come in
triangles, point to vertices and reference all vertices. -/
theorem fanLoop_good {F : Type} [DecidableEq F] [Zero F] (positions : List (vec3 F))
    (uvs : List (vec2 F)) (normals : List (vec3 F)) (a : Int) :
    ∀ (left : Nat) (b : Int) (firstIndex : Nat) (perMat perMat1 : per_material F)
      (K : List (full_vertex F)),
      bucketInv uvs normals perMat K → K.length + (left + 1) ≤ 2147483648 →
      0 ≤ a → a < (K.length : Int) → 0 ≤ b → b < (K.length : Int) →
      perMat.geometry.indices.length % 3 = 0 →
      (∀ w, w ∈ perMat.geometry.indices → 0 ≤ w ∧ w < (K.length : Int)) →
      (∀ k : Nat, k < K.length →
        (k : Int) ∈ perMat.geometry.indices ∨ (k : Int) = a ∨ (k : Int) = b) →
      fanLoop positions uvs normals a (left + 1) b firstIndex perMat = Except.ok perMat1 →
      ∃ K1, bucketInv uvs normals perMat1 K1 ∧ K1.length ≤ K.length + (left + 1) ∧
        perMat1.geometry.indices.length % 3 = 0 ∧
        (∀ w, w ∈ perMat1.geometry.indices → 0 ≤ w ∧ w < (K1.length : Int)) ∧
        (∀ k : Nat, k < K1.length → (k : Int) ∈ perMat1.geometry.indices) := by
  intro left
  induction left with
  | zero =>
    intro b firstIndex perMat perMat2 K hinv hK ha0 ha1 hb0 hb1 h3 hrange hcov h
    rw [fanLoop] at h
    cases h1 : perMat.addVertex positions uvs normals firstIndex with
    | error e => rw [h1] at h; exact absurd h (by simp)
    | ok r1 =>
      obtain ⟨c, perMat1⟩ := r1
      rw [h1] at h
      simp only [fanLoop, Except.ok.injEq] at h
      obtain ⟨K1, hinv1, hle1, _, _, _, g3, grange, gcov⟩ :=
        fanLoop_iteration positions uvs normals a b c firstIndex perMat perMat1 K hinv
          (by omega) ha0 ha1 hb0 hb1 h3 hrange hcov h1
      subst h
      exact ⟨K1, hinv1, hle1, g3, grange, gcov⟩
  | succ left ih =>
    intro b firstIndex perMat perMat2 K hinv hK ha0 ha1 hb0 hb1 h3 hrange hcov h
    rw [fanLoop] at h
    cases h1 : perMat.addVertex positions uvs normals firstIndex with
    | error e => rw [h1] at h; exact absurd h (by simp)
    | ok r1 =>
      obtain ⟨c, perMat1⟩ := r1
      rw [h1] at h
      simp only at h
      obtain ⟨K1, hinv1, hle1, hc0, hc1, ha2, g3, grange, gcov⟩ :=
        fanLoop_iteration positions uvs normals a b c firstIndex perMat perMat1 K hinv
          (by omega) ha0 ha1 hb0 hb1 h3 hrange hcov h1
      obtain ⟨K2, hinv2, hle2, f3, frange, fcov⟩ := ih c (firstIndex + 1)
        (perMat1.withIndices (perMat1.geometry.indices ++ [a, b, c])) perMat2 K1 hinv1
        (by omega) ha0 ha2 hc0 hc1 g3 grange (fun k hk => Or.inl (gcov k hk)) h
      exact ⟨K2, hinv2, by omega, f3, frange, fcov⟩

/-- Triangulating a face of at least three corners keeps a bucket in the state of
`bucketGood`, with up to `faceSize` more vertices. -/
theorem triangulateFace_good {F : Type} [DecidableEq F] [Zero F] (positions : List (vec3 F))
    (uvs : List (vec2 F)) (normals : List (vec3 F)) (perMat perMat1 : per_material F)
    (firstIndex faceSize n : Nat) (hsize : 3 ≤ faceSize) (hn : n + faceSize ≤ 2147483648)
    (hgood : bucketGood uvs normals n perMat)
    (h : triangulateFace positions uvs normals perMat firstIndex faceSize
      = Except.ok perMat1) :
    bucketGood uvs normals (n + faceSize) perMat1 := by
  obtain ⟨K, hinv, hKn, h3, hrange, hcov⟩ := hgood
  obtain ⟨left, rfl⟩ : ∃ left, faceSize = left + 3 := ⟨faceSize - 3, by omega⟩
  simp only [triangulateFace] at h
  cases h1 : perMat.addVertex positions uvs normals firstIndex with
  | error e => rw [h1] at h; exact absurd h (by simp)
  | ok r1 =>
    obtain ⟨a, perMatA⟩ := r1
    rw [h1] at h
    simp only at h
    obtain ⟨K1, hinv1, hle, hle1, hidx1, ha0, ha1, hnew1⟩ :=
      addVertex_place positions uvs normals perMat perMatA K firstIndex a hinv (by omega) h1
    cases h2 : perMatA.addVertex positions uvs normals (firstIndex + 1) with
    | error e => rw [h2] at h; exact absurd h (by simp)
    | ok r2 =>
      obtain ⟨b, perMatB⟩ := r2
      rw [h2] at h
      simp only at h
      obtain ⟨K2, hinv2, hle2, hle3, hidx2, hb0, hb1, hnew2⟩ :=
        addVertex_place positions uvs normals perMatA perMatB K1 (firstIndex + 1) b hinv1
          (by omega) h2
      rw [show left + 3 - 2 = left + 1 from by omega] at h
      obtain ⟨K3, hinv3, hle4, g3, grange, gcov⟩ := fanLoop_good positions uvs normals a left b
        (firstIndex + 2) perMatB perMat1 K2 hinv2 (by omega) ha0 (by omega) hb0 hb1
        (by rw [hidx2, hidx1]; exact h3)
        (by
          intro w hw
          rw [hidx2, hidx1] at hw
          have := hrange w hw
          exact ⟨this.1, by omega⟩)
        (by
          intro k hk
          rw [hidx2, hidx1]
          rcases hnew2 k hk with hlt | heq
          · rcases hnew1 k hlt with hlt1 | heq1
            · exact Or.inl (hcov k hlt1)
            · exact Or.inr (Or.inl heq1)
          · exact Or.inr (Or.inr heq))
        h
      exact ⟨K3, hinv3, by omega, g3, grange, gcov⟩

/-- The polygon walk keeps every bucket in the state of `bucketGood`: the buckets it ends with
hold well-formed meshes. -/
theorem polygonWalk_good {F : Type} [DecidableEq F] [Zero F] (positions : List (vec3 F))
    (uvs : List (vec2 F)) (normals : List (vec3 F)) (originalIndices : List Int)
    (materialIndices : List Int) (hlen : originalIndices.length ≤ 2147483648) :
    ∀ (fuel firstIndex materialIndex : Nat) (m m1 : List (Int × per_material F)),
      (firstIndex < originalIndices.length →
        ∀ e, e ∈ m → bucketGood uvs normals firstIndex e.2) →
      (∀ e, e ∈ m → ∃ n, bucketGood uvs normals n e.2) →
      polygonWalk positions uvs normals originalIndices materialIndices originalIndices.length
        fuel firstIndex materialIndex m = Except.ok m1 →
      ∀ e, e ∈ m1 → meshWellFormed e.2.geometry := by
  intro fuel
  induction fuel with
  | zero =>
    intro firstIndex materialIndex m m1 _ hany h e he
    simp only [polygonWalk] at h
    by_cases hlt : firstIndex < originalIndices.length
    · simp [hlt] at h
    · simp only [hlt, if_false, Except.ok.injEq] at h
      subst h
      obtain ⟨n, hn⟩ := hany e he
      exact bucketGood_meshWellFormed uvs normals n e.2 hn
  | succ fuel ih =>
    intro firstIndex materialIndex m m1 hgood hany h e he
    by_cases hlt : firstIndex < originalIndices.length
    · have hg := hgood hlt
      cases hmat : materialIndices[materialIndex]? with
      | none =>
        rw [polygonWalk_no_material positions uvs normals originalIndices materialIndices fuel
          firstIndex materialIndex m hlt (List.getElem?_eq_none_iff.1 hmat)] at h
        exact absurd h (by simp)
      | some material =>
        rw [polygonWalk_step positions uvs normals originalIndices materialIndices fuel
          firstIndex materialIndex m material hlt hmat] at h
        have hscan : firstIndex + scanFace (originalIndices.drop firstIndex)
            ≤ originalIndices.length := by
          have := scanFace_le (originalIndices.drop firstIndex)
          simp only [List.length_drop] at this
          omega
        have hmono : ∀ (n n1 : Nat) (p : per_material F), n ≤ n1 →
            bucketGood uvs normals n p → bucketGood uvs normals n1 p := by
          rintro n n1 p hle ⟨K, g1, g2, g3⟩
          exact ⟨K, g1, by omega, g3⟩
        by_cases hsmall : scanFace (originalIndices.drop firstIndex) < 3
        · rw [if_pos hsmall] at h
          exact ih _ _ m m1
            (fun _ e1 he1 => hmono _ _ _ (by omega) (hg e1 he1)) hany h e he
        · rw [if_neg hsmall] at h
          cases ht : triangulateFace positions uvs normals
              ((mapFind material m).getD per_material.empty) firstIndex
              (scanFace (originalIndices.drop firstIndex)) with
          | error e1 => rw [ht] at h; exact absurd h (by simp)
          | ok perMat =>
            rw [ht] at h
            simp only at h
            have hold : bucketGood uvs normals firstIndex
                ((mapFind material m).getD per_material.empty) := by
              cases hf : mapFind material m with
              | none =>
                refine ⟨[], bucketInv_empty uvs normals, Nat.zero_le _, rfl, ?_, ?_⟩
                · intro w hw
                  simp [per_material.empty] at hw
                · intro k hk
                  simp at hk
              | some p =>
                obtain ⟨k, hk⟩ := mem_of_mapFind material p m hf
                exact hg (k, p) hk
            have hnew := triangulateFace_good positions uvs normals _ perMat firstIndex
              (scanFace (originalIndices.drop firstIndex)) firstIndex (by omega) (by omega)
              hold ht
            have hall : ∀ e1, e1 ∈ mapSet material perMat m →
                bucketGood uvs normals
                  (firstIndex + scanFace (originalIndices.drop firstIndex)) e1.2 := by
              intro e1 he1
              rcases mem_mapSet material perMat e1 m he1 with hm | hm
              · exact hmono _ _ _ (by omega) (hg e1 hm)
              · rw [hm]
                exact hnew
            exact ih _ _ _ m1 (fun _ => hall) (fun e1 he1 => ⟨_, hall e1 he1⟩) h e he
    · rw [polygonWalk, if_neg hlt] at h
      simp only [Except.ok.injEq] at h
      subst h
      obtain ⟨n, hn⟩ := hany e he
      exact bucketGood_meshWellFormed uvs normals n e.2 hn

/-- C32: every mesh that a successful `readMesh` on a stream of fewer than `2^31` corners
appends satisfies: the number of its indices is a multiple of 3; every index is at least 0 and
less than the number of its positions; it has no uvs or as many as positions; it has no normals
or as many as positions; and every vertex is referenced by at least one index. -/
theorem readMesh_output_invariants {D F : Type} [DecidableEq F] [Zero F] (toFloat : D → F)
    (id : Int) (name : sized_string) (originalPositionsRaw : List D)
    (originalIndices : List Int) (uvLayer normalLayer : geometry_data D)
    (materialLayer : geometry_data Int) (flags : Nat) (outMeshes out : List (fbx_mesh F))
    (hlen : originalIndices.length < 2147483648)
    (h : readMesh toFloat id name originalPositionsRaw originalIndices uvLayer normalLayer
      materialLayer flags outMeshes = Except.ok out) :
    ∃ newMeshes : List (fbx_mesh F), out = outMeshes ++ newMeshes ∧
      ∀ mesh, mesh ∈ newMeshes →
        mesh.geometry.indices.length % 3 = 0 ∧
        (∀ w, w ∈ mesh.geometry.indices →
          0 ≤ w ∧ w < (mesh.geometry.positions.length : Int)) ∧
        (mesh.geometry.uvs.length = 0 ∨
          mesh.geometry.uvs.length = mesh.geometry.positions.length) ∧
        (mesh.geometry.normals.length = 0 ∨
          mesh.geometry.normals.length = mesh.geometry.positions.length) ∧
        (∀ k : Nat, k < mesh.geometry.positions.length →
          (k : Int) ∈ mesh.geometry.indices) := by
  obtain ⟨positions, uvs, normals, materialIndices, m, _, _, hwalk, hout⟩ :=
    readMesh_ok toFloat id name originalPositionsRaw originalIndices uvLayer normalLayer
      materialLayer flags outMeshes out hlen h
  refine ⟨outputMeshes id name m, hout, ?_⟩
  intro mesh hmesh
  simp only [outputMeshes, List.mem_map] at hmesh
  obtain ⟨e, he, rfl⟩ := hmesh
  exact polygonWalk_good positions uvs normals originalIndices materialIndices (by omega)
    originalIndices.length 0 0 [] m (fun _ e1 he1 => by cases he1)
    (fun e1 he1 => by cases he1) hwalk e he

/-- C32 at a sample input: the two meshes of the mixed stream. -/
theorem readMesh_output_invariants_witness :
    ∃ newMeshes : List (fbx_mesh Int), mixedMeshes = [] ++ newMeshes ∧
      ∀ mesh, mesh ∈ newMeshes →
        mesh.geometry.indices.length % 3 = 0 ∧
        (∀ w, w ∈ mesh.geometry.indices →
          0 ≤ w ∧ w < (mesh.geometry.positions.length : Int)) ∧
        (mesh.geometry.uvs.length = 0 ∨
          mesh.geometry.uvs.length = mesh.geometry.positions.length) ∧
        (mesh.geometry.normals.length = 0 ∨
          mesh.geometry.normals.length = mesh.geometry.positions.length) ∧
        (∀ k : Nat, k < mesh.geometry.positions.length →
          (k : Int) ∈ mesh.geometry.indices) :=
  readMesh_output_invariants (fun d : Int => d) 7 ⟨[81]⟩ quadVertices mixedStream
    quadUVLayer geometry_data.absent mixedMaterialLayer loadFBX_flags [] mixedMeshes
    (by decide) (by rfl)

/-! ## The polygon walk as a loop over its polygons -/

/-- The polygon walk is the loop over its polygons, each paired with the material id that its
iteration reads: iteration `k` takes the polygon `k` of the stream and the entry `k` of the
material ids behind `materialIndex`.  The walk makes one iteration per polygon; when the
material ids run out before the polygons, the read of the next iteration is out of range. -/
theorem polygonWalk_eq_fold {F : Type} [DecidableEq F] [Zero F] (positions : List (vec3 F))
    (uvs : List (vec2 F)) (normals : List (vec3 F)) (originalIndices : List Int)
    (materialIndices : List Int) :
    ∀ (fuel firstIndex materialIndex : Nat) (m : List (Int × per_material F)),
      originalIndices.length ≤ firstIndex + fuel →
      polygonWalk positions uvs normals originalIndices materialIndices originalIndices.length
          fuel firstIndex materialIndex m
        = match foldExcept (walkFace positions uvs normals)
            (List.zip (facesFrom firstIndex (faceSizes (originalIndices.drop firstIndex)))
              (materialIndices.drop materialIndex)) m with
          | Except.error e => Except.error e
          | Except.ok m1 =>
            if (faceSizes (originalIndices.drop firstIndex)).length
                ≤ (materialIndices.drop materialIndex).length then Except.ok m1
            else Except.error fbx_error.out_of_range := by
  intro fuel
  induction fuel with
  | zero =>
    intro firstIndex materialIndex m hf
    have hd : originalIndices.drop firstIndex = [] := List.drop_eq_nil_of_le (by omega)
    rw [polygonWalk, if_neg (by omega), hd]
    simp [faceSizes, facesFrom, foldExcept]
  | succ fuel ih =>
    intro firstIndex materialIndex m hf
    by_cases hlt : firstIndex < originalIndices.length
    · have hd : originalIndices.drop firstIndex
          = originalIndices[firstIndex] :: originalIndices.drop (firstIndex + 1) :=
        List.drop_eq_getElem_cons hlt
      have hfs : faceSizes (originalIndices.drop firstIndex)
          = scanFace (originalIndices.drop firstIndex)
            :: faceSizes (originalIndices.drop
              (firstIndex + scanFace (originalIndices.drop firstIndex))) := by
        have := faceSizes_cons originalIndices[firstIndex]
          (originalIndices.drop (firstIndex + 1))
        rw [← hd, List.drop_drop] at this
        rw [this, Nat.add_comm]
      have hpos : 1 ≤ scanFace (originalIndices.drop firstIndex) := by
        rw [hd]
        exact scanFace_pos _ _
      cases hmat : materialIndices[materialIndex]? with
      | none =>
        have hle : materialIndices.length ≤ materialIndex := List.getElem?_eq_none_iff.1 hmat
        rw [polygonWalk_no_material positions uvs normals originalIndices materialIndices fuel
          firstIndex materialIndex m hlt hle, List.drop_eq_nil_of_le hle, hfs]
        simp [foldExcept]
      | some material =>
        have hml : materialIndex < materialIndices.length := by
          by_contra hc
          rw [List.getElem?_eq_none (by omega)] at hmat
          cases hmat
        have hmd : materialIndices.drop materialIndex
            = material :: materialIndices.drop (materialIndex + 1) := by
          rw [List.drop_eq_getElem_cons hml]
          have := List.getElem?_eq_getElem hml
          rw [hmat] at this
          rw [Option.some.inj this]
        rw [polygonWalk_step positions uvs normals originalIndices materialIndices fuel
          firstIndex materialIndex m material hlt hmat, hfs, hmd]
        simp only [facesFrom, List.zip_cons_cons, foldExcept, walkFace, List.length_cons,
          Nat.add_le_add_iff_right]
        by_cases hsmall : scanFace (originalIndices.drop firstIndex) < 3
        · simp only [hsmall, if_true]
          exact ih _ _ m (by omega)
        · simp only [hsmall, if_false]
          cases ht : triangulateFace positions uvs normals
              ((mapFind material m).getD per_material.empty) firstIndex
              (scanFace (originalIndices.drop firstIndex)) with
          | error e => rfl
          | ok perMat =>
            simp only
            exact ih _ _ _ (by omega)
    · have hd : originalIndices.drop firstIndex = [] := List.drop_eq_nil_of_le (by omega)
      rw [polygonWalk, if_neg hlt, hd]
      simp [faceSizes, facesFrom, foldExcept]

/-- The polygons of `facesFrom` are as many as the corner counts. -/
theorem facesFrom_length : ∀ (sizes : List Nat) (start : Nat),
    (facesFrom start sizes).length = sizes.length := by
  intro sizes
  induction sizes with
  | nil => intro start; rfl
  | cons size sizes ih =>
    intro start
    simp only [facesFrom, List.length_cons, ih]

/-- C33: the polygon walk of `readMesh` is the loop over the polygons of the index stream, one
iteration per polygon, and iteration `k` reads `materialIndices[k]`; in `readMesh` the list of
material ids has `numFaces` entries (`numFaces` = number of negative entries of the stream).
For a stream that is empty or ends with a negative entry the walk makes exactly `numFaces`
iterations, and with `numFaces` material ids every read is in range.  For a non-empty stream
whose last entry is not negative the stream has `numFaces + 1` polygons; with `numFaces`
material ids the first `numFaces` iterations read in range and the read of the last iteration,
at the index `numFaces`, is out of range, so the walk and `readMesh` fail. -/
theorem polygonWalk_iterations {D F : Type} [DecidableEq F] [Zero F] (toFloat : D → F)
    (id : Int) (name : sized_string) (originalPositionsRaw : List D)
    (originalIndices : List Int) (uvLayer normalLayer : geometry_data D)
    (materialLayer : geometry_data Int) (flags : Nat) (outMeshes : List (fbx_mesh F))
    (hlen : originalIndices.length < 2147483648) :
    (∀ (positions : List (vec3 F)) (uvs : List (vec2 F)) (normals : List (vec3 F))
        (materialIndices : List Int),
      polygonWalk positions uvs normals originalIndices materialIndices
          originalIndices.length originalIndices.length 0 0 []
        = match foldExcept (walkFace positions uvs normals)
            (List.zip (facesFrom 0 (faceSizes originalIndices)) materialIndices) [] with
          | Except.error e => Except.error e
          | Except.ok m1 =>
            if (faceSizes originalIndices).length ≤ materialIndices.length then Except.ok m1
            else Except.error fbx_error.out_of_range) ∧
    (∀ materialIndices : List Int,
      readMaterialIndices flags materialLayer (numFacesOf originalIndices)
        = Except.ok materialIndices →
      materialIndices.length = numFacesOf originalIndices) ∧
    ((originalIndices = [] ∨ ∃ x, originalIndices.getLast? = some x ∧ x < 0) →
      (faceSizes originalIndices).length = numFacesOf originalIndices ∧
      ∀ materialIndices : List Int, materialIndices.length = numFacesOf originalIndices →
        (List.zip (facesFrom 0 (faceSizes originalIndices)) materialIndices).length
          = numFacesOf originalIndices ∧
        (∀ k, k < numFacesOf originalIndices →
          ∃ material, vecGet materialIndices k = Except.ok material ∧
            ((List.zip (facesFrom 0 (faceSizes originalIndices)) materialIndices)[k]?).map
              Prod.snd = some material) ∧
        ∀ (positions : List (vec3 F)) (uvs : List (vec2 F)) (normals : List (vec3 F)),
          polygonWalk positions uvs normals originalIndices materialIndices
              originalIndices.length originalIndices.length 0 0 []
            = foldExcept (walkFace positions uvs normals)
                (List.zip (facesFrom 0 (faceSizes originalIndices)) materialIndices) []) ∧
    ((∃ x, originalIndices.getLast? = some x ∧ 0 ≤ x) →
      (faceSizes originalIndices).length = numFacesOf originalIndices + 1 ∧
      (∀ materialIndices : List Int, materialIndices.length = numFacesOf originalIndices →
        (List.zip (facesFrom 0 (faceSizes originalIndices)) materialIndices).length
          = numFacesOf originalIndices ∧
        vecGet materialIndices (numFacesOf originalIndices)
          = Except.error fbx_error.out_of_range ∧
        ∀ (positions : List (vec3 F)) (uvs : List (vec2 F)) (normals : List (vec3 F)),
          (∀ e, foldExcept (walkFace positions uvs normals)
              (List.zip (facesFrom 0 (faceSizes originalIndices)) materialIndices) []
              = Except.error e →
            polygonWalk positions uvs normals originalIndices materialIndices
              originalIndices.length originalIndices.length 0 0 [] = Except.error e) ∧
          (∀ m1, foldExcept (walkFace positions uvs normals)
              (List.zip (facesFrom 0 (faceSizes originalIndices)) materialIndices) []
              = Except.ok m1 →
            polygonWalk positions uvs normals originalIndices materialIndices
              originalIndices.length originalIndices.length 0 0 []
              = Except.error fbx_error.out_of_range) ∧
          ∀ m1, polygonWalk positions uvs normals originalIndices materialIndices
              originalIndices.length originalIndices.length 0 0 [] ≠ Except.ok m1) ∧
      ∀ out, readMesh toFloat id name originalPositionsRaw originalIndices uvLayer normalLayer
        materialLayer flags outMeshes ≠ Except.ok out) := by
  have heq : ∀ (positions : List (vec3 F)) (uvs : List (vec2 F)) (normals : List (vec3 F))
      (materialIndices : List Int),
      polygonWalk positions uvs normals originalIndices materialIndices
          originalIndices.length originalIndices.length 0 0 []
        = match foldExcept (walkFace positions uvs normals)
            (List.zip (facesFrom 0 (faceSizes originalIndices)) materialIndices) [] with
          | Except.error e => Except.error e
          | Except.ok m1 =>
            if (faceSizes originalIndices).length ≤ materialIndices.length then Except.ok m1
            else Except.error fbx_error.out_of_range := by
    intro positions uvs normals materialIndices
    have := polygonWalk_eq_fold positions uvs normals originalIndices materialIndices
      originalIndices.length 0 0 [] (by omega)
    simpa only [List.drop_zero] using this
  have hsize : ∀ materialIndices : List Int,
      readMaterialIndices flags materialLayer (numFacesOf originalIndices)
        = Except.ok materialIndices →
      materialIndices.length = numFacesOf originalIndices :=
    (readMaterialIndices_cases flags materialLayer (numFacesOf originalIndices)).2.2.2
  have hcount := faceSizes_length originalIndices
  refine ⟨heq, hsize, ?_, ?_⟩
  · intro hend
    have hcount0 : (faceSizes originalIndices).length = numFacesOf originalIndices := by
      rcases hend with hnil | ⟨x, hx, hneg⟩
      · subst hnil
        rfl
      · rw [hx] at hcount
        simpa [hneg] using hcount
    refine ⟨hcount0, ?_⟩
    intro materialIndices hm
    have hzl : (List.zip (facesFrom 0 (faceSizes originalIndices)) materialIndices).length
        = numFacesOf originalIndices := by
      rw [List.length_zip, facesFrom_length, hcount0, hm, Nat.min_self]
    have hsnd : (List.zip (facesFrom 0 (faceSizes originalIndices)) materialIndices).map
        Prod.snd = materialIndices :=
      List.map_snd_zip _ _ (by rw [facesFrom_length, hcount0, hm])
    refine ⟨hzl, ?_, ?_⟩
    · intro k hk
      have hk1 : k < materialIndices.length := by omega
      refine ⟨materialIndices[k], vecGet_eq_ok _ _ _ (List.getElem?_eq_getElem hk1), ?_⟩
      rw [← List.getElem?_map, hsnd]
      exact List.getElem?_eq_getElem hk1
    · intro positions uvs normals
      rw [heq positions uvs normals materialIndices]
      cases foldExcept (walkFace positions uvs normals)
          (List.zip (facesFrom 0 (faceSizes originalIndices)) materialIndices) [] with
      | error e => rfl
      | ok m1 =>
        simp only
        rw [if_pos (by omega)]
  · rintro ⟨x, hx, hpos⟩
    have hcount1 : (faceSizes originalIndices).length = numFacesOf originalIndices + 1 := by
      rw [hx] at hcount
      have hnot : ¬ x < 0 := by omega
      simpa [hnot] using hcount
    have hwalk : ∀ (materialIndices : List Int),
        materialIndices.length = numFacesOf originalIndices →
        ∀ (positions : List (vec3 F)) (uvs : List (vec2 F)) (normals : List (vec3 F)),
          (∀ e, foldExcept (walkFace positions uvs normals)
              (List.zip (facesFrom 0 (faceSizes originalIndices)) materialIndices) []
              = Except.error e →
            polygonWalk positions uvs normals originalIndices materialIndices
              originalIndices.length originalIndices.length 0 0 [] = Except.error e) ∧
          (∀ m1, foldExcept (walkFace positions uvs normals)
              (List.zip (facesFrom 0 (faceSizes originalIndices)) materialIndices) []
              = Except.ok m1 →
            polygonWalk positions uvs normals originalIndices materialIndices
              originalIndices.length originalIndices.length 0 0 []
              = Except.error fbx_error.out_of_range) ∧
          ∀ m1, polygonWalk positions uvs normals originalIndices materialIndices
              originalIndices.length originalIndices.length 0 0 [] ≠ Except.ok m1 := by
      intro materialIndices hm positions uvs normals
      rw [heq positions uvs normals materialIndices]
      cases foldExcept (walkFace positions uvs normals)
          (List.zip (facesFrom 0 (faceSizes originalIndices)) materialIndices) [] with
      | error e =>
        refine ⟨?_, ?_, ?_⟩
        · intro e1 he
          cases he
          rfl
        · intro m1 hc
          cases hc
        · intro m1 hc
          cases hc
      | ok m1 =>
        simp only
        rw [if_neg (by omega)]
        refine ⟨?_, ?_, ?_⟩
        · intro e1 he
          cases he
        · intro m2 _
          rfl
        · intro m2 hc
          cases hc
    refine ⟨hcount1, ?_, ?_⟩
    · intro materialIndices hm
      refine ⟨?_, ?_, hwalk materialIndices hm⟩
      · rw [List.length_zip, facesFrom_length, hcount1, hm]
        omega
      · simp [vecGet, List.getElem?_eq_none (Nat.le_of_eq hm)]
    · intro out h
      obtain ⟨positions, uvs, normals, materialIndices, m, _, hmat, hw, _⟩ :=
        readMesh_ok toFloat id name originalPositionsRaw originalIndices uvLayer normalLayer
          materialLayer flags outMeshes out hlen h
      exact (hwalk materialIndices (hsize materialIndices hmat) positions uvs normals).2.2 m hw

/-- C33 at sample streams: the walk over `mixedStream`, which ends with a negative entry and
has five polygons, makes five iterations that read the material ids 0 to 4; the walk over
`openStream`, which has one negative entry and ends with unmarked corners, has two polygons,
the second of which finds no material id in an array of one, and `readMesh` fails on it. -/
theorem polygonWalk_iterations_witness :
    ((faceSizes mixedStream).length = numFacesOf mixedStream ∧
      ∀ materialIndices : List Int, materialIndices.length = numFacesOf mixedStream →
        (List.zip (facesFrom 0 (faceSizes mixedStream)) materialIndices).length
          = numFacesOf mixedStream ∧
        (∀ k, k < numFacesOf mixedStream →
          ∃ material, vecGet materialIndices k = Except.ok material ∧
            ((List.zip (facesFrom 0 (faceSizes mixedStream)) materialIndices)[k]?).map
              Prod.snd = some material) ∧
        ∀ (positions : List (vec3 Int)) (uvs : List (vec2 Int)) (normals : List (vec3 Int)),
          polygonWalk positions uvs normals mixedStream materialIndices
              mixedStream.length mixedStream.length 0 0 []
            = foldExcept (walkFace positions uvs normals)
                (List.zip (facesFrom 0 (faceSizes mixedStream)) materialIndices) []) ∧
    numFacesOf mixedStream = 5 ∧
    facesFrom 0 (faceSizes mixedStream) = [(0, 4), (4, 2), (6, 5), (11, 3), (14, 1)] ∧
    ((faceSizes openStream).length = numFacesOf openStream + 1 ∧
      (∀ materialIndices : List Int, materialIndices.length = numFacesOf openStream →
        (List.zip (facesFrom 0 (faceSizes openStream)) materialIndices).length
          = numFacesOf openStream ∧
        vecGet materialIndices (numFacesOf openStream)
          = Except.error fbx_error.out_of_range ∧
        ∀ (positions : List (vec3 Int)) (uvs : List (vec2 Int)) (normals : List (vec3 Int)),
          (∀ e, foldExcept (walkFace positions uvs normals)
              (List.zip (facesFrom 0 (faceSizes openStream)) materialIndices) []
              = Except.error e →
            polygonWalk positions uvs normals openStream materialIndices
              openStream.length openStream.length 0 0 [] = Except.error e) ∧
          (∀ m1, foldExcept (walkFace positions uvs normals)
              (List.zip (facesFrom 0 (faceSizes openStream)) materialIndices) []
              = Except.ok m1 →
            polygonWalk positions uvs normals openStream materialIndices
              openStream.length openStream.length 0 0 []
              = Except.error fbx_error.out_of_range) ∧
          ∀ m1, polygonWalk positions uvs normals openStream materialIndices
              openStream.length openStream.length 0 0 [] ≠ Except.ok m1) ∧
      ∀ out, readMesh (fun x : Int => x) 1 (sized_string.ofLiteral "open") quadVertices
        openStream geometry_data.absent geometry_data.absent geometry_data.absent 0 []
        ≠ Except.ok out) ∧
    numFacesOf openStream = 1 ∧
    facesFrom 0 (faceSizes openStream) = [(0, 3), (3, 3)] :=
  ⟨(polygonWalk_iterations (fun x : Int => x) 1 (sized_string.ofLiteral "mixed")
      quadVertices mixedStream geometry_data.absent geometry_data.absent geometry_data.absent
      0 [] (by decide)).2.2.1 (Or.inr ⟨-3, by rfl, by decide⟩),
    by rfl, by rfl,
    (polygonWalk_iterations (fun x : Int => x) 1 (sized_string.ofLiteral "open")
      quadVertices openStream geometry_data.absent geometry_data.absent geometry_data.absent
      0 [] (by decide)).2.2.2 ⟨2, by rfl, by decide⟩,
    by rfl, by rfl⟩

/-! ## Control points that weld as floats -/

/-- C1, counterexample: the four control points of `nearQuadVertices` are pairwise distinct,
but the last two have the same position as floats (1065353216 is the pattern `0x3F800000` of
the float 1): on the index stream `[0, 1, 2, ~3]`, with an all-same material layer of material
index 0 and by-polygon-vertex, direct UVs of length 4, `readMesh` welds them and appends a mesh
with three positions and the index buffer `[0, 1, 2, 0, 2, 2]`. -/
theorem near_points_weld_as_floats :
    ([(0, 0, 0), (4607182418800017408, 0, 0), (4607182418800017408, 4607182418800017408, 0),
      (4607182418800017408, 4607182418800017409, 0)] : List (Nat × Nat × Nat)).Nodup ∧
    floatOfDouble 4607182418800017408 = 1065353216 ∧
    floatOfDouble 4607182418800017409 = 1065353216 ∧
    readMesh floatOfDouble 7 ⟨[81]⟩ nearQuadVertices [0, 1, 2, -4]
        ⟨[0, 0, 4607182418800017408, 0, 4607182418800017408, 4607182418800017408, 0,
          4607182418800017408], [], mapping_info.by_polygon_vertex, reference_info.direct⟩
        geometry_data.absent
        ⟨[0], [], mapping_info.all_same, reference_info.index_to_direct⟩ loadFBX_flags []
      = Except.ok
          [⟨7, ⟨[81]⟩,
            ⟨[⟨0, 0, 0⟩, ⟨1065353216, 0, 0⟩, ⟨1065353216, 1065353216, 0⟩], [], [],
              [0, 1, 2, 0, 2, 2]⟩, 0⟩] ∧
    ¬ ∃ mesh : fbx_mesh Nat,
      readMesh floatOfDouble 7 ⟨[81]⟩ nearQuadVertices [0, 1, 2, -4]
          ⟨[0, 0, 4607182418800017408, 0, 4607182418800017408, 4607182418800017408, 0,
            4607182418800017408], [], mapping_info.by_polygon_vertex, reference_info.direct⟩
          geometry_data.absent
          ⟨[0], [], mapping_info.all_same, reference_info.index_to_direct⟩ loadFBX_flags []
        = Except.ok ([] ++ [mesh]) ∧
      mesh.geometry.positions.length = 4 ∧ mesh.geometry.indices = [0, 1, 2, 0, 2, 3] := by
  have hrun : readMesh floatOfDouble 7 ⟨[81]⟩ nearQuadVertices [0, 1, 2, -4]
        ⟨[0, 0, 4607182418800017408, 0, 4607182418800017408, 4607182418800017408, 0,
          4607182418800017408], [], mapping_info.by_polygon_vertex, reference_info.direct⟩
        geometry_data.absent
        ⟨[0], [], mapping_info.all_same, reference_info.index_to_direct⟩ loadFBX_flags []
      = Except.ok
          [⟨7, ⟨[81]⟩,
            ⟨[⟨0, 0, 0⟩, ⟨1065353216, 0, 0⟩, ⟨1065353216, 1065353216, 0⟩], [], [],
              [0, 1, 2, 0, 2, 2]⟩, 0⟩] := by
    rfl
  refine ⟨by decide, by rfl, by rfl, hrun, ?_⟩
  rintro ⟨mesh, hmesh, hlen, _⟩
  rw [hrun] at hmesh
  simp only [List.nil_append, Except.ok.injEq, List.cons.injEq, and_true] at hmesh
  rw [← hmesh] at hlen
  simp at hlen

/-! ## Failures of the material reader -/

end fbx
